import Mathlib

/-! MiniSQL page storage: bitmap page, disk manager, LRU replacer, buffer pool.

A shallow embedding of `src/page/bitmap_page.cpp`, `src/storage/disk_manager.cpp`,
`src/buffer/lru_replacer.cpp` and `src/buffer/buffer_pool_manager.cpp`.

Modelling conventions.

* `PAGE_SIZE` is a build-time constant of `common/config.h`; every definition takes it as
  the parameter `PS`.
* A `PAGE_SIZE` buffer is presented through the `BitmapPage` overlay the code itself uses
  (`reinterpret_cast<BitmapPage<PAGE_SIZE>*>`): two 32-bit words followed by
  `MAX_CHARS` bytes.  Data pages use the same presentation; their content is never
  inspected by the code, only copied.
* The database file is presented twice.  In `DiskManager` it is the map of its physical
  pages, `file p` being the page at physical id `p`; a page that was never written reads as
  zeros, which is what both zero-filling branches of `ReadPhysicalPage` deliver.  Physical
  page 0, only ever written from the in-memory meta buffer, is kept in `file_meta`.  On
  this map counters, page ids and frame ids are unbounded numbers: it follows the code
  while every byte offset and the file size stay below `2^31`, the limit of the `int` of
  `ReadPhysicalPage` and `GetFileSize`, and within the `extent_used_page_` array of the
  meta page.
* In `ByteFile` and `ByteDiskManager` the file is the sequence of its bytes, with the
  32-bit `int` byte offset and file size of `ReadPhysicalPage`, the 32-bit `page_id_t`
  results, and the `failbit` of the stream; `ByteBufferPoolManager` is the buffer pool over
  it.  What the code does beyond `2^31` bytes is stated on these definitions.
* A failed `ASSERT` is the result `none`.
-/

namespace MiniSQL

/-! ## Constants -/

/-- Modelled from the spec: `MAX_CHARS = PAGE_SIZE − 8` of `page/bitmap_page.h`, the number of
body bytes of a bitmap page. -/
def MAX_CHARS (PS : Nat) : Nat := PS - 8

/-- Modelled from the spec: `GetMaxSupportedSize() = MAX_PAGES = MAX_CHARS * 8` of
`page/bitmap_page.h`, the number `M` of slots of one bitmap page. -/
def GetMaxSupportedSize (PS : Nat) : Nat := 8 * MAX_CHARS PS

/-- Modelled from the spec: `INVALID_PAGE_ID = -1` of `common/config.h`. -/
def INVALID_PAGE_ID : Int := -1

/-! ## Bitmap page (`bitmap_page.cpp`) -/

/-- The layout of `BitmapPage<PageSize>`: `page_allocated_`, `next_free_page_`, `bytes`. -/
structure BitmapPage where
  page_allocated_ : Nat
  next_free_page_ : Nat
  bytes : Nat → Nat

/-- A buffer of `PAGE_SIZE` zero bytes. -/
def zeroPage : BitmapPage := ⟨0, 0, fun _ => 0⟩

/-- Method `BitmapPage::IsPageFreeLow`. -/
def BitmapPage.IsPageFreeLow (PS : Nat) (b : BitmapPage) (byte_index bit_index : Nat) : Bool :=
  if byte_index ≥ MAX_CHARS PS then false
  else (b.bytes byte_index &&& (1 <<< bit_index)) == 0

/-- Method `BitmapPage::IsPageFree`. -/
def BitmapPage.IsPageFree (PS : Nat) (b : BitmapPage) (page_offset : Nat) : Bool :=
  if page_offset ≥ GetMaxSupportedSize PS then false
  else b.IsPageFreeLow PS (page_offset / 8) (page_offset % 8)

/-- One scanning loop of `BitmapPage::AllocatePage`: the first `i` among
`start, start+1, …, start+count-1` with `IsPageFreeLow(i / 8, i % 8)`. -/
def BitmapPage.scan (PS : Nat) (b : BitmapPage) : Nat → Nat → Option Nat
  | _, 0 => none
  | i, n + 1 =>
    if b.IsPageFreeLow PS (i / 8) (i % 8) then some i else BitmapPage.scan PS b (i + 1) n

/-- The body of both loops of `BitmapPage::AllocatePage` once a free slot `i` is found:
`bytes[i/8] |= 1 << (i%8); page_allocated_++; next_free_page_ = i + 1`. -/
def BitmapPage.take (b : BitmapPage) (i : Nat) : BitmapPage :=
  { page_allocated_ := b.page_allocated_ + 1
    next_free_page_ := i + 1
    bytes := Function.update b.bytes (i / 8) (b.bytes (i / 8) ||| (1 <<< (i % 8))) }

/-- Method `BitmapPage::AllocatePage`: the page afterwards, and `some page_offset` when the call
returns true, `none` when it returns false. -/
def BitmapPage.AllocatePage (PS : Nat) (b : BitmapPage) : BitmapPage × Option Nat :=
  if b.page_allocated_ ≥ GetMaxSupportedSize PS then (b, none)
  else
    match b.scan PS b.next_free_page_ (GetMaxSupportedSize PS - b.next_free_page_) with
    | some i => (b.take i, some i)
    | none =>
      match b.scan PS 0 b.next_free_page_ with
      | some i => (b.take i, some i)
      | none => (b, none)

/-- Method `BitmapPage::DeAllocatePage`: the page afterwards and the returned flag.  The mask
`~(1 << bit_index)` is taken on the eight bits of an `unsigned char`.  The counter is a
natural number, so that `page_allocated_--` at 0 gives 0 where the unsigned counter of the
code wraps. -/
def BitmapPage.DeAllocatePage (PS : Nat) (b : BitmapPage) (page_offset : Nat) :
    BitmapPage × Bool :=
  if page_offset ≥ GetMaxSupportedSize PS then (b, false)
  else if b.IsPageFreeLow PS (page_offset / 8) (page_offset % 8) then (b, false)
  else
    ({ page_allocated_ := b.page_allocated_ - 1
       next_free_page_ :=
         if page_offset < b.next_free_page_ then page_offset else b.next_free_page_
       bytes := Function.update b.bytes (page_offset / 8)
         (b.bytes (page_offset / 8) &&& (255 ^^^ (1 <<< (page_offset % 8)))) }, true)

/-- The number of set bits of the body of a bitmap page. -/
def BitmapPage.popcount (PS : Nat) (b : BitmapPage) : Nat :=
  ((List.range (GetMaxSupportedSize PS)).filter
    (fun i => (b.bytes (i / 8)).testBit (i % 8))).length

/-! ## Disk manager (`disk_manager.cpp`) -/

/-- Modelled from the spec: the layout of `DiskFileMetaPage` of `page/disk_file_meta_page.h`:
a `num_allocated_pages` counter, a `num_extents` counter and the array
`extent_used_page[e]`. -/
structure DiskFileMetaPage where
  num_allocated_pages_ : Nat
  num_extents_ : Nat
  extent_used_page_ : Nat → Nat

/-- The state of a `DiskManager`: the in-memory meta buffer `meta_data_` and the file. -/
structure DiskManager where
  meta_data_ : DiskFileMetaPage
  file_meta : DiskFileMetaPage
  file : Nat → BitmapPage

/-- The disk manager opened on an empty file: the constructor reads physical page 0 into
`meta_data_`, which zero-fills it. -/
def DiskManager.empty : DiskManager :=
  { meta_data_ := ⟨0, 0, fun _ => 0⟩, file_meta := ⟨0, 0, fun _ => 0⟩, file := fun _ => zeroPage }

/-- Method `DiskManager::ReadPhysicalPage` for a bitmap or data page, on the map of pages:
the page last written at this id, zeros when none was.  The code delivers this while the
`int` byte offset and the `int` file size are below `2^31`;
`ByteDiskManager.ReadPhysicalPage` follows it beyond. -/
def DiskManager.ReadPhysicalPage (d : DiskManager) (physical_page_id : Nat) : BitmapPage :=
  d.file physical_page_id

/-- Method `DiskManager::WritePhysicalPage` for a bitmap or data page. -/
def DiskManager.WritePhysicalPage (d : DiskManager) (physical_page_id : Nat)
    (page_data : BitmapPage) : DiskManager :=
  { d with file := Function.update d.file physical_page_id page_data }

/-- The call `WritePhysicalPage(0, meta_data_)`. -/
def DiskManager.WriteMetaPage (d : DiskManager) : DiskManager :=
  { d with file_meta := d.meta_data_ }

/-- Method `DiskManager::MapPageId` on a non-negative logical id, the result as an unbounded
number; `MapPageId32` is the result in the 32-bit `page_id_t` of the code. -/
def MapPageId (PS : Nat) (logical_page_id : Nat) : Nat :=
  let group := logical_page_id / GetMaxSupportedSize PS
  let offset := logical_page_id % GetMaxSupportedSize PS
  group * (GetMaxSupportedSize PS + 1) + offset + 2

/-- Method `DiskManager::ReadPage`; `none` is the failed `ASSERT(logical_page_id >= 0)`. -/
def DiskManager.ReadPage (PS : Nat) (d : DiskManager) (logical_page_id : Int) :
    Option BitmapPage :=
  if 0 ≤ logical_page_id then some (d.ReadPhysicalPage (MapPageId PS logical_page_id.toNat))
  else none

/-- Method `DiskManager::WritePage`; `none` is the failed `ASSERT(logical_page_id >= 0)`. -/
def DiskManager.WritePage (PS : Nat) (d : DiskManager) (logical_page_id : Int)
    (page_data : BitmapPage) : Option DiskManager :=
  if 0 ≤ logical_page_id then
    some (d.WritePhysicalPage (MapPageId PS logical_page_id.toNat) page_data)
  else none

/-- The meta buffer after `extent_used_page_[e] = v` and a new `num_allocated_pages_`. -/
def DiskFileMetaPage.setUsed (m : DiskFileMetaPage) (e v n : Nat) : DiskFileMetaPage :=
  { m with extent_used_page_ := Function.update m.extent_used_page_ e v
           num_allocated_pages_ := n }

/-- The `for` loop of `DiskManager::AllocatePage` over the existing extents, from
`extent_id` for `count` iterations: `some` when an extent served the request. -/
def DiskManager.allocLoop (PS : Nat) (d : DiskManager) : Nat → Nat → Option (DiskManager × Int)
  | _, 0 => none
  | extent_id, n + 1 =>
    if d.meta_data_.extent_used_page_ extent_id < GetMaxSupportedSize PS then
      let bitmap_physical_page := 1 + extent_id * (GetMaxSupportedSize PS + 1)
      let r := (d.ReadPhysicalPage bitmap_physical_page).AllocatePage PS
      match r.2 with
      | some page_in_extent =>
        let d1 : DiskManager :=
          { d with
            meta_data_ := d.meta_data_.setUsed extent_id (d.meta_data_.extent_used_page_ extent_id + 1) (d.meta_data_.num_allocated_pages_ + 1) }
        some ((d1.WritePhysicalPage bitmap_physical_page r.1).WriteMetaPage,
              ((extent_id * GetMaxSupportedSize PS + page_in_extent : Nat) : Int))
      | none => DiskManager.allocLoop PS d (extent_id + 1) n
    else DiskManager.allocLoop PS d (extent_id + 1) n

/-- Method `DiskManager::AllocatePage`: the state afterwards and the returned logical id. -/
def DiskManager.AllocatePage (PS : Nat) (d : DiskManager) : DiskManager × Int :=
  match d.allocLoop PS 0 d.meta_data_.num_extents_ with
  | some r => r
  | none =>
    let new_extent_id := d.meta_data_.num_extents_
    let r := zeroPage.AllocatePage PS
    let page_in_extent := r.2.getD 0
    let new_bitmap_physical_page := 1 + new_extent_id * (GetMaxSupportedSize PS + 1)
    let d1 : DiskManager :=
      { d with meta_data_ := { d.meta_data_ with num_extents_ := new_extent_id + 1 } }
    let d2 := d1.WritePhysicalPage new_bitmap_physical_page r.1
    let d3 : DiskManager :=
      { d2 with
        meta_data_ := d2.meta_data_.setUsed new_extent_id 1 (d2.meta_data_.num_allocated_pages_ + 1) }
    (d3.WriteMetaPage, ((new_extent_id * GetMaxSupportedSize PS + page_in_extent : Nat) : Int))

/-- Method `DiskManager::DeAllocatePage`.  The two counters are natural numbers, so that a
decrement at 0 gives 0 where the unsigned counters of the code wrap. -/
def DiskManager.DeAllocatePage (PS : Nat) (d : DiskManager) (logical_page_id : Int) :
    DiskManager :=
  if logical_page_id < 0 then d
  else
    let extent_id := logical_page_id.toNat / GetMaxSupportedSize PS
    let page_in_extent := logical_page_id.toNat % GetMaxSupportedSize PS
    if extent_id ≥ d.meta_data_.num_extents_ then d
    else
      let bitmap_physical_page := 1 + extent_id * (GetMaxSupportedSize PS + 1)
      let r := (d.ReadPhysicalPage bitmap_physical_page).DeAllocatePage PS page_in_extent
      if r.2 then
        let d1 : DiskManager :=
          { d with
            meta_data_ := d.meta_data_.setUsed extent_id (d.meta_data_.extent_used_page_ extent_id - 1) (d.meta_data_.num_allocated_pages_ - 1) }
        (d1.WritePhysicalPage bitmap_physical_page r.1).WriteMetaPage
      else d

/-- Method `DiskManager::IsPageFree`. -/
def DiskManager.IsPageFree (PS : Nat) (d : DiskManager) (logical_page_id : Int) : Bool :=
  if logical_page_id < 0 then false
  else
    let extent_id := logical_page_id.toNat / GetMaxSupportedSize PS
    let page_in_extent := logical_page_id.toNat % GetMaxSupportedSize PS
    if extent_id ≥ d.meta_data_.num_extents_ then true
    else
      let bitmap_physical_page := 1 + extent_id * (GetMaxSupportedSize PS + 1)
      (d.ReadPhysicalPage bitmap_physical_page).IsPageFree PS page_in_extent

/-! ## LRU replacer (`lru_replacer.cpp`) -/

/-- The state of an `LRUReplacer`: `lru_list_` (front first), the key set of `lru_map_`,
and `max_size_`.  Frame ids are natural numbers. -/
structure LRUReplacer where
  lru_list_ : List Nat
  lru_map_ : List Nat
  max_size_ : Nat

/-- Method `LRUReplacer::Victim`: the replacer afterwards and `some frame` when it returns true. -/
def LRUReplacer.Victim (r : LRUReplacer) : LRUReplacer × Option Nat :=
  match r.lru_list_.getLast? with
  | none => (r, none)
  | some frame_id =>
    ({ r with lru_list_ := r.lru_list_.dropLast
              lru_map_ := r.lru_map_.filter (fun k => k ≠ frame_id) }, some frame_id)

/-- Method `LRUReplacer::Pin`; `lru_list_.erase(lru_map_[frame_id])` removes the node of the
frame from the list. -/
def LRUReplacer.Pin (r : LRUReplacer) (frame_id : Nat) : LRUReplacer :=
  if frame_id ∉ r.lru_map_ then r
  else
    { r with lru_list_ := r.lru_list_.erase frame_id
             lru_map_ := r.lru_map_.filter (fun k => k ≠ frame_id) }

/-- Method `LRUReplacer::Unpin`. -/
def LRUReplacer.Unpin (r : LRUReplacer) (frame_id : Nat) : LRUReplacer :=
  if frame_id ∈ r.lru_map_ then r
  else
    let push (r1 : LRUReplacer) : LRUReplacer :=
      { r1 with lru_list_ := frame_id :: r1.lru_list_, lru_map_ := frame_id :: r1.lru_map_ }
    if r.lru_list_.length ≥ r.max_size_ then
      match r.Victim with
      | (_, none) => r
      | (r1, some _) => push r1
    else push r

/-- Method `LRUReplacer::Size`. -/
def LRUReplacer.Size (r : LRUReplacer) : Nat := r.lru_list_.length

/-! ## Buffer pool manager (`buffer_pool_manager.cpp`) -/

/-- Modelled from the spec: a frame (`Page` of `page/page.h`): `page_id`, `pin_count`,
`is_dirty` and the `PAGE_SIZE` bytes of data. -/
structure Page where
  page_id_ : Int
  pin_count_ : Int
  is_dirty_ : Bool
  data_ : BitmapPage

/-- Modelled from the spec: a frame as constructed, `page_id = INVALID_PAGE_ID`,
`pin_count = 0`, `is_dirty = false` and zeroed data. -/
def Page.init : Page := ⟨INVALID_PAGE_ID, 0, false, zeroPage⟩

/-- The call `page_table_.find(page_id)`: the frame of the entry, `none` for `end()`. -/
def ptFind (t : List (Int × Nat)) (page_id : Int) : Option Nat :=
  match t with
  | [] => none
  | e :: rest => if e.1 = page_id then some e.2 else ptFind rest page_id

/-- The call `page_table_.erase(page_id)`. -/
def ptErase (t : List (Int × Nat)) (page_id : Int) : List (Int × Nat) :=
  t.filter (fun e => e.1 ≠ page_id)

/-- The call `page_table_[page_id] = frame_id`. -/
def ptSet (t : List (Int × Nat)) (page_id : Int) (frame_id : Nat) : List (Int × Nat) :=
  (page_id, frame_id) :: ptErase t page_id

/-- The state of a `BufferPoolManager`, the disk manager it points to included. -/
structure BufferPoolManager where
  pool_size_ : Nat
  pages_ : Nat → Page
  page_table_ : List (Int × Nat)
  free_list_ : List Nat
  replacer_ : LRUReplacer
  disk_manager_ : DiskManager

/-- The constructor `BufferPoolManager(pool_size, disk_manager)`. -/
def BufferPoolManager.new (pool_size : Nat) (disk_manager : DiskManager) : BufferPoolManager :=
  { pool_size_ := pool_size
    pages_ := fun _ => Page.init
    page_table_ := []
    free_list_ := List.range pool_size
    replacer_ := ⟨[], [], pool_size⟩
    disk_manager_ := disk_manager }

/-- Method `BufferPoolManager::TryToFindFreePage`; `none` is `INVALID_FRAME_ID`. -/
def BufferPoolManager.TryToFindFreePage (s : BufferPoolManager) :
    BufferPoolManager × Option Nat :=
  match s.free_list_ with
  | frame_id :: rest => ({ s with free_list_ := rest }, some frame_id)
  | [] => ({ s with replacer_ := s.replacer_.Victim.1 }, s.replacer_.Victim.2)

/-- Method `BufferPoolManager::FetchPage`: the state afterwards and the frame whose address is
returned (`none` for `nullptr`); the outer `none` is a failed `ASSERT` of the disk
manager. -/
def BufferPoolManager.FetchPage (PS : Nat) (s : BufferPoolManager) (page_id : Int) :
    Option (BufferPoolManager × Option Nat) :=
  match ptFind s.page_table_ page_id with
  | some frame_id =>
    let page := s.pages_ frame_id
    some ({ s with
            pages_ := Function.update s.pages_ frame_id
              { page with pin_count_ := page.pin_count_ + 1 }
            replacer_ := s.replacer_.Pin frame_id }, some frame_id)
  | none =>
    match s.TryToFindFreePage with
    | (s1, none) => some (s1, none)
    | (s1, some frame_id) =>
      let replacement_page := s1.pages_ frame_id
      (if replacement_page.is_dirty_ then
          s1.disk_manager_.WritePage PS replacement_page.page_id_ replacement_page.data_
        else some s1.disk_manager_).bind fun d2 =>
      let t1 := if replacement_page.page_id_ ≠ INVALID_PAGE_ID then
          ptErase s1.page_table_ replacement_page.page_id_ else s1.page_table_
      (d2.ReadPage PS page_id).bind fun data =>
      some ({ s1 with
              page_table_ := ptSet t1 page_id frame_id
              pages_ := Function.update s1.pages_ frame_id ⟨page_id, 1, false, data⟩
              replacer_ := s1.replacer_.Pin frame_id
              disk_manager_ := d2 }, some frame_id)

/-- Method `BufferPoolManager::NewPage`: the state afterwards, the value left in the output
parameter `page_id`, and the frame whose address is returned (`none` for `nullptr`). -/
def BufferPoolManager.NewPage (PS : Nat) (s : BufferPoolManager) :
    Option (BufferPoolManager × Int × Option Nat) :=
  let a := s.disk_manager_.AllocatePage PS
  let page_id := a.2
  let s0 : BufferPoolManager := { s with disk_manager_ := a.1 }
  match s0.TryToFindFreePage with
  | (s1, none) =>
    some ({ s1 with disk_manager_ := s1.disk_manager_.DeAllocatePage PS page_id }, page_id, none)
  | (s1, some frame_id) =>
    let page := s1.pages_ frame_id
    (if page.page_id_ ≠ INVALID_PAGE_ID then
        (if page.is_dirty_ then s1.disk_manager_.WritePage PS page.page_id_ page.data_
          else some s1.disk_manager_).map fun d2 =>
          (d2, ptErase s1.page_table_ page.page_id_)
      else some (s1.disk_manager_, s1.page_table_)).bind fun dt =>
    some ({ s1 with
            pages_ := Function.update s1.pages_ frame_id ⟨page_id, 1, false, zeroPage⟩
            page_table_ := ptSet dt.2 page_id frame_id
            replacer_ := s1.replacer_.Pin frame_id
            disk_manager_ := dt.1 }, page_id, some frame_id)

/-- Method `BufferPoolManager::DeletePage`. -/
def BufferPoolManager.DeletePage (PS : Nat) (s : BufferPoolManager) (page_id : Int) :
    Option (BufferPoolManager × Bool) :=
  let s0 : BufferPoolManager :=
    { s with disk_manager_ := s.disk_manager_.DeAllocatePage PS page_id }
  match ptFind s0.page_table_ page_id with
  | none => some (s0, true)
  | some frame_id =>
    let page := s0.pages_ frame_id
    if page.pin_count_ > 0 then some (s0, false)
    else
      (if page.is_dirty_ then s0.disk_manager_.WritePage PS page_id page.data_
        else some s0.disk_manager_).bind fun d2 =>
      some ({ s0 with
              pages_ := Function.update s0.pages_ frame_id ⟨INVALID_PAGE_ID, 0, false, zeroPage⟩
              page_table_ := ptErase s0.page_table_ page_id
              free_list_ := s0.free_list_ ++ [frame_id]
              disk_manager_ := d2 }, true)

/-- Method `BufferPoolManager::UnpinPage`. -/
def BufferPoolManager.UnpinPage (s : BufferPoolManager) (page_id : Int) (is_dirty : Bool) :
    BufferPoolManager × Bool :=
  match ptFind s.page_table_ page_id with
  | none => (s, false)
  | some frame_id =>
    let page := s.pages_ frame_id
    if page.pin_count_ ≤ 0 then (s, false)
    else
      let r1 := if page.pin_count_ - 1 = 0 then s.replacer_.Unpin frame_id else s.replacer_
      ({ s with
         pages_ := Function.update s.pages_ frame_id
           { page with pin_count_ := page.pin_count_ - 1
                       is_dirty_ := if is_dirty then true else page.is_dirty_ }
         replacer_ := r1 }, true)

/-- Method `BufferPoolManager::FlushPage`. -/
def BufferPoolManager.FlushPage (PS : Nat) (s : BufferPoolManager) (page_id : Int) :
    Option (BufferPoolManager × Bool) :=
  match ptFind s.page_table_ page_id with
  | none => some (s, false)
  | some frame_id =>
    let page := s.pages_ frame_id
    (s.disk_manager_.WritePage PS page_id page.data_).bind fun d2 =>
    some ({ s with
            pages_ := Function.update s.pages_ frame_id { page with is_dirty_ := false }
            disk_manager_ := d2 }, true)

/-- Method `BufferPoolManager::IsPageFree`. -/
def BufferPoolManager.IsPageFree (PS : Nat) (s : BufferPoolManager) (page_id : Int) : Bool :=
  s.disk_manager_.IsPageFree PS page_id

/-- A client that holds the pointer returned by `FetchPage` or `NewPage`, that is a pin on
frame `frame_id`, overwrites the bytes of that frame through `Page::GetData()`; `none` when
the frame is not pinned. -/
def BufferPoolManager.WriteData (s : BufferPoolManager) (frame_id : Nat) (data : BitmapPage) :
    Option BufferPoolManager :=
  if 0 < (s.pages_ frame_id).pin_count_ then
    some { s with pages_ := Function.update s.pages_ frame_id
                    { s.pages_ frame_id with data_ := data } }
  else none

/-- The calls a client of the buffer pool can make. -/
inductive Op where
  | fetch (page_id : Int)
  | newPage
  | unpin (page_id : Int) (is_dirty : Bool)
  | flush (page_id : Int)
  | delete (page_id : Int)
  | write (frame_id : Nat) (data : BitmapPage)

/-- The state after one call; `none` when the call fails an `ASSERT` (or writes through a
pointer the client does not hold). -/
def BufferPoolManager.step (PS : Nat) (s : BufferPoolManager) : Op → Option BufferPoolManager
  | .fetch page_id => (s.FetchPage PS page_id).map fun r => r.1
  | .newPage => (s.NewPage PS).map fun r => r.1
  | .unpin page_id is_dirty => some (s.UnpinPage page_id is_dirty).1
  | .flush page_id => (s.FlushPage PS page_id).map fun r => r.1
  | .delete page_id => (s.DeletePage PS page_id).map fun r => r.1
  | .write frame_id data => s.WriteData frame_id data

/-- The states a pool reaches from `s0` by any sequence of calls. -/
inductive Reach (PS : Nat) (s0 : BufferPoolManager) : BufferPoolManager → Prop
  | init : Reach PS s0 s0
  | step {s s1 : BufferPoolManager} (op : Op) :
      Reach PS s0 s → s.step PS op = some s1 → Reach PS s0 s1

/-- The states of a pool of `N` frames freshly constructed over a database file, empty or
not, and then driven by any sequence of calls. -/
def Reachable (PS N : Nat) (s : BufferPoolManager) : Prop :=
  ∃ d0, Reach PS (BufferPoolManager.new N d0) s

/-- The calls a client of the disk manager can make on the allocator. -/
inductive DiskOp where
  | allocate
  | deallocate (logical_page_id : Int)

/-- The state of the disk manager after one allocator call. -/
def DiskManager.step (PS : Nat) (d : DiskManager) : DiskOp → DiskManager
  | .allocate => (d.AllocatePage PS).1
  | .deallocate logical_page_id => d.DeAllocatePage PS logical_page_id

/-- The states a disk manager reaches from an empty file by `AllocatePage` and
`DeAllocatePage` calls. -/
inductive DiskReachable (PS : Nat) : DiskManager → Prop
  | empty : DiskReachable PS DiskManager.empty
  | step {d : DiskManager} (op : DiskOp) :
      DiskReachable PS d → DiskReachable PS (d.step PS op)

/-! ## Predicates and auxiliary definitions of the development -/

/-- The bit of slot `i` of the body: bit `i % 8` of byte `i / 8`. -/
def BitmapPage.bit (b : BitmapPage) (i : Nat) : Bool := (b.bytes (i / 8)).testBit (i % 8)

/-- The physical page id of the bitmap page of extent `e`, as `AllocatePage`,
`DeAllocatePage` and `IsPageFree` compute it. -/
def bitmapPageId (PS e : Nat) : Nat := 1 + e * (GetMaxSupportedSize PS + 1)

/-- The bitmap page of extent `e` as read from the file. -/
def DiskManager.bitmapOf (PS : Nat) (d : DiskManager) (e : Nat) : BitmapPage :=
  d.file (bitmapPageId PS e)

/-- Whether extent `k` would serve an allocation: its used count is below `M` and its
bitmap page accepts the request. -/
def DiskManager.serves (PS : Nat) (d : DiskManager) (k : Nat) : Prop :=
  d.meta_data_.extent_used_page_ k < GetMaxSupportedSize PS ∧
    ((d.bitmapOf PS k).AllocatePage PS).2 ≠ none

/-- The accounting of the meta page agrees with the bitmap pages: `num_allocated_pages_`
is the sum of `extent_used_page_[e]` over the extents, and `extent_used_page_[e]` is the
number of set bits of the body of the bitmap page of extent `e`. -/
def DiskManager.Consistent (PS : Nat) (d : DiskManager) : Prop :=
  d.meta_data_.num_allocated_pages_ =
      ∑ e in Finset.range d.meta_data_.num_extents_, d.meta_data_.extent_used_page_ e ∧
    ∀ e, e < d.meta_data_.num_extents_ →
      d.meta_data_.extent_used_page_ e = (d.bitmapOf PS e).popcount PS

/-- The two containers of the replacer agree: `lru_list_` has no repetition and holds
exactly the keys of `lru_map_`. -/
def LRUReplacer.Sync (r : LRUReplacer) : Prop :=
  r.lru_list_.Nodup ∧ ∀ f, f ∈ r.lru_map_ ↔ f ∈ r.lru_list_

/-- The state after frame `frame_id`, obtained from `TryToFindFreePage`, has been given
page `page_id`: the old entry of the frame is erased from the page table, the new entry
is set, the frame metadata is `page_id`, pin count 1, clean, and the frame is pinned in the
replacer. -/
def BufferPoolManager.install (s1 : BufferPoolManager) (frame_id : Nat) (page_id : Int)
    (data : BitmapPage) (d : DiskManager) : BufferPoolManager :=
  { s1 with
    page_table_ := ptSet
      (if (s1.pages_ frame_id).page_id_ ≠ INVALID_PAGE_ID then
        ptErase s1.page_table_ (s1.pages_ frame_id).page_id_ else s1.page_table_)
      page_id frame_id
    pages_ := Function.update s1.pages_ frame_id ⟨page_id, 1, false, data⟩
    replacer_ := s1.replacer_.Pin frame_id
    disk_manager_ := d }

/-- The facts that hold of the frames, the page table, the free list and the replacer in
every state of a pool. -/
structure PoolInv (s : BufferPoolManager) : Prop where
  tbl : ∀ L f, ptFind s.page_table_ L = some f →
    (s.pages_ f).page_id_ = L ∧ 0 ≤ L ∧ f < s.pool_size_
  free : ∀ f, f ∈ s.free_list_ →
    (s.pages_ f).page_id_ = INVALID_PAGE_ID ∧ (s.pages_ f).pin_count_ = 0 ∧
      (s.pages_ f).is_dirty_ = false ∧ f < s.pool_size_
  free_nodup : s.free_list_.Nodup
  repl : ∀ f, f ∈ s.replacer_.lru_list_ → (s.pages_ f).pin_count_ = 0 ∧ f < s.pool_size_
  sync : s.replacer_.Sync
  max : s.replacer_.max_size_ = s.pool_size_
  pin_nonneg : ∀ f, 0 ≤ (s.pages_ f).pin_count_
  dirty_valid : ∀ f, (s.pages_ f).is_dirty_ = true → 0 ≤ (s.pages_ f).page_id_

/-- A pool of one frame over an empty file with `PAGE_SIZE = 4096`, after one `NewPage`:
page 0 sits in frame 0 with pin count 1. -/
def pinnedPool : BufferPoolManager :=
  ((BufferPoolManager.new 1 DiskManager.empty).step 4096 Op.newPage).getD
    (BufferPoolManager.new 1 DiskManager.empty)

/-- The disk manager after `n` consecutive `AllocatePage` calls on an empty file. -/
def DiskManager.allocateN (PS : Nat) : Nat → DiskManager
  | 0 => DiskManager.empty
  | n + 1 => ((DiskManager.allocateN PS n).AllocatePage PS).1

/-- Extent 0 is the only extent and holds exactly the slots `0, …, n-1`, the next scan
starting at `n`. -/
def DiskManager.FilledTo (PS : Nat) (d : DiskManager) (n : Nat) : Prop :=
  d.meta_data_.num_extents_ = 1 ∧ d.meta_data_.extent_used_page_ 0 = n ∧
    d.meta_data_.num_allocated_pages_ = n ∧ d.file_meta = d.meta_data_ ∧
    (d.bitmapOf PS 0).page_allocated_ = n ∧ (d.bitmapOf PS 0).next_free_page_ = n ∧
    ∀ j, (d.bitmapOf PS 0).bit j = decide (j < n)

/-- Every frame of the pool with pin count 0 is in the free list or in the replacer. -/
def Unpinned (s : BufferPoolManager) : Prop :=
  ∀ g, g < s.pool_size_ → (s.pages_ g).pin_count_ = 0 →
    g ∈ s.free_list_ ∨ g ∈ s.replacer_.lru_list_

/-- A pool together with a record of its history: `clock` counts the calls made so far and
`zeroedAt f` is the number of the call that last brought the pin count of frame `f` from a
positive value down to 0. -/
structure Traced where
  pool : BufferPoolManager
  clock : Nat
  zeroedAt : Nat → Nat

/-- One call on a pool with history. -/
def Traced.step (PS : Nat) (t : Traced) (op : Op) : Option Traced :=
  (t.pool.step PS op).map fun s1 =>
    { pool := s1
      clock := t.clock + 1
      zeroedAt := fun f =>
        if 0 < (t.pool.pages_ f).pin_count_ ∧ (s1.pages_ f).pin_count_ = 0 then t.clock + 1
        else t.zeroedAt f }

/-- The pools with history reached from a fresh pool of `N` frames over a database file. -/
inductive TracedReachable (PS N : Nat) : Traced → Prop
  | init (d0 : DiskManager) : TracedReachable PS N ⟨BufferPoolManager.new N d0, 0, fun _ => 0⟩
  | step {t t1 : Traced} (op : Op) :
      TracedReachable PS N t → t.step PS op = some t1 → TracedReachable PS N t1

/-- The replacer list runs from the frame unpinned last to the frame unpinned first. -/
def Traced.Ordered (t : Traced) : Prop :=
  (∀ g, g ∈ t.pool.replacer_.lru_list_ → t.zeroedAt g ≤ t.clock) ∧
    t.pool.replacer_.lru_list_.Pairwise (fun a b => t.zeroedAt b < t.zeroedAt a)

/-- A `FetchPage(page_id)` followed by `UnpinPage(page_id, is_dirty)`. -/
def BufferPoolManager.fetchUnpin (PS : Nat) (s : BufferPoolManager) (page_id : Int)
    (is_dirty : Bool) : Option BufferPoolManager :=
  (s.FetchPage PS page_id).map fun r => (r.1.UnpinPage page_id is_dirty).1

/-- Fetching and then unpinning the pages of a list, one after the other, the page `p` being
unpinned with the flag `dirty p`. -/
def BufferPoolManager.fetchUnpinAll (PS : Nat) (dirty : Int → Bool) :
    BufferPoolManager → List Int → Option BufferPoolManager
  | s, [] => some s
  | s, p :: ps =>
    (s.fetchUnpin PS p (dirty p)).bind fun s1 =>
      BufferPoolManager.fetchUnpinAll PS dirty s1 ps

/-- The shape of a pool of `N` frames on which the distinct pages `done` have been fetched
and unpinned in order, starting from the fresh pool: page number `i` sits in frame `i`, the
later frames are still in the free list, the replacer lists the used frames from the last to
the first. -/
def Scenario (N : Nat) (s : BufferPoolManager) (done : List Int) : Prop :=
  PoolInv s ∧ s.pool_size_ = N ∧
    s.free_list_ = List.range' done.length (N - done.length) ∧
    s.replacer_.lru_list_ = (List.range done.length).reverse ∧
    (∀ i p, done[i]? = some p →
      ptFind s.page_table_ p = some i ∧ (s.pages_ i).page_id_ = p) ∧
    ∀ p, p ∉ done → ptFind s.page_table_ p = none

/-- The pool reached by a list of calls, a call that fails leaving the state where it is. -/
def BufferPoolManager.run (PS : Nat) : BufferPoolManager → List Op → BufferPoolManager
  | s, [] => s
  | s, op :: ops => BufferPoolManager.run PS ((s.step PS op).getD s) ops

/-- A pool of two frames over an empty file with `PAGE_SIZE = 4096`, after `FetchPage(0)`
and then `NewPage`, which returns page id 0 as well. -/
def twicePool : BufferPoolManager :=
  (BufferPoolManager.new 2 DiskManager.empty).run 4096 [Op.fetch 0, Op.newPage]

/-- The calls that respect the allocator: `FetchPage` is called for allocated page ids only,
and `DeletePage` is not called for a page that is resident and pinned. -/
def Careful (PS : Nat) (s : BufferPoolManager) : Op → Prop
  | .fetch page_id => s.IsPageFree PS page_id = false
  | .delete page_id => ∀ f, ptFind s.page_table_ page_id = some f → ¬ 0 < (s.pages_ f).pin_count_
  | _ => True

/-- The states a fresh pool of `N` frames over an empty file reaches by careful calls. -/
inductive CarefulReachable (PS N : Nat) : BufferPoolManager → Prop
  | init : CarefulReachable PS N (BufferPoolManager.new N DiskManager.empty)
  | step {s s1 : BufferPoolManager} (op : Op) :
      CarefulReachable PS N s → Careful PS s op → s.step PS op = some s1 →
      CarefulReachable PS N s1

/-- Residency agrees with the page table and with the allocator: a frame that holds a page
is the frame of that page in the page table, and every page of the page table is
allocated. -/
structure ResInv (PS : Nat) (s : BufferPoolManager) : Prop where
  res : ∀ g L, g < s.pool_size_ → (s.pages_ g).page_id_ = L → L ≠ INVALID_PAGE_ID →
    ptFind s.page_table_ L = some g
  alloc : ∀ L f, ptFind s.page_table_ L = some f → s.disk_manager_.IsPageFree PS L = false

/-- A page buffer every byte of which is `b`. -/
def filledPage (b : Nat) : BitmapPage := ⟨b * 0x01010101, b * 0x01010101, fun _ => b⟩

/-- A pool of two frames over an empty file with `PAGE_SIZE = 4096` in which page 0 has been
fetched into frame 0, filled with `0xAB` and unpinned dirty, and then handed out a second
time by `NewPage` into frame 1, filled with `0xCD` and unpinned dirty. -/
def doublePool : BufferPoolManager :=
  (BufferPoolManager.new 2 DiskManager.empty).run 4096
    [Op.fetch 0, Op.write 0 (filledPage 0xAB), Op.unpin 0 true,
     Op.newPage, Op.write 1 (filledPage 0xCD), Op.unpin 0 true]

/-- A pool of two frames over an empty file with `PAGE_SIZE = 4096`, after `NewPage` (which
returns page 0, pinned), a refused `DeletePage(0)` and a second `NewPage`, which returns
page id 0 again. -/
def reusedPool : BufferPoolManager :=
  (BufferPoolManager.new 2 DiskManager.empty).run 4096 [Op.newPage, Op.delete 0, Op.newPage]

/-! ## The file as a sequence of bytes (`disk_manager.cpp`) -/

/-- The conversion of an integer to a 32-bit `int`, as a two's complement target does it. -/
def toInt32 (n : Int) : Int := (n + 2 ^ 31) % 2 ^ 32 - 2 ^ 31

/-- The database file as a sequence of bytes: its length, and the byte at each offset below
the length. -/
structure ByteFile where
  size : Nat
  byte : Nat → Nat

/-- A file of length 0. -/
def ByteFile.empty : ByteFile := ⟨0, fun _ => 0⟩

/-- Method `DiskManager::GetFileSize`: `st_size`, returned through the result type `int`. -/
def ByteFile.GetFileSize (f : ByteFile) : Int := toInt32 (f.size : Int)

/-- Method `DiskManager::WritePhysicalPage` on the bytes of the file.  The offset is computed
in `size_t`, which `physical_page_id * PAGE_SIZE` never exceeds; `page_data i` is byte `i` of
the buffer, `i < PAGE_SIZE`.  A write past the end of the file extends it, the gap reading as
zeros.  The stream is in its good state and the write succeeds. -/
def ByteFile.WritePhysicalPage (PS : Nat) (f : ByteFile) (physical_page_id : Nat)
    (page_data : Nat → Nat) : ByteFile :=
  let offset := physical_page_id * PS
  { size := max f.size (offset + PS)
    byte := fun o =>
      if offset ≤ o ∧ o < offset + PS then page_data (o - offset)
      else if o < f.size then f.byte o else 0 }

/-- Method `DiskManager::ReadPhysicalPage` on the bytes of the file: the buffer afterwards.
`int offset = physical_page_id * PAGE_SIZE` is a 32-bit `int`; a `seekp` to a negative
offset fails and the `read` that follows delivers no byte, so that `read_count` is 0. -/
def ByteFile.ReadPhysicalPage (PS : Nat) (f : ByteFile) (physical_page_id : Nat) : Nat → Nat :=
  let offset := toInt32 ((physical_page_id : Int) * (PS : Int))
  if offset ≥ f.GetFileSize then fun _ => 0
  else
    let read_count := if offset < 0 then 0 else min PS (f.size - offset.toNat)
    fun i => if i < read_count then f.byte (offset.toNat + i) else 0

/-- Method `DiskManager::WritePage` on the bytes of the file. -/
def ByteFile.WritePage (PS : Nat) (f : ByteFile) (logical_page_id : Int)
    (page_data : Nat → Nat) : Option ByteFile :=
  if 0 ≤ logical_page_id then
    some (f.WritePhysicalPage PS (MapPageId PS logical_page_id.toNat) page_data)
  else none

/-- Method `DiskManager::ReadPage` on the bytes of the file. -/
def ByteFile.ReadPage (PS : Nat) (f : ByteFile) (logical_page_id : Int) :
    Option (Nat → Nat) :=
  if 0 ≤ logical_page_id then
    some (f.ReadPhysicalPage PS (MapPageId PS logical_page_id.toNat))
  else none

/-! ## Sequences of calls on a bitmap page -/

/-- The calls a client of a bitmap page can make that change it. -/
inductive BitmapOp where
  | allocate
  | deallocate (page_offset : Nat)

/-- The bitmap page after one call, whether the call returns true or false. -/
def BitmapPage.step (PS : Nat) (b : BitmapPage) : BitmapOp → BitmapPage
  | .allocate => (b.AllocatePage PS).1
  | .deallocate page_offset => (b.DeAllocatePage PS page_offset).1

/-- The bitmap pages reached from a zero-initialised page by `AllocatePage` and
`DeAllocatePage` calls with arbitrary offsets. -/
inductive BitmapReachable (PS : Nat) : BitmapPage → Prop
  | zero : BitmapReachable PS zeroPage
  | step {b : BitmapPage} (op : BitmapOp) :
      BitmapReachable PS b → BitmapReachable PS (b.step PS op)

/-! ## Sequences of calls on a replacer -/

/-- The constructor `LRUReplacer(num_pages)`. -/
def LRUReplacer.new (num_pages : Nat) : LRUReplacer := ⟨[], [], num_pages⟩

/-- The calls a client of a replacer can make that change it. -/
inductive ReplacerOp where
  | victim
  | pin (frame_id : Nat)
  | unpin (frame_id : Nat)

/-- The replacer after one call. -/
def LRUReplacer.step (r : LRUReplacer) : ReplacerOp → LRUReplacer
  | .victim => r.Victim.1
  | .pin frame_id => r.Pin frame_id
  | .unpin frame_id => r.Unpin frame_id

/-- The call finds the replacer below its capacity: an `Unpin` of a frame that is absent is
made with `lru_list_.size() < max_size_`. -/
def LRUReplacer.BelowCapacity (r : LRUReplacer) : ReplacerOp → Prop
  | .unpin frame_id => frame_id ∈ r.lru_map_ ∨ r.lru_list_.length < r.max_size_
  | _ => True

/-- A replacer together with a record of its history: `clock` counts the calls made so far
and `insertedAt f` is the number of the last `Unpin(f)` that found `f` absent. -/
structure TracedReplacer where
  replacer : LRUReplacer
  clock : Nat
  insertedAt : Nat → Nat

/-- One call on a replacer with history. -/
def TracedReplacer.step (t : TracedReplacer) (op : ReplacerOp) : TracedReplacer :=
  { replacer := t.replacer.step op
    clock := t.clock + 1
    insertedAt := fun f =>
      match op with
      | .unpin frame_id =>
        if frame_id = f ∧ f ∉ t.replacer.lru_map_ then t.clock + 1 else t.insertedAt f
      | _ => t.insertedAt f }

/-- The replacers with history reached from a fresh replacer of capacity `num_pages` by
`Victim`, `Pin` and `Unpin` calls that find it below its capacity. -/
inductive ReplacerReachable (num_pages : Nat) : TracedReplacer → Prop
  | init : ReplacerReachable num_pages ⟨LRUReplacer.new num_pages, 0, fun _ => 0⟩
  | step {t : TracedReplacer} (op : ReplacerOp) :
      ReplacerReachable num_pages t → t.replacer.BelowCapacity op →
      ReplacerReachable num_pages (t.step op)

/-- The list of the replacer runs from the frame inserted last to the frame inserted
first. -/
def TracedReplacer.Ordered (t : TracedReplacer) : Prop :=
  t.replacer.Sync ∧ (∀ g, g ∈ t.replacer.lru_list_ → t.insertedAt g ≤ t.clock) ∧
    t.replacer.lru_list_.Pairwise (fun a b => t.insertedAt b < t.insertedAt a)
/-- A replacer of capacity 2 with its history, after `Unpin(3)` and then `Unpin(5)`. -/
def tracedPair : TracedReplacer :=
  ((TracedReplacer.mk (LRUReplacer.new 2) 0 (fun _ => 0)).step (ReplacerOp.unpin 3)).step
    (ReplacerOp.unpin 5)

/-! ## The free list and the replacer together -/

/-- A pool of one frame over an empty file with `PAGE_SIZE = 4096`, after `NewPage` (page 0
in frame 0), `UnpinPage(0, false)` and `DeletePage(0)`. -/
def releasedPool : BufferPoolManager :=
  (BufferPoolManager.new 1 DiskManager.empty).run 4096
    [Op.newPage, Op.unpin 0 false, Op.delete 0]

/-- The calls that return no frame to the free list: `DeletePage` is not called for a page
that is resident with pin count 0. -/
def KeepsFrames (s : BufferPoolManager) : Op → Prop
  | .delete page_id => ∀ f, ptFind s.page_table_ page_id = some f → 0 < (s.pages_ f).pin_count_
  | _ => True

/-- The states a fresh pool of `N` frames over a database file reaches by calls that return
no frame to the free list. -/
inductive KeepingReachable (PS N : Nat) : BufferPoolManager → Prop
  | init (d0 : DiskManager) : KeepingReachable PS N (BufferPoolManager.new N d0)
  | step {s s1 : BufferPoolManager} (op : Op) :
      KeepingReachable PS N s → KeepsFrames s op → s.step PS op = some s1 →
      KeepingReachable PS N s1
/-- The number of frames of the pool with `pin_count_ > 0`. -/
def BufferPoolManager.pinnedCount (s : BufferPoolManager) : Nat :=
  ((List.range s.pool_size_).filter (fun f => decide (0 < (s.pages_ f).pin_count_))).length

/-- The number of frames of the free list that are in the replacer as well. -/
def BufferPoolManager.inBothCount (s : BufferPoolManager) : Nat :=
  (s.free_list_.filter (fun f => decide (f ∈ s.replacer_.lru_list_))).length

/-- The hint of a bitmap page points at or before its first free slot: every slot below
`next_free_page_` has its bit set, and `next_free_page_` is at most `M`. -/
def BitmapPage.HintInv (PS : Nat) (b : BitmapPage) : Prop :=
  (∀ k, k < b.next_free_page_ → b.bit k = true) ∧ b.next_free_page_ ≤ GetMaxSupportedSize PS

/-- A bitmap page with `PAGE_SIZE = 4096` after three `AllocatePage` calls, which take the
slots 0, 1 and 2, and `DeAllocatePage(1)`. -/
def holedPage : BitmapPage :=
  (((zeroPage.step 4096 BitmapOp.allocate).step 4096 BitmapOp.allocate).step 4096
    BitmapOp.allocate).step 4096 (BitmapOp.deallocate 1)

/-- Method `DiskManager::MapPageId` with its result type, for a logical id `≥ 0`: the sum
`group * (MAX_PAGES + 1) + offset + 2` is computed in `size_t` and returned through the
32-bit `page_id_t`. -/
def MapPageId32 (PS : Nat) (logical_page_id : Nat) : Int :=
  let group := logical_page_id / GetMaxSupportedSize PS
  let offset := logical_page_id % GetMaxSupportedSize PS
  toInt32 ((group * (GetMaxSupportedSize PS + 1) + offset + 2 : Nat) : Int)

/-! ## The disk manager on the bytes of the file (`disk_manager.cpp`)

The definitions of this section follow `disk_manager.cpp` on the file as a sequence of bytes:
the byte offset of `ReadPhysicalPage` and the file size are 32-bit `int`s, physical page ids
are 32-bit `page_id_t`s, and the stream `db_io_` keeps its `failbit` once a `seekp` or a
`read` has failed, after which it neither reads nor writes.  A page buffer is the function
from the index of a byte to the byte; the words of the overlays are little-endian.  The
counters of the meta page are unbounded numbers in memory and 32-bit words on the file. -/

/-- The 32-bit unsigned word at index `i` of a page buffer. -/
def word32 (buf : Nat → Nat) (i : Nat) : Nat :=
  buf i + 256 * buf (i + 1) + 65536 * buf (i + 2) + 16777216 * buf (i + 3)

/-- The overlay `reinterpret_cast<BitmapPage<PAGE_SIZE>*>(buf)` of a page buffer. -/
def BitmapPage.ofBytes (buf : Nat → Nat) : BitmapPage :=
  { page_allocated_ := word32 buf 0
    next_free_page_ := word32 buf 4
    bytes := fun k => buf (8 + k) }

/-- The `PAGE_SIZE` bytes of the buffer under a `BitmapPage` overlay. -/
def BitmapPage.toBytes (PS : Nat) (b : BitmapPage) : Nat → Nat := fun i =>
  if i < 4 then b.page_allocated_ / 256 ^ i % 256
  else if i < 8 then b.next_free_page_ / 256 ^ (i - 4) % 256
  else if i < PS then b.bytes (i - 8) % 256
  else 0

/-- The overlay `reinterpret_cast<DiskFileMetaPage*>(buf)` of a page buffer. -/
def DiskFileMetaPage.ofBytes (buf : Nat → Nat) : DiskFileMetaPage :=
  { num_allocated_pages_ := word32 buf 0
    num_extents_ := word32 buf 4
    extent_used_page_ := fun e => word32 buf (8 + 4 * e) }

/-- The `PAGE_SIZE` bytes of the buffer `meta_data_` under its `DiskFileMetaPage` overlay. -/
def DiskFileMetaPage.toBytes (PS : Nat) (m : DiskFileMetaPage) : Nat → Nat := fun i =>
  if i < 4 then m.num_allocated_pages_ / 256 ^ i % 256
  else if i < 8 then m.num_extents_ / 256 ^ (i - 4) % 256
  else if i < PS then m.extent_used_page_ ((i - 8) / 4) / 256 ^ ((i - 8) % 4) % 256
  else 0

/-- The state of a `DiskManager` on the bytes of the file: the meta buffer `meta_data_`, the
file, and whether the stream `db_io_` has its `failbit` set. -/
structure ByteDiskManager where
  meta_data_ : DiskFileMetaPage
  file : ByteFile
  failed : Bool

/-- Method `DiskManager::ReadPhysicalPage`: the state afterwards and the buffer.  When the
`int` offset is below the `int` file size the stream is used: it delivers nothing when it has
failed before or when the `seekp` fails on a negative offset, and it fails when the file ends
before `PAGE_SIZE` bytes are read. -/
def ByteDiskManager.ReadPhysicalPage (PS : Nat) (d : ByteDiskManager) (physical_page_id : Int) :
    ByteDiskManager × (Nat → Nat) :=
  let offset := toInt32 (physical_page_id * (PS : Int))
  if offset ≥ d.file.GetFileSize then (d, fun _ => 0)
  else if d.failed = true ∨ offset < 0 then ({ d with failed := true }, fun _ => 0)
  else
    let read_count := min PS (d.file.size - offset.toNat)
    ({ d with failed := decide (read_count < PS) },
      fun i => if i < read_count then d.file.byte (offset.toNat + i) else 0)

/-- Method `DiskManager::WritePhysicalPage`.  A stream that has failed writes nothing; the
offset `static_cast<size_t>(physical_page_id) * PAGE_SIZE` of a negative page id is a
negative stream offset, on which `seekp` fails. -/
def ByteDiskManager.WritePhysicalPage (PS : Nat) (d : ByteDiskManager) (physical_page_id : Int)
    (page_data : Nat → Nat) : ByteDiskManager :=
  if d.failed = true then d
  else if physical_page_id < 0 then { d with failed := true }
  else { d with file := d.file.WritePhysicalPage PS physical_page_id.toNat page_data }

/-- The constructor `DiskManager(db_file)` on a file that exists: it reads physical page 0
into `meta_data_`. -/
def ByteDiskManager.open (PS : Nat) (f : ByteFile) : ByteDiskManager :=
  let rd := (ByteDiskManager.mk ⟨0, 0, fun _ => 0⟩ f false).ReadPhysicalPage PS 0
  { rd.1 with meta_data_ := DiskFileMetaPage.ofBytes rd.2 }

/-- Method `DiskManager::ReadPage`; `none` is the failed `ASSERT(logical_page_id >= 0)`. -/
def ByteDiskManager.ReadPage (PS : Nat) (d : ByteDiskManager) (logical_page_id : Int) :
    Option (ByteDiskManager × (Nat → Nat)) :=
  if 0 ≤ logical_page_id then
    some (d.ReadPhysicalPage PS (MapPageId32 PS logical_page_id.toNat))
  else none

/-- Method `DiskManager::WritePage`; `none` is the failed `ASSERT(logical_page_id >= 0)`. -/
def ByteDiskManager.WritePage (PS : Nat) (d : ByteDiskManager) (logical_page_id : Int)
    (page_data : Nat → Nat) : Option ByteDiskManager :=
  if 0 ≤ logical_page_id then
    some (d.WritePhysicalPage PS (MapPageId32 PS logical_page_id.toNat) page_data)
  else none

/-- The `for` loop of `DiskManager::AllocatePage` over the existing extents, from `extent_id`
for `count` iterations: the state afterwards, and the logical id when an extent served the
request. -/
def ByteDiskManager.allocLoop (PS : Nat) :
    Nat → Nat → ByteDiskManager → ByteDiskManager × Option Int
  | _, 0, d => (d, none)
  | extent_id, n + 1, d =>
    if d.meta_data_.extent_used_page_ extent_id < GetMaxSupportedSize PS then
      let bitmap_physical_page :=
        toInt32 ((1 + extent_id * (GetMaxSupportedSize PS + 1) : Nat) : Int)
      let rd := d.ReadPhysicalPage PS bitmap_physical_page
      let r := (BitmapPage.ofBytes rd.2).AllocatePage PS
      match r.2 with
      | some page_in_extent =>
        let d1 : ByteDiskManager :=
          { rd.1 with
            meta_data_ := rd.1.meta_data_.setUsed extent_id (rd.1.meta_data_.extent_used_page_ extent_id + 1) (rd.1.meta_data_.num_allocated_pages_ + 1) }
        let d2 := d1.WritePhysicalPage PS bitmap_physical_page (r.1.toBytes PS)
        (d2.WritePhysicalPage PS 0 (d2.meta_data_.toBytes PS),
          some (toInt32 ((extent_id * GetMaxSupportedSize PS + page_in_extent : Nat) : Int)))
      | none => ByteDiskManager.allocLoop PS (extent_id + 1) n rd.1
    else ByteDiskManager.allocLoop PS (extent_id + 1) n d

/-- Method `DiskManager::AllocatePage`: the state afterwards and the returned logical id. -/
def ByteDiskManager.AllocatePage (PS : Nat) (d : ByteDiskManager) : ByteDiskManager × Int :=
  match ByteDiskManager.allocLoop PS 0 d.meta_data_.num_extents_ d with
  | (d0, some page_id) => (d0, page_id)
  | (d0, none) =>
    let new_extent_id := d0.meta_data_.num_extents_
    let r := zeroPage.AllocatePage PS
    let page_in_extent := r.2.getD 0
    let new_bitmap_physical_page :=
      toInt32 ((1 + new_extent_id * (GetMaxSupportedSize PS + 1) : Nat) : Int)
    let d1 : ByteDiskManager :=
      { d0 with meta_data_ := { d0.meta_data_ with num_extents_ := new_extent_id + 1 } }
    let d2 := d1.WritePhysicalPage PS new_bitmap_physical_page (r.1.toBytes PS)
    let d3 : ByteDiskManager :=
      { d2 with
        meta_data_ := d2.meta_data_.setUsed new_extent_id 1 (d2.meta_data_.num_allocated_pages_ + 1) }
    (d3.WritePhysicalPage PS 0 (d3.meta_data_.toBytes PS),
      toInt32 ((new_extent_id * GetMaxSupportedSize PS + page_in_extent : Nat) : Int))

/-- Method `DiskManager::DeAllocatePage`. -/
def ByteDiskManager.DeAllocatePage (PS : Nat) (d : ByteDiskManager) (logical_page_id : Int) :
    ByteDiskManager :=
  if logical_page_id < 0 then d
  else
    let extent_id := logical_page_id.toNat / GetMaxSupportedSize PS
    let page_in_extent := logical_page_id.toNat % GetMaxSupportedSize PS
    if extent_id ≥ d.meta_data_.num_extents_ then d
    else
      let bitmap_physical_page :=
        toInt32 ((1 + extent_id * (GetMaxSupportedSize PS + 1) : Nat) : Int)
      let rd := d.ReadPhysicalPage PS bitmap_physical_page
      let r := (BitmapPage.ofBytes rd.2).DeAllocatePage PS page_in_extent
      if r.2 then
        let d1 : ByteDiskManager :=
          { rd.1 with
            meta_data_ := rd.1.meta_data_.setUsed extent_id (rd.1.meta_data_.extent_used_page_ extent_id - 1) (rd.1.meta_data_.num_allocated_pages_ - 1) }
        let d2 := d1.WritePhysicalPage PS bitmap_physical_page (r.1.toBytes PS)
        d2.WritePhysicalPage PS 0 (d2.meta_data_.toBytes PS)
      else rd.1

/-- Method `DiskManager::IsPageFree`: the state afterwards (the call reads the bitmap page
through the stream) and the result. -/
def ByteDiskManager.IsPageFree (PS : Nat) (d : ByteDiskManager) (logical_page_id : Int) :
    ByteDiskManager × Bool :=
  if logical_page_id < 0 then (d, false)
  else
    let extent_id := logical_page_id.toNat / GetMaxSupportedSize PS
    let page_in_extent := logical_page_id.toNat % GetMaxSupportedSize PS
    if extent_id ≥ d.meta_data_.num_extents_ then (d, true)
    else
      let bitmap_physical_page :=
        toInt32 ((1 + extent_id * (GetMaxSupportedSize PS + 1) : Nat) : Int)
      let rd := d.ReadPhysicalPage PS bitmap_physical_page
      (rd.1, (BitmapPage.ofBytes rd.2).IsPageFree PS page_in_extent)
/-! ## The buffer pool over the bytes of the file (`buffer_pool_manager.cpp`) -/

/-- Modelled from the spec: a frame (`Page` of `page/page.h`) with its data as a buffer of
bytes. -/
structure BytePage where
  page_id_ : Int
  pin_count_ : Int
  is_dirty_ : Bool
  data_ : Nat → Nat

/-- The state of a `BufferPoolManager` whose disk manager works on the bytes of the file. -/
structure ByteBufferPoolManager where
  pool_size_ : Nat
  pages_ : Nat → BytePage
  page_table_ : List (Int × Nat)
  free_list_ : List Nat
  replacer_ : LRUReplacer
  disk_manager_ : ByteDiskManager

/-- The constructor `BufferPoolManager(pool_size, disk_manager)`. -/
def ByteBufferPoolManager.new (pool_size : Nat) (disk_manager : ByteDiskManager) :
    ByteBufferPoolManager :=
  { pool_size_ := pool_size
    pages_ := fun _ => ⟨INVALID_PAGE_ID, 0, false, fun _ => 0⟩
    page_table_ := []
    free_list_ := List.range pool_size
    replacer_ := ⟨[], [], pool_size⟩
    disk_manager_ := disk_manager }

/-- Method `BufferPoolManager::TryToFindFreePage`; `none` is `INVALID_FRAME_ID`. -/
def ByteBufferPoolManager.TryToFindFreePage (s : ByteBufferPoolManager) :
    ByteBufferPoolManager × Option Nat :=
  match s.free_list_ with
  | frame_id :: rest => ({ s with free_list_ := rest }, some frame_id)
  | [] => ({ s with replacer_ := s.replacer_.Victim.1 }, s.replacer_.Victim.2)

/-- Method `BufferPoolManager::FetchPage`: the state afterwards and the frame whose address is
returned (`none` for `nullptr`); the outer `none` is a failed `ASSERT` of the disk
manager. -/
def ByteBufferPoolManager.FetchPage (PS : Nat) (s : ByteBufferPoolManager) (page_id : Int) :
    Option (ByteBufferPoolManager × Option Nat) :=
  match ptFind s.page_table_ page_id with
  | some frame_id =>
    let page := s.pages_ frame_id
    some ({ s with
            pages_ := Function.update s.pages_ frame_id
              { page with pin_count_ := page.pin_count_ + 1 }
            replacer_ := s.replacer_.Pin frame_id }, some frame_id)
  | none =>
    match s.TryToFindFreePage with
    | (s1, none) => some (s1, none)
    | (s1, some frame_id) =>
      let replacement_page := s1.pages_ frame_id
      (if replacement_page.is_dirty_ then
          s1.disk_manager_.WritePage PS replacement_page.page_id_ replacement_page.data_
        else some s1.disk_manager_).bind fun d2 =>
      let t1 := if replacement_page.page_id_ ≠ INVALID_PAGE_ID then
          ptErase s1.page_table_ replacement_page.page_id_ else s1.page_table_
      (d2.ReadPage PS page_id).bind fun rd =>
      some ({ s1 with
              page_table_ := ptSet t1 page_id frame_id
              pages_ := Function.update s1.pages_ frame_id ⟨page_id, 1, false, rd.2⟩
              replacer_ := s1.replacer_.Pin frame_id
              disk_manager_ := rd.1 }, some frame_id)

/-- Method `BufferPoolManager::NewPage`: the state afterwards, the value left in the output
parameter `page_id`, and the frame whose address is returned (`none` for `nullptr`). -/
def ByteBufferPoolManager.NewPage (PS : Nat) (s : ByteBufferPoolManager) :
    Option (ByteBufferPoolManager × Int × Option Nat) :=
  let a := s.disk_manager_.AllocatePage PS
  let page_id := a.2
  let s0 : ByteBufferPoolManager := { s with disk_manager_ := a.1 }
  match s0.TryToFindFreePage with
  | (s1, none) =>
    some ({ s1 with disk_manager_ := s1.disk_manager_.DeAllocatePage PS page_id }, page_id, none)
  | (s1, some frame_id) =>
    let page := s1.pages_ frame_id
    (if page.page_id_ ≠ INVALID_PAGE_ID then
        (if page.is_dirty_ then s1.disk_manager_.WritePage PS page.page_id_ page.data_
          else some s1.disk_manager_).map fun d2 =>
          (d2, ptErase s1.page_table_ page.page_id_)
      else some (s1.disk_manager_, s1.page_table_)).bind fun dt =>
    some ({ s1 with
            pages_ := Function.update s1.pages_ frame_id ⟨page_id, 1, false, fun _ => 0⟩
            page_table_ := ptSet dt.2 page_id frame_id
            replacer_ := s1.replacer_.Pin frame_id
            disk_manager_ := dt.1 }, page_id, some frame_id)

/-- Method `BufferPoolManager::DeletePage`. -/
def ByteBufferPoolManager.DeletePage (PS : Nat) (s : ByteBufferPoolManager) (page_id : Int) :
    Option (ByteBufferPoolManager × Bool) :=
  let s0 : ByteBufferPoolManager :=
    { s with disk_manager_ := s.disk_manager_.DeAllocatePage PS page_id }
  match ptFind s0.page_table_ page_id with
  | none => some (s0, true)
  | some frame_id =>
    let page := s0.pages_ frame_id
    if page.pin_count_ > 0 then some (s0, false)
    else
      (if page.is_dirty_ then s0.disk_manager_.WritePage PS page_id page.data_
        else some s0.disk_manager_).bind fun d2 =>
      some ({ s0 with
              pages_ := Function.update s0.pages_ frame_id
                ⟨INVALID_PAGE_ID, 0, false, fun _ => 0⟩
              page_table_ := ptErase s0.page_table_ page_id
              free_list_ := s0.free_list_ ++ [frame_id]
              disk_manager_ := d2 }, true)

/-- Method `BufferPoolManager::UnpinPage`. -/
def ByteBufferPoolManager.UnpinPage (s : ByteBufferPoolManager) (page_id : Int)
    (is_dirty : Bool) : ByteBufferPoolManager × Bool :=
  match ptFind s.page_table_ page_id with
  | none => (s, false)
  | some frame_id =>
    let page := s.pages_ frame_id
    if page.pin_count_ ≤ 0 then (s, false)
    else
      let r1 := if page.pin_count_ - 1 = 0 then s.replacer_.Unpin frame_id else s.replacer_
      ({ s with
         pages_ := Function.update s.pages_ frame_id
           { page with pin_count_ := page.pin_count_ - 1
                       is_dirty_ := if is_dirty then true else page.is_dirty_ }
         replacer_ := r1 }, true)

/-- Method `BufferPoolManager::FlushPage`. -/
def ByteBufferPoolManager.FlushPage (PS : Nat) (s : ByteBufferPoolManager) (page_id : Int) :
    Option (ByteBufferPoolManager × Bool) :=
  match ptFind s.page_table_ page_id with
  | none => some (s, false)
  | some frame_id =>
    let page := s.pages_ frame_id
    (s.disk_manager_.WritePage PS page_id page.data_).bind fun d2 =>
    some ({ s with
            pages_ := Function.update s.pages_ frame_id { page with is_dirty_ := false }
            disk_manager_ := d2 }, true)

/-- Method `BufferPoolManager::IsPageFree`: the state afterwards and the result. -/
def ByteBufferPoolManager.IsPageFree (PS : Nat) (s : ByteBufferPoolManager) (page_id : Int) :
    ByteBufferPoolManager × Bool :=
  ({ s with disk_manager_ := (s.disk_manager_.IsPageFree PS page_id).1 },
    (s.disk_manager_.IsPageFree PS page_id).2)

/-- A pool of one frame over an empty file with `PAGE_SIZE = 4096`, after `FetchPage(524269)`
into frame 0 and `FlushPage(524269)`; `none` if one of the two calls fails an `ASSERT`. -/
def flushedFarPool : Option ByteBufferPoolManager :=
  ((ByteBufferPoolManager.new 1 (ByteDiskManager.open 4096 ByteFile.empty)).FetchPage 4096
    524269).bind fun a => (a.1.FlushPage 4096 524269).map fun b => b.1

/-! ## Residency without any assumption on the disk manager -/

/-- A frame of the pool that holds a page is the frame of that page in the page table. -/
def Resident (s : BufferPoolManager) : Prop :=
  ∀ g L, g < s.pool_size_ → (s.pages_ g).page_id_ = L → L ≠ INVALID_PAGE_ID →
    ptFind s.page_table_ L = some g

/-- The call hands out no page id that is resident: when it is a `NewPage`, the id that
`AllocatePage` returns is held by no frame of the pool. -/
def FreshId (PS : Nat) (s : BufferPoolManager) : Op → Prop
  | .newPage => ∀ g, g < s.pool_size_ →
      (s.pages_ g).page_id_ ≠ (s.disk_manager_.AllocatePage PS).2
  | _ => True

/-- The states a fresh pool of `N` frames reaches by calls in which `NewPage` returns no id
that is resident, with nothing assumed of the disk manager: between two calls its state may
become any state at all, so that `AllocatePage` may return any id and `ReadPage` any
bytes. -/
inductive FreshReachable (PS N : Nat) : BufferPoolManager → Prop
  | init (d0 : DiskManager) : FreshReachable PS N (BufferPoolManager.new N d0)
  | disk {s : BufferPoolManager} (d : DiskManager) :
      FreshReachable PS N s → FreshReachable PS N { s with disk_manager_ := d }
  | step {s s1 : BufferPoolManager} (op : Op) :
      FreshReachable PS N s → FreshId PS s op → s.step PS op = some s1 →
      FreshReachable PS N s1

/-! ## Consecutive allocations on the bytes of the file -/

/-- The disk manager on the bytes of the file after `n` consecutive `AllocatePage` calls on
an empty file. -/
def ByteDiskManager.allocateN (PS : Nat) : Nat → ByteDiskManager
  | 0 => ByteDiskManager.open PS ByteFile.empty
  | n + 1 => ((ByteDiskManager.allocateN PS n).AllocatePage PS).1

/-- The bitmap page of extent `e` as the bytes of the file hold it: the overlay of the
`PAGE_SIZE` bytes at physical page `1 + e * (M + 1)`. -/
def ByteDiskManager.bitmapOnFile (PS : Nat) (d : ByteDiskManager) (e : Nat) : BitmapPage :=
  BitmapPage.ofBytes (fun i =>
    if i < PS then d.file.byte ((1 + e * (GetMaxSupportedSize PS + 1)) * PS + i) else 0)

/-- The shape of the disk manager after `n` consecutive allocations on an empty file, while
the file is shorter than `2^31` bytes: the stream is good, the first `n / M` extents are
full, a last extent holds the `n mod M` remaining pages in its first slots, and the file
ends with the bitmap page of the last extent. -/
structure SeqAlloc (PS : Nat) (d : ByteDiskManager) (n : Nat) : Prop where
  good : d.failed = false
  count : d.meta_data_.num_allocated_pages_ = n
  extents : d.meta_data_.num_extents_ =
    (n + GetMaxSupportedSize PS - 1) / GetMaxSupportedSize PS
  full : ∀ x, x < n / GetMaxSupportedSize PS →
    d.meta_data_.extent_used_page_ x = GetMaxSupportedSize PS
  part : n % GetMaxSupportedSize PS ≠ 0 →
    d.meta_data_.extent_used_page_ (n / GetMaxSupportedSize PS) = n % GetMaxSupportedSize PS
  size : d.file.size =
    if n = 0 then 0
    else (1 + ((n + GetMaxSupportedSize PS - 1) / GetMaxSupportedSize PS - 1) *
      (GetMaxSupportedSize PS + 1) + 1) * PS
  bitmap : n % GetMaxSupportedSize PS ≠ 0 →
    (d.bitmapOnFile PS (n / GetMaxSupportedSize PS)).page_allocated_ =
        n % GetMaxSupportedSize PS ∧
      (d.bitmapOnFile PS (n / GetMaxSupportedSize PS)).next_free_page_ =
        n % GetMaxSupportedSize PS ∧
      ∀ j, j < GetMaxSupportedSize PS →
        (d.bitmapOnFile PS (n / GetMaxSupportedSize PS)).bit j =
          decide (j < n % GetMaxSupportedSize PS)

/-! # Lemmas -/

/-! ## Bits of a bitmap body -/

theorem and_one_shiftLeft_eq_zero (x k : Nat) :
    (x &&& (1 <<< k)) = 0 ↔ x.testBit k = false := by
  rw [Nat.one_shiftLeft]
  constructor
  · intro h
    have h1 : (x &&& 2 ^ k).testBit k = false := by rw [h]; simp
    simpa [Nat.testBit_two_pow_self] using h1
  · intro h
    apply Nat.eq_of_testBit_eq
    intro i
    by_cases hik : k = i
    · subst hik; simp [h]
    · simp [Nat.testBit_two_pow_of_ne hik]

theorem slot_lt_iff (PS i : Nat) : i / 8 < MAX_CHARS PS ↔ i < GetMaxSupportedSize PS := by
  unfold GetMaxSupportedSize
  omega

theorem isPageFreeLow_slot (PS : Nat) (b : BitmapPage) (i : Nat) :
    b.IsPageFreeLow PS (i / 8) (i % 8) = true ↔ i < GetMaxSupportedSize PS ∧ b.bit i = false := by
  unfold BitmapPage.IsPageFreeLow BitmapPage.bit
  by_cases h : i / 8 ≥ MAX_CHARS PS
  · have : ¬ i < GetMaxSupportedSize PS := by rw [← slot_lt_iff]; omega
    simp [h, this]
  · have : i < GetMaxSupportedSize PS := by rw [← slot_lt_iff]; omega
    simp [h, this, and_one_shiftLeft_eq_zero]

theorem isPageFree_iff (PS : Nat) (b : BitmapPage) (i : Nat) :
    b.IsPageFree PS i = true ↔ i < GetMaxSupportedSize PS ∧ b.bit i = false := by
  unfold BitmapPage.IsPageFree
  by_cases h : i ≥ GetMaxSupportedSize PS
  · have : ¬ i < GetMaxSupportedSize PS := by omega
    simp [h, this]
  · simp only [h, if_false, isPageFreeLow_slot]

theorem bit_take (b : BitmapPage) (i j : Nat) :
    (b.take i).bit j = (decide (j = i) || b.bit j) := by
  unfold BitmapPage.take BitmapPage.bit
  dsimp only
  by_cases hb : j / 8 = i / 8
  · rw [hb, Function.update_same, Nat.testBit_or, Nat.one_shiftLeft, Nat.testBit_two_pow]
    by_cases hm : i % 8 = j % 8
    · have : j = i := by omega
      simp [hm, this]
    · have : ¬ j = i := by omega
      simp [hm, this]
  · have : ¬ j = i := by omega
    rw [Function.update_noteq hb]
    simp [this]

theorem bit_clear (PS : Nat) (b : BitmapPage) (i j : Nat)
    (h : (b.DeAllocatePage PS i).2 = true) :
    (b.DeAllocatePage PS i).1.bit j = (!decide (j = i) && b.bit j) := by
  unfold BitmapPage.DeAllocatePage at h ⊢
  by_cases h1 : i ≥ GetMaxSupportedSize PS
  · simp [h1] at h
  · by_cases h2 : b.IsPageFreeLow PS (i / 8) (i % 8) = true
    · simp [h1, h2] at h
    · simp only [h1, h2, if_false, Bool.false_eq_true]
      unfold BitmapPage.bit
      dsimp only
      have h255 : Nat.testBit 255 (j % 8) = true := by
        have : (255 : Nat) = 2 ^ 8 - 1 := by norm_num
        rw [this, Nat.testBit_two_pow_sub_one]
        simp; omega
      by_cases hb : j / 8 = i / 8
      · rw [hb, Function.update_same, Nat.testBit_and, Nat.testBit_xor, Nat.one_shiftLeft,
          Nat.testBit_two_pow, h255]
        by_cases hm : i % 8 = j % 8
        · have : j = i := by omega
          simp [hm, this]
        · have : ¬ j = i := by omega
          simp [hm, this]
      · have : ¬ j = i := by omega
        rw [Function.update_noteq hb]
        simp [this]

theorem count_set (p q : Nat → Bool) (i : Nat)
    (hq : ∀ j, q j = (decide (j = i) || p j)) (hp : p i = false) (n : Nat) :
    ((List.range n).filter q).length =
      ((List.range n).filter p).length + if i < n then 1 else 0 := by
  induction n with
  | zero => simp
  | succ n ih =>
    rw [List.range_succ, List.filter_append, List.filter_append, List.length_append,
      List.length_append, ih]
    by_cases hin : n = i
    · subst hin
      simp [List.filter_cons, hq, hp]
    · have h1 : (i < n + 1) = (i < n) := by
        apply propext; omega
      have h2 : q n = p n := by rw [hq]; simp [hin]
      simp only [h1, List.filter_cons, List.filter_nil, h2]
      omega

theorem count_clear (p q : Nat → Bool) (i : Nat)
    (hq : ∀ j, q j = (!decide (j = i) && p j)) (hp : p i = true) (n : Nat) :
    ((List.range n).filter q).length + (if i < n then 1 else 0) =
      ((List.range n).filter p).length := by
  induction n with
  | zero => simp
  | succ n ih =>
    rw [List.range_succ, List.filter_append, List.filter_append, List.length_append,
      List.length_append, ← ih]
    by_cases hin : n = i
    · subst hin
      simp [List.filter_cons, hq, hp]
    · have h1 : (i < n + 1) = (i < n) := by
        apply propext; omega
      have h2 : q n = p n := by rw [hq]; simp [hin]
      simp only [h1, List.filter_cons, List.filter_nil, h2]
      omega

theorem popcount_take (PS : Nat) (b : BitmapPage) (i : Nat)
    (hi : i < GetMaxSupportedSize PS) (hb : b.bit i = false) :
    (b.take i).popcount PS = b.popcount PS + 1 := by
  have h := count_set (fun j => b.bit j) (fun j => (b.take i).bit j) i
    (fun j => bit_take b i j) hb (GetMaxSupportedSize PS)
  simp only [hi, if_true] at h
  exact h

theorem popcount_clear (PS : Nat) (b : BitmapPage) (i : Nat)
    (h : (b.DeAllocatePage PS i).2 = true) (hi : i < GetMaxSupportedSize PS)
    (hb : b.bit i = true) :
    (b.DeAllocatePage PS i).1.popcount PS + 1 = b.popcount PS := by
  have h := count_clear (fun j => b.bit j) (fun j => (b.DeAllocatePage PS i).1.bit j) i
    (fun j => bit_clear PS b i j h) hb (GetMaxSupportedSize PS)
  simp only [hi, if_true] at h
  exact h

/-! ## The scanning loop and the two bitmap operations -/

theorem scan_some (PS : Nat) (b : BitmapPage) (n i j : Nat) (h : b.scan PS i n = some j) :
    i ≤ j ∧ j < i + n ∧ j < GetMaxSupportedSize PS ∧ b.bit j = false ∧
      ∀ k, i ≤ k → k < j → ¬ (k < GetMaxSupportedSize PS ∧ b.bit k = false) := by
  induction n generalizing i with
  | zero => simp [BitmapPage.scan] at h
  | succ n ih =>
    unfold BitmapPage.scan at h
    by_cases hf : b.IsPageFreeLow PS (i / 8) (i % 8) = true
    · simp only [hf, if_true, Option.some.injEq] at h
      subst h
      have := (isPageFreeLow_slot PS b i).1 hf
      exact ⟨le_refl _, by omega, this.1, this.2, fun k h1 h2 => by omega⟩
    · simp only [hf, if_false, Bool.false_eq_true] at h
      obtain ⟨h1, h2, h3, h4, h5⟩ := ih (i + 1) h
      refine ⟨by omega, by omega, h3, h4, fun k hk1 hk2 => ?_⟩
      by_cases hki : k = i
      · subst hki
        rwa [← isPageFreeLow_slot]
      · exact h5 k (by omega) hk2

theorem scan_none (PS : Nat) (b : BitmapPage) (n i : Nat) (h : b.scan PS i n = none) :
    ∀ k, i ≤ k → k < i + n → ¬ (k < GetMaxSupportedSize PS ∧ b.bit k = false) := by
  induction n generalizing i with
  | zero => intro k h1 h2; omega
  | succ n ih =>
    unfold BitmapPage.scan at h
    by_cases hf : b.IsPageFreeLow PS (i / 8) (i % 8) = true
    · simp [hf] at h
    · simp only [hf, if_false, Bool.false_eq_true] at h
      intro k hk1 hk2
      by_cases hki : k = i
      · subst hki
        rwa [← isPageFreeLow_slot]
      · exact ih (i + 1) h k (by omega) (by omega)

theorem bitmap_alloc_some (PS : Nat) (b : BitmapPage) (i : Nat)
    (h : (b.AllocatePage PS).2 = some i) :
    i < GetMaxSupportedSize PS ∧ b.bit i = false ∧ (b.AllocatePage PS).1 = b.take i := by
  unfold BitmapPage.AllocatePage at h ⊢
  by_cases h0 : b.page_allocated_ ≥ GetMaxSupportedSize PS
  · simp [h0] at h
  · simp only [h0, if_false] at h ⊢
    cases h1 : b.scan PS b.next_free_page_ (GetMaxSupportedSize PS - b.next_free_page_) with
    | some j =>
      simp only [h1, Option.some.injEq] at h ⊢
      subst h
      obtain ⟨_, _, h3, h4, _⟩ := scan_some PS b _ _ _ h1
      exact ⟨h3, h4, rfl⟩
    | none =>
      simp only [h1] at h ⊢
      cases h2 : b.scan PS 0 b.next_free_page_ with
      | some j =>
        simp only [h2, Option.some.injEq] at h ⊢
        subst h
        obtain ⟨_, _, h3, h4, _⟩ := scan_some PS b _ _ _ h2
        exact ⟨h3, h4, rfl⟩
      | none => simp [h2] at h

theorem bitmap_alloc_none (PS : Nat) (b : BitmapPage) (h : (b.AllocatePage PS).2 = none) :
    (b.AllocatePage PS).1 = b := by
  unfold BitmapPage.AllocatePage at h ⊢
  by_cases h0 : b.page_allocated_ ≥ GetMaxSupportedSize PS
  · simp [h0]
  · simp only [h0, if_false] at h ⊢
    cases h1 : b.scan PS b.next_free_page_ (GetMaxSupportedSize PS - b.next_free_page_) with
    | some j => simp [h1] at h
    | none =>
      simp only [h1] at h ⊢
      cases h2 : b.scan PS 0 b.next_free_page_ with
      | some j => simp [h2] at h
      | none => rfl

theorem bitmap_dealloc_true (PS : Nat) (b : BitmapPage) (i : Nat) :
    (b.DeAllocatePage PS i).2 = true ↔ i < GetMaxSupportedSize PS ∧ b.bit i = true := by
  unfold BitmapPage.DeAllocatePage
  by_cases h1 : i ≥ GetMaxSupportedSize PS
  · have : ¬ i < GetMaxSupportedSize PS := by omega
    simp [h1, this]
  · have hlt : i < GetMaxSupportedSize PS := by omega
    by_cases h2 : b.IsPageFreeLow PS (i / 8) (i % 8) = true
    · have := ((isPageFreeLow_slot PS b i).1 h2).2
      simp [h1, h2, this]
    · have : b.bit i = true := by
        rw [isPageFreeLow_slot] at h2
        cases hb : b.bit i
        · exact absurd ⟨hlt, hb⟩ h2
        · rfl
      simp [h1, h2, this, hlt]

theorem bitmap_dealloc_false (PS : Nat) (b : BitmapPage) (i : Nat)
    (h : (b.DeAllocatePage PS i).2 = false) : (b.DeAllocatePage PS i).1 = b := by
  unfold BitmapPage.DeAllocatePage at h ⊢
  by_cases h1 : i ≥ GetMaxSupportedSize PS
  · simp [h1]
  · by_cases h2 : b.IsPageFreeLow PS (i / 8) (i % 8) = true
    · simp [h1, h2]
    · simp [h1, h2] at h

/-! ## The allocator of the disk manager -/

theorem bitmapPageId_inj (PS e1 e2 : Nat) : bitmapPageId PS e1 = bitmapPageId PS e2 ↔ e1 = e2 := by
  unfold bitmapPageId
  constructor
  · intro h
    have h1 : e1 * (GetMaxSupportedSize PS + 1) = e2 * (GetMaxSupportedSize PS + 1) := by omega
    exact Nat.eq_of_mul_eq_mul_right (Nat.succ_pos _) h1
  · intro h; rw [h]

theorem maxSize_pos (PS : Nat) (h : 8 < PS) : 0 < GetMaxSupportedSize PS := by
  unfold GetMaxSupportedSize MAX_CHARS
  omega

theorem allocLoop_some (PS : Nat) (d : DiskManager) (n e : Nat) (r : DiskManager × Int)
    (h : d.allocLoop PS e n = some r) :
    ∃ e1 off, e ≤ e1 ∧ e1 < e + n ∧
      d.meta_data_.extent_used_page_ e1 < GetMaxSupportedSize PS ∧
      ((d.bitmapOf PS e1).AllocatePage PS).2 = some off ∧
      (∀ k, e ≤ k → k < e1 → ¬ d.serves PS k) ∧
      r.2 = ((e1 * GetMaxSupportedSize PS + off : Nat) : Int) ∧
      r.1.meta_data_ = d.meta_data_.setUsed e1 (d.meta_data_.extent_used_page_ e1 + 1)
        (d.meta_data_.num_allocated_pages_ + 1) ∧
      r.1.file_meta = r.1.meta_data_ ∧
      r.1.file = Function.update d.file (bitmapPageId PS e1) ((d.bitmapOf PS e1).take off) := by
  induction n generalizing e with
  | zero => simp [DiskManager.allocLoop] at h
  | succ n ih =>
    unfold DiskManager.allocLoop at h
    by_cases hu : d.meta_data_.extent_used_page_ e < GetMaxSupportedSize PS
    · simp only [hu, if_true] at h
      cases ha : ((d.ReadPhysicalPage (1 + e * (GetMaxSupportedSize PS + 1))).AllocatePage PS).2 with
      | some off =>
        simp only [ha, Option.some.injEq] at h
        subst h
        have ha1 : ((d.bitmapOf PS e).AllocatePage PS).2 = some off := ha
        refine ⟨e, off, le_refl _, by omega, hu, ha1, fun k h1 h2 => by omega, rfl, rfl, rfl, ?_⟩
        have := (bitmap_alloc_some PS _ off ha1).2.2
        show Function.update d.file _ ((d.bitmapOf PS e).AllocatePage PS).1 = _
        rw [this]; rfl
      | none =>
        simp only [ha] at h
        obtain ⟨e1, off, h1, h2, h3, h4, h5, h6⟩ := ih (e + 1) h
        refine ⟨e1, off, by omega, by omega, h3, h4, fun k hk1 hk2 => ?_, h6⟩
        by_cases hke : k = e
        · subst hke
          intro hs
          exact hs.2 ha
        · exact h5 k (by omega) hk2
    · simp only [hu, if_false] at h
      obtain ⟨e1, off, h1, h2, h3, h4, h5, h6⟩ := ih (e + 1) h
      refine ⟨e1, off, by omega, by omega, h3, h4, fun k hk1 hk2 => ?_, h6⟩
      by_cases hke : k = e
      · subst hke
        intro hs
        exact hu hs.1
      · exact h5 k (by omega) hk2

theorem allocLoop_none (PS : Nat) (d : DiskManager) (n e : Nat)
    (h : d.allocLoop PS e n = none) : ∀ k, e ≤ k → k < e + n → ¬ d.serves PS k := by
  induction n generalizing e with
  | zero => intro k h1 h2; omega
  | succ n ih =>
    unfold DiskManager.allocLoop at h
    intro k hk1 hk2
    by_cases hu : d.meta_data_.extent_used_page_ e < GetMaxSupportedSize PS
    · simp only [hu, if_true] at h
      cases ha : ((d.ReadPhysicalPage (1 + e * (GetMaxSupportedSize PS + 1))).AllocatePage PS).2 with
      | some off => simp [ha] at h
      | none =>
        simp only [ha] at h
        by_cases hke : k = e
        · subst hke
          intro hs
          exact hs.2 ha
        · exact ih (e + 1) h k (by omega) (by omega)
    · simp only [hu, if_false] at h
      by_cases hke : k = e
      · subst hke
        intro hs
        exact hu hs.1
      · exact ih (e + 1) h k (by omega) (by omega)

theorem zeroPage_alloc (PS : Nat) (h : 8 < PS) :
    zeroPage.AllocatePage PS = (zeroPage.take 0, some 0) := by
  have hM := maxSize_pos PS h
  unfold BitmapPage.AllocatePage
  have h0 : ¬ zeroPage.page_allocated_ ≥ GetMaxSupportedSize PS := by
    show ¬ 0 ≥ GetMaxSupportedSize PS
    omega
  simp only [h0, if_false]
  have hs : zeroPage.scan PS zeroPage.next_free_page_
      (GetMaxSupportedSize PS - zeroPage.next_free_page_) = some 0 := by
    show zeroPage.scan PS 0 (GetMaxSupportedSize PS - 0) = some 0
    obtain ⟨m, hm⟩ : ∃ m, GetMaxSupportedSize PS - 0 = m + 1 := ⟨GetMaxSupportedSize PS - 1, by omega⟩
    rw [hm]
    unfold BitmapPage.scan
    have : zeroPage.IsPageFreeLow PS (0 / 8) (0 % 8) = true := by
      rw [isPageFreeLow_slot]
      exact ⟨hM, by simp [BitmapPage.bit, zeroPage]⟩
    simp [this]
  rw [hs]

/-- The two ways `AllocatePage` ends: extent `e` below `num_extents_` serves the request
from its bitmap page, or no extent does and extent `num_extents_` is created. -/
theorem alloc_cases (PS : Nat) (h : 8 < PS) (d : DiskManager) :
    (∃ e off, e < d.meta_data_.num_extents_ ∧
      d.meta_data_.extent_used_page_ e < GetMaxSupportedSize PS ∧
      ((d.bitmapOf PS e).AllocatePage PS).2 = some off ∧
      (∀ k, k < e → ¬ d.serves PS k) ∧
      (d.AllocatePage PS).2 = ((e * GetMaxSupportedSize PS + off : Nat) : Int) ∧
      (d.AllocatePage PS).1.meta_data_ =
        d.meta_data_.setUsed e (d.meta_data_.extent_used_page_ e + 1)
          (d.meta_data_.num_allocated_pages_ + 1) ∧
      (d.AllocatePage PS).1.file_meta = (d.AllocatePage PS).1.meta_data_ ∧
      (d.AllocatePage PS).1.file =
        Function.update d.file (bitmapPageId PS e) ((d.bitmapOf PS e).take off)) ∨
    ((∀ k, k < d.meta_data_.num_extents_ → ¬ d.serves PS k) ∧
      (d.AllocatePage PS).2 = ((d.meta_data_.num_extents_ * GetMaxSupportedSize PS : Nat) : Int) ∧
      (d.AllocatePage PS).1.meta_data_ =
        ⟨d.meta_data_.num_allocated_pages_ + 1, d.meta_data_.num_extents_ + 1,
          Function.update d.meta_data_.extent_used_page_ d.meta_data_.num_extents_ 1⟩ ∧
      (d.AllocatePage PS).1.file_meta = (d.AllocatePage PS).1.meta_data_ ∧
      (d.AllocatePage PS).1.file =
        Function.update d.file (bitmapPageId PS d.meta_data_.num_extents_) (zeroPage.take 0)) := by
  cases hl : d.allocLoop PS 0 d.meta_data_.num_extents_ with
  | some r =>
    left
    obtain ⟨e1, off, h1, h2, h3, h4, h5, h6, h7, h8, h9⟩ := allocLoop_some PS d _ _ r hl
    have hr : d.AllocatePage PS = r := by
      unfold DiskManager.AllocatePage
      rw [hl]
    rw [hr]
    exact ⟨e1, off, by omega, h3, h4, fun k hk => h5 k (Nat.zero_le _) hk, h6, h7, h8, h9⟩
  | none =>
    right
    have hn := allocLoop_none PS d _ _ hl
    refine ⟨fun k hk => hn k (Nat.zero_le _) (by omega), ?_⟩
    unfold DiskManager.AllocatePage
    rw [hl]
    simp only [zeroPage_alloc PS h, Option.getD_some, Nat.add_zero]
    exact ⟨trivial, rfl, rfl, rfl⟩

theorem slot_div (M e off : Nat) (h : off < M) : (e * M + off) / M = e := by
  have hM : 0 < M := by omega
  rw [Nat.add_comm, Nat.add_mul_div_right _ _ hM, Nat.div_eq_of_lt h, Nat.zero_add]

theorem slot_mod (M e off : Nat) (h : off < M) : (e * M + off) % M = off := by
  rw [Nat.add_comm, Nat.add_mul_mod_self_right, Nat.mod_eq_of_lt h]

theorem slot_ne (M n e off : Nat) (hne : n ≠ e * M + off) :
    n / M ≠ e ∨ n % M ≠ off := by
  by_contra hc
  push_neg at hc
  apply hne
  have := Nat.div_add_mod n M
  rw [hc.1, hc.2] at this
  rw [← this, Nat.mul_comm]

theorem isPageFree_neg (PS : Nat) (d : DiskManager) (L : Int) (h : L < 0) :
    d.IsPageFree PS L = false := by
  unfold DiskManager.IsPageFree
  simp [h]

theorem isPageFree_nat (PS : Nat) (hPS : 8 < PS) (d : DiskManager) (n : Nat) :
    d.IsPageFree PS (n : Int) =
      (decide (d.meta_data_.num_extents_ ≤ n / GetMaxSupportedSize PS) ||
        !(d.bitmapOf PS (n / GetMaxSupportedSize PS)).bit (n % GetMaxSupportedSize PS)) := by
  have hM := maxSize_pos PS hPS
  unfold DiskManager.IsPageFree
  have h0 : ¬ ((n : Int) < 0) := by omega
  simp only [h0, if_false, Int.toNat_ofNat]
  by_cases he : n / GetMaxSupportedSize PS ≥ d.meta_data_.num_extents_
  · simp [he]
  · have he1 : ¬ d.meta_data_.num_extents_ ≤ n / GetMaxSupportedSize PS := by omega
    simp only [he, if_false, he1, decide_False, Bool.false_or]
    have hlt : n % GetMaxSupportedSize PS < GetMaxSupportedSize PS := Nat.mod_lt _ hM
    show (d.bitmapOf PS _).IsPageFree PS _ = _
    rw [Bool.eq_iff_iff, isPageFree_iff]
    simp [hlt]

theorem dealloc_neg (PS : Nat) (d : DiskManager) (L : Int) (h : L < 0) :
    d.DeAllocatePage PS L = d := by
  unfold DiskManager.DeAllocatePage
  simp [h]

theorem dealloc_miss (PS : Nat) (d : DiskManager) (n : Nat)
    (h : ¬ (n / GetMaxSupportedSize PS < d.meta_data_.num_extents_ ∧
      (d.bitmapOf PS (n / GetMaxSupportedSize PS)).bit (n % GetMaxSupportedSize PS) = true)) :
    d.DeAllocatePage PS (n : Int) = d := by
  unfold DiskManager.DeAllocatePage
  have h0 : ¬ ((n : Int) < 0) := by omega
  simp only [h0, if_false, Int.toNat_ofNat]
  by_cases he : n / GetMaxSupportedSize PS ≥ d.meta_data_.num_extents_
  · simp [he]
  · simp only [he, if_false]
    have hb : ¬ ((d.bitmapOf PS (n / GetMaxSupportedSize PS)).DeAllocatePage PS
        (n % GetMaxSupportedSize PS)).2 = true := by
      rw [bitmap_dealloc_true]
      intro hc
      exact h ⟨by omega, hc.2⟩
    have hb1 : ¬ ((d.ReadPhysicalPage (1 + n / GetMaxSupportedSize PS *
        (GetMaxSupportedSize PS + 1))).DeAllocatePage PS (n % GetMaxSupportedSize PS)).2 = true := hb
    simp only [hb1, if_false, Bool.false_eq_true]

theorem dealloc_hit (PS : Nat) (hPS : 8 < PS) (d : DiskManager) (n : Nat)
    (he : n / GetMaxSupportedSize PS < d.meta_data_.num_extents_)
    (hb : (d.bitmapOf PS (n / GetMaxSupportedSize PS)).bit (n % GetMaxSupportedSize PS) = true) :
    (d.DeAllocatePage PS (n : Int)).meta_data_ =
        d.meta_data_.setUsed (n / GetMaxSupportedSize PS)
          (d.meta_data_.extent_used_page_ (n / GetMaxSupportedSize PS) - 1)
          (d.meta_data_.num_allocated_pages_ - 1) ∧
      (d.DeAllocatePage PS (n : Int)).file_meta = (d.DeAllocatePage PS (n : Int)).meta_data_ ∧
      (d.DeAllocatePage PS (n : Int)).file =
        Function.update d.file (bitmapPageId PS (n / GetMaxSupportedSize PS))
          ((d.bitmapOf PS (n / GetMaxSupportedSize PS)).DeAllocatePage PS
            (n % GetMaxSupportedSize PS)).1 := by
  have hM := maxSize_pos PS hPS
  unfold DiskManager.DeAllocatePage
  have h0 : ¬ ((n : Int) < 0) := by omega
  have he1 : ¬ n / GetMaxSupportedSize PS ≥ d.meta_data_.num_extents_ := by omega
  have hd : ((d.bitmapOf PS (n / GetMaxSupportedSize PS)).DeAllocatePage PS
      (n % GetMaxSupportedSize PS)).2 = true := by
    rw [bitmap_dealloc_true]
    exact ⟨Nat.mod_lt _ hM, hb⟩
  have hd1 : ((d.ReadPhysicalPage (1 + n / GetMaxSupportedSize PS *
      (GetMaxSupportedSize PS + 1))).DeAllocatePage PS (n % GetMaxSupportedSize PS)).2 = true := hd
  simp only [h0, if_false, Int.toNat_ofNat, he1, hd1, if_true]
  exact ⟨rfl, rfl, rfl⟩

theorem bitmapOf_update (PS : Nat) (d d1 : DiskManager) (e k : Nat) (B : BitmapPage)
    (h : d1.file = Function.update d.file (bitmapPageId PS e) B) :
    d1.bitmapOf PS k = if k = e then B else d.bitmapOf PS k := by
  unfold DiskManager.bitmapOf
  rw [h]
  by_cases hk : k = e
  · subst hk; simp
  · have : bitmapPageId PS k ≠ bitmapPageId PS e := by
      rw [Ne, bitmapPageId_inj]; exact hk
    simp [hk, Function.update_noteq this]

theorem alloc_result (PS : Nat) (hPS : 8 < PS) (d : DiskManager) :
    ∃ e off B, off < GetMaxSupportedSize PS ∧ B.bit off = false ∧
      (d.AllocatePage PS).2 = ((e * GetMaxSupportedSize PS + off : Nat) : Int) ∧
      ((e < d.meta_data_.num_extents_ ∧ B = d.bitmapOf PS e ∧
          (d.AllocatePage PS).1.meta_data_.num_extents_ = d.meta_data_.num_extents_) ∨
        (e = d.meta_data_.num_extents_ ∧ B = zeroPage ∧
          (d.AllocatePage PS).1.meta_data_.num_extents_ = d.meta_data_.num_extents_ + 1)) ∧
      (d.AllocatePage PS).1.file = Function.update d.file (bitmapPageId PS e) (B.take off) := by
  rcases alloc_cases PS hPS d with ⟨e, off, h1, _, h3, _, h5, h6, _, h8⟩ | ⟨_, h2, h3, _, h5⟩
  · obtain ⟨ha, hb, _⟩ := bitmap_alloc_some PS _ off h3
    exact ⟨e, off, d.bitmapOf PS e, ha, hb, h5, Or.inl ⟨h1, rfl, by rw [h6]; rfl⟩, h8⟩
  · refine ⟨d.meta_data_.num_extents_, 0, zeroPage, maxSize_pos PS hPS, ?_, ?_,
      Or.inr ⟨rfl, rfl, by rw [h3]⟩, h5⟩
    · simp [BitmapPage.bit, zeroPage]
    · rw [h2]; rfl

theorem alloc_free_before (PS : Nat) (hPS : 8 < PS) (d : DiskManager) :
    d.IsPageFree PS (d.AllocatePage PS).2 = true := by
  obtain ⟨e, off, B, h1, h2, h3, h4, _⟩ := alloc_result PS hPS d
  rw [h3, isPageFree_nat PS hPS, slot_div _ _ _ h1, slot_mod _ _ _ h1]
  rcases h4 with ⟨_, hB, _⟩ | ⟨he, _, _⟩
  · rw [← hB, h2]; simp
  · simp [he]

theorem alloc_not_free_after (PS : Nat) (hPS : 8 < PS) (d : DiskManager) :
    (d.AllocatePage PS).1.IsPageFree PS (d.AllocatePage PS).2 = false := by
  obtain ⟨e, off, B, h1, h2, h3, h4, h5⟩ := alloc_result PS hPS d
  rw [h3, isPageFree_nat PS hPS, slot_div _ _ _ h1, slot_mod _ _ _ h1,
    bitmapOf_update PS d _ e e _ h5, if_pos rfl, bit_take]
  have : ¬ (d.AllocatePage PS).1.meta_data_.num_extents_ ≤ e := by
    rcases h4 with ⟨he, _, hn⟩ | ⟨he, _, hn⟩ <;> omega
  simp [this]

theorem alloc_others (PS : Nat) (hPS : 8 < PS) (d : DiskManager) (L : Int)
    (hL : L ≠ (d.AllocatePage PS).2) :
    (d.AllocatePage PS).1.IsPageFree PS L = d.IsPageFree PS L := by
  by_cases hneg : L < 0
  · rw [isPageFree_neg _ _ _ hneg, isPageFree_neg _ _ _ hneg]
  · obtain ⟨n, rfl⟩ := Int.eq_ofNat_of_zero_le (by omega : 0 ≤ L)
    obtain ⟨e, off, B, h1, h2, h3, h4, h5⟩ := alloc_result PS hPS d
    rw [h3] at hL
    have hn : n ≠ e * GetMaxSupportedSize PS + off := fun hc => hL (by rw [hc])
    rw [isPageFree_nat PS hPS, isPageFree_nat PS hPS, bitmapOf_update PS d _ e _ _ h5]
    by_cases hk : n / GetMaxSupportedSize PS = e
    · rw [if_pos hk, bit_take]
      have hoff : n % GetMaxSupportedSize PS ≠ off := by
        rcases slot_ne _ _ _ _ hn with h | h
        · exact absurd hk h
        · exact h
      rcases h4 with ⟨he, hB, hne⟩ | ⟨he, hB, hne⟩
      · rw [hne, hB]; simp [hoff, hk]
      · rw [hne, hB, hk, he]
        simp [hoff, BitmapPage.bit, zeroPage]
    · rw [if_neg hk]
      rcases h4 with ⟨he, hB, hne⟩ | ⟨he, hB, hne⟩
      · rw [hne]
      · rw [hne]
        have : (d.meta_data_.num_extents_ + 1 ≤ n / GetMaxSupportedSize PS) =
            (d.meta_data_.num_extents_ ≤ n / GetMaxSupportedSize PS) := by
          apply propext; omega
        simp only [this]

theorem dealloc_others (PS : Nat) (hPS : 8 < PS) (d : DiskManager) (X L : Int) (hL : L ≠ X) :
    (d.DeAllocatePage PS X).IsPageFree PS L = d.IsPageFree PS L := by
  by_cases hneg : L < 0
  · rw [isPageFree_neg _ _ _ hneg, isPageFree_neg _ _ _ hneg]
  · obtain ⟨n, rfl⟩ := Int.eq_ofNat_of_zero_le (by omega : 0 ≤ L)
    by_cases hX : X < 0
    · rw [dealloc_neg _ _ _ hX]
    · obtain ⟨x, rfl⟩ := Int.eq_ofNat_of_zero_le (by omega : 0 ≤ X)
      have hM := maxSize_pos PS hPS
      have hnx : n ≠ x := fun hc => hL (by rw [hc])
      by_cases hh : x / GetMaxSupportedSize PS < d.meta_data_.num_extents_ ∧
          (d.bitmapOf PS (x / GetMaxSupportedSize PS)).bit (x % GetMaxSupportedSize PS) = true
      · obtain ⟨hm, _, hf⟩ := dealloc_hit PS hPS d x hh.1 hh.2
        have hd : ((d.bitmapOf PS (x / GetMaxSupportedSize PS)).DeAllocatePage PS
            (x % GetMaxSupportedSize PS)).2 = true := by
          rw [bitmap_dealloc_true]
          exact ⟨Nat.mod_lt _ hM, hh.2⟩
        rw [isPageFree_nat PS hPS, isPageFree_nat PS hPS, bitmapOf_update PS d _ _ _ _ hf, hm]
        by_cases hk : n / GetMaxSupportedSize PS = x / GetMaxSupportedSize PS
        · rw [if_pos hk, bit_clear PS _ _ _ hd]
          have hoff : n % GetMaxSupportedSize PS ≠ x % GetMaxSupportedSize PS := by
            intro hc
            apply hnx
            rw [← Nat.div_add_mod n (GetMaxSupportedSize PS),
              ← Nat.div_add_mod x (GetMaxSupportedSize PS), hk, hc]
          simp [hoff, hk, DiskFileMetaPage.setUsed]
        · rw [if_neg hk]
          simp [DiskFileMetaPage.setUsed]
      · rw [dealloc_miss PS d x hh]

theorem dealloc_makes_free (PS : Nat) (hPS : 8 < PS) (d : DiskManager) (L : Int)
    (h0 : 0 ≤ L) (hf : d.IsPageFree PS L = false) :
    (d.DeAllocatePage PS L).IsPageFree PS L = true := by
  obtain ⟨n, rfl⟩ := Int.eq_ofNat_of_zero_le h0
  have hM := maxSize_pos PS hPS
  rw [isPageFree_nat PS hPS] at hf
  simp only [Bool.or_eq_false_iff, decide_eq_false_iff_not, Bool.not_eq_false'] at hf
  obtain ⟨hm, _, hfile⟩ := dealloc_hit PS hPS d n (by omega) hf.2
  have hd : ((d.bitmapOf PS (n / GetMaxSupportedSize PS)).DeAllocatePage PS
      (n % GetMaxSupportedSize PS)).2 = true := by
    rw [bitmap_dealloc_true]
    exact ⟨Nat.mod_lt _ hM, hf.2⟩
  rw [isPageFree_nat PS hPS, bitmapOf_update PS d _ _ _ _ hfile, if_pos rfl,
    bit_clear PS _ _ _ hd]
  simp

/-! ## Meta accounting -/

theorem sum_update_range (f : Nat → Nat) (n e v : Nat) (h : e < n) :
    (∑ k in Finset.range n, Function.update f e v k) + f e = (∑ k in Finset.range n, f k) + v := by
  have hm : e ∈ Finset.range n := Finset.mem_range.2 h
  rw [Finset.sum_update_of_mem hm, Finset.sdiff_singleton_eq_erase,
    ← Finset.add_sum_erase _ f hm]
  omega

theorem sum_update_out (f : Nat → Nat) (n e v : Nat) (h : n ≤ e) :
    (∑ k in Finset.range n, Function.update f e v k) = ∑ k in Finset.range n, f k := by
  apply Finset.sum_congr rfl
  intro k hk
  have : k ≠ e := by
    have := Finset.mem_range.1 hk
    omega
  rw [Function.update_noteq this]

theorem popcount_zeroPage (PS : Nat) : zeroPage.popcount PS = 0 := by
  unfold BitmapPage.popcount
  simp [zeroPage]

theorem consistent_alloc (PS : Nat) (hPS : 8 < PS) (d : DiskManager)
    (hc : d.Consistent PS) : (d.AllocatePage PS).1.Consistent PS := by
  obtain ⟨hsum, hpop⟩ := hc
  rcases alloc_cases PS hPS d with ⟨e, off, h1, _, h3, _, _, h6, _, h8⟩ | ⟨_, _, h3, _, h5⟩
  · obtain ⟨ha, hb, _⟩ := bitmap_alloc_some PS _ off h3
    constructor
    · rw [h6]
      show d.meta_data_.num_allocated_pages_ + 1 =
        ∑ k in Finset.range d.meta_data_.num_extents_,
          Function.update d.meta_data_.extent_used_page_ e
            (d.meta_data_.extent_used_page_ e + 1) k
      have := sum_update_range d.meta_data_.extent_used_page_ _ e
        (d.meta_data_.extent_used_page_ e + 1) h1
      omega
    · intro k hk
      rw [h6] at hk ⊢
      rw [bitmapOf_update PS d _ e k _ h8]
      show Function.update d.meta_data_.extent_used_page_ e _ k = _
      by_cases hke : k = e
      · subst hke
        rw [Function.update_same, if_pos rfl, popcount_take PS _ _ ha hb, hpop k h1]
      · rw [Function.update_noteq hke, if_neg hke]
        exact hpop k hk
  · constructor
    · rw [h3]
      show d.meta_data_.num_allocated_pages_ + 1 =
        ∑ k in Finset.range (d.meta_data_.num_extents_ + 1),
          Function.update d.meta_data_.extent_used_page_ d.meta_data_.num_extents_ 1 k
      rw [Finset.sum_range_succ, Function.update_same, sum_update_out _ _ _ _ (le_refl _), hsum]
    · intro k hk
      rw [h3] at hk ⊢
      rw [bitmapOf_update PS d _ _ k _ h5]
      show Function.update d.meta_data_.extent_used_page_ d.meta_data_.num_extents_ 1 k = _
      by_cases hke : k = d.meta_data_.num_extents_
      · rw [hke, Function.update_same, if_pos rfl, popcount_take PS _ _ (maxSize_pos PS hPS)
          (by simp [BitmapPage.bit, zeroPage]), popcount_zeroPage]
      · rw [Function.update_noteq hke, if_neg hke]
        exact hpop k (by
          have : k < d.meta_data_.num_extents_ + 1 := hk
          omega)

theorem consistent_dealloc (PS : Nat) (hPS : 8 < PS) (d : DiskManager) (X : Int)
    (hc : d.Consistent PS) : (d.DeAllocatePage PS X).Consistent PS := by
  by_cases hX : X < 0
  · rw [dealloc_neg _ _ _ hX]; exact hc
  · obtain ⟨x, rfl⟩ := Int.eq_ofNat_of_zero_le (by omega : 0 ≤ X)
    have hM := maxSize_pos PS hPS
    by_cases hh : x / GetMaxSupportedSize PS < d.meta_data_.num_extents_ ∧
        (d.bitmapOf PS (x / GetMaxSupportedSize PS)).bit (x % GetMaxSupportedSize PS) = true
    · obtain ⟨hsum, hpop⟩ := hc
      obtain ⟨hm, _, hf⟩ := dealloc_hit PS hPS d x hh.1 hh.2
      have hd : ((d.bitmapOf PS (x / GetMaxSupportedSize PS)).DeAllocatePage PS
          (x % GetMaxSupportedSize PS)).2 = true := by
        rw [bitmap_dealloc_true]
        exact ⟨Nat.mod_lt _ hM, hh.2⟩
      have hp := popcount_clear PS _ _ hd (Nat.mod_lt _ hM) hh.2
      have hu := hpop _ hh.1
      constructor
      · rw [hm]
        show d.meta_data_.num_allocated_pages_ - 1 =
          ∑ k in Finset.range d.meta_data_.num_extents_,
            Function.update d.meta_data_.extent_used_page_ (x / GetMaxSupportedSize PS)
              (d.meta_data_.extent_used_page_ (x / GetMaxSupportedSize PS) - 1) k
        have := sum_update_range d.meta_data_.extent_used_page_ _ (x / GetMaxSupportedSize PS)
          (d.meta_data_.extent_used_page_ (x / GetMaxSupportedSize PS) - 1) hh.1
        omega
      · intro k hk
        rw [hm] at hk ⊢
        rw [bitmapOf_update PS d _ _ k _ hf]
        show Function.update d.meta_data_.extent_used_page_ (x / GetMaxSupportedSize PS) _ k = _
        by_cases hke : k = x / GetMaxSupportedSize PS
        · rw [hke, Function.update_same, if_pos rfl]
          omega
        · rw [Function.update_noteq hke, if_neg hke]
          exact hpop k hk
    · rw [dealloc_miss PS d x hh]; exact hc

theorem consistent_empty (PS : Nat) : DiskManager.empty.Consistent PS := by
  constructor
  · simp [DiskManager.empty]
  · intro e he
    simp [DiskManager.empty] at he

theorem dealloc_of_free (PS : Nat) (hPS : 8 < PS) (d : DiskManager) (X : Int)
    (h : X < 0 ∨ d.IsPageFree PS X = true) : d.DeAllocatePage PS X = d := by
  by_cases hX : X < 0
  · exact dealloc_neg _ _ _ hX
  · obtain ⟨x, rfl⟩ := Int.eq_ofNat_of_zero_le (by omega : 0 ≤ X)
    rcases h with h | h
    · exact absurd h hX
    · apply dealloc_miss
      rw [isPageFree_nat PS hPS] at h
      intro hc
      rw [hc.2] at h
      simp at h
      omega

/-! ## The page table -/

theorem ptFind_erase_self (t : List (Int × Nat)) (L : Int) : ptFind (ptErase t L) L = none := by
  induction t with
  | nil => rfl
  | cons e rest ih =>
    simp only [ptErase, ne_eq, decide_not] at ih ⊢
    by_cases h : e.1 = L
    · simp [List.filter_cons, h, ih]
    · simp [List.filter_cons, h, ptFind, ih]

theorem ptFind_erase_ne (t : List (Int × Nat)) (L L1 : Int) (hne : L1 ≠ L) :
    ptFind (ptErase t L) L1 = ptFind t L1 := by
  induction t with
  | nil => rfl
  | cons e rest ih =>
    simp only [ptErase, ne_eq, decide_not] at ih ⊢
    by_cases h : e.1 = L
    · have h1 : ¬ e.1 = L1 := fun hc => hne (by rw [← hc, h])
      have h2 : ¬ L = L1 := fun hc => hne hc.symm
      simp [List.filter_cons, h, ptFind, h2, ih]
    · by_cases h1 : e.1 = L1
      · have h2 : ¬ L1 = L := hne
        simp [List.filter_cons, ptFind, h1, h2]
      · simp [List.filter_cons, h, ptFind, h1, ih]

theorem ptFind_set_self (t : List (Int × Nat)) (L : Int) (f : Nat) :
    ptFind (ptSet t L f) L = some f := by
  simp [ptSet, ptFind]

theorem ptFind_set_ne (t : List (Int × Nat)) (L L1 : Int) (f : Nat) (hne : L1 ≠ L) :
    ptFind (ptSet t L f) L1 = ptFind t L1 := by
  unfold ptSet
  have h1 : ¬ L = L1 := fun hc => hne hc.symm
  simp only [ptFind, h1, if_false]
  exact ptFind_erase_ne t L L1 hne

/-! ## The replacer -/

theorem pin_spec (r : LRUReplacer) (f : Nat) (h : r.Sync) :
    (r.Pin f).Sync ∧ (r.Pin f).lru_list_ = r.lru_list_.erase f ∧
      (r.Pin f).max_size_ = r.max_size_ := by
  unfold LRUReplacer.Pin
  by_cases hf : f ∉ r.lru_map_
  · have hl : f ∉ r.lru_list_ := fun hc => hf ((h.2 f).2 hc)
    rw [if_pos hf]
    exact ⟨h, (List.erase_of_not_mem hl).symm, rfl⟩
  · rw [if_neg hf]
    refine ⟨⟨h.1.erase f, fun g => ?_⟩, rfl, rfl⟩
    show g ∈ r.lru_map_.filter (fun k => k ≠ f) ↔ g ∈ r.lru_list_.erase f
    rw [h.1.mem_erase_iff, List.mem_filter, h.2 g]
    simp [and_comm]

theorem victim_none (r : LRUReplacer) (h : r.lru_list_ = []) : r.Victim = (r, none) := by
  unfold LRUReplacer.Victim
  simp [h]

theorem victim_some (r : LRUReplacer) (l : List Nat) (f : Nat) (hs : r.Sync)
    (h : r.lru_list_ = l ++ [f]) :
    r.Victim.2 = some f ∧ r.Victim.1.lru_list_ = l ∧ r.Victim.1.max_size_ = r.max_size_ ∧
      r.Victim.1.Sync := by
  unfold LRUReplacer.Victim
  have hg : r.lru_list_.getLast? = some f := by rw [h]; simp
  rw [hg]
  have hd : r.lru_list_.dropLast = l := by rw [h]; simp
  have hnd : (l ++ [f]).Nodup := h ▸ hs.1
  have hfl : f ∉ l := by
    intro hc
    have := List.nodup_append.1 hnd
    exact this.2.2 hc (List.mem_singleton_self f)
  refine ⟨rfl, hd, rfl, ?_, fun g => ?_⟩
  · show r.lru_list_.dropLast.Nodup
    rw [hd]
    exact (List.nodup_append.1 hnd).1
  · show g ∈ r.lru_map_.filter (fun k => k ≠ f) ↔ g ∈ r.lru_list_.dropLast
    rw [hd, List.mem_filter, hs.2 g, h]
    simp only [List.mem_append, List.mem_singleton, ne_eq, decide_not, Bool.not_eq_eq_eq_not,
      Bool.not_true, decide_eq_false_iff_not]
    constructor
    · rintro ⟨h1 | h1, h2⟩
      · exact h1
      · exact absurd h1 h2
    · intro h1
      exact ⟨Or.inl h1, fun hc => hfl (hc ▸ h1)⟩

theorem unpin_spec (r : LRUReplacer) (f : Nat) (hs : r.Sync) (hf : f ∉ r.lru_list_)
    (hlen : r.lru_list_.length < r.max_size_) :
    (r.Unpin f).Sync ∧ (r.Unpin f).lru_list_ = f :: r.lru_list_ ∧
      (r.Unpin f).max_size_ = r.max_size_ := by
  unfold LRUReplacer.Unpin
  have hm : ¬ f ∈ r.lru_map_ := fun hc => hf ((hs.2 f).1 hc)
  have hl : ¬ r.lru_list_.length ≥ r.max_size_ := by omega
  rw [if_neg hm, if_neg hl]
  refine ⟨⟨List.nodup_cons.2 ⟨hf, hs.1⟩, fun g => ?_⟩, rfl, rfl⟩
  show g ∈ f :: r.lru_map_ ↔ g ∈ f :: r.lru_list_
  simp [hs.2 g]

theorem nodup_length_le (l : List Nat) (N : Nat) (hn : l.Nodup) (hb : ∀ f ∈ l, f < N) :
    l.length ≤ N := by
  have h1 : l.toFinset ⊆ Finset.range N := by
    intro x hx
    exact Finset.mem_range.2 (hb x (List.mem_toFinset.1 hx))
  have h2 := Finset.card_le_card h1
  rwa [List.toFinset_card_of_nodup hn, Finset.card_range] at h2

theorem nodup_length_lt (l : List Nat) (N f : Nat) (hn : l.Nodup) (hb : ∀ g ∈ l, g < N)
    (hf : f ∉ l) (hfN : f < N) : l.length < N := by
  have := nodup_length_le (f :: l) N (List.nodup_cons.2 ⟨hf, hn⟩) (by
    intro g hg
    rcases List.mem_cons.1 hg with h | h
    · rw [h]; exact hfN
    · exact hb g h)
  simpa using this

/-! ## The outcomes of the buffer pool operations -/

theorem fetch_cases (PS : Nat) (s s1 : BufferPoolManager) (L : Int) (r : Option Nat)
    (h : s.FetchPage PS L = some (s1, r)) :
    (∃ f, ptFind s.page_table_ L = some f ∧ r = some f ∧
      s1 = { s with
             pages_ := Function.update s.pages_ f
               { s.pages_ f with pin_count_ := (s.pages_ f).pin_count_ + 1 }
             replacer_ := s.replacer_.Pin f }) ∨
    (ptFind s.page_table_ L = none ∧ s.TryToFindFreePage.2 = none ∧ r = none ∧
      s1 = s.TryToFindFreePage.1) ∨
    (ptFind s.page_table_ L = none ∧ ∃ f d2, s.TryToFindFreePage.2 = some f ∧ 0 ≤ L ∧
      r = some f ∧
      (if (s.TryToFindFreePage.1.pages_ f).is_dirty_ then
          s.TryToFindFreePage.1.disk_manager_.WritePage PS
            (s.TryToFindFreePage.1.pages_ f).page_id_ (s.TryToFindFreePage.1.pages_ f).data_
        else some s.TryToFindFreePage.1.disk_manager_) = some d2 ∧
      s1 = s.TryToFindFreePage.1.install f L
        (d2.ReadPhysicalPage (MapPageId PS L.toNat)) d2) := by
  unfold BufferPoolManager.FetchPage at h
  cases hf : ptFind s.page_table_ L with
  | some f =>
    left
    simp only [hf, Option.some.injEq, Prod.mk.injEq] at h
    exact ⟨f, rfl, h.2.symm, h.1.symm⟩
  | none =>
    right
    simp only [hf] at h
    rcases hT : s.TryToFindFreePage with ⟨t, _ | f⟩
    · left
      simp only [hT, Option.some.injEq, Prod.mk.injEq] at h
      exact ⟨rfl, rfl, h.2.symm, h.1.symm⟩
    · right
      simp only [hT] at h
      refine ⟨rfl, f, ?_⟩
      cases hw : (if (t.pages_ f).is_dirty_ then
          t.disk_manager_.WritePage PS (t.pages_ f).page_id_ (t.pages_ f).data_
          else some t.disk_manager_) with
      | none => simp [hw] at h
      | some d2 =>
        simp only [hw, Option.some_bind] at h
        unfold DiskManager.ReadPage at h
        by_cases hL : 0 ≤ L
        · simp only [hL, if_true, Option.some_bind, Option.some.injEq, Prod.mk.injEq] at h
          exact ⟨d2, rfl, hL, h.2.symm, rfl, h.1.symm⟩
        · simp [hL] at h

theorem new_cases (PS : Nat) (s s1 : BufferPoolManager) (L : Int) (r : Option Nat)
    (h : s.NewPage PS = some (s1, L, r)) :
    L = (s.disk_manager_.AllocatePage PS).2 ∧
    ((({ s with disk_manager_ := (s.disk_manager_.AllocatePage PS).1 } :
          BufferPoolManager).TryToFindFreePage.2 = none ∧ r = none ∧
        s1 = { ({ s with disk_manager_ := (s.disk_manager_.AllocatePage PS).1 } :
                  BufferPoolManager).TryToFindFreePage.1 with
               disk_manager_ := (({ s with disk_manager_ := (s.disk_manager_.AllocatePage PS).1 } :
                  BufferPoolManager).TryToFindFreePage.1).disk_manager_.DeAllocatePage PS L }) ∨
     (∃ f d2 t, ({ s with disk_manager_ := (s.disk_manager_.AllocatePage PS).1 } :
          BufferPoolManager).TryToFindFreePage = (t, some f) ∧ r = some f ∧
        (if (t.pages_ f).page_id_ ≠ INVALID_PAGE_ID ∧ (t.pages_ f).is_dirty_ = true then
            t.disk_manager_.WritePage PS (t.pages_ f).page_id_ (t.pages_ f).data_
          else some t.disk_manager_) = some d2 ∧
        s1 = t.install f L zeroPage d2)) := by
  unfold BufferPoolManager.NewPage at h
  simp only at h
  rcases hT : ({ s with disk_manager_ := (s.disk_manager_.AllocatePage PS).1 } :
      BufferPoolManager).TryToFindFreePage with ⟨t, _ | f⟩
  · simp only [hT, Option.some.injEq, Prod.mk.injEq] at h
    exact ⟨h.2.1.symm, Or.inl ⟨rfl, h.2.2.symm, by rw [← h.1, ← h.2.1]⟩⟩
  · simp only [hT] at h
    by_cases hv : (t.pages_ f).page_id_ ≠ INVALID_PAGE_ID
    · by_cases hd : (t.pages_ f).is_dirty_ = true
      · simp only [hv, hd, ne_eq, not_false_eq_true, if_true] at h
        cases hw : t.disk_manager_.WritePage PS (t.pages_ f).page_id_ (t.pages_ f).data_ with
        | none => simp [hw] at h
        | some d2 =>
          simp only [hw, Option.map_some', Option.some_bind, Option.some.injEq,
            Prod.mk.injEq] at h
          refine ⟨h.2.1.symm, Or.inr ⟨f, d2, t, rfl, h.2.2.symm, ?_, ?_⟩⟩
          · simp [hv, hd, hw]
          · rw [← h.1, ← h.2.1]
            unfold BufferPoolManager.install
            simp [hv]
      · simp only [hv, hd, ne_eq, not_false_eq_true, if_true, if_false, Bool.false_eq_true,
          Option.map_some', Option.some_bind, Option.some.injEq, Prod.mk.injEq] at h
        refine ⟨h.2.1.symm, Or.inr ⟨f, t.disk_manager_, t, rfl, h.2.2.symm, ?_, ?_⟩⟩
        · simp [hd]
        · rw [← h.1, ← h.2.1]
          unfold BufferPoolManager.install
          simp [hv]
    · simp only [hv, if_false, Option.some_bind, Option.some.injEq, Prod.mk.injEq] at h
      refine ⟨h.2.1.symm, Or.inr ⟨f, t.disk_manager_, t, rfl, h.2.2.symm, ?_, ?_⟩⟩
      · simp [hv]
      · rw [← h.1, ← h.2.1]
        unfold BufferPoolManager.install
        simp [hv]

/-! ## The invariant of the buffer pool -/

theorem inv_new (N : Nat) (d : DiskManager) : PoolInv (BufferPoolManager.new N d) where
  tbl := by intro L f h; simp [BufferPoolManager.new, ptFind] at h
  free := by
    intro f hf
    simp only [BufferPoolManager.new, List.mem_range] at hf
    exact ⟨rfl, rfl, rfl, hf⟩
  free_nodup := List.nodup_range N
  repl := by intro f hf; simp [BufferPoolManager.new] at hf
  sync := ⟨List.nodup_nil, fun f => by simp [BufferPoolManager.new]⟩
  max := rfl
  pin_nonneg := by intro f; simp [BufferPoolManager.new, Page.init]
  dirty_valid := by intro f h; simp [BufferPoolManager.new, Page.init] at h

theorem victim_snd (r : LRUReplacer) : r.Victim.2 = r.lru_list_.getLast? := by
  unfold LRUReplacer.Victim
  cases r.lru_list_.getLast? <;> rfl

theorem tryFind_nil (s : BufferPoolManager) (hfl : s.free_list_ = []) :
    s.TryToFindFreePage =
      ({ s with replacer_ := s.replacer_.Victim.1 }, s.replacer_.Victim.2) := by
  unfold BufferPoolManager.TryToFindFreePage
  split
  · rename_i g rest heq
    rw [hfl] at heq
    cases heq
  · rfl

theorem tryFind_cons (s : BufferPoolManager) (g : Nat) (rest : List Nat)
    (hfl : s.free_list_ = g :: rest) :
    s.TryToFindFreePage = ({ s with free_list_ := rest }, some g) := by
  unfold BufferPoolManager.TryToFindFreePage
  split
  · rename_i g1 rest1 heq
    rw [hfl] at heq
    cases heq
    rfl
  · rename_i heq
    rw [hfl] at heq
    cases heq

theorem tryFind_none (s : BufferPoolManager) (h : s.TryToFindFreePage.2 = none) :
    s.TryToFindFreePage.1 = s ∧ s.free_list_ = [] ∧ s.replacer_.lru_list_ = [] := by
  cases hfl : s.free_list_ with
  | cons f rest =>
    rw [tryFind_cons s f rest hfl] at h
    cases h
  | nil =>
    rw [tryFind_nil s hfl] at h ⊢
    have h1 : s.replacer_.Victim.2 = none := h
    rw [victim_snd, List.getLast?_eq_none_iff] at h1
    refine ⟨?_, rfl, h1⟩
    show ({ s with replacer_ := s.replacer_.Victim.1 } : BufferPoolManager) = s
    rw [victim_none _ h1]

theorem tryFind_some (s t : BufferPoolManager) (f : Nat) (hI : PoolInv s)
    (h : s.TryToFindFreePage = (t, some f)) :
    PoolInv t ∧ t.pages_ = s.pages_ ∧ t.page_table_ = s.page_table_ ∧
      t.disk_manager_ = s.disk_manager_ ∧ t.pool_size_ = s.pool_size_ ∧
      f < s.pool_size_ ∧ (s.pages_ f).pin_count_ = 0 ∧ f ∉ t.free_list_ ∧
      ((s.free_list_ = f :: t.free_list_ ∧ t.replacer_ = s.replacer_) ∨
        (s.free_list_ = [] ∧ t.free_list_ = [] ∧
          s.replacer_.lru_list_ = t.replacer_.lru_list_ ++ [f])) := by
  cases hfl : s.free_list_ with
  | cons g rest =>
    rw [tryFind_cons s g rest hfl] at h
    simp only [Prod.mk.injEq, Option.some.injEq] at h
    obtain ⟨ht, hg⟩ := h
    subst hg
    subst ht
    have hnd : (g :: rest).Nodup := hfl ▸ hI.free_nodup
    have hmem : g ∈ s.free_list_ := by rw [hfl]; exact List.mem_cons_self _ _
    refine ⟨?_, rfl, rfl, rfl, rfl, (hI.free g hmem).2.2.2, (hI.free g hmem).2.1,
      (List.nodup_cons.1 hnd).1, Or.inl ⟨rfl, rfl⟩⟩
    exact
      { tbl := hI.tbl
        free := fun x hx => hI.free x (by rw [hfl]; exact List.mem_cons_of_mem _ hx)
        free_nodup := (List.nodup_cons.1 hnd).2
        repl := hI.repl
        sync := hI.sync
        max := hI.max
        pin_nonneg := hI.pin_nonneg
        dirty_valid := hI.dirty_valid }
  | nil =>
    rw [tryFind_nil s hfl] at h
    simp only [Prod.mk.injEq] at h
    obtain ⟨ht, hv⟩ := h
    rw [victim_snd, List.getLast?_eq_some_iff] at hv
    obtain ⟨l, hl⟩ := hv
    obtain ⟨_, h2, h3, h4⟩ := victim_some s.replacer_ l f hI.sync hl
    subst ht
    have hmem : f ∈ s.replacer_.lru_list_ := by rw [hl]; simp
    refine ⟨?_, rfl, rfl, rfl, rfl, (hI.repl f hmem).2, (hI.repl f hmem).1, ?_,
      Or.inr ⟨rfl, hfl, ?_⟩⟩
    · exact
        { tbl := hI.tbl
          free := hI.free
          free_nodup := hI.free_nodup
          repl := fun x hx => hI.repl x (by
            have hx1 : x ∈ s.replacer_.Victim.1.lru_list_ := hx
            rw [h2] at hx1
            rw [hl]
            exact List.mem_append_left _ hx1)
          sync := h4
          max := h3.trans hI.max
          pin_nonneg := hI.pin_nonneg
          dirty_valid := hI.dirty_valid }
    · show f ∉ s.free_list_
      rw [hfl]; simp
    · show s.replacer_.lru_list_ = s.replacer_.Victim.1.lru_list_ ++ [f]
      rw [h2, hl]

theorem install_inv (t : BufferPoolManager) (f : Nat) (L : Int) (data : BitmapPage)
    (d : DiskManager) (hI : PoolInv t) (hf : f < t.pool_size_) (hfree : f ∉ t.free_list_)
    (hL : 0 ≤ L) : PoolInv (t.install f L data d) := by
  obtain ⟨hs, hlist, hmax⟩ := pin_spec t.replacer_ f hI.sync
  have hpg : ∀ g, g ≠ f → (t.install f L data d).pages_ g = t.pages_ g := fun g hg => by
    show Function.update t.pages_ f _ g = _
    rw [Function.update_noteq hg]
  have hpf : (t.install f L data d).pages_ f = ⟨L, 1, false, data⟩ := by
    show Function.update t.pages_ f _ f = _
    rw [Function.update_same]
  refine
    { tbl := ?_, free := ?_, free_nodup := hI.free_nodup, repl := ?_, sync := hs
      max := hmax.trans hI.max, pin_nonneg := ?_, dirty_valid := ?_ }
  · intro L1 g hg
    have hg1 : ptFind (ptSet (if (t.pages_ f).page_id_ ≠ INVALID_PAGE_ID then
        ptErase t.page_table_ (t.pages_ f).page_id_ else t.page_table_) L f) L1 = some g := hg
    by_cases hLL : L1 = L
    · subst hLL
      rw [ptFind_set_self] at hg1
      cases hg1
      rw [hpf]
      exact ⟨rfl, hL, hf⟩
    · rw [ptFind_set_ne _ _ _ _ hLL] at hg1
      have hold : ptFind t.page_table_ L1 = some g ∧ (t.pages_ f).page_id_ ≠ L1 := by
        by_cases hv : (t.pages_ f).page_id_ ≠ INVALID_PAGE_ID
        · rw [if_pos hv] at hg1
          by_cases h1 : L1 = (t.pages_ f).page_id_
          · rw [h1, ptFind_erase_self] at hg1
            cases hg1
          · rw [ptFind_erase_ne _ _ _ h1] at hg1
            exact ⟨hg1, fun hc => h1 hc.symm⟩
        · rw [if_neg hv] at hg1
          refine ⟨hg1, fun hc => ?_⟩
          have := (hI.tbl L1 g hg1).2.1
          have hv1 : (t.pages_ f).page_id_ = INVALID_PAGE_ID := not_not.1 hv
          rw [hc] at hv1
          unfold INVALID_PAGE_ID at hv1
          omega
      obtain ⟨h1, h2, h3⟩ := hI.tbl L1 g hold.1
      have hgf : g ≠ f := fun hc => hold.2 (by rw [← hc, h1])
      rw [hpg g hgf]
      exact ⟨h1, h2, h3⟩
  · intro g hg
    have hgf : g ≠ f := fun hc => hfree (hc ▸ hg)
    rw [hpg g hgf]
    exact hI.free g hg
  · intro g hg
    have hg1 : g ∈ (t.replacer_.Pin f).lru_list_ := hg
    rw [hlist, hI.sync.1.mem_erase_iff] at hg1
    rw [hpg g hg1.1]
    exact hI.repl g hg1.2
  · intro g
    by_cases hgf : g = f
    · rw [hgf, hpf]
      show (0 : Int) ≤ 1
      decide
    · rw [hpg g hgf]; exact hI.pin_nonneg g
  · intro g hd
    by_cases hgf : g = f
    · rw [hgf, hpf] at hd; cases hd
    · rw [hpg g hgf] at hd ⊢; exact hI.dirty_valid g hd

theorem alloc_nonneg_any (PS : Nat) (d : DiskManager) : 0 ≤ (d.AllocatePage PS).2 := by
  unfold DiskManager.AllocatePage
  cases hl : d.allocLoop PS 0 d.meta_data_.num_extents_ with
  | some r =>
    obtain ⟨e1, off, _, _, _, _, _, h6, _⟩ := allocLoop_some PS d _ _ r hl
    show 0 ≤ r.2
    rw [h6]
    exact Int.ofNat_zero_le _
  | none => exact Int.ofNat_zero_le _

theorem inv_disk (s : BufferPoolManager) (d : DiskManager) (hI : PoolInv s) :
    PoolInv { s with disk_manager_ := d } :=
  { tbl := hI.tbl, free := hI.free, free_nodup := hI.free_nodup, repl := hI.repl
    sync := hI.sync, max := hI.max, pin_nonneg := hI.pin_nonneg, dirty_valid := hI.dirty_valid }

/-- A change of the frames that keeps every page id and pin count and sets no dirty flag
keeps the invariant. -/
theorem inv_of_pages (s s1 : BufferPoolManager) (hI : PoolInv s)
    (h1 : s1.pool_size_ = s.pool_size_) (h2 : s1.page_table_ = s.page_table_)
    (h3 : s1.free_list_ = s.free_list_) (h4 : s1.replacer_ = s.replacer_)
    (hp : ∀ g, (s1.pages_ g).page_id_ = (s.pages_ g).page_id_ ∧
      (s1.pages_ g).pin_count_ = (s.pages_ g).pin_count_ ∧
      ((s1.pages_ g).is_dirty_ = true → (s.pages_ g).is_dirty_ = true)) : PoolInv s1 where
  tbl := by
    intro L f hf
    rw [h2] at hf
    rw [(hp f).1, h1]
    exact hI.tbl L f hf
  free := by
    intro f hf
    rw [h3] at hf
    obtain ⟨a, b, c, e⟩ := hI.free f hf
    refine ⟨by rw [(hp f).1, a], by rw [(hp f).2.1, b], ?_, by rw [h1]; exact e⟩
    cases hd : (s1.pages_ f).is_dirty_
    · rfl
    · rw [(hp f).2.2 hd] at c; cases c
  free_nodup := by rw [h3]; exact hI.free_nodup
  repl := by
    intro f hf
    rw [h4] at hf
    rw [(hp f).2.1, h1]
    exact hI.repl f hf
  sync := by rw [h4]; exact hI.sync
  max := by rw [h4, h1]; exact hI.max
  pin_nonneg := by intro f; rw [(hp f).2.1]; exact hI.pin_nonneg f
  dirty_valid := by
    intro f hd
    rw [(hp f).1]
    exact hI.dirty_valid f ((hp f).2.2 hd)

theorem inv_fetch (PS : Nat) (s s1 : BufferPoolManager) (L : Int) (r : Option Nat)
    (hI : PoolInv s) (h : s.FetchPage PS L = some (s1, r)) : PoolInv s1 := by
  rcases fetch_cases PS s s1 L r h with ⟨f, hf, _, rfl⟩ | ⟨_, hn, _, rfl⟩ |
    ⟨_, f, d2, hT, hL, _, _, rfl⟩
  · obtain ⟨hs, hlist, hmax⟩ := pin_spec s.replacer_ f hI.sync
    obtain ⟨t1, t2, t3⟩ := hI.tbl L f hf
    have hinv : (s.pages_ f).page_id_ ≠ INVALID_PAGE_ID := by
      rw [t1]; unfold INVALID_PAGE_ID; omega
    refine
      { tbl := ?_, free := ?_, free_nodup := hI.free_nodup, repl := ?_, sync := hs
        max := hmax.trans hI.max, pin_nonneg := ?_, dirty_valid := ?_ }
    · intro L1 g hg
      show (Function.update s.pages_ f _ g).page_id_ = L1 ∧ _
      by_cases hgf : g = f
      · subst hgf
        rw [Function.update_same]
        exact hI.tbl L1 g hg
      · rw [Function.update_noteq hgf]
        exact hI.tbl L1 g hg
    · intro g hg
      have hgf : g ≠ f := fun hc => hinv (hc ▸ (hI.free g hg).1)
      show (Function.update s.pages_ f _ g).page_id_ = _ ∧
        (Function.update s.pages_ f _ g).pin_count_ = _ ∧
        (Function.update s.pages_ f _ g).is_dirty_ = _ ∧ _
      rw [Function.update_noteq hgf]
      exact hI.free g hg
    · intro g hg
      have hg1 : g ∈ (s.replacer_.Pin f).lru_list_ := hg
      rw [hlist, hI.sync.1.mem_erase_iff] at hg1
      show (Function.update s.pages_ f _ g).pin_count_ = _ ∧ _
      rw [Function.update_noteq hg1.1]
      exact hI.repl g hg1.2
    · intro g
      show 0 ≤ (Function.update s.pages_ f _ g).pin_count_
      by_cases hgf : g = f
      · subst hgf
        rw [Function.update_same]
        have := hI.pin_nonneg g
        show 0 ≤ (s.pages_ g).pin_count_ + 1
        omega
      · rw [Function.update_noteq hgf]
        exact hI.pin_nonneg g
    · intro g
      show (Function.update s.pages_ f _ g).is_dirty_ = true →
        0 ≤ (Function.update s.pages_ f _ g).page_id_
      by_cases hgf : g = f
      · subst hgf
        rw [Function.update_same]
        exact hI.dirty_valid g
      · rw [Function.update_noteq hgf]
        exact hI.dirty_valid g
  · rw [(tryFind_none s hn).1]
    exact hI
  · obtain ⟨hIt, _, _, _, hps, hfN, _, hfree, _⟩ :=
      tryFind_some s s.TryToFindFreePage.1 f hI (Prod.ext rfl hT)
    exact install_inv _ f L _ d2 hIt (by rw [hps]; exact hfN) hfree hL

theorem inv_newPage (PS : Nat) (s s1 : BufferPoolManager) (L : Int) (r : Option Nat)
    (hI : PoolInv s) (h : s.NewPage PS = some (s1, L, r)) : PoolInv s1 := by
  have hI0 := inv_disk s (s.disk_manager_.AllocatePage PS).1 hI
  obtain ⟨hL, hc⟩ := new_cases PS s s1 L r h
  rcases hc with ⟨hn, _, rfl⟩ | ⟨f, d2, t, hT, _, _, rfl⟩
  · rw [(tryFind_none _ hn).1]
    exact inv_disk _ _ hI0
  · obtain ⟨hIt, _, _, _, hps, hfN, _, hfree, _⟩ := tryFind_some _ t f hI0 hT
    exact install_inv _ f L _ d2 hIt (by rw [hps]; exact hfN) hfree
      (by rw [hL]; exact alloc_nonneg_any PS _)

theorem delete_cases (PS : Nat) (s s1 : BufferPoolManager) (L : Int) (r : Bool)
    (h : s.DeletePage PS L = some (s1, r)) :
    (ptFind s.page_table_ L = none ∧ r = true ∧
      s1 = { s with disk_manager_ := s.disk_manager_.DeAllocatePage PS L }) ∨
    (∃ f, ptFind s.page_table_ L = some f ∧ 0 < (s.pages_ f).pin_count_ ∧ r = false ∧
      s1 = { s with disk_manager_ := s.disk_manager_.DeAllocatePage PS L }) ∨
    (∃ f d2, ptFind s.page_table_ L = some f ∧ ¬ 0 < (s.pages_ f).pin_count_ ∧ r = true ∧
      (if (s.pages_ f).is_dirty_ then
          (s.disk_manager_.DeAllocatePage PS L).WritePage PS L (s.pages_ f).data_
        else some (s.disk_manager_.DeAllocatePage PS L)) = some d2 ∧
      s1 = { s with
             pages_ := Function.update s.pages_ f ⟨INVALID_PAGE_ID, 0, false, zeroPage⟩
             page_table_ := ptErase s.page_table_ L
             free_list_ := s.free_list_ ++ [f]
             disk_manager_ := d2 }) := by
  unfold BufferPoolManager.DeletePage at h
  simp only at h
  cases hf : ptFind s.page_table_ L with
  | none =>
    left
    simp only [hf, Option.some.injEq, Prod.mk.injEq] at h
    exact ⟨rfl, h.2.symm, h.1.symm⟩
  | some f =>
    right
    simp only [hf] at h
    by_cases hp : (s.pages_ f).pin_count_ > 0
    · left
      simp only [hp, if_true, Option.some.injEq, Prod.mk.injEq] at h
      exact ⟨f, rfl, hp, h.2.symm, h.1.symm⟩
    · right
      simp only [hp, if_false] at h
      cases hw : (if (s.pages_ f).is_dirty_ then
          (s.disk_manager_.DeAllocatePage PS L).WritePage PS L (s.pages_ f).data_
          else some (s.disk_manager_.DeAllocatePage PS L)) with
      | none => simp [hw] at h
      | some d2 =>
        simp only [hw, Option.some_bind, Option.some.injEq, Prod.mk.injEq] at h
        exact ⟨f, d2, rfl, hp, h.2.symm, hw, h.1.symm⟩

theorem unpin_cases (s : BufferPoolManager) (L : Int) (dirty : Bool) :
    (s.UnpinPage L dirty = (s, false) ∧
      (ptFind s.page_table_ L = none ∨
        ∃ f, ptFind s.page_table_ L = some f ∧ (s.pages_ f).pin_count_ ≤ 0)) ∨
    (∃ f, ptFind s.page_table_ L = some f ∧ 0 < (s.pages_ f).pin_count_ ∧
      s.UnpinPage L dirty =
        ({ s with
           pages_ := Function.update s.pages_ f
             { s.pages_ f with
               pin_count_ := (s.pages_ f).pin_count_ - 1
               is_dirty_ := if dirty then true else (s.pages_ f).is_dirty_ }
           replacer_ := if (s.pages_ f).pin_count_ - 1 = 0 then s.replacer_.Unpin f
             else s.replacer_ }, true)) := by
  unfold BufferPoolManager.UnpinPage
  cases hf : ptFind s.page_table_ L with
  | none => left; exact ⟨rfl, Or.inl rfl⟩
  | some f =>
    by_cases hp : (s.pages_ f).pin_count_ ≤ 0
    · left
      dsimp only
      rw [if_pos hp]
      exact ⟨rfl, Or.inr ⟨f, rfl, hp⟩⟩
    · right
      dsimp only
      rw [if_neg hp]
      exact ⟨f, rfl, by omega, rfl⟩

theorem flush_cases (PS : Nat) (s s1 : BufferPoolManager) (L : Int) (r : Bool)
    (h : s.FlushPage PS L = some (s1, r)) :
    (ptFind s.page_table_ L = none ∧ r = false ∧ s1 = s) ∨
    (∃ f d2, ptFind s.page_table_ L = some f ∧ r = true ∧
      s.disk_manager_.WritePage PS L (s.pages_ f).data_ = some d2 ∧
      s1 = { s with
             pages_ := Function.update s.pages_ f { s.pages_ f with is_dirty_ := false }
             disk_manager_ := d2 }) := by
  unfold BufferPoolManager.FlushPage at h
  cases hf : ptFind s.page_table_ L with
  | none =>
    left
    simp only [hf, Option.some.injEq, Prod.mk.injEq] at h
    exact ⟨rfl, h.2.symm, h.1.symm⟩
  | some f =>
    right
    simp only [hf] at h
    cases hw : s.disk_manager_.WritePage PS L (s.pages_ f).data_ with
    | none => simp [hw] at h
    | some d2 =>
      simp only [hw, Option.some_bind, Option.some.injEq, Prod.mk.injEq] at h
      exact ⟨f, d2, rfl, h.2.symm, hw, h.1.symm⟩

theorem inv_delete (PS : Nat) (s s1 : BufferPoolManager) (L : Int) (r : Bool)
    (hI : PoolInv s) (h : s.DeletePage PS L = some (s1, r)) : PoolInv s1 := by
  rcases delete_cases PS s s1 L r h with ⟨_, _, rfl⟩ | ⟨f, _, _, _, rfl⟩ |
    ⟨f, d2, hf, hp, _, _, rfl⟩
  · exact inv_disk _ _ hI
  · exact inv_disk _ _ hI
  · obtain ⟨t1, t2, t3⟩ := hI.tbl L f hf
    have hinv : (s.pages_ f).page_id_ ≠ INVALID_PAGE_ID := by
      rw [t1]; unfold INVALID_PAGE_ID; omega
    have hff : f ∉ s.free_list_ := fun hc => hinv (hI.free f hc).1
    have hpg : ∀ g, g ≠ f →
        Function.update s.pages_ f ⟨INVALID_PAGE_ID, 0, false, zeroPage⟩ g = s.pages_ g :=
      fun g hg => Function.update_noteq hg _ _
    have hpf : Function.update s.pages_ f ⟨INVALID_PAGE_ID, 0, false, zeroPage⟩ f =
        ⟨INVALID_PAGE_ID, 0, false, zeroPage⟩ := Function.update_same _ _ _
    refine
      { tbl := ?_, free := ?_, free_nodup := ?_, repl := ?_, sync := hI.sync
        max := hI.max, pin_nonneg := ?_, dirty_valid := ?_ }
    · intro L1 g hg
      have hg1 : ptFind (ptErase s.page_table_ L) L1 = some g := hg
      have hLL : L1 ≠ L := by
        intro hc
        rw [hc, ptFind_erase_self] at hg1
        cases hg1
      rw [ptFind_erase_ne _ _ _ hLL] at hg1
      obtain ⟨h1, h2, h3⟩ := hI.tbl L1 g hg1
      have hgf : g ≠ f := fun hc => hLL (by rw [← h1, hc, t1])
      show (Function.update s.pages_ f _ g).page_id_ = L1 ∧ _
      rw [hpg g hgf]
      exact ⟨h1, h2, h3⟩
    · intro g hg
      have hg1 : g ∈ s.free_list_ ++ [f] := hg
      show (Function.update s.pages_ f _ g).page_id_ = _ ∧
        (Function.update s.pages_ f _ g).pin_count_ = _ ∧
        (Function.update s.pages_ f _ g).is_dirty_ = _ ∧ g < s.pool_size_
      by_cases hgf : g = f
      · rw [hgf, hpf]
        exact ⟨rfl, rfl, rfl, t3⟩
      · rw [hpg g hgf]
        rcases List.mem_append.1 hg1 with h1 | h1
        · exact hI.free g h1
        · exact absurd (List.mem_singleton.1 h1) hgf
    · show (s.free_list_ ++ [f]).Nodup
      rw [List.nodup_append]
      refine ⟨hI.free_nodup, List.nodup_singleton f, ?_⟩
      intro a ha hb
      rw [List.mem_singleton.1 hb] at ha
      exact hff ha
    · intro g hg
      show (Function.update s.pages_ f _ g).pin_count_ = 0 ∧ g < s.pool_size_
      by_cases hgf : g = f
      · rw [hgf, hpf]
        exact ⟨rfl, t3⟩
      · rw [hpg g hgf]
        exact hI.repl g hg
    · intro g
      show 0 ≤ (Function.update s.pages_ f _ g).pin_count_
      by_cases hgf : g = f
      · rw [hgf, hpf]
      · rw [hpg g hgf]; exact hI.pin_nonneg g
    · intro g
      show (Function.update s.pages_ f _ g).is_dirty_ = true →
        0 ≤ (Function.update s.pages_ f _ g).page_id_
      by_cases hgf : g = f
      · rw [hgf, hpf]; intro hc; cases hc
      · rw [hpg g hgf]; exact hI.dirty_valid g

theorem inv_unpin (s : BufferPoolManager) (L : Int) (dirty : Bool) (hI : PoolInv s) :
    PoolInv (s.UnpinPage L dirty).1 := by
  rcases unpin_cases s L dirty with ⟨h, _⟩ | ⟨f, hf, hp, h⟩
  · rw [h]; exact hI
  · rw [h]
    obtain ⟨t1, t2, t3⟩ := hI.tbl L f hf
    have hfl : f ∉ s.replacer_.lru_list_ := fun hc => by
      have := (hI.repl f hc).1
      omega
    have hff : f ∉ s.free_list_ := fun hc => by
      have := (hI.free f hc).2.1
      omega
    have hlen : s.replacer_.lru_list_.length < s.replacer_.max_size_ := by
      rw [hI.max]
      exact nodup_length_lt _ _ f hI.sync.1 (fun g hg => (hI.repl g hg).2) hfl t3
    obtain ⟨hs, hlist, hmax⟩ := unpin_spec s.replacer_ f hI.sync hfl hlen
    have hpg : ∀ g (p : Page), g ≠ f → Function.update s.pages_ f p g = s.pages_ g :=
      fun g p hg => Function.update_noteq hg _ _
    refine
      { tbl := ?_, free := ?_, free_nodup := hI.free_nodup, repl := ?_, sync := ?_
        max := ?_, pin_nonneg := ?_, dirty_valid := ?_ }
    · intro L1 g hg
      show (Function.update s.pages_ f _ g).page_id_ = L1 ∧ _
      by_cases hgf : g = f
      · subst hgf
        rw [Function.update_same]
        exact hI.tbl L1 g hg
      · rw [hpg g _ hgf]
        exact hI.tbl L1 g hg
    · intro g hg
      have hgf : g ≠ f := fun hc => hff (hc ▸ hg)
      show (Function.update s.pages_ f _ g).page_id_ = _ ∧
        (Function.update s.pages_ f _ g).pin_count_ = _ ∧
        (Function.update s.pages_ f _ g).is_dirty_ = _ ∧ _
      rw [hpg g _ hgf]
      exact hI.free g hg
    · intro g hg
      show (Function.update s.pages_ f _ g).pin_count_ = 0 ∧ g < s.pool_size_
      have hg1 : g ∈ (if (s.pages_ f).pin_count_ - 1 = 0 then s.replacer_.Unpin f
          else s.replacer_).lru_list_ := hg
      by_cases hz : (s.pages_ f).pin_count_ - 1 = 0
      · rw [if_pos hz, hlist] at hg1
        by_cases hgf : g = f
        · subst hgf
          rw [Function.update_same]
          exact ⟨hz, t3⟩
        · rw [hpg g _ hgf]
          rcases List.mem_cons.1 hg1 with h1 | h1
          · exact absurd h1 hgf
          · exact hI.repl g h1
      · rw [if_neg hz] at hg1
        have hgf : g ≠ f := fun hc => hfl (hc ▸ hg1)
        rw [hpg g _ hgf]
        exact hI.repl g hg1
    · show (if (s.pages_ f).pin_count_ - 1 = 0 then s.replacer_.Unpin f
          else s.replacer_).Sync
      by_cases hz : (s.pages_ f).pin_count_ - 1 = 0
      · rw [if_pos hz]; exact hs
      · rw [if_neg hz]; exact hI.sync
    · show (if (s.pages_ f).pin_count_ - 1 = 0 then s.replacer_.Unpin f
          else s.replacer_).max_size_ = s.pool_size_
      by_cases hz : (s.pages_ f).pin_count_ - 1 = 0
      · rw [if_pos hz, hmax]; exact hI.max
      · rw [if_neg hz]; exact hI.max
    · intro g
      show 0 ≤ (Function.update s.pages_ f _ g).pin_count_
      by_cases hgf : g = f
      · subst hgf
        rw [Function.update_same]
        show 0 ≤ (s.pages_ g).pin_count_ - 1
        omega
      · rw [hpg g _ hgf]; exact hI.pin_nonneg g
    · intro g
      show (Function.update s.pages_ f _ g).is_dirty_ = true →
        0 ≤ (Function.update s.pages_ f _ g).page_id_
      by_cases hgf : g = f
      · subst hgf
        rw [Function.update_same]
        intro _
        show 0 ≤ (s.pages_ g).page_id_
        rw [t1]; exact t2
      · rw [hpg g _ hgf]; exact hI.dirty_valid g

theorem inv_flush (PS : Nat) (s s1 : BufferPoolManager) (L : Int) (r : Bool)
    (hI : PoolInv s) (h : s.FlushPage PS L = some (s1, r)) : PoolInv s1 := by
  rcases flush_cases PS s s1 L r h with ⟨_, _, rfl⟩ | ⟨f, d2, _, _, _, rfl⟩
  · exact hI
  · refine inv_of_pages s _ hI rfl rfl rfl rfl ?_
    intro g
    show (Function.update s.pages_ f _ g).page_id_ = _ ∧
      (Function.update s.pages_ f _ g).pin_count_ = _ ∧
      ((Function.update s.pages_ f _ g).is_dirty_ = true → _)
    by_cases hgf : g = f
    · subst hgf
      rw [Function.update_same]
      exact ⟨rfl, rfl, fun hc => by cases hc⟩
    · rw [Function.update_noteq hgf]
      exact ⟨rfl, rfl, id⟩

theorem inv_write (s s1 : BufferPoolManager) (f : Nat) (data : BitmapPage)
    (hI : PoolInv s) (h : s.WriteData f data = some s1) : PoolInv s1 := by
  unfold BufferPoolManager.WriteData at h
  by_cases hp : 0 < (s.pages_ f).pin_count_
  · simp only [hp, if_true, Option.some.injEq] at h
    subst h
    refine inv_of_pages s _ hI rfl rfl rfl rfl ?_
    intro g
    show (Function.update s.pages_ f _ g).page_id_ = _ ∧
      (Function.update s.pages_ f _ g).pin_count_ = _ ∧
      ((Function.update s.pages_ f _ g).is_dirty_ = true → _)
    by_cases hgf : g = f
    · subst hgf
      rw [Function.update_same]
      exact ⟨rfl, rfl, id⟩
    · rw [Function.update_noteq hgf]
      exact ⟨rfl, rfl, id⟩
  · simp [hp] at h

theorem inv_step (PS : Nat) (s s1 : BufferPoolManager) (op : Op) (hI : PoolInv s)
    (h : s.step PS op = some s1) : PoolInv s1 := by
  cases op with
  | fetch L =>
    simp only [BufferPoolManager.step, Option.map_eq_some'] at h
    obtain ⟨⟨t, r⟩, h1, rfl⟩ := h
    exact inv_fetch PS s t L r hI h1
  | newPage =>
    simp only [BufferPoolManager.step, Option.map_eq_some'] at h
    obtain ⟨⟨t, L, r⟩, h1, rfl⟩ := h
    exact inv_newPage PS s t L r hI h1
  | unpin L dirty =>
    simp only [BufferPoolManager.step, Option.some.injEq] at h
    subst h
    exact inv_unpin s L dirty hI
  | flush L =>
    simp only [BufferPoolManager.step, Option.map_eq_some'] at h
    obtain ⟨⟨t, r⟩, h1, rfl⟩ := h
    exact inv_flush PS s t L r hI h1
  | delete L =>
    simp only [BufferPoolManager.step, Option.map_eq_some'] at h
    obtain ⟨⟨t, r⟩, h1, rfl⟩ := h
    exact inv_delete PS s t L r hI h1
  | write f data =>
    exact inv_write s s1 f data hI h

theorem inv_reach (PS : Nat) (s0 s : BufferPoolManager) (h0 : PoolInv s0)
    (h : Reach PS s0 s) : PoolInv s := by
  induction h with
  | init => exact h0
  | step op _ hs ih => exact inv_step PS _ _ op ih hs

theorem inv_reachable (PS N : Nat) (s : BufferPoolManager) (h : Reachable PS N s) :
    PoolInv s := by
  obtain ⟨d0, h0⟩ := h
  exact inv_reach PS _ s (inv_new N d0) h0

theorem reachable_step (PS N : Nat) (s s1 : BufferPoolManager) (op : Op)
    (h : Reachable PS N s) (hs : s.step PS op = some s1) : Reachable PS N s1 := by
  obtain ⟨d0, h0⟩ := h
  exact ⟨d0, Reach.step op h0 hs⟩

theorem reachable_new (PS N : Nat) (d0 : DiskManager) :
    Reachable PS N (BufferPoolManager.new N d0) :=
  ⟨d0, Reach.init⟩

theorem tryFind_pool_size (s : BufferPoolManager) :
    s.TryToFindFreePage.1.pool_size_ = s.pool_size_ := by
  unfold BufferPoolManager.TryToFindFreePage
  split <;> rfl

theorem step_pool_size (PS : Nat) (s s1 : BufferPoolManager) (op : Op)
    (hs : s.step PS op = some s1) : s1.pool_size_ = s.pool_size_ := by
  cases op with
  | fetch L =>
    simp only [BufferPoolManager.step, Option.map_eq_some'] at hs
    obtain ⟨⟨t, r⟩, h1, rfl⟩ := hs
    rcases fetch_cases PS _ t L r h1 with ⟨f, _, _, rfl⟩ | ⟨_, hn, _, rfl⟩ |
      ⟨_, f, d2, _, _, _, _, rfl⟩
    · rfl
    · rw [(tryFind_none _ hn).1]
    · exact tryFind_pool_size _
  | newPage =>
    simp only [BufferPoolManager.step, Option.map_eq_some'] at hs
    obtain ⟨⟨t, L, r⟩, h1, rfl⟩ := hs
    obtain ⟨_, hc⟩ := new_cases PS _ t L r h1
    rcases hc with ⟨hn, _, rfl⟩ | ⟨f, d2, t1, hT, _, _, rfl⟩
    · rw [(tryFind_none _ hn).1]
    · show t1.pool_size_ = _
      have := tryFind_pool_size
        ({ s with disk_manager_ := (s.disk_manager_.AllocatePage PS).1 } : BufferPoolManager)
      rw [hT] at this
      exact this
  | unpin L dirty =>
    simp only [BufferPoolManager.step, Option.some.injEq] at hs
    subst hs
    rcases unpin_cases _ L dirty with ⟨h, _⟩ | ⟨f, _, _, h⟩ <;> rw [h]
  | flush L =>
    simp only [BufferPoolManager.step, Option.map_eq_some'] at hs
    obtain ⟨⟨t, r⟩, h1, rfl⟩ := hs
    rcases flush_cases PS _ t L r h1 with ⟨_, _, rfl⟩ | ⟨f, d2, _, _, _, rfl⟩ <;> rfl
  | delete L =>
    simp only [BufferPoolManager.step, Option.map_eq_some'] at hs
    obtain ⟨⟨t, r⟩, h1, rfl⟩ := hs
    rcases delete_cases PS _ t L r h1 with ⟨_, _, rfl⟩ | ⟨f, _, _, _, rfl⟩ |
      ⟨f, d2, _, _, _, _, rfl⟩ <;> rfl
  | write f data =>
    simp only [BufferPoolManager.step] at hs
    unfold BufferPoolManager.WriteData at hs
    split at hs
    · cases hs; rfl
    · cases hs

theorem reach_pool_size (PS : Nat) (s0 s : BufferPoolManager) (h : Reach PS s0 s) :
    s.pool_size_ = s0.pool_size_ := by
  induction h with
  | init => rfl
  | step op _ hs ih => rw [← ih]; exact step_pool_size PS _ _ op hs

theorem reachable_pool_size (PS N : Nat) (s : BufferPoolManager) (h : Reachable PS N s) :
    s.pool_size_ = N := by
  obtain ⟨d0, h0⟩ := h
  exact reach_pool_size PS _ s h0

theorem alloc_count (PS : Nat) (hPS : 8 < PS) (d : DiskManager) :
    (d.AllocatePage PS).1.meta_data_.num_allocated_pages_ =
      d.meta_data_.num_allocated_pages_ + 1 := by
  rcases alloc_cases PS hPS d with ⟨e, off, _, _, _, _, _, h6, _, _⟩ | ⟨_, _, h3, _, _⟩
  · rw [h6]; rfl
  · rw [h3]

theorem alloc_dealloc_count (PS : Nat) (hPS : 8 < PS) (d : DiskManager) :
    ((d.AllocatePage PS).1.DeAllocatePage PS (d.AllocatePage PS).2).meta_data_.num_allocated_pages_
      = d.meta_data_.num_allocated_pages_ := by
  have hnf := alloc_not_free_after PS hPS d
  obtain ⟨n, hn⟩ := Int.eq_ofNat_of_zero_le (alloc_nonneg_any PS d)
  rw [hn] at hnf ⊢
  rw [isPageFree_nat PS hPS] at hnf
  simp only [Bool.or_eq_false_iff, decide_eq_false_iff_not, Bool.not_eq_false'] at hnf
  obtain ⟨hm, _, _⟩ := dealloc_hit PS hPS (d.AllocatePage PS).1 n (by omega) hnf.2
  rw [hm]
  show (d.AllocatePage PS).1.meta_data_.num_allocated_pages_ - 1 = _
  rw [alloc_count PS hPS]
  omega

theorem all_pinned_empty (PS N : Nat) (s : BufferPoolManager) (hr : Reachable PS N s)
    (hpin : ∀ f, f < N → 0 < (s.pages_ f).pin_count_) :
    s.free_list_ = [] ∧ s.replacer_.lru_list_ = [] := by
  have hI := inv_reachable PS N s hr
  have hN : s.pool_size_ = N := reachable_pool_size PS N s hr
  constructor
  · apply List.eq_nil_iff_forall_not_mem.2
    intro f hf
    obtain ⟨_, h2, _, h4⟩ := hI.free f hf
    have := hpin f (hN ▸ h4)
    omega
  · apply List.eq_nil_iff_forall_not_mem.2
    intro f hf
    obtain ⟨h2, h4⟩ := hI.repl f hf
    have := hpin f (hN ▸ h4)
    omega

theorem tryFind_exhausted (s : BufferPoolManager) (h1 : s.free_list_ = [])
    (h2 : s.replacer_.lru_list_ = []) : s.TryToFindFreePage = (s, none) := by
  rw [tryFind_nil s h1, victim_none _ h2]

theorem pinnedPool_reachable : Reachable 4096 1 pinnedPool :=
  reachable_step 4096 1 _ _ Op.newPage (reachable_new 4096 1 DiskManager.empty) rfl

theorem pinnedPool_pinned : ∀ f, f < 1 → 0 < (pinnedPool.pages_ f).pin_count_ := by
  intro f hf
  have : f = 0 := by omega
  subst this
  decide

/-! ## Consecutive allocations -/

theorem bitmap_alloc_next (PS : Nat) (b : BitmapPage) (n : Nat)
    (hn : n < GetMaxSupportedSize PS) (h1 : b.page_allocated_ = n)
    (h2 : b.next_free_page_ = n) (h3 : b.bit n = false) :
    b.AllocatePage PS = (b.take n, some n) := by
  unfold BitmapPage.AllocatePage
  have h0 : ¬ b.page_allocated_ ≥ GetMaxSupportedSize PS := by omega
  rw [if_neg h0, h2]
  obtain ⟨m, hm⟩ : ∃ m, GetMaxSupportedSize PS - n = m + 1 :=
    ⟨GetMaxSupportedSize PS - n - 1, by omega⟩
  have hs : b.scan PS n (GetMaxSupportedSize PS - n) = some n := by
    rw [hm]
    unfold BitmapPage.scan
    rw [if_pos ((isPageFreeLow_slot PS b n).2 ⟨hn, h3⟩)]
  rw [hs]

theorem filled_first (PS : Nat) (hPS : 8 < PS) :
    (DiskManager.empty.AllocatePage PS).2 = 0 ∧
      (DiskManager.empty.AllocatePage PS).1.FilledTo PS 1 := by
  rcases alloc_cases PS hPS DiskManager.empty with ⟨e, off, h1, _⟩ | ⟨_, h2, h3, h4, h5⟩
  · exact absurd h1 (Nat.not_lt_zero e)
  · refine ⟨by rw [h2]; simp [DiskManager.empty], ?_⟩
    have hb : (DiskManager.empty.AllocatePage PS).1.bitmapOf PS 0 = zeroPage.take 0 := by
      rw [bitmapOf_update PS _ _ _ 0 _ h5]
      simp [DiskManager.empty]
    refine ⟨by rw [h3]; rfl, by rw [h3]; simp [DiskManager.empty], by rw [h3]; rfl, h4,
      ?_, ?_, ?_⟩
    · rw [hb]; rfl
    · rw [hb]; rfl
    · intro j
      rw [hb, bit_take]
      have : zeroPage.bit j = false := by simp [BitmapPage.bit, zeroPage]
      rw [this]
      by_cases hj : j = 0
      · simp [hj]
      · have : ¬ j < 1 := by omega
        simp [hj, this]

theorem filled_step (PS : Nat) (hPS : 8 < PS) (d : DiskManager) (n : Nat)
    (hf : d.FilledTo PS n) (hn : n < GetMaxSupportedSize PS) :
    (d.AllocatePage PS).2 = n ∧ (d.AllocatePage PS).1.FilledTo PS (n + 1) := by
  obtain ⟨f1, f2, f3, _, f5, f6, f7⟩ := hf
  have hbit : (d.bitmapOf PS 0).bit n = false := by rw [f7]; simp
  have hal := bitmap_alloc_next PS (d.bitmapOf PS 0) n hn f5 f6 hbit
  rcases alloc_cases PS hPS d with ⟨e, off, h1, _, h3, _, h5, h6, h7, h8⟩ | ⟨h1, _⟩
  · have he : e = 0 := by omega
    subst he
    rw [hal] at h3
    have hoff : off = n := by cases h3; rfl
    subst hoff
    refine ⟨by rw [h5]; simp, ?_⟩
    have hb : (d.AllocatePage PS).1.bitmapOf PS 0 = (d.bitmapOf PS 0).take off := by
      rw [bitmapOf_update PS _ _ _ 0 _ h8, if_pos rfl]
    refine ⟨by rw [h6]; exact f1, by rw [h6, f2]; simp [DiskFileMetaPage.setUsed],
      by rw [h6, f3]; rfl, h7, ?_, ?_, ?_⟩
    · rw [hb]; show (d.bitmapOf PS 0).page_allocated_ + 1 = _; rw [f5]
    · rw [hb]; rfl
    · intro j
      rw [hb, bit_take, f7]
      by_cases hj : j = off
      · simp [hj]
      · by_cases hj2 : j < off
        · have : j < off + 1 := by omega
          simp [hj, hj2, this]
        · have : ¬ j < off + 1 := by omega
          simp [hj, hj2, this]
  · exfalso
    apply h1 0 (by omega)
    exact ⟨by rw [f2]; exact hn, by rw [hal]; simp⟩

theorem filled_allocateN (PS : Nat) (hPS : 8 < PS) (n : Nat) (h1 : 1 ≤ n)
    (h2 : n ≤ GetMaxSupportedSize PS) : (DiskManager.allocateN PS n).FilledTo PS n := by
  induction n with
  | zero => omega
  | succ n ih =>
    by_cases hn : n = 0
    · subst hn
      exact (filled_first PS hPS).2
    · exact (filled_step PS hPS _ n (ih (by omega) (by omega)) (by omega)).2

theorem filled_full (PS : Nat) (hPS : 8 < PS) (d : DiskManager)
    (hf : d.FilledTo PS (GetMaxSupportedSize PS)) :
    (d.AllocatePage PS).2 = (GetMaxSupportedSize PS : Int) ∧
      (d.AllocatePage PS).1.meta_data_.num_extents_ = 2 ∧
      (d.AllocatePage PS).1.meta_data_.extent_used_page_ 1 = 1 ∧
      (d.AllocatePage PS).1.meta_data_.extent_used_page_ 0 = GetMaxSupportedSize PS ∧
      (d.AllocatePage PS).1.meta_data_.num_allocated_pages_ = GetMaxSupportedSize PS + 1 := by
  obtain ⟨f1, f2, f3, _, _, _, _⟩ := hf
  rcases alloc_cases PS hPS d with ⟨e, off, h1, h2, _⟩ | ⟨_, h2, h3, _, _⟩
  · have he : e = 0 := by omega
    subst he
    omega
  · rw [h2, h3, f1, f3]
    refine ⟨by simp, rfl, by simp, ?_, rfl⟩
    show Function.update d.meta_data_.extent_used_page_ 1 1 0 = _
    rw [Function.update_noteq (by decide), f2]

/-! ## The order of the replacer -/

theorem install_lru (s0 t : BufferPoolManager) (f : Nat) (L : Int) (data : BitmapPage)
    (d : DiskManager) (hI : PoolInv s0) (hU : Unpinned s0)
    (hT : s0.TryToFindFreePage = (t, some f)) :
    Unpinned (t.install f L data d) ∧
      (t.install f L data d).replacer_.lru_list_.Sublist s0.replacer_.lru_list_ := by
  obtain ⟨hIt, hpg, _, _, hps, _, _, _, hcase⟩ := tryFind_some s0 t f hI hT
  obtain ⟨_, hlist, _⟩ := pin_spec t.replacer_ f hIt.sync
  have hl : (t.install f L data d).replacer_.lru_list_ = t.replacer_.lru_list_.erase f := hlist
  constructor
  · intro g hg hp
    have hgf : g ≠ f := by
      intro hc
      rw [hc] at hp
      have : (Function.update t.pages_ f (⟨L, 1, false, data⟩ : Page) f).pin_count_ = 0 := hp
      rw [Function.update_same] at this
      cases this
    have hp1 : (Function.update t.pages_ f (⟨L, 1, false, data⟩ : Page) g).pin_count_ = 0 := hp
    rw [Function.update_noteq hgf, hpg] at hp1
    have hg1 : g < s0.pool_size_ := by rw [← hps]; exact hg
    show g ∈ t.free_list_ ∨ g ∈ (t.install f L data d).replacer_.lru_list_
    rw [hl]
    rcases hcase with ⟨h1, h2⟩ | ⟨h1, _, h3⟩
    · rcases hU g hg1 hp1 with h | h
      · rw [h1] at h
        rcases List.mem_cons.1 h with h | h
        · exact absurd h hgf
        · exact Or.inl h
      · rw [h2]
        exact Or.inr ((List.mem_erase_of_ne hgf).2 h)
    · rcases hU g hg1 hp1 with h | h
      · rw [h1] at h
        cases h
      · rw [h3] at h
        rcases List.mem_append.1 h with h | h
        · exact Or.inr ((List.mem_erase_of_ne hgf).2 h)
        · exact absurd (List.mem_singleton.1 h) hgf
  · rw [hl]
    rcases hcase with ⟨_, h2⟩ | ⟨_, _, h3⟩
    · rw [h2]
      exact List.erase_sublist _ _
    · rw [h3]
      exact (List.erase_sublist _ _).trans (List.sublist_append_left _ _)

/-- What one call does to the replacer list: it shrinks to a sublist, or the frame whose
pin count the call brought to 0 is put in front. -/
theorem step_lru (PS : Nat) (s s1 : BufferPoolManager) (op : Op) (hI : PoolInv s)
    (hU : Unpinned s) (h : s.step PS op = some s1) :
    Unpinned s1 ∧
      (s1.replacer_.lru_list_.Sublist s.replacer_.lru_list_ ∨
        ∃ f, s1.replacer_.lru_list_ = f :: s.replacer_.lru_list_ ∧
          0 < (s.pages_ f).pin_count_ ∧ (s1.pages_ f).pin_count_ = 0) := by
  cases op with
  | fetch L =>
    simp only [BufferPoolManager.step, Option.map_eq_some'] at h
    obtain ⟨⟨t, r⟩, h1, rfl⟩ := h
    rcases fetch_cases PS s t L r h1 with ⟨f, hf, _, rfl⟩ | ⟨_, hn, _, rfl⟩ |
      ⟨_, f, d2, hT, _, _, _, rfl⟩
    · obtain ⟨_, hlist, _⟩ := pin_spec s.replacer_ f hI.sync
      have hl : (s.replacer_.Pin f).lru_list_ = s.replacer_.lru_list_.erase f := hlist
      refine ⟨?_, Or.inl ?_⟩
      · intro g hg hp
        have hp0 : (Function.update s.pages_ f
            { s.pages_ f with pin_count_ := (s.pages_ f).pin_count_ + 1 } g).pin_count_ = 0 := hp
        have hgf : g ≠ f := by
          intro hc
          rw [hc, Function.update_same] at hp0
          have := hI.pin_nonneg f
          have hp2 : (s.pages_ f).pin_count_ + 1 = 0 := hp0
          omega
        rw [Function.update_noteq hgf] at hp0
        show g ∈ s.free_list_ ∨ g ∈ (s.replacer_.Pin f).lru_list_
        rw [hl]
        rcases hU g hg hp0 with h | h
        · exact Or.inl h
        · exact Or.inr ((List.mem_erase_of_ne hgf).2 h)
      · show (s.replacer_.Pin f).lru_list_.Sublist _
        rw [hl]
        exact List.erase_sublist _ _
    · rw [(tryFind_none s hn).1]
      exact ⟨hU, Or.inl (List.Sublist.refl _)⟩
    · obtain ⟨a, b⟩ := install_lru s _ f L _ d2 hI hU (Prod.ext rfl hT)
      exact ⟨a, Or.inl b⟩
  | newPage =>
    simp only [BufferPoolManager.step, Option.map_eq_some'] at h
    obtain ⟨⟨t, L, r⟩, h1, rfl⟩ := h
    have hI0 := inv_disk s (s.disk_manager_.AllocatePage PS).1 hI
    obtain ⟨_, hc⟩ := new_cases PS s t L r h1
    rcases hc with ⟨hn, _, rfl⟩ | ⟨f, d2, t1, hT, _, _, rfl⟩
    · rw [(tryFind_none _ hn).1]
      exact ⟨hU, Or.inl (List.Sublist.refl _)⟩
    · obtain ⟨a, b⟩ := install_lru _ t1 f L zeroPage d2 hI0 hU hT
      exact ⟨a, Or.inl b⟩
  | unpin L dirty =>
    simp only [BufferPoolManager.step, Option.some.injEq] at h
    subst h
    rcases unpin_cases s L dirty with ⟨h, _⟩ | ⟨f, hf, hp, h⟩
    · rw [h]
      exact ⟨hU, Or.inl (List.Sublist.refl _)⟩
    · rw [h]
      obtain ⟨_, _, t3⟩ := hI.tbl L f hf
      have hfl : f ∉ s.replacer_.lru_list_ := fun hc => by
        have := (hI.repl f hc).1
        omega
      have hlen : s.replacer_.lru_list_.length < s.replacer_.max_size_ := by
        rw [hI.max]
        exact nodup_length_lt _ _ f hI.sync.1 (fun g hg => (hI.repl g hg).2) hfl t3
      obtain ⟨_, hlist, _⟩ := unpin_spec s.replacer_ f hI.sync hfl hlen
      by_cases hz : (s.pages_ f).pin_count_ - 1 = 0
      · refine ⟨?_, Or.inr ⟨f, ?_, hp, ?_⟩⟩
        · intro g hg hp0
          show g ∈ s.free_list_ ∨ g ∈ (if (s.pages_ f).pin_count_ - 1 = 0 then
            s.replacer_.Unpin f else s.replacer_).lru_list_
          rw [if_pos hz, hlist]
          by_cases hgf : g = f
          · exact Or.inr (hgf ▸ List.mem_cons_self _ _)
          · have hp1 : (Function.update s.pages_ f _ g).pin_count_ = 0 := hp0
            rw [Function.update_noteq hgf] at hp1
            rcases hU g hg hp1 with h | h
            · exact Or.inl h
            · exact Or.inr (List.mem_cons_of_mem _ h)
        · show (if (s.pages_ f).pin_count_ - 1 = 0 then
            s.replacer_.Unpin f else s.replacer_).lru_list_ = _
          rw [if_pos hz, hlist]
        · show (Function.update s.pages_ f _ f).pin_count_ = 0
          rw [Function.update_same]
          exact hz
      · refine ⟨?_, Or.inl ?_⟩
        · intro g hg hp0
          show g ∈ s.free_list_ ∨ g ∈ (if (s.pages_ f).pin_count_ - 1 = 0 then
            s.replacer_.Unpin f else s.replacer_).lru_list_
          rw [if_neg hz]
          have hgf : g ≠ f := by
            intro hc
            have hp1 : (Function.update s.pages_ f _ g).pin_count_ = 0 := hp0
            rw [hc, Function.update_same] at hp1
            exact hz hp1
          have hp1 : (Function.update s.pages_ f _ g).pin_count_ = 0 := hp0
          rw [Function.update_noteq hgf] at hp1
          exact hU g hg hp1
        · show (if (s.pages_ f).pin_count_ - 1 = 0 then
            s.replacer_.Unpin f else s.replacer_).lru_list_.Sublist _
          rw [if_neg hz]
  | flush L =>
    simp only [BufferPoolManager.step, Option.map_eq_some'] at h
    obtain ⟨⟨t, r⟩, h1, rfl⟩ := h
    rcases flush_cases PS s t L r h1 with ⟨_, _, rfl⟩ | ⟨f, d2, _, _, _, rfl⟩
    · exact ⟨hU, Or.inl (List.Sublist.refl _)⟩
    · refine ⟨?_, Or.inl (List.Sublist.refl _)⟩
      intro g hg hp0
      have hp1 : (Function.update s.pages_ f { s.pages_ f with is_dirty_ := false }
          g).pin_count_ = 0 := hp0
      have : (s.pages_ g).pin_count_ = 0 := by
        by_cases hgf : g = f
        · rw [hgf, Function.update_same] at hp1
          rw [hgf]; exact hp1
        · rw [Function.update_noteq hgf] at hp1
          exact hp1
      exact hU g hg this
  | delete L =>
    simp only [BufferPoolManager.step, Option.map_eq_some'] at h
    obtain ⟨⟨t, r⟩, h1, rfl⟩ := h
    rcases delete_cases PS s t L r h1 with ⟨_, _, rfl⟩ | ⟨f, _, _, _, rfl⟩ |
      ⟨f, d2, hf, hp, _, _, rfl⟩
    · exact ⟨hU, Or.inl (List.Sublist.refl _)⟩
    · exact ⟨hU, Or.inl (List.Sublist.refl _)⟩
    · refine ⟨?_, Or.inl (List.Sublist.refl _)⟩
      intro g hg hp0
      show g ∈ s.free_list_ ++ [f] ∨ g ∈ s.replacer_.lru_list_
      by_cases hgf : g = f
      · left
        rw [hgf]
        simp
      · have hp1 : (Function.update s.pages_ f (⟨INVALID_PAGE_ID, 0, false, zeroPage⟩ : Page)
            g).pin_count_ = 0 := hp0
        rw [Function.update_noteq hgf] at hp1
        rcases hU g hg hp1 with h | h
        · exact Or.inl (List.mem_append_left _ h)
        · exact Or.inr h
  | write f data =>
    simp only [BufferPoolManager.step] at h
    unfold BufferPoolManager.WriteData at h
    split at h
    · cases h
      refine ⟨?_, Or.inl (List.Sublist.refl _)⟩
      intro g hg hp0
      have hp1 : (Function.update s.pages_ f { s.pages_ f with data_ := data }
          g).pin_count_ = 0 := hp0
      have : (s.pages_ g).pin_count_ = 0 := by
        by_cases hgf : g = f
        · rw [hgf, Function.update_same] at hp1
          rw [hgf]; exact hp1
        · rw [Function.update_noteq hgf] at hp1
          exact hp1
      exact hU g hg this
    · cases h

theorem unpinned_new (N : Nat) (d : DiskManager) : Unpinned (BufferPoolManager.new N d) := by
  intro g hg _
  left
  show g ∈ List.range N
  exact List.mem_range.2 hg

theorem traced_inv (PS N : Nat) (t : Traced) (h : TracedReachable PS N t) :
    Reachable PS N t.pool ∧ Unpinned t.pool ∧ t.Ordered := by
  induction h with
  | init d0 =>
    exact ⟨reachable_new PS N _, unpinned_new N _,
      fun g hg => by simp [BufferPoolManager.new] at hg, List.Pairwise.nil⟩
  | @step t t1 op _ hs ih =>
    obtain ⟨hr, hU, hb, hp⟩ := ih
    have hI := inv_reachable PS N t.pool hr
    simp only [Traced.step, Option.map_eq_some'] at hs
    obtain ⟨s1, h1, rfl⟩ := hs
    obtain ⟨hU1, hc⟩ := step_lru PS t.pool s1 op hI hU h1
    have hz : ∀ g, g ∈ t.pool.replacer_.lru_list_ →
        (if 0 < (t.pool.pages_ g).pin_count_ ∧ (s1.pages_ g).pin_count_ = 0 then t.clock + 1
          else t.zeroedAt g) = t.zeroedAt g := by
      intro g hg
      have := (hI.repl g hg).1
      rw [if_neg]
      intro hcon
      omega
    refine ⟨reachable_step PS N _ _ op hr h1, hU1, ?_⟩
    rcases hc with hsub | ⟨f, hl, hf1, hf2⟩
    · constructor
      · intro g hg
        have hg1 := hsub.subset hg
        show (if _ then _ else _) ≤ t.clock + 1
        rw [hz g hg1]
        exact Nat.le_succ_of_le (hb g hg1)
      · show List.Pairwise _ s1.replacer_.lru_list_
        refine List.Pairwise.imp_of_mem ?_ (hp.sublist hsub)
        intro a b ha hb1 hab
        show (if _ then _ else _) < (if _ then _ else _)
        rw [hz a (hsub.subset ha), hz b (hsub.subset hb1)]
        exact hab
    · have hzf : (if 0 < (t.pool.pages_ f).pin_count_ ∧ (s1.pages_ f).pin_count_ = 0 then
          t.clock + 1 else t.zeroedAt f) = t.clock + 1 := by
        rw [if_pos ⟨hf1, hf2⟩]
      constructor
      · intro g hg
        have hg0 : g ∈ s1.replacer_.lru_list_ := hg
        rw [hl] at hg0
        show (if _ then _ else _) ≤ t.clock + 1
        rcases List.mem_cons.1 hg0 with h | h
        · rw [h, hzf]
        · rw [hz g h]
          exact Nat.le_succ_of_le (hb g h)
      · show List.Pairwise _ s1.replacer_.lru_list_
        rw [hl, List.pairwise_cons]
        constructor
        · intro b hb1
          show (if _ then _ else _) < (if _ then _ else _)
          rw [hzf, hz b hb1]
          exact Nat.lt_succ_of_le (hb b hb1)
        · refine List.Pairwise.imp_of_mem ?_ hp
          intro a b ha hb1 hab
          show (if _ then _ else _) < (if _ then _ else _)
          rw [hz a ha, hz b hb1]
          exact hab

/-- With an empty free list the frame handed out by `TryToFindFreePage` is unpinned and
every other unpinned frame of the pool was brought to pin count 0 later. -/
theorem victim_is_least_recent (PS N : Nat) (t : Traced) (h : TracedReachable PS N t)
    (s1 : BufferPoolManager) (f : Nat) (hfl : t.pool.free_list_ = [])
    (hT : t.pool.TryToFindFreePage = (s1, some f)) :
    (t.pool.pages_ f).pin_count_ = 0 ∧
      ∀ g, g < N → g ≠ f → (t.pool.pages_ g).pin_count_ = 0 → t.zeroedAt f < t.zeroedAt g := by
  obtain ⟨hr, hU, _, hp⟩ := traced_inv PS N t h
  have hI := inv_reachable PS N t.pool hr
  have hN : t.pool.pool_size_ = N := reachable_pool_size PS N _ hr
  obtain ⟨_, _, _, _, _, _, h7, _, hcase⟩ := tryFind_some t.pool s1 f hI hT
  refine ⟨h7, fun g hg hgf hpg => ?_⟩
  rcases hcase with ⟨h1, _⟩ | ⟨_, _, h3⟩
  · rw [hfl] at h1
    cases h1
  · rw [h3, List.pairwise_append] at hp
    rcases hU g (hN ▸ hg) hpg with hm | hm
    · rw [hfl] at hm
      cases hm
    · rw [h3] at hm
      rcases List.mem_append.1 hm with hm | hm
      · exact hp.2.2 g hm f (List.mem_singleton_self f)
      · exact absurd (List.mem_singleton.1 hm) hgf

/-- With a non-empty free list a miss takes the front of the free list, a frame that
holds no page: every other frame and every page-table entry but the new one stay. -/
theorem install_from_free_list (s t : BufferPoolManager) (f : Nat) (rest : List Nat)
    (L : Int) (data : BitmapPage) (d : DiskManager) (hI : PoolInv s)
    (hfl : s.free_list_ = f :: rest) (hT : s.TryToFindFreePage = (t, some f)) :
    (s.pages_ f).page_id_ = INVALID_PAGE_ID ∧ (t.install f L data d).free_list_ = rest ∧
      (∀ g, g ≠ f → (t.install f L data d).pages_ g = s.pages_ g) ∧
      (∀ L1, L1 ≠ L → ptFind (t.install f L data d).page_table_ L1 = ptFind s.page_table_ L1) := by
  have hT1 := tryFind_cons s f rest hfl
  rw [hT] at hT1
  simp only [Prod.mk.injEq, true_and, and_true] at hT1
  subst hT1
  have hinv := (hI.free f (by rw [hfl]; exact List.mem_cons_self _ _)).1
  refine ⟨hinv, rfl, fun g hg => ?_, fun L1 hL1 => ?_⟩
  · show Function.update s.pages_ f _ g = _
    rw [Function.update_noteq hg]
  · show ptFind (ptSet (if (s.pages_ f).page_id_ ≠ INVALID_PAGE_ID then
        ptErase s.page_table_ (s.pages_ f).page_id_ else s.page_table_) L f) L1 = _
    rw [ptFind_set_ne _ _ _ _ hL1, if_neg (not_not.2 hinv)]

/-! ## Fetching and unpinning distinct pages on a fresh pool -/

/-- A miss that finds a frame succeeds: no `ASSERT` fails when the page id is not negative. -/
theorem fetch_miss_some (PS : Nat) (s t : BufferPoolManager) (f : Nat) (L : Int)
    (hI : PoolInv s) (hL : 0 ≤ L) (hm : ptFind s.page_table_ L = none)
    (hT : s.TryToFindFreePage = (t, some f)) :
    ∃ d2, (if (s.pages_ f).is_dirty_ then
          s.disk_manager_.WritePage PS (s.pages_ f).page_id_ (s.pages_ f).data_
        else some s.disk_manager_) = some d2 ∧
      s.FetchPage PS L =
        some (t.install f L (d2.ReadPhysicalPage (MapPageId PS L.toNat)) d2, some f) := by
  obtain ⟨_, hpg, _, hdm, _⟩ := tryFind_some s t f hI hT
  have hw : ∃ d2, (if (s.pages_ f).is_dirty_ then
      s.disk_manager_.WritePage PS (s.pages_ f).page_id_ (s.pages_ f).data_
      else some s.disk_manager_) = some d2 := by
    by_cases hd : (s.pages_ f).is_dirty_ = true
    · rw [if_pos hd]
      unfold DiskManager.WritePage
      rw [if_pos (hI.dirty_valid f hd)]
      exact ⟨_, rfl⟩
    · rw [if_neg hd]
      exact ⟨_, rfl⟩
  obtain ⟨d2, hd2⟩ := hw
  refine ⟨d2, hd2, ?_⟩
  unfold BufferPoolManager.FetchPage
  rw [hm]
  simp only [hT, hpg, hdm, hd2, Option.some_bind, DiskManager.ReadPage, hL, if_true,
    BufferPoolManager.install]

theorem scenario_new (N : Nat) (d : DiskManager) :
    Scenario N (BufferPoolManager.new N d) [] := by
  refine ⟨inv_new N d, rfl, ?_, rfl, ?_, fun p _ => rfl⟩
  · show List.range N = List.range' 0 (N - 0)
    rw [List.range_eq_range']
    rfl
  · intro i p h
    simp at h

theorem scenario_step (PS N : Nat) (s : BufferPoolManager) (done : List Int) (p : Int)
    (dirty : Bool) (hS : Scenario N s done) (hk : done.length < N) (hp : p ∉ done)
    (hp0 : 0 ≤ p) :
    ∃ s1, s.fetchUnpin PS p dirty = some s1 ∧ Scenario N s1 (done ++ [p]) := by
  obtain ⟨hI, hN, hfree, hlist, htbl, hnot⟩ := hS
  have hm := hnot p hp
  obtain ⟨m, hmN⟩ : ∃ m, N - done.length = m + 1 := ⟨N - done.length - 1, by omega⟩
  have hfree1 : s.free_list_ = done.length :: List.range' (done.length + 1) m := by
    rw [hfree, hmN, List.range'_succ]
  have hT := tryFind_cons s _ _ hfree1
  obtain ⟨d2, _, hF⟩ := fetch_miss_some PS s _ done.length p hI hp0 hm hT
  have hinv := (hI.free done.length (by rw [hfree1]; exact List.mem_cons_self _ _)).1
  have hI1 := inv_fetch PS s _ p _ hI hF
  have hkl : done.length ∉ s.replacer_.lru_list_ := by
    rw [hlist, List.mem_reverse, List.mem_range]
    omega
  obtain ⟨_, hpin, _⟩ := pin_spec s.replacer_ done.length hI.sync
  have hpin1 : (s.replacer_.Pin done.length).lru_list_ = s.replacer_.lru_list_ := by
    rw [hpin, List.erase_of_not_mem hkl]
  refine ⟨((({ s with free_list_ := List.range' (done.length + 1) m } :
      BufferPoolManager).install done.length p
      (d2.ReadPhysicalPage (MapPageId PS p.toNat)) d2).UnpinPage p dirty).1,
    by unfold BufferPoolManager.fetchUnpin; rw [hF]; rfl, ?_⟩
  rcases unpin_cases (({ s with free_list_ := List.range' (done.length + 1) m } :
      BufferPoolManager).install done.length p
      (d2.ReadPhysicalPage (MapPageId PS p.toNat)) d2) p dirty with ⟨_, hc⟩ | ⟨f, hf, hpf, hU⟩
  · exfalso
    rcases hc with hc | ⟨f, hf, hpf⟩
    · have : ptFind (ptSet _ p done.length) p = none := hc
      rw [ptFind_set_self] at this
      cases this
    · have h1 : ptFind (ptSet _ p done.length) p = some f := hf
      rw [ptFind_set_self] at h1
      cases h1
      have h2 : (Function.update s.pages_ done.length (⟨p, 1, false, _⟩ : Page)
        done.length).pin_count_ ≤ 0 := hpf
      rw [Function.update_same] at h2
      have h3 : (1 : Int) ≤ 0 := h2
      omega
  · have h1 : ptFind (ptSet _ p done.length) p = some f := hf
    rw [ptFind_set_self] at h1
    cases h1
    have hI2 := inv_unpin _ p dirty hI1
    rw [hU] at hI2 ⊢
    have hone : (Function.update s.pages_ done.length
        (⟨p, 1, false, d2.ReadPhysicalPage (MapPageId PS p.toNat)⟩ : Page)
        done.length).pin_count_ - 1 = 0 := by
      rw [Function.update_same]
      rfl
    have hmax : (s.replacer_.Pin done.length).max_size_ = s.pool_size_ := hI1.max
    have hlen : (s.replacer_.Pin done.length).lru_list_.length <
        (s.replacer_.Pin done.length).max_size_ := by
      rw [hpin1, hlist, List.length_reverse, List.length_range, hmax]
      omega
    obtain ⟨_, hul, _⟩ := unpin_spec (s.replacer_.Pin done.length) done.length hI1.sync
      (by rw [hpin1]; exact hkl) hlen
    refine ⟨hI2, hN, ?_, ?_, ?_, ?_⟩
    · show List.range' (done.length + 1) m = List.range' (done ++ [p]).length _
      rw [List.length_append, List.length_singleton]
      congr 1
      omega
    · refine (congrArg LRUReplacer.lru_list_ (if_pos hone)).trans (hul.trans ?_)
      rw [hpin1, hlist, List.length_append, List.length_singleton,
        List.range_succ, List.reverse_append]
      rfl
    · intro i q hq
      show ptFind (ptSet (if (s.pages_ done.length).page_id_ ≠ INVALID_PAGE_ID then
          ptErase s.page_table_ (s.pages_ done.length).page_id_ else s.page_table_)
          p done.length) q = some i ∧
        (Function.update (Function.update s.pages_ done.length _) done.length _ i).page_id_ = q
      rw [if_neg (not_not.2 hinv)]
      by_cases hi : i < done.length
      · rw [List.getElem?_append_left hi] at hq
        obtain ⟨a, b⟩ := htbl i q hq
        have hqp : q ≠ p := fun hc => hp (hc ▸ List.mem_iff_getElem?.2 ⟨i, hq⟩)
        have hid : i ≠ done.length := by omega
        rw [ptFind_set_ne _ _ _ _ hqp, Function.update_noteq hid, Function.update_noteq hid]
        exact ⟨a, b⟩
      · have hi2 : i = done.length := by
          have := (List.getElem?_eq_some_iff.1 hq).1
          rw [List.length_append, List.length_singleton] at this
          omega
        subst hi2
        rw [List.getElem?_concat_length] at hq
        cases hq
        rw [ptFind_set_self, Function.update_same]
        refine ⟨rfl, ?_⟩
        show (Function.update s.pages_ done.length
          (⟨p, 1, false, d2.ReadPhysicalPage (MapPageId PS p.toNat)⟩ : Page)
          done.length).page_id_ = p
        rw [Function.update_same]
    · intro q hq
      show ptFind (ptSet (if (s.pages_ done.length).page_id_ ≠ INVALID_PAGE_ID then
          ptErase s.page_table_ (s.pages_ done.length).page_id_ else s.page_table_)
          p done.length) q = none
      rw [if_neg (not_not.2 hinv)]
      have hqp : q ≠ p := fun hc => hq (by rw [hc]; simp)
      rw [ptFind_set_ne _ _ _ _ hqp]
      exact hnot q (fun hc => hq (List.mem_append_left _ hc))

theorem scenario_all (PS N : Nat) (dirty : Int → Bool) (ps : List Int) :
    ∀ (done : List Int) (s : BufferPoolManager), Scenario N s done →
      done.length + ps.length ≤ N → (done ++ ps).Nodup → (∀ p, p ∈ ps → 0 ≤ p) →
      ∃ s1, BufferPoolManager.fetchUnpinAll PS dirty s ps = some s1 ∧
        Scenario N s1 (done ++ ps) := by
  induction ps with
  | nil =>
    intro done s hS _ _ _
    exact ⟨s, rfl, by rw [List.append_nil]; exact hS⟩
  | cons p ps ih =>
    intro done s hS hlen hnd h0
    have hp : p ∉ done := by
      intro hc
      have := List.nodup_append.1 hnd
      exact this.2.2 hc (List.mem_cons_self _ _)
    obtain ⟨s1, h1, hS1⟩ := scenario_step PS N s done p (dirty p) hS
      (by simp only [List.length_cons] at hlen; omega) hp (h0 p (List.mem_cons_self _ _))
    obtain ⟨s2, h2, hS2⟩ := ih (done ++ [p]) s1 hS1
      (by simp only [List.length_append, List.length_cons, List.length_nil] at hlen ⊢; omega)
      (by rw [List.append_assoc]; exact hnd)
      (fun q hq => h0 q (List.mem_cons_of_mem _ hq))
    refine ⟨s2, ?_, by rw [List.append_assoc] at hS2; exact hS2⟩
    show (s.fetchUnpin PS p (dirty p)).bind _ = some s2
    rw [h1]
    exact h2

theorem scenario_evict (PS N : Nat) (s : BufferPoolManager) (p0 : Int) (tail : List Int)
    (q : Int) (hS : Scenario N s (p0 :: tail)) (hN : (p0 :: tail).length = N)
    (hnd : (p0 :: tail).Nodup) (hq : q ∉ p0 :: tail) (hq0 : 0 ≤ q) :
    ∃ s2, s.FetchPage PS q = some (s2, some 0) ∧ s.free_list_ = [] ∧
      (s.pages_ 0).page_id_ = p0 ∧ ptFind s.page_table_ p0 = some 0 ∧
      ptFind s2.page_table_ p0 = none ∧ ptFind s2.page_table_ q = some 0 ∧
      ∀ p, p ∈ tail → ∃ g, g ≠ 0 ∧ ptFind s.page_table_ p = some g ∧
        ptFind s2.page_table_ p = some g ∧ (s2.pages_ g).page_id_ = p := by
  obtain ⟨hI, _, hfree, hlist, htbl, hnot⟩ := hS
  have hfl : s.free_list_ = [] := by
    rw [hfree, hN, Nat.sub_self, List.range'_zero]
  have hl : s.replacer_.lru_list_ =
      (List.map Nat.succ (List.range tail.length)).reverse ++ [0] := by
    rw [hlist, List.length_cons, List.range_succ_eq_map, List.reverse_cons]
  obtain ⟨hv2, _, _, _⟩ := victim_some s.replacer_ _ 0 hI.sync hl
  have hT : s.TryToFindFreePage =
      (({ s with replacer_ := s.replacer_.Victim.1 } : BufferPoolManager), some 0) := by
    rw [tryFind_nil s hfl, hv2]
  obtain ⟨d2, _, hF⟩ := fetch_miss_some PS s _ 0 q hI hq0 (hnot q hq) hT
  obtain ⟨a0, b0⟩ := htbl 0 p0 (List.getElem?_cons_zero)
  have hp00 := (hI.tbl p0 0 a0).2.1
  have hinv : (s.pages_ 0).page_id_ ≠ INVALID_PAGE_ID := by
    rw [b0]; unfold INVALID_PAGE_ID; omega
  have hqp0 : p0 ≠ q := fun hc => hq (hc ▸ List.mem_cons_self _ _)
  refine ⟨_, hF, hfl, b0, a0, ?_, ?_, ?_⟩
  · show ptFind (ptSet (if (s.pages_ 0).page_id_ ≠ INVALID_PAGE_ID then
        ptErase s.page_table_ (s.pages_ 0).page_id_ else s.page_table_) q 0) p0 = none
    rw [if_pos hinv, ptFind_set_ne _ _ _ _ hqp0, b0, ptFind_erase_self]
  · show ptFind (ptSet _ q 0) q = some 0
    rw [ptFind_set_self]
  · intro p hp
    obtain ⟨i, hi⟩ := List.mem_iff_getElem?.1 hp
    have hi1 : (p0 :: tail)[i + 1]? = some p := by
      rw [List.getElem?_cons_succ]; exact hi
    obtain ⟨a, b⟩ := htbl (i + 1) p hi1
    have hpq : p ≠ q := fun hc => hq (hc ▸ List.mem_cons_of_mem _ hp)
    have hpp0 : p ≠ p0 := by
      intro hc
      exact (List.nodup_cons.1 hnd).1 (hc ▸ hp)
    refine ⟨i + 1, Nat.succ_ne_zero i, a, ?_, ?_⟩
    · show ptFind (ptSet (if (s.pages_ 0).page_id_ ≠ INVALID_PAGE_ID then
          ptErase s.page_table_ (s.pages_ 0).page_id_ else s.page_table_) q 0) p = some (i + 1)
      rw [if_pos hinv, ptFind_set_ne _ _ _ _ hpq, b0, ptFind_erase_ne _ _ _ hpp0]
      exact a
    · show (Function.update s.pages_ 0
        (⟨q, 1, false, d2.ReadPhysicalPage (MapPageId PS q.toNat)⟩ : Page) (i + 1)).page_id_ = p
      rw [Function.update_noteq (Nat.succ_ne_zero i)]
      exact b

theorem tryFind_disk (s : BufferPoolManager) (d : DiskManager) :
    ({ s with disk_manager_ := d } : BufferPoolManager).TryToFindFreePage.2 =
      s.TryToFindFreePage.2 := by
  have hc : s.free_list_ = [] ∨ ∃ g rest, s.free_list_ = g :: rest := by
    cases s.free_list_ with
    | nil => exact Or.inl rfl
    | cons g rest => exact Or.inr ⟨g, rest, rfl⟩
  rcases hc with h | ⟨g, rest, h⟩
  · rw [tryFind_nil s h, tryFind_nil ({ s with disk_manager_ := d } : BufferPoolManager) h]
  · rw [tryFind_cons s g rest h,
      tryFind_cons ({ s with disk_manager_ := d } : BufferPoolManager) g rest h]

theorem lru_of_traced (PS N : Nat) (t : Traced) (h : TracedReachable PS N t) (f : Nat)
    (hfl : t.pool.free_list_ = []) (hT : t.pool.TryToFindFreePage.2 = some f) :
    (t.pool.pages_ f).pin_count_ = 0 ∧
      ∀ g, g < N → g ≠ f → (t.pool.pages_ g).pin_count_ = 0 → t.zeroedAt f < t.zeroedAt g :=
  victim_is_least_recent PS N t h _ f hfl (Prod.ext rfl hT)

/-! ## Residency, the page table and the allocator -/

theorem mapPageId_ne_bitmap (PS : Nat) (hPS : 8 < PS) (n e : Nat) :
    MapPageId PS n ≠ bitmapPageId PS e := by
  have hM := maxSize_pos PS hPS
  unfold MapPageId bitmapPageId
  intro h
  have hr : n % GetMaxSupportedSize PS < GetMaxSupportedSize PS := Nat.mod_lt _ hM
  have h1 : n / GetMaxSupportedSize PS * (GetMaxSupportedSize PS + 1) +
      (n % GetMaxSupportedSize PS + 1) = e * (GetMaxSupportedSize PS + 1) := by
    simp only at h
    omega
  have h2 := congrArg (fun x => x % (GetMaxSupportedSize PS + 1)) h1
  simp only [Nat.mul_mod_left] at h2
  rw [Nat.add_comm, Nat.add_mul_mod_self_right, Nat.mod_eq_of_lt (by omega)] at h2
  omega

theorem isPageFree_writePhysical (PS : Nat) (hPS : 8 < PS) (d : DiskManager) (n : Nat)
    (data : BitmapPage) (L : Int) :
    (d.WritePhysicalPage (MapPageId PS n) data).IsPageFree PS L = d.IsPageFree PS L := by
  by_cases hneg : L < 0
  · rw [isPageFree_neg _ _ _ hneg, isPageFree_neg _ _ _ hneg]
  · obtain ⟨m, rfl⟩ := Int.eq_ofNat_of_zero_le (by omega : 0 ≤ L)
    rw [isPageFree_nat PS hPS, isPageFree_nat PS hPS]
    have : (d.WritePhysicalPage (MapPageId PS n) data).bitmapOf PS (m / GetMaxSupportedSize PS) =
        d.bitmapOf PS (m / GetMaxSupportedSize PS) := by
      show Function.update d.file (MapPageId PS n) data (bitmapPageId PS _) = _
      rw [Function.update_noteq (mapPageId_ne_bitmap PS hPS n _).symm]
      rfl
    rw [this]
    rfl

theorem isPageFree_writePage (PS : Nat) (hPS : 8 < PS) (d d2 : DiskManager) (L0 : Int)
    (data : BitmapPage) (h : d.WritePage PS L0 data = some d2) (L : Int) :
    d2.IsPageFree PS L = d.IsPageFree PS L := by
  unfold DiskManager.WritePage at h
  split at h
  · cases h
    exact isPageFree_writePhysical PS hPS d _ data L
  · cases h

theorem isPageFree_writeBack (PS : Nat) (hPS : 8 < PS) (d d2 : DiskManager) (c : Prop)
    [Decidable c] (L0 : Int) (data : BitmapPage)
    (h : (if c then d.WritePage PS L0 data else some d) = some d2) (L : Int) :
    d2.IsPageFree PS L = d.IsPageFree PS L := by
  split at h
  · exact isPageFree_writePage PS hPS d d2 L0 data h L
  · cases h
    rfl

theorem res_install (PS : Nat) (s t : BufferPoolManager) (f : Nat) (L : Int)
    (data : BitmapPage) (d : DiskManager) (hI : PoolInv s) (hR : ResInv PS s)
    (hT : s.TryToFindFreePage = (t, some f))
    (hnew : ∀ g, g < s.pool_size_ → (s.pages_ g).page_id_ ≠ L)
    (hfree : ∀ L1, d.IsPageFree PS L1 = false ∨ ¬ s.disk_manager_.IsPageFree PS L1 = false)
    (hL : d.IsPageFree PS L = false) :
    ResInv PS (t.install f L data d) := by
  obtain ⟨_, hpg, htb, _, hps, hfN, _, _, _⟩ := tryFind_some s t f hI hT
  have hold : ∀ L1 g, L1 ≠ L → ptFind (t.install f L data d).page_table_ L1 = some g →
      ptFind s.page_table_ L1 = some g := by
    intro L1 g hL1 hg
    have hg1 : ptFind (ptSet (if (t.pages_ f).page_id_ ≠ INVALID_PAGE_ID then
        ptErase t.page_table_ (t.pages_ f).page_id_ else t.page_table_) L f) L1 = some g := hg
    rw [ptFind_set_ne _ _ _ _ hL1, htb] at hg1
    by_cases hv : (t.pages_ f).page_id_ ≠ INVALID_PAGE_ID
    · rw [if_pos hv] at hg1
      by_cases h1 : L1 = (t.pages_ f).page_id_
      · rw [h1, ptFind_erase_self] at hg1
        cases hg1
      · rwa [ptFind_erase_ne _ _ _ h1] at hg1
    · rwa [if_neg hv] at hg1
  constructor
  · intro g L1 hg hpid hL1
    show ptFind (ptSet (if (t.pages_ f).page_id_ ≠ INVALID_PAGE_ID then
        ptErase t.page_table_ (t.pages_ f).page_id_ else t.page_table_) L f) L1 = some g
    have hpid1 : (Function.update t.pages_ f (⟨L, 1, false, data⟩ : Page) g).page_id_ = L1 := hpid
    have hg1 : g < s.pool_size_ := by rw [← hps]; exact hg
    by_cases hgf : g = f
    · subst hgf
      rw [Function.update_same] at hpid1
      have : L = L1 := hpid1
      rw [← this, ptFind_set_self]
    · rw [Function.update_noteq hgf, hpg] at hpid1
      have hLL : L1 ≠ L := fun hc => hnew g hg1 (hpid1.trans hc)
      have hin := hR.res g L1 hg1 hpid1 hL1
      rw [ptFind_set_ne _ _ _ _ hLL, htb]
      by_cases hv : (t.pages_ f).page_id_ ≠ INVALID_PAGE_ID
      · rw [if_pos hv]
        have hne : L1 ≠ (t.pages_ f).page_id_ := by
          intro hc
          rw [hpg] at hc hv
          have := hR.res f _ hfN rfl hv
          rw [← hc, hin] at this
          cases this
          exact hgf rfl
        rw [ptFind_erase_ne _ _ _ hne]
        exact hin
      · rw [if_neg hv]
        exact hin
  · intro L1 g hg
    show d.IsPageFree PS L1 = false
    by_cases hLL : L1 = L
    · rw [hLL]; exact hL
    · have := hR.alloc L1 g (hold L1 g hLL hg)
      rcases hfree L1 with h | h
      · exact h
      · exact absurd this h

theorem res_of_pages (PS : Nat) (s s1 : BufferPoolManager) (hR : ResInv PS s)
    (h1 : s1.pool_size_ = s.pool_size_) (h2 : s1.page_table_ = s.page_table_)
    (hd : ∀ L, s.disk_manager_.IsPageFree PS L = false → s1.disk_manager_.IsPageFree PS L = false)
    (hp : ∀ g, (s1.pages_ g).page_id_ = (s.pages_ g).page_id_) : ResInv PS s1 where
  res := by
    intro g L hg hpid hL
    rw [h2]
    rw [h1] at hg
    rw [hp g] at hpid
    exact hR.res g L hg hpid hL
  alloc := by
    intro L f hf
    rw [h2] at hf
    exact hd L (hR.alloc L f hf)

theorem res_new (PS N : Nat) : ResInv PS (BufferPoolManager.new N DiskManager.empty) where
  res := by
    intro g L _ hpid hL
    exact absurd hpid.symm hL
  alloc := by
    intro L f hf
    simp [BufferPoolManager.new, ptFind] at hf

theorem res_step (PS : Nat) (hPS : 8 < PS) (s s1 : BufferPoolManager) (op : Op)
    (hI : PoolInv s) (hR : ResInv PS s) (hc : Careful PS s op)
    (h : s.step PS op = some s1) : ResInv PS s1 := by
  cases op with
  | fetch L =>
    simp only [BufferPoolManager.step, Option.map_eq_some'] at h
    obtain ⟨⟨t, r⟩, h1, rfl⟩ := h
    rcases fetch_cases PS s t L r h1 with ⟨f, hf, _, rfl⟩ | ⟨_, hn, _, rfl⟩ |
      ⟨hm, f, d2, hT, hL0, _, hw, rfl⟩
    · refine res_of_pages PS s _ hR rfl rfl (fun _ h => h) (fun g => ?_)
      show (Function.update s.pages_ f _ g).page_id_ = _
      by_cases hgf : g = f
      · rw [hgf, Function.update_same]
      · rw [Function.update_noteq hgf]
    · rw [(tryFind_none s hn).1]
      exact hR
    · obtain ⟨_, _, _, hdm, _⟩ := tryFind_some s _ f hI (Prod.ext rfl hT)
      rw [hdm] at hw
      have hfr : ∀ L1, d2.IsPageFree PS L1 = s.disk_manager_.IsPageFree PS L1 :=
        fun L1 => isPageFree_writeBack PS hPS _ d2 _ _ _ hw L1
      refine res_install PS s _ f L _ d2 hI hR (Prod.ext rfl hT) ?_ ?_ ?_
      · intro g hg hpid
        have hinv : L ≠ INVALID_PAGE_ID := by
          unfold INVALID_PAGE_ID; omega
        have := hR.res g L hg hpid hinv
        rw [hm] at this
        cases this
      · intro L1
        by_cases hx : s.disk_manager_.IsPageFree PS L1 = false
        · left; rw [hfr]; exact hx
        · right; exact hx
      · rw [hfr]; exact hc
  | newPage =>
    simp only [BufferPoolManager.step, Option.map_eq_some'] at h
    obtain ⟨⟨t, L, r⟩, h1, rfl⟩ := h
    have hI0 := inv_disk s (s.disk_manager_.AllocatePage PS).1 hI
    have hbefore := alloc_free_before PS hPS s.disk_manager_
    have hafter := alloc_not_free_after PS hPS s.disk_manager_
    obtain ⟨hL, hcs⟩ := new_cases PS s t L r h1
    have hLne : ∀ L1 f, ptFind s.page_table_ L1 = some f → L1 ≠ L := by
      intro L1 f hf heq
      have := hR.alloc L1 f hf
      rw [heq, hL, hbefore] at this
      cases this
    rcases hcs with ⟨hn, _, rfl⟩ | ⟨f, d2, t1, hT, _, hw, rfl⟩
    · rw [(tryFind_none _ hn).1]
      constructor
      · exact hR.res
      · intro L1 f hf
        show ((s.disk_manager_.AllocatePage PS).1.DeAllocatePage PS L).IsPageFree PS L1 = false
        have hne := hLne L1 f hf
        rw [dealloc_others PS hPS _ L L1 hne, alloc_others PS hPS _ L1 (by rw [← hL]; exact hne)]
        exact hR.alloc L1 f hf
    · obtain ⟨_, _, _, hdm, _⟩ := tryFind_some _ t1 f hI0 hT
      have hw1 : (if (t1.pages_ f).page_id_ ≠ INVALID_PAGE_ID ∧ (t1.pages_ f).is_dirty_ = true
          then (s.disk_manager_.AllocatePage PS).1.WritePage PS (t1.pages_ f).page_id_
            (t1.pages_ f).data_
          else some (s.disk_manager_.AllocatePage PS).1) = some d2 := by
        rw [← hw, hdm]
      have hfr : ∀ L1, d2.IsPageFree PS L1 = (s.disk_manager_.AllocatePage PS).1.IsPageFree PS L1 :=
        fun L1 => isPageFree_writeBack PS hPS _ d2 _ _ _ hw1 L1
      have hR0 : ResInv PS ({ s with disk_manager_ := (s.disk_manager_.AllocatePage PS).1 } :
          BufferPoolManager) := by
        constructor
        · exact hR.res
        · intro L1 g hg
          show (s.disk_manager_.AllocatePage PS).1.IsPageFree PS L1 = false
          rw [alloc_others PS hPS _ L1 (by rw [← hL]; exact hLne L1 g hg)]
          exact hR.alloc L1 g hg
      refine res_install PS _ t1 f L zeroPage d2 hI0 hR0 hT ?_ ?_ ?_
      · intro g hg hpid
        have hinv : L ≠ INVALID_PAGE_ID := by
          have := alloc_nonneg_any PS s.disk_manager_
          rw [hL]; unfold INVALID_PAGE_ID; omega
        exact hLne L g (hR.res g L hg hpid hinv) rfl
      · intro L1
        by_cases hx : (s.disk_manager_.AllocatePage PS).1.IsPageFree PS L1 = false
        · left; rw [hfr]; exact hx
        · right; exact hx
      · rw [hfr, hL]; exact hafter
  | unpin L dirty =>
    simp only [BufferPoolManager.step, Option.some.injEq] at h
    subst h
    rcases unpin_cases s L dirty with ⟨h, _⟩ | ⟨f, _, _, h⟩
    · rw [h]; exact hR
    · rw [h]
      refine res_of_pages PS s _ hR rfl rfl (fun _ h => h) (fun g => ?_)
      show (Function.update s.pages_ f _ g).page_id_ = _
      by_cases hgf : g = f
      · rw [hgf, Function.update_same]
      · rw [Function.update_noteq hgf]
  | flush L =>
    simp only [BufferPoolManager.step, Option.map_eq_some'] at h
    obtain ⟨⟨t, r⟩, h1, rfl⟩ := h
    rcases flush_cases PS s t L r h1 with ⟨_, _, rfl⟩ | ⟨f, d2, _, _, hw, rfl⟩
    · exact hR
    · refine res_of_pages PS s _ hR rfl rfl (fun L1 h => ?_) (fun g => ?_)
      · show d2.IsPageFree PS L1 = false
        rw [isPageFree_writePage PS hPS _ d2 _ _ hw]
        exact h
      · show (Function.update s.pages_ f _ g).page_id_ = _
        by_cases hgf : g = f
        · rw [hgf, Function.update_same]
        · rw [Function.update_noteq hgf]
  | delete L =>
    simp only [BufferPoolManager.step, Option.map_eq_some'] at h
    obtain ⟨⟨t, r⟩, h1, rfl⟩ := h
    rcases delete_cases PS s t L r h1 with ⟨hm, _, rfl⟩ | ⟨f, hf, hp, _, rfl⟩ |
      ⟨f, d2, hf, hp, _, hw, rfl⟩
    · constructor
      · exact hR.res
      · intro L1 g hg
        show (s.disk_manager_.DeAllocatePage PS L).IsPageFree PS L1 = false
        have hne : L1 ≠ L := by
          intro heq
          have hg1 : ptFind s.page_table_ L1 = some g := hg
          rw [heq, hm] at hg1
          cases hg1
        rw [dealloc_others PS hPS _ L L1 hne]
        exact hR.alloc L1 g hg
    · exact absurd hp (hc f hf)
    · have hfr : ∀ L1, d2.IsPageFree PS L1 =
          (s.disk_manager_.DeAllocatePage PS L).IsPageFree PS L1 :=
        fun L1 => isPageFree_writeBack PS hPS _ d2 _ _ _ hw L1
      constructor
      · intro g L1 hg hpid hL1
        show ptFind (ptErase s.page_table_ L) L1 = some g
        have hpid1 : (Function.update s.pages_ f
            (⟨INVALID_PAGE_ID, 0, false, zeroPage⟩ : Page) g).page_id_ = L1 := hpid
        by_cases hgf : g = f
        · rw [hgf, Function.update_same] at hpid1
          exact absurd hpid1.symm hL1
        · rw [Function.update_noteq hgf] at hpid1
          have hin := hR.res g L1 hg hpid1 hL1
          have hne : L1 ≠ L := by
            intro heq
            rw [heq, hf] at hin
            cases hin
            exact hgf rfl
          rw [ptFind_erase_ne _ _ _ hne]
          exact hin
      · intro L1 g hg
        show d2.IsPageFree PS L1 = false
        have hg1 : ptFind (ptErase s.page_table_ L) L1 = some g := hg
        have hne : L1 ≠ L := by
          intro heq
          rw [heq, ptFind_erase_self] at hg1
          cases hg1
        rw [ptFind_erase_ne _ _ _ hne] at hg1
        rw [hfr, dealloc_others PS hPS _ L L1 hne]
        exact hR.alloc L1 g hg1
  | write f data =>
    simp only [BufferPoolManager.step] at h
    unfold BufferPoolManager.WriteData at h
    split at h
    · cases h
      refine res_of_pages PS s _ hR rfl rfl (fun _ h => h) (fun g => ?_)
      show (Function.update s.pages_ f _ g).page_id_ = _
      by_cases hgf : g = f
      · rw [hgf, Function.update_same]
      · rw [Function.update_noteq hgf]
    · cases h

theorem careful_inv (PS N : Nat) (hPS : 8 < PS) (s : BufferPoolManager)
    (h : CarefulReachable PS N s) : Reachable PS N s ∧ ResInv PS s := by
  induction h with
  | init => exact ⟨reachable_new PS N _, res_new PS N⟩
  | step op _ hc hs ih =>
    exact ⟨reachable_step PS N _ _ op ih.1 hs,
      res_step PS hPS _ _ op (inv_reachable PS N _ ih.1) ih.2 hc hs⟩

theorem twicePool_reachable : Reachable 4096 2 twicePool :=
  reachable_step 4096 2 ((BufferPoolManager.new 2 DiskManager.empty).run 4096 [Op.fetch 0])
    twicePool Op.newPage
    (reachable_step 4096 2 _ _ (Op.fetch 0) (reachable_new 4096 2 DiskManager.empty) rfl) rfl

theorem pinnedPool_careful : CarefulReachable 4096 1 pinnedPool :=
  CarefulReachable.step Op.newPage CarefulReachable.init trivial rfl

/-! ## Writing dirty frames back -/

theorem mapPageId_inj (PS : Nat) (hPS : 8 < PS) (a b : Nat)
    (h : MapPageId PS a = MapPageId PS b) : a = b := by
  have hM := maxSize_pos PS hPS
  unfold MapPageId at h
  simp only at h
  have ha : a % GetMaxSupportedSize PS < GetMaxSupportedSize PS + 1 :=
    Nat.lt_succ_of_lt (Nat.mod_lt _ hM)
  have hb : b % GetMaxSupportedSize PS < GetMaxSupportedSize PS + 1 :=
    Nat.lt_succ_of_lt (Nat.mod_lt _ hM)
  have h1 : a / GetMaxSupportedSize PS * (GetMaxSupportedSize PS + 1) + a % GetMaxSupportedSize PS
      = b / GetMaxSupportedSize PS * (GetMaxSupportedSize PS + 1) + b % GetMaxSupportedSize PS := by
    omega
  have hq := congrArg (fun x => x / (GetMaxSupportedSize PS + 1)) h1
  have hr := congrArg (fun x => x % (GetMaxSupportedSize PS + 1)) h1
  simp only [slot_div _ _ _ ha, slot_div _ _ _ hb] at hq
  simp only [slot_mod _ _ _ ha, slot_mod _ _ _ hb] at hr
  rw [← Nat.div_add_mod a (GetMaxSupportedSize PS), ← Nat.div_add_mod b (GetMaxSupportedSize PS),
    hq, hr]

theorem read_after_write (PS : Nat) (d d2 : DiskManager) (L : Int) (data : BitmapPage)
    (h : d.WritePage PS L data = some d2) : d2.ReadPage PS L = some data := by
  unfold DiskManager.WritePage at h
  unfold DiskManager.ReadPage
  split at h
  · rename_i h0
    cases h
    rw [if_pos h0]
    show some (Function.update d.file _ data _) = _
    rw [Function.update_same]
  · cases h

theorem read_other_write (PS : Nat) (hPS : 8 < PS) (d d2 : DiskManager) (L L1 : Int)
    (data : BitmapPage) (h : d.WritePage PS L1 data = some d2) (h0 : 0 ≤ L) (hne : L1 ≠ L) :
    d2.ReadPhysicalPage (MapPageId PS L.toNat) = d.ReadPhysicalPage (MapPageId PS L.toNat) := by
  unfold DiskManager.WritePage at h
  split at h
  · rename_i h1
    cases h
    show Function.update d.file _ data _ = _
    rw [Function.update_noteq]
    · rfl
    · intro hc
      apply hne
      have := mapPageId_inj PS hPS _ _ hc
      omega
  · cases h

/-- A dirty frame stays dirty with its page id until a call writes its bytes to disk at that
page id. -/
theorem dirty_persists (PS : Nat) (s s1 : BufferPoolManager) (op : Op) (hI : PoolInv s)
    (h : s.step PS op = some s1) (f : Nat) (hd : (s.pages_ f).is_dirty_ = true) :
    ((s1.pages_ f).page_id_ = (s.pages_ f).page_id_ ∧ (s1.pages_ f).is_dirty_ = true) ∨
      s1.disk_manager_.ReadPage PS (s.pages_ f).page_id_ = some (s.pages_ f).data_ := by
  have hv := hI.dirty_valid f hd
  have hne : (s.pages_ f).page_id_ ≠ INVALID_PAGE_ID := by
    unfold INVALID_PAGE_ID; omega
  cases op with
  | fetch L =>
    simp only [BufferPoolManager.step, Option.map_eq_some'] at h
    obtain ⟨⟨t, r⟩, h1, rfl⟩ := h
    rcases fetch_cases PS s t L r h1 with ⟨g, _, _, rfl⟩ | ⟨_, hn, _, rfl⟩ |
      ⟨_, g, d2, hT, _, _, hw, rfl⟩
    · left
      show (Function.update s.pages_ g _ f).page_id_ = _ ∧
        (Function.update s.pages_ g _ f).is_dirty_ = true
      by_cases hfg : f = g
      · subst hfg
        rw [Function.update_same]
        exact ⟨rfl, hd⟩
      · rw [Function.update_noteq hfg]
        exact ⟨rfl, hd⟩
    · rw [(tryFind_none s hn).1]
      exact Or.inl ⟨rfl, hd⟩
    · obtain ⟨_, hpg, _, hdm, _⟩ := tryFind_some s _ g hI (Prod.ext rfl hT)
      by_cases hfg : f = g
      · right
        subst hfg
        rw [hpg, hdm, if_pos hd] at hw
        exact read_after_write PS _ d2 _ _ hw
      · left
        show (Function.update s.TryToFindFreePage.1.pages_ g _ f).page_id_ = _ ∧
          (Function.update s.TryToFindFreePage.1.pages_ g _ f).is_dirty_ = true
        rw [Function.update_noteq hfg, hpg]
        exact ⟨rfl, hd⟩
  | newPage =>
    simp only [BufferPoolManager.step, Option.map_eq_some'] at h
    obtain ⟨⟨t, L, r⟩, h1, rfl⟩ := h
    have hI0 := inv_disk s (s.disk_manager_.AllocatePage PS).1 hI
    obtain ⟨_, hc⟩ := new_cases PS s t L r h1
    rcases hc with ⟨hn, _, rfl⟩ | ⟨g, d2, t1, hT, _, hw, rfl⟩
    · rw [(tryFind_none _ hn).1]
      exact Or.inl ⟨rfl, hd⟩
    · obtain ⟨_, hpg, _, _, _⟩ := tryFind_some _ t1 g hI0 hT
      have hpg1 : t1.pages_ = s.pages_ := hpg
      by_cases hfg : f = g
      · right
        subst hfg
        rw [hpg1, if_pos ⟨hne, hd⟩] at hw
        exact read_after_write PS _ d2 _ _ hw
      · left
        show (Function.update t1.pages_ g _ f).page_id_ = _ ∧
          (Function.update t1.pages_ g _ f).is_dirty_ = true
        rw [Function.update_noteq hfg, hpg1]
        exact ⟨rfl, hd⟩
  | unpin L dirty =>
    simp only [BufferPoolManager.step, Option.some.injEq] at h
    subst h
    left
    rcases unpin_cases s L dirty with ⟨h, _⟩ | ⟨g, _, _, h⟩
    · rw [h]; exact ⟨rfl, hd⟩
    · rw [h]
      show (Function.update s.pages_ g _ f).page_id_ = _ ∧
        (Function.update s.pages_ g _ f).is_dirty_ = true
      by_cases hfg : f = g
      · subst hfg
        rw [Function.update_same]
        refine ⟨rfl, ?_⟩
        show (if dirty = true then true else (s.pages_ f).is_dirty_) = true
        rw [hd]
        simp
      · rw [Function.update_noteq hfg]
        exact ⟨rfl, hd⟩
  | flush L =>
    simp only [BufferPoolManager.step, Option.map_eq_some'] at h
    obtain ⟨⟨t, r⟩, h1, rfl⟩ := h
    rcases flush_cases PS s t L r h1 with ⟨_, _, rfl⟩ | ⟨g, d2, hg, _, hw, rfl⟩
    · exact Or.inl ⟨rfl, hd⟩
    · by_cases hfg : f = g
      · right
        subst hfg
        rw [(hI.tbl L f hg).1]
        exact read_after_write PS _ d2 _ _ hw
      · left
        show (Function.update s.pages_ g _ f).page_id_ = _ ∧
          (Function.update s.pages_ g _ f).is_dirty_ = true
        rw [Function.update_noteq hfg]
        exact ⟨rfl, hd⟩
  | delete L =>
    simp only [BufferPoolManager.step, Option.map_eq_some'] at h
    obtain ⟨⟨t, r⟩, h1, rfl⟩ := h
    rcases delete_cases PS s t L r h1 with ⟨_, _, rfl⟩ | ⟨g, _, _, _, rfl⟩ |
      ⟨g, d2, hg, _, _, hw, rfl⟩
    · exact Or.inl ⟨rfl, hd⟩
    · exact Or.inl ⟨rfl, hd⟩
    · by_cases hfg : f = g
      · right
        subst hfg
        rw [if_pos hd] at hw
        rw [(hI.tbl L f hg).1]
        exact read_after_write PS _ d2 _ _ hw
      · left
        show (Function.update s.pages_ g _ f).page_id_ = _ ∧
          (Function.update s.pages_ g _ f).is_dirty_ = true
        rw [Function.update_noteq hfg]
        exact ⟨rfl, hd⟩
  | write g data =>
    simp only [BufferPoolManager.step] at h
    unfold BufferPoolManager.WriteData at h
    split at h
    · cases h
      left
      show (Function.update s.pages_ g _ f).page_id_ = _ ∧
        (Function.update s.pages_ g _ f).is_dirty_ = true
      by_cases hfg : f = g
      · subst hfg
        rw [Function.update_same]
        exact ⟨rfl, hd⟩
      · rw [Function.update_noteq hfg]
        exact ⟨rfl, hd⟩
    · cases h

theorem evict_fetch_writes (PS : Nat) (s s1 : BufferPoolManager) (q : Int) (f : Nat)
    (hI : PoolInv s) (hm : ptFind s.page_table_ q = none)
    (h : s.FetchPage PS q = some (s1, some f)) (hd : (s.pages_ f).is_dirty_ = true) :
    s1.disk_manager_.ReadPage PS (s.pages_ f).page_id_ = some (s.pages_ f).data_ ∧
      (s1.pages_ f).page_id_ = q := by
  rcases fetch_cases PS s s1 q (some f) h with ⟨g, hg, _⟩ | ⟨_, _, hn, _⟩ |
    ⟨_, g, d2, hT, _, hr, hw, rfl⟩
  · rw [hm] at hg; cases hg
  · cases hn
  · cases hr
    obtain ⟨_, hpg, _, hdm, _⟩ := tryFind_some s _ f hI (Prod.ext rfl hT)
    rw [hpg, hdm, if_pos hd] at hw
    refine ⟨read_after_write PS _ d2 _ _ hw, ?_⟩
    show (Function.update s.TryToFindFreePage.1.pages_ f _ f).page_id_ = q
    rw [Function.update_same]

theorem evict_new_writes (PS : Nat) (s s1 : BufferPoolManager) (L : Int) (f : Nat)
    (hI : PoolInv s) (h : s.NewPage PS = some (s1, L, some f))
    (hd : (s.pages_ f).is_dirty_ = true) :
    s1.disk_manager_.ReadPage PS (s.pages_ f).page_id_ = some (s.pages_ f).data_ ∧
      (s1.pages_ f).page_id_ = L := by
  have hv := hI.dirty_valid f hd
  have hne : (s.pages_ f).page_id_ ≠ INVALID_PAGE_ID := by
    unfold INVALID_PAGE_ID; omega
  have hI0 := inv_disk s (s.disk_manager_.AllocatePage PS).1 hI
  obtain ⟨_, hc⟩ := new_cases PS s s1 L (some f) h
  rcases hc with ⟨_, hn, _⟩ | ⟨g, d2, t1, hT, hr, hw, rfl⟩
  · cases hn
  · cases hr
    obtain ⟨_, hpg, _, _, _⟩ := tryFind_some _ t1 f hI0 hT
    have hpg1 : t1.pages_ = s.pages_ := hpg
    rw [hpg1, if_pos ⟨hne, hd⟩] at hw
    refine ⟨read_after_write PS _ d2 _ _ hw, ?_⟩
    show (Function.update t1.pages_ f _ f).page_id_ = L
    rw [Function.update_same]

theorem fetch_reads_disk (PS : Nat) (hPS : 8 < PS) (s s1 : BufferPoolManager) (L : Int)
    (g : Nat) (X : BitmapPage) (hI : PoolInv s) (hm : ptFind s.page_table_ L = none)
    (hX : s.disk_manager_.ReadPage PS L = some X)
    (h : s.FetchPage PS L = some (s1, some g))
    (hg : ¬ ((s.pages_ g).is_dirty_ = true ∧ (s.pages_ g).page_id_ = L)) :
    (s1.pages_ g).data_ = X ∧ (s1.pages_ g).page_id_ = L := by
  rcases fetch_cases PS s s1 L (some g) h with ⟨f, hf, _⟩ | ⟨_, _, hn, _⟩ |
    ⟨_, f, d2, hT, hL, hr, hw, rfl⟩
  · rw [hm] at hf; cases hf
  · cases hn
  · cases hr
    obtain ⟨_, hpg, _, hdm, _⟩ := tryFind_some s _ g hI (Prod.ext rfl hT)
    rw [hpg, hdm] at hw
    have hX1 : s.disk_manager_.ReadPhysicalPage (MapPageId PS L.toNat) = X := by
      unfold DiskManager.ReadPage at hX
      rw [if_pos hL] at hX
      cases hX
      rfl
    show (Function.update s.TryToFindFreePage.1.pages_ g
        (⟨L, 1, false, d2.ReadPhysicalPage (MapPageId PS L.toNat)⟩ : Page) g).data_ = X ∧
      (Function.update s.TryToFindFreePage.1.pages_ g
        (⟨L, 1, false, d2.ReadPhysicalPage (MapPageId PS L.toNat)⟩ : Page) g).page_id_ = L
    rw [Function.update_same]
    refine ⟨?_, rfl⟩
    show d2.ReadPhysicalPage (MapPageId PS L.toNat) = X
    by_cases hd : (s.pages_ g).is_dirty_ = true
    · rw [if_pos hd] at hw
      have hne : (s.pages_ g).page_id_ ≠ L := fun hc => hg ⟨hd, hc⟩
      rw [read_other_write PS hPS _ d2 L _ _ hw hL hne]
      exact hX1
    · rw [if_neg hd] at hw
      cases hw
      exact hX1

theorem doublePool_reachable : Reachable 4096 2 doublePool :=
  reachable_step 4096 2 ((BufferPoolManager.new 2 DiskManager.empty).run 4096
    [Op.fetch 0, Op.write 0 (filledPage 0xAB), Op.unpin 0 true,
     Op.newPage, Op.write 1 (filledPage 0xCD)]) doublePool (Op.unpin 0 true)
  (reachable_step 4096 2 ((BufferPoolManager.new 2 DiskManager.empty).run 4096
    [Op.fetch 0, Op.write 0 (filledPage 0xAB), Op.unpin 0 true, Op.newPage]) _
    (Op.write 1 (filledPage 0xCD))
  (reachable_step 4096 2 ((BufferPoolManager.new 2 DiskManager.empty).run 4096
    [Op.fetch 0, Op.write 0 (filledPage 0xAB), Op.unpin 0 true]) _ Op.newPage
  (reachable_step 4096 2 ((BufferPoolManager.new 2 DiskManager.empty).run 4096
    [Op.fetch 0, Op.write 0 (filledPage 0xAB)]) _ (Op.unpin 0 true)
  (reachable_step 4096 2 ((BufferPoolManager.new 2 DiskManager.empty).run 4096
    [Op.fetch 0]) _ (Op.write 0 (filledPage 0xAB))
  (reachable_step 4096 2 _ _ (Op.fetch 0) (reachable_new 4096 2 DiskManager.empty)
    rfl) rfl) rfl) rfl) rfl) rfl

theorem reusedPool_reachable : Reachable 4096 2 reusedPool :=
  reachable_step 4096 2 ((BufferPoolManager.new 2 DiskManager.empty).run 4096
    [Op.newPage, Op.delete 0]) reusedPool Op.newPage
  (reachable_step 4096 2 ((BufferPoolManager.new 2 DiskManager.empty).run 4096 [Op.newPage]) _
    (Op.delete 0)
  (reachable_step 4096 2 _ _ Op.newPage (reachable_new 4096 2 DiskManager.empty) rfl) rfl) rfl

/-! ## Reading and writing the bytes of the file -/

theorem toInt32_small (n : Int) (h0 : 0 ≤ n) (h1 : n < 2 ^ 31) : toInt32 n = n := by
  unfold toInt32
  omega

theorem byte_read_after_write (PS : Nat) (f : ByteFile) (p : Nat) (X : Nat → Nat)
    (hsize : f.size < 2 ^ 31) (hp : p * PS + PS < 2 ^ 31) (i : Nat) (hi : i < PS) :
    (f.WritePhysicalPage PS p X).ReadPhysicalPage PS p i = X i := by
  have hoff : toInt32 ((p : Int) * (PS : Int)) = ((p * PS : Nat) : Int) := by
    rw [toInt32_small] <;> push_cast <;> norm_cast <;> omega
  have hsz : toInt32 ((max f.size (p * PS + PS) : Nat) : Int) =
      ((max f.size (p * PS + PS) : Nat) : Int) := by
    apply toInt32_small
    · exact Int.ofNat_nonneg _
    · have : max f.size (p * PS + PS) < 2 ^ 31 := max_lt hsize hp
      exact_mod_cast this
  unfold ByteFile.ReadPhysicalPage ByteFile.GetFileSize ByteFile.WritePhysicalPage
  dsimp only
  rw [hoff, hsz]
  have h1 : ¬ (((p * PS : Nat) : Int) ≥ ((max f.size (p * PS + PS) : Nat) : Int)) := by
    have : p * PS < max f.size (p * PS + PS) := by
      have := le_max_right f.size (p * PS + PS)
      omega
    omega
  have h2 : ¬ (((p * PS : Nat) : Int) < 0) := by omega
  rw [if_neg h1, if_neg h2, Int.toNat_ofNat]
  have h3 : i < min PS (max f.size (p * PS + PS) - p * PS) := by
    have := le_max_right f.size (p * PS + PS)
    rw [lt_min_iff]
    omega
  have h4 : p * PS ≤ p * PS + i ∧ p * PS + i < p * PS + PS := by omega
  rw [if_pos h3, if_pos h4, Nat.add_sub_cancel_left]

/-! ## The contract of the bitmap page -/

theorem popcount_le (PS : Nat) (b : BitmapPage) : b.popcount PS ≤ GetMaxSupportedSize PS := by
  unfold BitmapPage.popcount
  have h := List.length_filter_le (fun i => (b.bytes (i / 8)).testBit (i % 8))
    (List.range (GetMaxSupportedSize PS))
  rwa [List.length_range] at h

theorem popcount_full (PS : Nat) (b : BitmapPage)
    (h : ∀ k, k < GetMaxSupportedSize PS → b.bit k = true) :
    b.popcount PS = GetMaxSupportedSize PS := by
  unfold BitmapPage.popcount
  have hf : (List.range (GetMaxSupportedSize PS)).filter
      (fun i => (b.bytes (i / 8)).testBit (i % 8)) = List.range (GetMaxSupportedSize PS) := by
    rw [List.filter_eq_self]
    intro k hk
    exact h k (List.mem_range.1 hk)
  rw [hf, List.length_range]

theorem free_slot_exists (PS : Nat) (b : BitmapPage)
    (h : b.popcount PS ≠ GetMaxSupportedSize PS) :
    ∃ k, k < GetMaxSupportedSize PS ∧ b.bit k = false := by
  by_contra hc
  apply h
  apply popcount_full
  intro k hk
  by_contra hb
  exact hc ⟨k, hk, by simpa using hb⟩

theorem bitmap_alloc_cases (PS : Nat) (b : BitmapPage)
    (hlt : b.page_allocated_ < GetMaxSupportedSize PS) :
    (∃ i, b.scan PS b.next_free_page_ (GetMaxSupportedSize PS - b.next_free_page_) = some i ∧
      b.AllocatePage PS = (b.take i, some i)) ∨
    (b.scan PS b.next_free_page_ (GetMaxSupportedSize PS - b.next_free_page_) = none ∧
      ∃ i, b.scan PS 0 b.next_free_page_ = some i ∧ b.AllocatePage PS = (b.take i, some i)) ∨
    (b.scan PS b.next_free_page_ (GetMaxSupportedSize PS - b.next_free_page_) = none ∧
      b.scan PS 0 b.next_free_page_ = none ∧ b.AllocatePage PS = (b, none)) := by
  have h0 : ¬ b.page_allocated_ ≥ GetMaxSupportedSize PS := by omega
  unfold BitmapPage.AllocatePage
  rw [if_neg h0]
  cases h1 : b.scan PS b.next_free_page_ (GetMaxSupportedSize PS - b.next_free_page_) with
  | some i => exact Or.inl ⟨i, rfl, rfl⟩
  | none =>
    cases h2 : b.scan PS 0 b.next_free_page_ with
    | some i => exact Or.inr (Or.inl ⟨rfl, i, rfl, rfl⟩)
    | none => exact Or.inr (Or.inr ⟨rfl, rfl, rfl⟩)

theorem bitmap_alloc_full (PS : Nat) (b : BitmapPage)
    (h : b.page_allocated_ ≥ GetMaxSupportedSize PS) : b.AllocatePage PS = (b, none) := by
  unfold BitmapPage.AllocatePage
  rw [if_pos h]

theorem bitmap_alloc_first (PS : Nat) (b : BitmapPage)
    (hlt : b.page_allocated_ < GetMaxSupportedSize PS)
    (hfree : ∃ k, k < GetMaxSupportedSize PS ∧ b.bit k = false) :
    ∃ i, b.AllocatePage PS = (b.take i, some i) ∧ i < GetMaxSupportedSize PS ∧
      b.bit i = false ∧
      ((∃ k, b.next_free_page_ ≤ k ∧ k < GetMaxSupportedSize PS ∧ b.bit k = false) →
        b.next_free_page_ ≤ i ∧ ∀ k, b.next_free_page_ ≤ k → k < i → b.bit k = true) ∧
      ((¬ ∃ k, b.next_free_page_ ≤ k ∧ k < GetMaxSupportedSize PS ∧ b.bit k = false) →
        i < b.next_free_page_ ∧ ∀ k, k < i → b.bit k = true) := by
  have hbit : ∀ k, ¬ (k < GetMaxSupportedSize PS ∧ b.bit k = false) →
      k < GetMaxSupportedSize PS → b.bit k = true := by
    intro k hk hkM
    by_contra hb
    exact hk ⟨hkM, by simpa using hb⟩
  rcases bitmap_alloc_cases PS b hlt with ⟨i, hs, ha⟩ | ⟨hs1, i, hs2, ha⟩ | ⟨hs1, hs2, _⟩
  · obtain ⟨h1, _, h3, h4, h5⟩ := scan_some PS b _ _ i hs
    refine ⟨i, ha, h3, h4, fun _ => ⟨h1, fun k hk1 hk2 => ?_⟩, fun hn => ?_⟩
    · exact hbit k (h5 k hk1 hk2) (by omega)
    · exact absurd ⟨i, h1, h3, h4⟩ hn
  · obtain ⟨_, h2, h3, h4, h5⟩ := scan_some PS b _ _ i hs2
    have hnone := scan_none PS b _ _ hs1
    refine ⟨i, ha, h3, h4, fun ⟨k, hk1, hk2, hk3⟩ => ?_, fun _ => ⟨by omega, fun k hk => ?_⟩⟩
    · exact absurd ⟨hk2, hk3⟩ (hnone k hk1 (by omega))
    · exact hbit k (h5 k (Nat.zero_le k) hk) (by omega)
  · exfalso
    obtain ⟨k, hk1, hk2⟩ := hfree
    have hnone1 := scan_none PS b _ _ hs1
    have hnone2 := scan_none PS b _ _ hs2
    by_cases hkn : b.next_free_page_ ≤ k
    · exact hnone1 k hkn (by omega) ⟨hk1, hk2⟩
    · exact hnone2 k (Nat.zero_le k) (by omega) ⟨hk1, hk2⟩

theorem popcount_alloc (PS : Nat) (b : BitmapPage) (h : b.page_allocated_ = b.popcount PS) :
    (b.AllocatePage PS).1.page_allocated_ = (b.AllocatePage PS).1.popcount PS := by
  cases hr : (b.AllocatePage PS).2 with
  | none => rw [bitmap_alloc_none PS b hr]; exact h
  | some i =>
    obtain ⟨h1, h2, h3⟩ := bitmap_alloc_some PS b i hr
    rw [h3, popcount_take PS b i h1 h2, ← h]
    rfl

theorem dealloc_count (PS : Nat) (b : BitmapPage) (i : Nat)
    (h : (b.DeAllocatePage PS i).2 = true) :
    (b.DeAllocatePage PS i).1.page_allocated_ = b.page_allocated_ - 1 := by
  unfold BitmapPage.DeAllocatePage at h ⊢
  by_cases h1 : i ≥ GetMaxSupportedSize PS
  · simp [h1] at h
  · by_cases h2 : b.IsPageFreeLow PS (i / 8) (i % 8) = true
    · simp [h1, h2] at h
    · simp only [h1, h2, if_false, Bool.false_eq_true]

theorem popcount_dealloc (PS : Nat) (b : BitmapPage) (i : Nat)
    (h : b.page_allocated_ = b.popcount PS) :
    (b.DeAllocatePage PS i).1.page_allocated_ = (b.DeAllocatePage PS i).1.popcount PS := by
  cases hr : (b.DeAllocatePage PS i).2 with
  | false => rw [bitmap_dealloc_false PS b i hr]; exact h
  | true =>
    obtain ⟨h1, h2⟩ := (bitmap_dealloc_true PS b i).1 hr
    have h3 := popcount_clear PS b i hr h1 h2
    rw [dealloc_count PS b i hr, h]
    omega

theorem popcount_reachable (PS : Nat) (b : BitmapPage) (h : BitmapReachable PS b) :
    b.page_allocated_ = b.popcount PS := by
  induction h with
  | zero => exact (popcount_zeroPage PS).symm
  | step op _ ih =>
    cases op with
    | allocate => exact popcount_alloc PS _ ih
    | deallocate o => exact popcount_dealloc PS _ o ih

/-! ## The order of a replacer on its own -/

theorem unpin_present (r : LRUReplacer) (f : Nat) (h : f ∈ r.lru_map_) : r.Unpin f = r := by
  unfold LRUReplacer.Unpin
  rw [if_pos h]

theorem unpin_absent (r : LRUReplacer) (f : Nat) (h : f ∉ r.lru_map_)
    (hlen : r.lru_list_.length < r.max_size_) :
    r.Unpin f =
      { r with lru_list_ := f :: r.lru_list_, lru_map_ := f :: r.lru_map_ } := by
  unfold LRUReplacer.Unpin
  have hl : ¬ r.lru_list_.length ≥ r.max_size_ := by omega
  rw [if_neg h, if_neg hl]

theorem pin_absent (r : LRUReplacer) (f : Nat) (h : f ∉ r.lru_map_) : r.Pin f = r := by
  unfold LRUReplacer.Pin
  rw [if_pos h]

theorem erase_eq_filter_ne (l : List Nat) (f : Nat) (h : l.Nodup) :
    l.erase f = l.filter (fun g => g ≠ f) := by
  rw [List.Nodup.erase_eq_filter h]
  apply List.filter_congr
  intro x _
  by_cases hx : x = f <;> simp [hx]

theorem filter_ne_of_not_mem (l : List Nat) (f : Nat) (h : f ∉ l) :
    l.filter (fun g => g ≠ f) = l := by
  rw [List.filter_eq_self]
  intro x hx
  have : x ≠ f := fun hc => h (hc ▸ hx)
  simpa using this

theorem ordered_step (t : TracedReplacer) (op : ReplacerOp) (h : t.Ordered)
    (hb : t.replacer.BelowCapacity op) : (t.step op).Ordered := by
  obtain ⟨hs, hc, hp⟩ := h
  cases op with
  | victim =>
    have hsub : (t.replacer.Victim.1).lru_list_.Sublist t.replacer.lru_list_ ∧
        (t.replacer.Victim.1).Sync := by
      rcases List.eq_nil_or_concat t.replacer.lru_list_ with hnil | ⟨l, f, hl⟩
      · rw [victim_none t.replacer hnil]
        exact ⟨List.Sublist.refl _, hs⟩
      · have hl1 : t.replacer.lru_list_ = l ++ [f] := by rw [hl]; simp
        obtain ⟨_, h2, _, h4⟩ := victim_some t.replacer l f hs hl1
        refine ⟨?_, h4⟩
        rw [h2, hl1]
        exact List.sublist_append_left l [f]
    refine ⟨hsub.2, fun g hg => ?_, hp.sublist hsub.1⟩
    have := hc g (hsub.1.subset hg)
    show t.insertedAt g ≤ t.clock + 1
    omega
  | pin f =>
    obtain ⟨h1, h2, _⟩ := pin_spec t.replacer f hs
    have hsub : (t.replacer.Pin f).lru_list_.Sublist t.replacer.lru_list_ := by
      rw [h2]
      exact List.erase_sublist f _
    refine ⟨h1, fun g hg => ?_, hp.sublist hsub⟩
    have := hc g (hsub.subset hg)
    show t.insertedAt g ≤ t.clock + 1
    omega
  | unpin f =>
    by_cases hf : f ∈ t.replacer.lru_map_
    · have hu : (t.step (ReplacerOp.unpin f)).replacer = t.replacer :=
        unpin_present t.replacer f hf
      have hi : ∀ g, (t.step (ReplacerOp.unpin f)).insertedAt g = t.insertedAt g := by
        intro g
        show (if f = g ∧ g ∉ t.replacer.lru_map_ then t.clock + 1 else t.insertedAt g) = _
        have : ¬ (f = g ∧ g ∉ t.replacer.lru_map_) := fun hcn => hcn.2 (hcn.1 ▸ hf)
        rw [if_neg this]
      refine ⟨by rw [hu]; exact hs, fun g hg => ?_, ?_⟩
      · rw [hu] at hg
        rw [hi]
        have := hc g hg
        show t.insertedAt g ≤ t.clock + 1
        omega
      · rw [hu]
        exact hp.imp (fun {a b} hab => by rw [hi, hi]; exact hab)
    · have hlen : t.replacer.lru_list_.length < t.replacer.max_size_ := by
        rcases hb with hb | hb
        · exact absurd hb hf
        · exact hb
      have hfl : f ∉ t.replacer.lru_list_ := fun hcn => hf ((hs.2 f).2 hcn)
      obtain ⟨h1, h2, _⟩ := unpin_spec t.replacer f hs hfl hlen
      have hi1 : (t.step (ReplacerOp.unpin f)).insertedAt f = t.clock + 1 := by
        show (if f = f ∧ f ∉ t.replacer.lru_map_ then t.clock + 1 else t.insertedAt f) = _
        rw [if_pos ⟨rfl, hf⟩]
      have hi2 : ∀ g, g ∈ t.replacer.lru_list_ →
          (t.step (ReplacerOp.unpin f)).insertedAt g = t.insertedAt g := by
        intro g hg
        show (if f = g ∧ g ∉ t.replacer.lru_map_ then t.clock + 1 else t.insertedAt g) = _
        have : ¬ (f = g ∧ g ∉ t.replacer.lru_map_) := fun hcn => hcn.2 ((hs.2 g).2 hg)
        rw [if_neg this]
      have hl : (t.step (ReplacerOp.unpin f)).replacer.lru_list_ = f :: t.replacer.lru_list_ :=
        h2
      refine ⟨h1, fun g hg => ?_, ?_⟩
      · rw [hl] at hg
        rcases List.mem_cons.1 hg with hg | hg
        · rw [hg, hi1]
          exact le_refl _
        · rw [hi2 g hg]
          have := hc g hg
          show t.insertedAt g ≤ t.clock + 1
          omega
      · rw [hl, List.pairwise_cons]
        refine ⟨fun b hb1 => ?_, ?_⟩
        · rw [hi1, hi2 b hb1]
          have := hc b hb1
          omega
        · refine List.Pairwise.imp_of_mem (fun {a b} ha hb1 hab => ?_) hp
          rw [hi2 a ha, hi2 b hb1]
          exact hab

theorem ordered_reachable (n : Nat) (t : TracedReplacer) (h : ReplacerReachable n t) :
    t.Ordered := by
  induction h with
  | init =>
    refine ⟨⟨List.nodup_nil, fun f => Iff.rfl⟩, fun g hg => ?_, List.Pairwise.nil⟩
    cases hg
  | step op _ hb ih => exact ordered_step _ op ih hb
theorem tracedPair_reachable : ReplacerReachable 2 tracedPair :=
  ReplacerReachable.step _ (ReplacerReachable.step _ ReplacerReachable.init
    (Or.inr (by decide))) (Or.inr (by decide))

/-! ## The free list and the replacer together -/

theorem unpinned_reach (PS : Nat) (s0 s : BufferPoolManager) (hI : PoolInv s0)
    (hU : Unpinned s0) (h : Reach PS s0 s) : Unpinned s := by
  induction h with
  | init => exact hU
  | step op hr hs ih => exact (step_lru PS _ _ op (inv_reach PS s0 _ hI hr) ih hs).1

theorem unpinned_reachable (PS N : Nat) (s : BufferPoolManager) (h : Reachable PS N s) :
    Unpinned s := by
  obtain ⟨d0, hr⟩ := h
  exact unpinned_reach PS _ s (inv_new N d0) (unpinned_new N d0) hr

theorem keeping_reachable (PS N : Nat) (s : BufferPoolManager)
    (h : KeepingReachable PS N s) : Reachable PS N s := by
  induction h with
  | init d0 => exact reachable_new PS N d0
  | step op _ _ hs ih => exact reachable_step PS N _ _ op ih hs

theorem tryFind_table (s : BufferPoolManager) :
    s.TryToFindFreePage.1.page_table_ = s.page_table_ := by
  rcases hfl : s.free_list_ with _ | ⟨g, rest⟩
  · rw [tryFind_nil s hfl]
  · rw [tryFind_cons s g rest hfl]

theorem tryFind_free_sublist (s : BufferPoolManager) :
    s.TryToFindFreePage.1.free_list_.Sublist s.free_list_ := by
  rcases hfl : s.free_list_ with _ | ⟨g, rest⟩
  · rw [tryFind_nil s hfl]
    show s.free_list_.Sublist []
    rw [hfl]
  · rw [tryFind_cons s g rest hfl]
    exact List.sublist_cons_self g rest

theorem step_free (PS : Nat) (s s1 : BufferPoolManager) (op : Op) (hk : KeepsFrames s op)
    (h : s.step PS op = some s1) : s1.free_list_.Sublist s.free_list_ := by
  cases op with
  | fetch L =>
    simp only [BufferPoolManager.step, Option.map_eq_some'] at h
    obtain ⟨⟨t, r⟩, h1, rfl⟩ := h
    rcases fetch_cases PS s t L r h1 with ⟨f, _, _, rfl⟩ | ⟨_, _, _, rfl⟩ |
      ⟨_, f, d2, _, _, _, _, rfl⟩
    · exact List.Sublist.refl _
    · exact tryFind_free_sublist s
    · exact tryFind_free_sublist s
  | newPage =>
    simp only [BufferPoolManager.step, Option.map_eq_some'] at h
    obtain ⟨⟨t, L, r⟩, h1, rfl⟩ := h
    obtain ⟨_, hc⟩ := new_cases PS s t L r h1
    have hsub := tryFind_free_sublist
      ({ s with disk_manager_ := (s.disk_manager_.AllocatePage PS).1 } : BufferPoolManager)
    rcases hc with ⟨_, _, rfl⟩ | ⟨f, d2, t1, hT, _, _, rfl⟩
    · exact hsub
    · rw [hT] at hsub
      exact hsub
  | unpin L dirty =>
    simp only [BufferPoolManager.step, Option.some.injEq] at h
    subst h
    rcases unpin_cases s L dirty with ⟨h, _⟩ | ⟨f, _, _, h⟩
    · rw [h]
    · rw [h]
  | flush L =>
    simp only [BufferPoolManager.step, Option.map_eq_some'] at h
    obtain ⟨⟨t, r⟩, h1, rfl⟩ := h
    rcases flush_cases PS s t L r h1 with ⟨_, _, rfl⟩ | ⟨f, d2, _, _, _, rfl⟩
    · exact List.Sublist.refl _
    · exact List.Sublist.refl _
  | delete L =>
    simp only [BufferPoolManager.step, Option.map_eq_some'] at h
    obtain ⟨⟨t, r⟩, h1, rfl⟩ := h
    rcases delete_cases PS s t L r h1 with ⟨_, _, rfl⟩ | ⟨f, _, _, _, rfl⟩ |
      ⟨f, d2, hf, hp, _, _, rfl⟩
    · exact List.Sublist.refl _
    · exact List.Sublist.refl _
    · exact absurd (hk f hf) hp
  | write f data =>
    simp only [BufferPoolManager.step, BufferPoolManager.WriteData] at h
    by_cases hp : 0 < (s.pages_ f).pin_count_
    · rw [if_pos hp] at h
      cases h
      exact List.Sublist.refl _
    · rw [if_neg hp] at h
      cases h

theorem disjoint_step (PS : Nat) (s s1 : BufferPoolManager) (op : Op) (hI : PoolInv s)
    (hU : Unpinned s) (hk : KeepsFrames s op) (h : s.step PS op = some s1)
    (hd : ∀ f, ¬ (f ∈ s.free_list_ ∧ f ∈ s.replacer_.lru_list_)) :
    ∀ f, ¬ (f ∈ s1.free_list_ ∧ f ∈ s1.replacer_.lru_list_) := by
  intro f ⟨h1, h2⟩
  have hf := (step_free PS s s1 op hk h).subset h1
  rcases (step_lru PS s s1 op hI hU h).2 with hsub | ⟨g, hl, hp, _⟩
  · exact hd f ⟨hf, hsub.subset h2⟩
  · rw [hl] at h2
    rcases List.mem_cons.1 h2 with h2 | h2
    · have := (hI.free f hf).2.1
      rw [h2] at this
      omega
    · exact hd f ⟨hf, h2⟩

theorem disjoint_keeping (PS N : Nat) (s : BufferPoolManager)
    (h : KeepingReachable PS N s) :
    ∀ f, ¬ (f ∈ s.free_list_ ∧ f ∈ s.replacer_.lru_list_) := by
  induction h with
  | init d0 =>
    intro f hf
    cases hf.2
  | step op hr hk hs ih =>
    have hR := keeping_reachable PS N _ hr
    exact disjoint_step PS _ _ op (inv_reachable PS N _ hR) (unpinned_reachable PS N _ hR)
      hk hs ih

theorem releasedPool_reachable : Reachable 4096 1 releasedPool :=
  reachable_step 4096 1
    ((BufferPoolManager.new 1 DiskManager.empty).run 4096 [Op.newPage, Op.unpin 0 false])
    releasedPool (Op.delete 0)
    (reachable_step 4096 1
      ((BufferPoolManager.new 1 DiskManager.empty).run 4096 [Op.newPage]) _ (Op.unpin 0 false)
      (reachable_step 4096 1 _ _ Op.newPage (reachable_new 4096 1 DiskManager.empty) rfl) rfl)
    rfl

theorem pinnedPool_keeping : KeepingReachable 4096 1 pinnedPool :=
  KeepingReachable.step Op.newPage (KeepingReachable.init DiskManager.empty) trivial rfl
/-! ## The keys of the page table -/

theorem keys_erase (t : List (Int × Nat)) (L : Int) (h : (t.map Prod.fst).Nodup) :
    ((ptErase t L).map Prod.fst).Nodup :=
  h.sublist ((List.filter_sublist t).map Prod.fst)

theorem keys_set (t : List (Int × Nat)) (L : Int) (f : Nat) (h : (t.map Prod.fst).Nodup) :
    ((ptSet t L f).map Prod.fst).Nodup := by
  unfold ptSet
  rw [List.map_cons, List.nodup_cons]
  refine ⟨fun hc => ?_, keys_erase t L h⟩
  obtain ⟨e, he, hL⟩ := List.mem_map.1 hc
  unfold ptErase at he
  have := (List.mem_filter.1 he).2
  simp only [ne_eq, decide_not, Bool.not_eq_eq_eq_not, Bool.not_true,
    decide_eq_false_iff_not] at this
  exact this hL

theorem ptFind_of_mem (t : List (Int × Nat)) (h : (t.map Prod.fst).Nodup) (L : Int) (f : Nat)
    (hm : (L, f) ∈ t) : ptFind t L = some f := by
  induction t with
  | nil => cases hm
  | cons e rest ih =>
    rw [List.map_cons, List.nodup_cons] at h
    unfold ptFind
    rcases List.mem_cons.1 hm with he | he
    · rw [← he]
      simp
    · have hne : ¬ e.1 = L := by
        intro hc
        apply h.1
        rw [hc]
        exact List.mem_map.2 ⟨(L, f), he, rfl⟩
      rw [if_neg hne]
      exact ih h.2 he

theorem mem_of_ptFind (t : List (Int × Nat)) (L : Int) (f : Nat)
    (h : ptFind t L = some f) : (L, f) ∈ t := by
  induction t with
  | nil => cases h
  | cons e rest ih =>
    unfold ptFind at h
    by_cases he : e.1 = L
    · rw [if_pos he] at h
      have h2 : e.2 = f := by simpa using h
      have : e = (L, f) := Prod.ext he h2
      rw [this]
      exact List.mem_cons_self _ _
    · rw [if_neg he] at h
      exact List.mem_cons_of_mem _ (ih h)

theorem keys_install (t : BufferPoolManager) (f : Nat) (L : Int) (data : BitmapPage)
    (d : DiskManager) (h : (t.page_table_.map Prod.fst).Nodup) :
    ((t.install f L data d).page_table_.map Prod.fst).Nodup := by
  show ((ptSet (if (t.pages_ f).page_id_ ≠ INVALID_PAGE_ID then
    ptErase t.page_table_ (t.pages_ f).page_id_ else t.page_table_) L f).map Prod.fst).Nodup
  apply keys_set
  by_cases hv : (t.pages_ f).page_id_ ≠ INVALID_PAGE_ID
  · rw [if_pos hv]
    exact keys_erase _ _ h
  · rw [if_neg hv]
    exact h

theorem keys_step (PS : Nat) (s s1 : BufferPoolManager) (op : Op)
    (hk : (s.page_table_.map Prod.fst).Nodup) (h : s.step PS op = some s1) :
    (s1.page_table_.map Prod.fst).Nodup := by
  cases op with
  | fetch L =>
    simp only [BufferPoolManager.step, Option.map_eq_some'] at h
    obtain ⟨⟨t, r⟩, h1, rfl⟩ := h
    rcases fetch_cases PS s t L r h1 with ⟨f, _, _, rfl⟩ | ⟨_, _, _, rfl⟩ |
      ⟨_, f, d2, _, _, _, _, rfl⟩
    · exact hk
    · rw [tryFind_table]
      exact hk
    · apply keys_install
      rw [tryFind_table]
      exact hk
  | newPage =>
    simp only [BufferPoolManager.step, Option.map_eq_some'] at h
    obtain ⟨⟨t, L, r⟩, h1, rfl⟩ := h
    obtain ⟨_, hc⟩ := new_cases PS s t L r h1
    have ht := tryFind_table
      ({ s with disk_manager_ := (s.disk_manager_.AllocatePage PS).1 } : BufferPoolManager)
    rcases hc with ⟨_, _, rfl⟩ | ⟨f, d2, t1, hT, _, _, rfl⟩
    · show (BufferPoolManager.page_table_ _).map Prod.fst |>.Nodup
      rw [ht]
      exact hk
    · apply keys_install
      rw [hT] at ht
      have ht1 : t1.page_table_ = s.page_table_ := ht
      rw [ht1]
      exact hk
  | unpin L dirty =>
    simp only [BufferPoolManager.step, Option.some.injEq] at h
    subst h
    rcases unpin_cases s L dirty with ⟨h, _⟩ | ⟨f, _, _, h⟩
    · rw [h]
      exact hk
    · rw [h]
      exact hk
  | flush L =>
    simp only [BufferPoolManager.step, Option.map_eq_some'] at h
    obtain ⟨⟨t, r⟩, h1, rfl⟩ := h
    rcases flush_cases PS s t L r h1 with ⟨_, _, rfl⟩ | ⟨f, d2, _, _, _, rfl⟩
    · exact hk
    · exact hk
  | delete L =>
    simp only [BufferPoolManager.step, Option.map_eq_some'] at h
    obtain ⟨⟨t, r⟩, h1, rfl⟩ := h
    rcases delete_cases PS s t L r h1 with ⟨_, _, rfl⟩ | ⟨f, _, _, _, rfl⟩ |
      ⟨f, d2, hf, hp, _, _, rfl⟩
    · exact hk
    · exact hk
    · exact keys_erase _ _ hk
  | write f data =>
    simp only [BufferPoolManager.step, BufferPoolManager.WriteData] at h
    by_cases hp : 0 < (s.pages_ f).pin_count_
    · rw [if_pos hp] at h
      cases h
      exact hk
    · rw [if_neg hp] at h
      cases h

theorem keys_reachable (PS N : Nat) (s : BufferPoolManager) (h : Reachable PS N s) :
    (s.page_table_.map Prod.fst).Nodup := by
  obtain ⟨d0, hr⟩ := h
  induction hr with
  | init => exact List.nodup_nil
  | step op _ hs ih => exact keys_step PS _ _ op ih hs

theorem table_frames_nodup (s : BufferPoolManager) (hI : PoolInv s)
    (hk : (s.page_table_.map Prod.fst).Nodup) :
    (s.page_table_.map Prod.snd ++ s.free_list_).Nodup ∧
      ∀ f, f ∈ s.page_table_.map Prod.snd ++ s.free_list_ → f < s.pool_size_ := by
  have hent : ∀ e, e ∈ s.page_table_ →
      (s.pages_ e.2).page_id_ = e.1 ∧ 0 ≤ e.1 ∧ e.2 < s.pool_size_ := by
    intro e he
    exact hI.tbl e.1 e.2 (ptFind_of_mem _ hk e.1 e.2 he)
  refine ⟨List.nodup_append.2 ⟨?_, hI.free_nodup, ?_⟩, fun f hf => ?_⟩
  · refine List.Nodup.map_on (fun x hx y hy hxy => ?_) (List.Nodup.of_map Prod.fst hk)
    have h1 := (hent x hx).1
    have h2 := (hent y hy).1
    rw [hxy, h2] at h1
    exact Prod.ext h1.symm hxy
  · intro f hf1 hf2
    obtain ⟨e, he, hef⟩ := List.mem_map.1 hf1
    have h1 := hent e he
    have h2 := (hI.free f hf2).1
    rw [← hef, h1.1] at h2
    have h3 := h1.2.1
    rw [h2] at h3
    exact absurd h3 (by decide)
  · rcases List.mem_append.1 hf with hf | hf
    · obtain ⟨e, he, hef⟩ := List.mem_map.1 hf
      rw [← hef]
      exact (hent e he).2.2
    · exact (hI.free f hf).2.2.2

theorem count_frames (N : Nat) (F R : List Nat) (p : Nat → Bool) (hF : F.Nodup)
    (hR : R.Nodup) (hFb : ∀ f, f ∈ F → f < N ∧ p f = false)
    (hRb : ∀ f, f ∈ R → f < N ∧ p f = false)
    (hcov : ∀ f, f < N → p f = false → f ∈ F ∨ f ∈ R) :
    F.length + ((List.range N).filter p).length + R.length =
      N + (F.filter (fun f => decide (f ∈ R))).length := by
  have e1 : F.length = F.toFinset.card := (List.toFinset_card_of_nodup hF).symm
  have e2 : R.length = R.toFinset.card := (List.toFinset_card_of_nodup hR).symm
  have e3 : ((List.range N).filter p).length =
      ((Finset.range N).filter (fun f => p f = true)).card := by
    rw [← List.toFinset_card_of_nodup ((List.nodup_range N).filter p), List.toFinset_filter]
    congr 1
    ext x
    simp
  have e4 : (F.filter (fun f => decide (f ∈ R))).length = (F.toFinset ∩ R.toFinset).card := by
    rw [← List.toFinset_card_of_nodup (hF.filter _), List.toFinset_filter]
    congr 1
    ext x
    simp
  have e5 : F.toFinset ∪ R.toFinset = (Finset.range N).filter (fun f => ¬ p f = true) := by
    ext x
    simp only [Finset.mem_union, List.mem_toFinset, Finset.mem_filter, Finset.mem_range]
    constructor
    · rintro (h | h)
      · have := hFb x h
        exact ⟨this.1, by simp [this.2]⟩
      · have := hRb x h
        exact ⟨this.1, by simp [this.2]⟩
    · rintro ⟨h1, h2⟩
      exact hcov x h1 (by simpa using h2)
  have e6 := Finset.filter_card_add_filter_neg_card_eq_card (s := Finset.range N)
    (fun f => p f = true)
  have e7 := Finset.card_union_add_card_inter F.toFinset R.toFinset
  rw [Finset.card_range] at e6
  rw [e5] at e7
  omega

/-! ## The hint of the bitmap page -/

theorem second_scan_none (PS : Nat) (b : BitmapPage) (h : b.HintInv PS) :
    b.scan PS 0 b.next_free_page_ = none := by
  cases hs : b.scan PS 0 b.next_free_page_ with
  | none => rfl
  | some i =>
    obtain ⟨_, h2, _, h4, _⟩ := scan_some PS b _ _ i hs
    have := h.1 i (by omega)
    rw [h4] at this
    cases this

theorem alloc_first_scan (PS : Nat) (b : BitmapPage) (h : b.HintInv PS) (i : Nat)
    (ha : (b.AllocatePage PS).2 = some i) :
    b.scan PS b.next_free_page_ (GetMaxSupportedSize PS - b.next_free_page_) = some i ∧
      b.AllocatePage PS = (b.take i, some i) := by
  by_cases hfull : b.page_allocated_ ≥ GetMaxSupportedSize PS
  · rw [bitmap_alloc_full PS b hfull] at ha
    cases ha
  · rcases bitmap_alloc_cases PS b (by omega) with ⟨j, hs, hj⟩ | ⟨_, j, hs2, _⟩ | ⟨_, _, hj⟩
    · rw [hj] at ha
      have hji : j = i := by simpa using ha
      subst hji
      exact ⟨hs, hj⟩
    · rw [second_scan_none PS b h] at hs2
      cases hs2
    · rw [hj] at ha
      cases ha

theorem alloc_smallest (PS : Nat) (b : BitmapPage) (h : b.HintInv PS) (i : Nat)
    (ha : (b.AllocatePage PS).2 = some i) :
    i < GetMaxSupportedSize PS ∧ b.bit i = false ∧ b.next_free_page_ ≤ i ∧
      ∀ k, k < i → b.bit k = true := by
  obtain ⟨hs, _⟩ := alloc_first_scan PS b h i ha
  obtain ⟨h1, _, h3, h4, h5⟩ := scan_some PS b _ _ i hs
  refine ⟨h3, h4, h1, fun k hk => ?_⟩
  by_cases hkn : k < b.next_free_page_
  · exact h.1 k hkn
  · by_contra hb
    exact h5 k (by omega) hk ⟨by omega, by simpa using hb⟩

theorem hint_alloc (PS : Nat) (b : BitmapPage) (h : b.HintInv PS) :
    (b.AllocatePage PS).1.HintInv PS := by
  cases hr : (b.AllocatePage PS).2 with
  | none => rw [bitmap_alloc_none PS b hr]; exact h
  | some i =>
    obtain ⟨h1, _, _, h4⟩ := alloc_smallest PS b h i hr
    rw [(alloc_first_scan PS b h i hr).2]
    refine ⟨fun k hk => ?_, ?_⟩
    · have hk1 : k < i + 1 := hk
      rw [bit_take]
      by_cases hki : k = i
      · simp [hki]
      · rw [h4 k (by omega)]
        simp
    · show i + 1 ≤ GetMaxSupportedSize PS
      omega

theorem dealloc_hint (PS : Nat) (b : BitmapPage) (i : Nat)
    (h : (b.DeAllocatePage PS i).2 = true) :
    (b.DeAllocatePage PS i).1.next_free_page_ =
      if i < b.next_free_page_ then i else b.next_free_page_ := by
  unfold BitmapPage.DeAllocatePage at h ⊢
  by_cases h1 : i ≥ GetMaxSupportedSize PS
  · simp [h1] at h
  · by_cases h2 : b.IsPageFreeLow PS (i / 8) (i % 8) = true
    · simp [h1, h2] at h
    · simp only [h1, h2, if_false, Bool.false_eq_true]

theorem hint_dealloc (PS : Nat) (b : BitmapPage) (i : Nat) (h : b.HintInv PS) :
    (b.DeAllocatePage PS i).1.HintInv PS := by
  cases hr : (b.DeAllocatePage PS i).2 with
  | false => rw [bitmap_dealloc_false PS b i hr]; exact h
  | true =>
    have hn := dealloc_hint PS b i hr
    refine ⟨fun k hk => ?_, ?_⟩
    · rw [hn] at hk
      rw [bit_clear PS b i k hr]
      by_cases hi : i < b.next_free_page_
      · rw [if_pos hi] at hk
        have hki : ¬ k = i := by omega
        rw [h.1 k (by omega)]
        simp [hki]
      · rw [if_neg hi] at hk
        have hki : ¬ k = i := by omega
        rw [h.1 k hk]
        simp [hki]
    · rw [hn]
      have := h.2
      by_cases hi : i < b.next_free_page_
      · rw [if_pos hi]; omega
      · rw [if_neg hi]; exact this

theorem hint_reachable (PS : Nat) (b : BitmapPage) (h : BitmapReachable PS b) :
    b.HintInv PS := by
  induction h with
  | zero =>
    refine ⟨fun k hk => ?_, Nat.zero_le _⟩
    have hk0 : k < 0 := hk
    omega
  | step op _ ih =>
    cases op with
    | allocate => exact hint_alloc PS _ ih
    | deallocate o => exact hint_dealloc PS _ o ih

theorem holedPage_reachable : BitmapReachable 4096 holedPage :=
  BitmapReachable.step _ (BitmapReachable.step _ (BitmapReachable.step _
    (BitmapReachable.step _ BitmapReachable.zero)))

/-! ## The 32-bit result of `MapPageId` -/

theorem mapPageId32_eq (PS L : Nat) : MapPageId32 PS L = toInt32 ((MapPageId PS L : Nat) : Int) :=
  rfl

theorem mapPageId_sum (PS : Nat) (L : Nat) :
    MapPageId PS L = L + L / GetMaxSupportedSize PS + 2 := by
  show (L / GetMaxSupportedSize PS) * (GetMaxSupportedSize PS + 1) +
    L % GetMaxSupportedSize PS + 2 = _
  have h := Nat.div_add_mod L (GetMaxSupportedSize PS)
  have h2 : (L / GetMaxSupportedSize PS) * (GetMaxSupportedSize PS + 1) =
      GetMaxSupportedSize PS * (L / GetMaxSupportedSize PS) + L / GetMaxSupportedSize PS := by
    ring
  omega

theorem mapPageId_lt (PS : Nat) (hPS : 8 < PS) (L : Nat) (hL : L < 2 ^ 31) :
    MapPageId PS L < 2 ^ 32 := by
  rw [mapPageId_sum]
  have hM : 8 ≤ GetMaxSupportedSize PS := by
    unfold GetMaxSupportedSize MAX_CHARS
    omega
  have h1 : L / GetMaxSupportedSize PS ≤ L / 8 := Nat.div_le_div_left hM (by decide)
  omega

theorem toInt32_inj (a b : Nat) (ha : a < 2 ^ 32) (hb : b < 2 ^ 32)
    (h : toInt32 (a : Int) = toInt32 (b : Int)) : a = b := by
  unfold toInt32 at h
  omega

theorem toInt32_neg (a : Nat) (h1 : 2 ^ 31 ≤ a) (h2 : a < 2 ^ 32) : toInt32 (a : Int) < 0 := by
  unfold toInt32
  omega

/-! ## Residency without any assumption on the disk manager -/

theorem resident_install (s t : BufferPoolManager) (f : Nat) (L : Int)
    (data : BitmapPage) (d : DiskManager) (hI : PoolInv s) (hR : Resident s)
    (hT : s.TryToFindFreePage = (t, some f))
    (hnew : ∀ g, g < s.pool_size_ → (s.pages_ g).page_id_ ≠ L) :
    Resident (t.install f L data d) := by
  obtain ⟨_, hpg, htb, _, hps, hfN, _, _, _⟩ := tryFind_some s t f hI hT
  intro g L1 hg hpid hL1
  show ptFind (ptSet (if (t.pages_ f).page_id_ ≠ INVALID_PAGE_ID then
      ptErase t.page_table_ (t.pages_ f).page_id_ else t.page_table_) L f) L1 = some g
  have hpid1 : (Function.update t.pages_ f (⟨L, 1, false, data⟩ : Page) g).page_id_ = L1 := hpid
  have hg1 : g < s.pool_size_ := by rw [← hps]; exact hg
  by_cases hgf : g = f
  · subst hgf
    rw [Function.update_same] at hpid1
    have : L = L1 := hpid1
    rw [← this, ptFind_set_self]
  · rw [Function.update_noteq hgf, hpg] at hpid1
    have hLL : L1 ≠ L := fun hc => hnew g hg1 (hpid1.trans hc)
    have hin := hR g L1 hg1 hpid1 hL1
    rw [ptFind_set_ne _ _ _ _ hLL, htb]
    by_cases hv : (t.pages_ f).page_id_ ≠ INVALID_PAGE_ID
    · rw [if_pos hv]
      have hne : L1 ≠ (t.pages_ f).page_id_ := by
        intro hc
        rw [hpg] at hc hv
        have := hR f _ hfN rfl hv
        rw [← hc, hin] at this
        cases this
        exact hgf rfl
      rw [ptFind_erase_ne _ _ _ hne]
      exact hin
    · rw [if_neg hv]
      exact hin

theorem resident_of_pages (s s1 : BufferPoolManager) (hR : Resident s)
    (h1 : s1.pool_size_ = s.pool_size_) (h2 : s1.page_table_ = s.page_table_)
    (hp : ∀ g, (s1.pages_ g).page_id_ = (s.pages_ g).page_id_) : Resident s1 := by
  intro g L hg hpid hL
  rw [h2]
  rw [h1] at hg
  rw [hp g] at hpid
  exact hR g L hg hpid hL

theorem resident_step (PS : Nat) (s s1 : BufferPoolManager) (op : Op)
    (hI : PoolInv s) (hR : Resident s) (hc : FreshId PS s op)
    (h : s.step PS op = some s1) : Resident s1 := by
  cases op with
  | fetch L =>
    simp only [BufferPoolManager.step, Option.map_eq_some'] at h
    obtain ⟨⟨t, r⟩, h1, rfl⟩ := h
    rcases fetch_cases PS s t L r h1 with ⟨f, hf, _, rfl⟩ | ⟨_, hn, _, rfl⟩ |
      ⟨hm, f, d2, hT, hL0, _, hw, rfl⟩
    · refine resident_of_pages s _ hR rfl rfl (fun g => ?_)
      show (Function.update s.pages_ f _ g).page_id_ = _
      by_cases hgf : g = f
      · rw [hgf, Function.update_same]
      · rw [Function.update_noteq hgf]
    · rw [(tryFind_none s hn).1]
      exact hR
    · refine resident_install s _ f L _ d2 hI hR (Prod.ext rfl hT) ?_
      intro g hg hpid
      have hinv : L ≠ INVALID_PAGE_ID := by
        unfold INVALID_PAGE_ID; omega
      have := hR g L hg hpid hinv
      rw [hm] at this
      cases this
  | newPage =>
    simp only [BufferPoolManager.step, Option.map_eq_some'] at h
    obtain ⟨⟨t, L, r⟩, h1, rfl⟩ := h
    have hI0 := inv_disk s (s.disk_manager_.AllocatePage PS).1 hI
    obtain ⟨hL, hcs⟩ := new_cases PS s t L r h1
    rcases hcs with ⟨hn, _, rfl⟩ | ⟨f, d2, t1, hT, _, hw, rfl⟩
    · rw [(tryFind_none _ hn).1]
      exact hR
    · have hR0 : Resident ({ s with disk_manager_ := (s.disk_manager_.AllocatePage PS).1 } :
          BufferPoolManager) := hR
      refine resident_install _ t1 f L zeroPage d2 hI0 hR0 hT ?_
      intro g hg hpid
      exact hc g hg (hpid.trans hL)
  | unpin L dirty =>
    simp only [BufferPoolManager.step, Option.some.injEq] at h
    subst h
    rcases unpin_cases s L dirty with ⟨h, _⟩ | ⟨f, _, _, h⟩
    · rw [h]; exact hR
    · rw [h]
      refine resident_of_pages s _ hR rfl rfl (fun g => ?_)
      show (Function.update s.pages_ f _ g).page_id_ = _
      by_cases hgf : g = f
      · rw [hgf, Function.update_same]
      · rw [Function.update_noteq hgf]
  | flush L =>
    simp only [BufferPoolManager.step, Option.map_eq_some'] at h
    obtain ⟨⟨t, r⟩, h1, rfl⟩ := h
    rcases flush_cases PS s t L r h1 with ⟨_, _, rfl⟩ | ⟨f, d2, _, _, hw, rfl⟩
    · exact hR
    · refine resident_of_pages s _ hR rfl rfl (fun g => ?_)
      show (Function.update s.pages_ f _ g).page_id_ = _
      by_cases hgf : g = f
      · rw [hgf, Function.update_same]
      · rw [Function.update_noteq hgf]
  | delete L =>
    simp only [BufferPoolManager.step, Option.map_eq_some'] at h
    obtain ⟨⟨t, r⟩, h1, rfl⟩ := h
    rcases delete_cases PS s t L r h1 with ⟨hm, _, rfl⟩ | ⟨f, hf, hp, _, rfl⟩ |
      ⟨f, d2, hf, hp, _, hw, rfl⟩
    · exact hR
    · exact hR
    · intro g L1 hg hpid hL1
      show ptFind (ptErase s.page_table_ L) L1 = some g
      have hpid1 : (Function.update s.pages_ f
          (⟨INVALID_PAGE_ID, 0, false, zeroPage⟩ : Page) g).page_id_ = L1 := hpid
      by_cases hgf : g = f
      · rw [hgf, Function.update_same] at hpid1
        exact absurd hpid1.symm hL1
      · rw [Function.update_noteq hgf] at hpid1
        have hin := hR g L1 hg hpid1 hL1
        have hne : L1 ≠ L := by
          intro heq
          rw [heq, hf] at hin
          cases hin
          exact hgf rfl
        rw [ptFind_erase_ne _ _ _ hne]
        exact hin
  | write f data =>
    simp only [BufferPoolManager.step] at h
    unfold BufferPoolManager.WriteData at h
    split at h
    · cases h
      refine resident_of_pages s _ hR rfl rfl (fun g => ?_)
      show (Function.update s.pages_ f _ g).page_id_ = _
      by_cases hgf : g = f
      · rw [hgf, Function.update_same]
      · rw [Function.update_noteq hgf]
    · cases h

theorem fresh_inv (PS N : Nat) (s : BufferPoolManager) (h : FreshReachable PS N s) :
    PoolInv s ∧ Resident s ∧ s.pool_size_ = N := by
  induction h with
  | init d0 =>
    refine ⟨inv_new N d0, fun g L _ hpid hL => ?_, rfl⟩
    exact absurd hpid.symm hL
  | disk d _ ih => exact ⟨inv_disk _ d ih.1, ih.2.1, ih.2.2⟩
  | step op _ hc hs ih =>
    exact ⟨inv_step PS _ _ op ih.1 hs, resident_step PS _ _ op ih.1 ih.2.1 hc hs,
      (step_pool_size PS _ _ op hs).trans ih.2.2⟩

theorem pinnedPool_fresh : FreshReachable 4096 1 pinnedPool :=
  FreshReachable.step Op.newPage (FreshReachable.init DiskManager.empty)
    (fun g hg => by
      have hg0 : g = 0 := by
        have : g < 1 := hg
        omega
      subst hg0
      decide) rfl

/-! ## Reading and writing through the stream -/

theorem byteDisk_eta (d : ByteDiskManager) (h : d.failed = false) :
    ({ d with failed := false } : ByteDiskManager) = d := by
  cases d
  simp only at h
  subst h
  rfl

theorem byte_read_good (PS : Nat) (d : ByteDiskManager) (p : Nat) (hg : d.failed = false)
    (hin : p * PS + PS ≤ d.file.size) (hsz : d.file.size < 2 ^ 31) (hPS : 0 < PS) :
    d.ReadPhysicalPage PS (p : Int) =
      (d, fun i => if i < PS then d.file.byte (p * PS + i) else 0) := by
  have hoff : toInt32 ((p : Int) * (PS : Int)) = ((p * PS : Nat) : Int) := by
    rw [toInt32_small] <;> push_cast <;> norm_cast <;> omega
  have hfs : d.file.GetFileSize = (d.file.size : Int) := by
    unfold ByteFile.GetFileSize
    exact toInt32_small _ (Int.ofNat_nonneg _) (by exact_mod_cast hsz)
  unfold ByteDiskManager.ReadPhysicalPage
  dsimp only
  rw [hoff, hfs]
  have h1 : ¬ (((p * PS : Nat) : Int) ≥ (d.file.size : Int)) := by omega
  have h2 : ¬ (d.failed = true ∨ ((p * PS : Nat) : Int) < 0) := by
    rw [hg]
    intro hc
    rcases hc with hc | hc
    · cases hc
    · omega
  rw [if_neg h1, if_neg h2, Int.toNat_ofNat]
  have h3 : min PS (d.file.size - p * PS) = PS := by
    rw [min_eq_left]
    omega
  rw [h3]
  have h4 : decide (PS < PS) = false := by simp
  rw [h4, byteDisk_eta d hg]

theorem byte_write_good (PS : Nat) (d : ByteDiskManager) (p : Nat) (X : Nat → Nat)
    (hg : d.failed = false) :
    d.WritePhysicalPage PS (p : Int) X =
      { d with file := d.file.WritePhysicalPage PS p X } := by
  unfold ByteDiskManager.WritePhysicalPage
  have h1 : ¬ d.failed = true := by rw [hg]; simp
  have h2 : ¬ ((p : Int) < 0) := by omega
  rw [if_neg h1, if_neg h2, Int.toNat_ofNat]
theorem word32_split (x : Nat) (hx : x < 2 ^ 32) :
    x / 256 ^ 0 % 256 + 256 * (x / 256 ^ 1 % 256) + 65536 * (x / 256 ^ 2 % 256) +
      16777216 * (x / 256 ^ 3 % 256) = x := by
  norm_num
  omega

theorem ofBytes_toBytes (PS : Nat) (hPS : 8 < PS) (b : BitmapPage) (buf : Nat → Nat)
    (hbuf : ∀ i, i < PS → buf i = b.toBytes PS i)
    (h1 : b.page_allocated_ < 2 ^ 32) (h2 : b.next_free_page_ < 2 ^ 32) :
    (BitmapPage.ofBytes buf).page_allocated_ = b.page_allocated_ ∧
      (BitmapPage.ofBytes buf).next_free_page_ = b.next_free_page_ ∧
      ∀ j, j < GetMaxSupportedSize PS → (BitmapPage.ofBytes buf).bit j = b.bit j := by
  refine ⟨?_, ?_, fun j hj => ?_⟩
  · show word32 buf 0 = _
    unfold word32
    rw [hbuf 0 (by omega), hbuf (0 + 1) (by omega), hbuf (0 + 2) (by omega),
      hbuf (0 + 3) (by omega)]
    have := word32_split b.page_allocated_ h1
    simpa [BitmapPage.toBytes] using this
  · show word32 buf 4 = _
    unfold word32
    rw [hbuf 4 (by omega), hbuf (4 + 1) (by omega), hbuf (4 + 2) (by omega),
      hbuf (4 + 3) (by omega)]
    have := word32_split b.next_free_page_ h2
    simpa [BitmapPage.toBytes] using this
  · have hk : j / 8 < MAX_CHARS PS := (slot_lt_iff PS j).2 hj
    have hk2 : 8 + j / 8 < PS := by
      unfold MAX_CHARS at hk
      omega
    show (buf (8 + j / 8)).testBit (j % 8) = (b.bytes (j / 8)).testBit (j % 8)
    rw [hbuf _ hk2]
    unfold BitmapPage.toBytes
    have e1 : ¬ 8 + j / 8 < 4 := by omega
    have e2 : ¬ 8 + j / 8 < 8 := by omega
    simp only [e1, e2, hk2, if_false, if_true, Nat.add_sub_cancel_left]
    have h256 : (256 : Nat) = 2 ^ 8 := by norm_num
    rw [h256, Nat.testBit_mod_two_pow]
    have : j % 8 < 8 := Nat.mod_lt _ (by norm_num)
    simp [this]

theorem write_size (PS : Nat) (f : ByteFile) (p : Nat) (X : Nat → Nat) :
    (f.WritePhysicalPage PS p X).size = max f.size (p * PS + PS) := rfl

theorem write_byte_in (PS : Nat) (f : ByteFile) (p : Nat) (X : Nat → Nat) (i : Nat)
    (hi : i < PS) : (f.WritePhysicalPage PS p X).byte (p * PS + i) = X i := by
  unfold ByteFile.WritePhysicalPage
  dsimp only
  have h : p * PS ≤ p * PS + i ∧ p * PS + i < p * PS + PS := by omega
  rw [if_pos h, Nat.add_sub_cancel_left]

theorem write_byte_out (PS : Nat) (f : ByteFile) (p : Nat) (X : Nat → Nat) (o : Nat)
    (ho : ¬ (p * PS ≤ o ∧ o < p * PS + PS)) (hs : o < f.size) :
    (f.WritePhysicalPage PS p X).byte o = f.byte o := by
  unfold ByteFile.WritePhysicalPage
  dsimp only
  rw [if_neg ho, if_pos hs]

theorem bitmapOnFile_written (PS : Nat) (hPS : 8 < PS) (d d2 : ByteDiskManager) (e : Nat)
    (b : BitmapPage) (Y : Nat → Nat)
    (hf : d2.file = (d.file.WritePhysicalPage PS (1 + e * (GetMaxSupportedSize PS + 1))
      (b.toBytes PS)).WritePhysicalPage PS 0 Y)
    (h1 : b.page_allocated_ < 2 ^ 32) (h2 : b.next_free_page_ < 2 ^ 32) :
    (d2.bitmapOnFile PS e).page_allocated_ = b.page_allocated_ ∧
      (d2.bitmapOnFile PS e).next_free_page_ = b.next_free_page_ ∧
      ∀ j, j < GetMaxSupportedSize PS → (d2.bitmapOnFile PS e).bit j = b.bit j := by
  unfold ByteDiskManager.bitmapOnFile
  refine ofBytes_toBytes PS hPS b _ (fun i hi => ?_) h1 h2
  rw [if_pos hi, hf]
  have hout : ¬ (0 * PS ≤ (1 + e * (GetMaxSupportedSize PS + 1)) * PS + i ∧
      (1 + e * (GetMaxSupportedSize PS + 1)) * PS + i < 0 * PS + PS) := by
    have : PS ≤ (1 + e * (GetMaxSupportedSize PS + 1)) * PS := by
      have := Nat.mul_le_mul_right PS (Nat.le_add_right 1 (e * (GetMaxSupportedSize PS + 1)))
      omega
    omega
  rw [write_byte_out PS _ 0 Y _ hout, write_byte_in PS _ _ _ i hi]
  rw [write_size]
  have := le_max_right d.file.size
    ((1 + e * (GetMaxSupportedSize PS + 1)) * PS + PS)
  omega
/-! ## Consecutive allocations on the bytes of the file -/

theorem byte_allocLoop_skip (PS : Nat) (cnt x : Nat) (d : ByteDiskManager)
    (h : ∀ y, x ≤ y → y < x + cnt →
      ¬ d.meta_data_.extent_used_page_ y < GetMaxSupportedSize PS) :
    ByteDiskManager.allocLoop PS x cnt d = (d, none) := by
  induction cnt generalizing x with
  | zero => rfl
  | succ c ih =>
    unfold ByteDiskManager.allocLoop
    rw [if_neg (h x (le_refl x) (by omega))]
    exact ih (x + 1) (fun y h1 h2 => h y (by omega) (by omega))

theorem byte_allocLoop_last (PS : Nat) (c x : Nat) (d : ByteDiskManager)
    (h : ∀ y, x ≤ y → y < x + c →
      ¬ d.meta_data_.extent_used_page_ y < GetMaxSupportedSize PS) :
    ByteDiskManager.allocLoop PS x (c + 1) d = ByteDiskManager.allocLoop PS (x + c) 1 d := by
  induction c generalizing x with
  | zero => rfl
  | succ c ih =>
    have h0 : ByteDiskManager.allocLoop PS x (c + 1 + 1) d =
        ByteDiskManager.allocLoop PS (x + 1) (c + 1) d := by
      conv_lhs => unfold ByteDiskManager.allocLoop
      rw [if_neg (h x (le_refl x) (by omega))]
    rw [h0, ih (x + 1) (fun y h1 h2 => h y (by omega) (by omega))]
    have : x + 1 + c = x + (c + 1) := by omega
    rw [this]

theorem byte_write_mk (PS : Nat) (m : DiskFileMetaPage) (f : ByteFile) (p : Nat)
    (X : Nat → Nat) :
    (ByteDiskManager.mk m f false).WritePhysicalPage PS (p : Int) X =
      ByteDiskManager.mk m (f.WritePhysicalPage PS p X) false := by
  rw [byte_write_good PS _ p X rfl]

theorem byte_write_mk_zero (PS : Nat) (m : DiskFileMetaPage) (f : ByteFile) (X : Nat → Nat) :
    (ByteDiskManager.mk m f false).WritePhysicalPage PS 0 X =
      ByteDiskManager.mk m (f.WritePhysicalPage PS 0 X) false :=
  byte_write_mk PS m f 0 X

theorem byte_allocLoop_serve (PS : Nat) (e : Nat) (d : ByteDiskManager) (off : Nat)
    (B : BitmapPage) (hg : d.failed = false)
    (hu : d.meta_data_.extent_used_page_ e < GetMaxSupportedSize PS)
    (hbp : 1 + e * (GetMaxSupportedSize PS + 1) < 2 ^ 31)
    (hr : d.ReadPhysicalPage PS ((1 + e * (GetMaxSupportedSize PS + 1) : Nat) : Int) =
        (d, fun i => if i < PS then
          d.file.byte ((1 + e * (GetMaxSupportedSize PS + 1)) * PS + i) else 0))
    (ha : (d.bitmapOnFile PS e).AllocatePage PS = (B, some off)) :
    ByteDiskManager.allocLoop PS e 1 d =
      (ByteDiskManager.mk
        (d.meta_data_.setUsed e (d.meta_data_.extent_used_page_ e + 1)
          (d.meta_data_.num_allocated_pages_ + 1))
        ((d.file.WritePhysicalPage PS (1 + e * (GetMaxSupportedSize PS + 1))
          (B.toBytes PS)).WritePhysicalPage PS 0
            ((d.meta_data_.setUsed e (d.meta_data_.extent_used_page_ e + 1)
              (d.meta_data_.num_allocated_pages_ + 1)).toBytes PS))
        false,
        some (toInt32 ((e * GetMaxSupportedSize PS + off : Nat) : Int))) := by
  have hbpi : toInt32 ((1 + e * (GetMaxSupportedSize PS + 1) : Nat) : Int) =
      ((1 + e * (GetMaxSupportedSize PS + 1) : Nat) : Int) :=
    toInt32_small _ (Int.ofNat_nonneg _) (by exact_mod_cast hbp)
  unfold ByteDiskManager.bitmapOnFile at ha
  unfold ByteDiskManager.allocLoop
  rw [if_pos hu]
  simp only [hbpi, hr, ha, hg, byte_write_mk, byte_write_mk_zero]
theorem maxSize_4096 : GetMaxSupportedSize 4096 = 32704 := rfl

theorem seqAlloc_open : SeqAlloc 4096 (ByteDiskManager.allocateN 4096 0) 0 := by
  have hM := maxSize_4096
  have ho : ByteDiskManager.allocateN 4096 0 =
      ByteDiskManager.mk (DiskFileMetaPage.ofBytes (fun _ => 0)) ByteFile.empty false := by
    show ByteDiskManager.open 4096 ByteFile.empty = _
    unfold ByteDiskManager.open ByteDiskManager.ReadPhysicalPage
    have h1 : toInt32 (0 * ((4096 : Nat) : Int)) ≥ ByteFile.empty.GetFileSize := by decide
    simp only [if_pos h1]
  rw [ho]
  refine ⟨rfl, rfl, ?_, ?_, ?_, rfl, ?_⟩
  · rw [hM]
    rfl
  · intro x hx
    rw [hM] at hx
    omega
  · intro h
    rw [hM] at h
    omega
  · intro h
    rw [hM] at h
    omega

theorem seqAlloc_step (d : ByteDiskManager) (n : Nat) (h : SeqAlloc 4096 d n)
    (hn : n ≤ 555968) :
    (d.AllocatePage 4096).2 = (n : Int) ∧ SeqAlloc 4096 (d.AllocatePage 4096).1 (n + 1) := by
  have hM := maxSize_4096
  have hPS : 8 < 4096 := by norm_num
  obtain ⟨m, f, fl⟩ := d
  obtain ⟨hg, hc, he, hfull, hpart, hsize, hbm⟩ := h
  dsimp only at hg hc he hfull hpart hsize
  subst hg
  rw [hM] at he hfull hpart hsize hbm
  have hbp : toInt32 ((1 + n / 32704 * (GetMaxSupportedSize 4096 + 1) : Nat) : Int) =
      ((1 + n / 32704 * (GetMaxSupportedSize 4096 + 1) : Nat) : Int) := by
    apply toInt32_small _ (Int.ofNat_nonneg _)
    rw [hM]
    have : 1 + n / 32704 * (32704 + 1) < 2 ^ 31 := by omega
    exact_mod_cast this
  by_cases hr : n % 32704 = 0
  · have he2 : m.num_extents_ = n / 32704 := by omega
    have hskip : ByteDiskManager.allocLoop 4096 0 m.num_extents_ ⟨m, f, false⟩ =
        (⟨m, f, false⟩, none) := by
      apply byte_allocLoop_skip
      intro y _ hy
      show ¬ m.extent_used_page_ y < GetMaxSupportedSize 4096
      rw [hM, hfull y (by omega)]
      omega
    unfold ByteDiskManager.AllocatePage
    rw [hskip]
    dsimp only
    rw [zeroPage_alloc 4096 hPS, he2]
    simp only [hbp, byte_write_mk, byte_write_mk_zero, Option.getD_some]
    refine ⟨?_, ?_⟩
    · rw [hM, toInt32_small _ (Int.ofNat_nonneg _)]
      · have : n / 32704 * 32704 + 0 = n := by omega
        rw [this]
      · have : n / 32704 * 32704 + 0 < 2 ^ 31 := by omega
        exact_mod_cast this
    · have hb := bitmapOnFile_written 4096 hPS ⟨m, f, false⟩
        (ByteDiskManager.mk
          (DiskFileMetaPage.setUsed { m with num_extents_ := n / 32704 + 1 } (n / 32704) 1
            (m.num_allocated_pages_ + 1))
          ((f.WritePhysicalPage 4096 (1 + n / 32704 * (GetMaxSupportedSize 4096 + 1))
            ((zeroPage.take 0).toBytes 4096)).WritePhysicalPage 4096 0
            ((DiskFileMetaPage.setUsed { m with num_extents_ := n / 32704 + 1 } (n / 32704) 1
              (m.num_allocated_pages_ + 1)).toBytes 4096)) false)
        (n / 32704) (zeroPage.take 0) _ rfl (by decide) (by decide)
      rw [hM] at hb
      have hq : (n + 1) / 32704 = n / 32704 := by omega
      have hq2 : (n + 1) % 32704 = 1 := by omega
      refine ⟨rfl, ?_, ?_, ?_, ?_, ?_, ?_⟩
      · show m.num_allocated_pages_ + 1 = n + 1
        rw [hc]
      · rw [hM]
        show n / 32704 + 1 = _
        omega
      · intro x hx
        rw [hM, hq] at hx
        rw [hM]
        show Function.update m.extent_used_page_ (n / 32704) 1 x = 32704
        rw [Function.update_noteq (by omega)]
        exact hfull x hx
      · intro _
        rw [hM, hq, hq2]
        show Function.update m.extent_used_page_ (n / 32704) 1 (n / 32704) = 1
        rw [Function.update_same]
      · rw [hM]
        simp only [write_size]
        rw [hsize]
        split <;> split <;> omega
      · intro _
        rw [hM, hq, hq2]
        refine ⟨hb.1, hb.2.1, fun j hj => ?_⟩
        rw [hb.2.2 j hj, bit_take]
        have : zeroPage.bit j = false := by simp [BitmapPage.bit, zeroPage]
        rw [this]
        by_cases hj0 : j = 0
        · simp [hj0]
        · have : ¬ j < 1 := by omega
          simp [hj0, this]
  · have he2 : m.num_extents_ = n / 32704 + 1 := by omega
    have hlast := byte_allocLoop_last 4096 (n / 32704) 0 ⟨m, f, false⟩ (by
      intro y _ hy
      show ¬ m.extent_used_page_ y < GetMaxSupportedSize 4096
      rw [hM, hfull y (by omega)]
      omega)
    rw [Nat.zero_add] at hlast
    have hn0 : n ≠ 0 := by
      intro h0
      subst h0
      exact hr rfl
    rw [if_neg hn0] at hsize
    have hread := byte_read_good 4096 ⟨m, f, false⟩
      (1 + n / 32704 * (GetMaxSupportedSize 4096 + 1)) rfl
      (by
        show _ ≤ f.size
        rw [hM, hsize]
        omega)
      (by
        show f.size < _
        rw [hsize]
        omega)
      (by norm_num)
    obtain ⟨hb1, hb2, hb3⟩ := hbm hr
    have hal := bitmap_alloc_next 4096
      (ByteDiskManager.bitmapOnFile 4096 ⟨m, f, false⟩ (n / 32704)) (n % 32704)
      (by rw [hM]; omega) hb1 hb2 (by rw [hb3 _ (by omega)]; simp)
    have hserve := byte_allocLoop_serve 4096 (n / 32704) ⟨m, f, false⟩ (n % 32704) _ rfl
      (by
        show m.extent_used_page_ (n / 32704) < GetMaxSupportedSize 4096
        rw [hM, hpart hr]
        omega)
      (by rw [hM]; omega) hread hal
    unfold ByteDiskManager.AllocatePage
    rw [he2, hlast, hserve]
    dsimp only
    refine ⟨?_, ?_⟩
    · rw [hM, toInt32_small _ (Int.ofNat_nonneg _)]
      · have : n / 32704 * 32704 + n % 32704 = n := by omega
        rw [this]
      · have : n / 32704 * 32704 + n % 32704 < 2 ^ 31 := by omega
        exact_mod_cast this
    · have hb := bitmapOnFile_written 4096 hPS ⟨m, f, false⟩
        (ByteDiskManager.mk
          (m.setUsed (n / 32704) (m.extent_used_page_ (n / 32704) + 1)
            (m.num_allocated_pages_ + 1))
          ((f.WritePhysicalPage 4096 (1 + n / 32704 * (GetMaxSupportedSize 4096 + 1))
            (((ByteDiskManager.bitmapOnFile 4096 ⟨m, f, false⟩ (n / 32704)).take
              (n % 32704)).toBytes 4096)).WritePhysicalPage 4096 0
            ((m.setUsed (n / 32704) (m.extent_used_page_ (n / 32704) + 1)
              (m.num_allocated_pages_ + 1)).toBytes 4096)) false)
        (n / 32704)
        ((ByteDiskManager.bitmapOnFile 4096 ⟨m, f, false⟩ (n / 32704)).take (n % 32704))
        _ rfl
        (by
          show (ByteDiskManager.bitmapOnFile 4096 ⟨m, f, false⟩ (n / 32704)).page_allocated_ + 1
            < 2 ^ 32
          rw [hb1]
          omega)
        (by
          show n % 32704 + 1 < 2 ^ 32
          omega)
      rw [hM] at hb
      refine ⟨rfl, ?_, ?_, ?_, ?_, ?_, ?_⟩
      · show m.num_allocated_pages_ + 1 = n + 1
        rw [hc]
      · rw [hM]
        show m.num_extents_ = _
        omega
      · intro x hx
        rw [hM] at hx
        rw [hM]
        show Function.update m.extent_used_page_ (n / 32704) _ x = 32704
        by_cases hx2 : x = n / 32704
        · rw [hx2, Function.update_same, hpart hr]
          omega
        · rw [Function.update_noteq hx2]
          exact hfull x (by omega)
      · intro hne
        rw [hM] at hne
        have hq : (n + 1) / 32704 = n / 32704 := by omega
        rw [hM, hq]
        show Function.update m.extent_used_page_ (n / 32704) _ (n / 32704) = _
        rw [Function.update_same, hpart hr]
        omega
      · rw [hM]
        simp only [write_size]
        rw [hsize]
        split <;> omega
      · intro hne
        rw [hM] at hne
        have hq : (n + 1) / 32704 = n / 32704 := by omega
        have hq2 : (n + 1) % 32704 = n % 32704 + 1 := by omega
        rw [hM, hq, hq2]
        refine ⟨?_, hb.2.1, fun j hj => ?_⟩
        · rw [hb.1]
          show (ByteDiskManager.bitmapOnFile 4096 ⟨m, f, false⟩ (n / 32704)).page_allocated_ + 1
            = _
          rw [hb1]
        · rw [hb.2.2 j hj, bit_take, hb3 j hj]
          by_cases hj0 : j = n % 32704
          · simp [hj0]
          · by_cases hj2 : j < n % 32704
            · have : j < n % 32704 + 1 := by omega
              simp [hj0, hj2, this]
            · have : ¬ j < n % 32704 + 1 := by omega
              simp [hj0, hj2, this]

theorem seqAlloc_allocateN (n : Nat) (hn : n ≤ 555969) :
    SeqAlloc 4096 (ByteDiskManager.allocateN 4096 n) n := by
  induction n with
  | zero => exact seqAlloc_open
  | succ k ih => exact (seqAlloc_step _ k (ih (by omega)) (by omega)).2

theorem seqAlloc_far (d : ByteDiskManager) (h : SeqAlloc 4096 d 555969) :
    d.failed = false ∧ d.meta_data_.num_allocated_pages_ = 555969 ∧
      d.meta_data_.num_extents_ = 18 ∧
      (∀ x, x < 17 → d.meta_data_.extent_used_page_ x = 32704) ∧
      d.meta_data_.extent_used_page_ 17 = 1 ∧ d.file.size = 2277322752 ∧
      ∀ j, j < 32704 → (d.bitmapOnFile 4096 17).bit j = decide (j < 1) := by
  have hM := maxSize_4096
  obtain ⟨hg, hc, he, hfull, hpart, hsize, hbm⟩ := h
  rw [hM] at he hfull hpart hsize hbm
  have e1 : 555969 / 32704 = 17 := by norm_num
  have e2 : 555969 % 32704 = 1 := by norm_num
  rw [e1] at hfull
  rw [e1, e2] at hpart hbm
  exact ⟨hg, hc, by rw [he], hfull, hpart (by norm_num), by rw [hsize]; norm_num,
    (hbm (by norm_num)).2.2⟩

theorem byte_read_far (d : ByteDiskManager) (hs : d.file.size = 2277322752) :
    d.ReadPhysicalPage 4096 (toInt32 ((1 + 17 * (GetMaxSupportedSize 4096 + 1) : Nat) : Int)) =
      ({ d with failed := true }, fun _ => 0) := by
  have hp : toInt32 ((1 + 17 * (GetMaxSupportedSize 4096 + 1) : Nat) : Int) = 555986 := by
    decide
  rw [hp]
  unfold ByteDiskManager.ReadPhysicalPage ByteFile.GetFileSize
  rw [hs]
  have h1 : ¬ toInt32 (555986 * ((4096 : Nat) : Int)) ≥ toInt32 ((2277322752 : Nat) : Int) := by
    decide
  have h2 : d.failed = true ∨ toInt32 (555986 * ((4096 : Nat) : Int)) < 0 :=
    Or.inr (by decide)
  simp only [if_neg h1, if_pos h2]

theorem filter_initial (p : Nat → Bool) (r k : Nat) (h : ∀ j, j < k → p j = decide (j < r)) :
    ((List.range k).filter p).length = min k r := by
  induction k with
  | zero => simp
  | succ k ih =>
    rw [List.range_succ, List.filter_append, List.length_append,
      ih (fun j hj => h j (by omega))]
    have hk := h k (by omega)
    by_cases hkr : k < r
    · have : p k = true := by rw [hk]; simp [hkr]
      simp only [List.filter_cons, this, if_true, List.filter_nil, List.length_singleton]
      omega
    · have : p k = false := by rw [hk]; simp [hkr]
      simp only [List.filter_cons, this, List.filter_nil, List.length_nil]
      simp
      omega

theorem popcount_initial (PS : Nat) (b : BitmapPage) (r : Nat) (hr : r ≤ GetMaxSupportedSize PS)
    (h : ∀ j, j < GetMaxSupportedSize PS → b.bit j = decide (j < r)) :
    b.popcount PS = r := by
  unfold BitmapPage.popcount
  rw [filter_initial (fun i => (b.bytes (i / 8)).testBit (i % 8)) r _ h]
  omega

theorem far_page_reads_zero (d : ByteDiskManager) (h : SeqAlloc 4096 d 555969) :
    d.file.size = 2277322752 ∧ d.failed = false ∧ d.meta_data_.num_extents_ = 18 ∧
      d.file.GetFileSize = -2017644544 ∧ (d.IsPageFree 4096 555968).2 = true := by
  obtain ⟨hg, _, he, _, _, hs, _⟩ := seqAlloc_far d h
  refine ⟨hs, hg, he, ?_, ?_⟩
  · unfold ByteFile.GetFileSize
    rw [hs]
    decide
  · unfold ByteDiskManager.IsPageFree
    have hM := maxSize_4096
    have c1 : ¬ ((555968 : Int) < 0) := by norm_num
    have c2 : ¬ ((555968 : Int).toNat / GetMaxSupportedSize 4096 ≥
        d.meta_data_.num_extents_) := by
      rw [he, hM]
      decide
    have c3 : (555968 : Int).toNat / GetMaxSupportedSize 4096 = 17 := by
      rw [hM]
      decide
    have c4 : (555968 : Int).toNat % GetMaxSupportedSize 4096 = 0 := by
      rw [hM]
      decide
    rw [if_neg c1, if_neg c2]
    dsimp only
    rw [c3, c4, byte_read_far d hs]
    show BitmapPage.IsPageFree 4096 (BitmapPage.ofBytes (fun _ => 0)) 0 = true
    decide

theorem byte_write_failed (PS : Nat) (m : DiskFileMetaPage) (f : ByteFile) (p : Int)
    (X : Nat → Nat) :
    (ByteDiskManager.mk m f true).WritePhysicalPage PS p X = ByteDiskManager.mk m f true := by
  unfold ByteDiskManager.WritePhysicalPage
  rw [if_pos rfl]

theorem ofBytes_zero : BitmapPage.ofBytes (fun _ => 0) = zeroPage := rfl

theorem byte_allocLoop_lost (PS : Nat) (hPS : 8 < PS) (e : Nat) (m : DiskFileMetaPage)
    (f : ByteFile) (hu : m.extent_used_page_ e < GetMaxSupportedSize PS)
    (hr : (ByteDiskManager.mk m f false).ReadPhysicalPage PS
        (toInt32 ((1 + e * (GetMaxSupportedSize PS + 1) : Nat) : Int)) =
        (ByteDiskManager.mk m f true, fun _ => 0)) :
    ByteDiskManager.allocLoop PS e 1 (ByteDiskManager.mk m f false) =
      (ByteDiskManager.mk
        (m.setUsed e (m.extent_used_page_ e + 1) (m.num_allocated_pages_ + 1)) f true,
        some (toInt32 ((e * GetMaxSupportedSize PS + 0 : Nat) : Int))) := by
  unfold ByteDiskManager.allocLoop
  rw [if_pos hu]
  simp only [hr, ofBytes_zero, zeroPage_alloc PS hPS, byte_write_failed]

theorem far_alloc_repeats (d : ByteDiskManager) (h : SeqAlloc 4096 d 555969) :
    (d.AllocatePage 4096).2 = 555968 ∧
      (d.AllocatePage 4096).1.failed = true ∧
      (d.AllocatePage 4096).1.meta_data_.num_extents_ = 18 ∧
      (d.AllocatePage 4096).1.meta_data_.extent_used_page_ 17 = 2 ∧
      (d.AllocatePage 4096).1.meta_data_.num_allocated_pages_ = 555970 ∧
      ((d.AllocatePage 4096).1.bitmapOnFile 4096 17).popcount 4096 = 1 := by
  have hM := maxSize_4096
  obtain ⟨hg, hc, he, hfull, hpart, hs, hbits⟩ := seqAlloc_far d h
  obtain ⟨m, f, fl⟩ := d
  dsimp only at hg hc he hfull hpart hs
  subst hg
  have hlast := byte_allocLoop_last 4096 17 0 ⟨m, f, false⟩ (by
    intro y _ hy
    show ¬ m.extent_used_page_ y < GetMaxSupportedSize 4096
    rw [hM, hfull y (by omega)]
    omega)
  rw [Nat.zero_add] at hlast
  have hu : m.extent_used_page_ 17 < GetMaxSupportedSize 4096 := by
    rw [hM, hpart]
    norm_num
  have hserve := byte_allocLoop_lost 4096 (by norm_num) 17 m f hu
    (byte_read_far ⟨m, f, false⟩ hs)
  have hid : toInt32 ((17 * GetMaxSupportedSize 4096 + 0 : Nat) : Int) = 555968 := by decide
  rw [hid, hpart, hc] at hserve
  have hA : ByteDiskManager.AllocatePage 4096 ⟨m, f, false⟩ =
      (ByteDiskManager.mk (m.setUsed 17 (1 + 1) (555969 + 1)) f true, 555968) := by
    unfold ByteDiskManager.AllocatePage
    simp only [he, hlast, hserve]
  rw [hA]
  refine ⟨rfl, rfl, he, ?_, ?_, ?_⟩
  · show Function.update m.extent_used_page_ 17 (1 + 1) 17 = 2
    rw [Function.update_same]
  · show 555969 + 1 = 555970
    norm_num
  · exact popcount_initial 4096
      (ByteDiskManager.bitmapOnFile 4096 ⟨m.setUsed 17 (1 + 1) (555969 + 1), f, true⟩ 17) 1
      (by rw [hM]; norm_num) (by rw [hM]; exact hbits)

/-! ## Every page id is an answer of the allocator on the map of pages -/

theorem bitmap_alloc_at_hint (PS : Nat) (b : BitmapPage) (k : Nat)
    (hk : k < GetMaxSupportedSize PS) (h1 : b.page_allocated_ < GetMaxSupportedSize PS)
    (h2 : b.next_free_page_ = k) (h3 : b.bit k = false) :
    b.AllocatePage PS = (b.take k, some k) := by
  unfold BitmapPage.AllocatePage
  have h0 : ¬ b.page_allocated_ ≥ GetMaxSupportedSize PS := by omega
  rw [if_neg h0, h2]
  obtain ⟨m, hm⟩ : ∃ m, GetMaxSupportedSize PS - k = m + 1 :=
    ⟨GetMaxSupportedSize PS - k - 1, by omega⟩
  have hs : b.scan PS k (GetMaxSupportedSize PS - k) = some k := by
    rw [hm]
    unfold BitmapPage.scan
    rw [if_pos ((isPageFreeLow_slot PS b k).2 ⟨hk, h3⟩)]
  rw [hs]

theorem alloc_returns (PS : Nat) (hPS : 8 < PS) (d : DiskManager) (L : Nat)
    (h1 : d.meta_data_.num_extents_ = L / GetMaxSupportedSize PS + 1)
    (h2 : ∀ x, d.meta_data_.extent_used_page_ x =
      if x = L / GetMaxSupportedSize PS then 0 else GetMaxSupportedSize PS)
    (h3 : ∀ p, d.file p = ⟨0, L % GetMaxSupportedSize PS, fun _ => 0⟩) :
    (d.AllocatePage PS).2 = (L : Int) := by
  have hM := maxSize_pos PS hPS
  have hmod := Nat.mod_lt L hM
  have hb : ∀ e, (d.bitmapOf PS e).AllocatePage PS =
      ((d.bitmapOf PS e).take (L % GetMaxSupportedSize PS),
        some (L % GetMaxSupportedSize PS)) := by
    intro e
    have hf : d.bitmapOf PS e = ⟨0, L % GetMaxSupportedSize PS, fun _ => 0⟩ := h3 _
    exact bitmap_alloc_at_hint PS _ _ hmod (by rw [hf]; exact hM) (by rw [hf])
      (by rw [hf]; simp [BitmapPage.bit])
  rcases alloc_cases PS hPS d with ⟨e, off, _, c2, c3, _, c5, _⟩ | ⟨c1, _⟩
  · have he : e = L / GetMaxSupportedSize PS := by
      by_contra hne
      rw [h2 e, if_neg hne] at c2
      omega
    rw [hb e] at c3
    have hoff : off = L % GetMaxSupportedSize PS := by
      cases c3
      rfl
    rw [c5, he, hoff, Nat.div_add_mod' L (GetMaxSupportedSize PS)]
  · exfalso
    apply c1 (L / GetMaxSupportedSize PS) (by rw [h1]; exact Nat.lt_succ_self _)
    unfold DiskManager.serves
    refine ⟨?_, ?_⟩
    · rw [h2, if_pos rfl]
      exact hM
    · rw [hb]
      simp

theorem any_id_allocated (PS : Nat) (hPS : 8 < PS) (L : Nat) :
    ∃ d : DiskManager, (d.AllocatePage PS).2 = (L : Int) :=
  ⟨{ meta_data_ := ⟨0, L / GetMaxSupportedSize PS + 1,
        fun x => if x = L / GetMaxSupportedSize PS then 0 else GetMaxSupportedSize PS⟩
     file_meta := ⟨0, 0, fun _ => 0⟩
     file := fun _ => ⟨0, L % GetMaxSupportedSize PS, fun _ => 0⟩ },
    alloc_returns PS hPS _ L rfl (fun _ => rfl) (fun _ => rfl)⟩

/-! ## The claims -/

/-- The exhausted pool over the file as a map of pages, which follows the code while the
file is shorter than `2^31` bytes.  In every state of a pool of `N` frames, reached from a
fresh pool over any database file, in which all `N` frames are pinned: `FetchPage` of a page that is not in the page
table returns null and changes nothing; `NewPage` returns null, leaves
`num_allocated_pages_` as it was with the id it allocated free again, and leaves the frames,
the page table, the free list and the replacer unchanged. -/
theorem exhausted_pool_refuses (PS N : Nat) (hPS : 8 < PS) (s : BufferPoolManager)
    (hr : Reachable PS N s) (hpin : ∀ f, f < N → 0 < (s.pages_ f).pin_count_) :
    (∀ L, ptFind s.page_table_ L = none → s.FetchPage PS L = some (s, none)) ∧
    ∃ s1 L, s.NewPage PS = some (s1, L, none) ∧
      s1.disk_manager_.meta_data_.num_allocated_pages_ =
        s.disk_manager_.meta_data_.num_allocated_pages_ ∧
      s1.IsPageFree PS L = true ∧
      s1.pages_ = s.pages_ ∧ s1.page_table_ = s.page_table_ ∧
      s1.free_list_ = s.free_list_ ∧ s1.replacer_ = s.replacer_ ∧
      s1.pool_size_ = s.pool_size_ := by
  obtain ⟨hf, hl⟩ := all_pinned_empty PS N s hr hpin
  constructor
  · intro L hL
    unfold BufferPoolManager.FetchPage
    rw [hL]
    simp only [tryFind_exhausted s hf hl]
  · refine ⟨{ s with disk_manager_ :=
        (s.disk_manager_.AllocatePage PS).1.DeAllocatePage PS (s.disk_manager_.AllocatePage PS).2 },
      (s.disk_manager_.AllocatePage PS).2, ?_, ?_, ?_, rfl, rfl, rfl, rfl, rfl⟩
    · have hT := tryFind_exhausted
        ({ s with disk_manager_ := (s.disk_manager_.AllocatePage PS).1 } : BufferPoolManager)
        hf hl
      unfold BufferPoolManager.NewPage
      simp only [hT]
    · exact alloc_dealloc_count PS hPS _
    · exact dealloc_makes_free PS hPS _ _ (alloc_nonneg_any PS _) (alloc_not_free_after PS hPS _)

/-- C3.  In every state reached from a fresh pool, over any database file, by `FetchPage`,
`NewPage`, `UnpinPage`, `FlushPage` and `DeletePage` calls (and writes of clients into
frames they have pinned), a frame with `pin_count_ > 0` is neither in the free list nor
in the replacer; `TryToFindFreePage` does not return it; and no `FetchPage` or `NewPage`
takes it over: the frame keeps its page id and its bytes and stays pinned. -/
theorem pinned_frame_protected (PS N : Nat) (s : BufferPoolManager) (hr : Reachable PS N s)
    (g : Nat) (hp : 0 < (s.pages_ g).pin_count_) :
    g ∉ s.free_list_ ∧ g ∉ s.replacer_.lru_list_ ∧ g ∉ s.replacer_.lru_map_ ∧
    s.TryToFindFreePage.2 ≠ some g ∧
    (∀ L s1 r, s.FetchPage PS L = some (s1, r) →
      (s1.pages_ g).page_id_ = (s.pages_ g).page_id_ ∧
      (s1.pages_ g).data_ = (s.pages_ g).data_ ∧ 0 < (s1.pages_ g).pin_count_) ∧
    (∀ s1 L r, s.NewPage PS = some (s1, L, r) →
      (s1.pages_ g).page_id_ = (s.pages_ g).page_id_ ∧
      (s1.pages_ g).data_ = (s.pages_ g).data_ ∧ 0 < (s1.pages_ g).pin_count_) := by
  have hI := inv_reachable PS N s hr
  have h1 : g ∉ s.free_list_ := fun hc => by
    have := (hI.free g hc).2.1
    omega
  have h2 : g ∉ s.replacer_.lru_list_ := fun hc => by
    have := (hI.repl g hc).1
    omega
  refine ⟨h1, h2, fun hc => h2 ((hI.sync.2 g).1 hc), ?_, ?_, ?_⟩
  · intro hc
    obtain ⟨_, _, _, _, _, _, h7, _⟩ := tryFind_some s _ g hI (Prod.ext rfl hc)
    omega
  · intro L s1 r h
    rcases fetch_cases PS s s1 L r h with ⟨f, _, _, rfl⟩ | ⟨_, hn, _, rfl⟩ |
      ⟨_, f, d2, hT, _, _, _, rfl⟩
    · show (Function.update s.pages_ f _ g).page_id_ = _ ∧
        (Function.update s.pages_ f _ g).data_ = _ ∧
        0 < (Function.update s.pages_ f _ g).pin_count_
      by_cases hgf : g = f
      · subst hgf
        rw [Function.update_same]
        refine ⟨rfl, rfl, ?_⟩
        show 0 < (s.pages_ g).pin_count_ + 1
        omega
      · rw [Function.update_noteq hgf]
        exact ⟨rfl, rfl, hp⟩
    · rw [(tryFind_none s hn).1]
      exact ⟨rfl, rfl, hp⟩
    · obtain ⟨_, hpg, _, _, _, _, h7, _⟩ := tryFind_some s _ f hI (Prod.ext rfl hT)
      have hgf : g ≠ f := fun hc => by rw [hc] at hp; omega
      show (Function.update s.TryToFindFreePage.1.pages_ f _ g).page_id_ = _ ∧
        (Function.update s.TryToFindFreePage.1.pages_ f _ g).data_ = _ ∧
        0 < (Function.update s.TryToFindFreePage.1.pages_ f _ g).pin_count_
      rw [Function.update_noteq hgf, hpg]
      exact ⟨rfl, rfl, hp⟩
  · intro s1 L r h
    have hI0 := inv_disk s (s.disk_manager_.AllocatePage PS).1 hI
    obtain ⟨_, hc⟩ := new_cases PS s s1 L r h
    rcases hc with ⟨hn, _, rfl⟩ | ⟨f, d2, t, hT, _, _, rfl⟩
    · rw [(tryFind_none _ hn).1]
      exact ⟨rfl, rfl, hp⟩
    · obtain ⟨_, hpg, _, _, _, _, h7, _⟩ := tryFind_some _ t f hI0 hT
      have h7a : (s.pages_ f).pin_count_ = 0 := h7
      have hgf : g ≠ f := fun hc => by rw [hc] at hp; omega
      show (Function.update t.pages_ f _ g).page_id_ = _ ∧
        (Function.update t.pages_ f _ g).data_ = _ ∧
        0 < (Function.update t.pages_ f _ g).pin_count_
      rw [Function.update_noteq hgf, hpg]
      exact ⟨rfl, rfl, hp⟩


/-- An instance of `exhausted_pool_refuses`: the pool `pinnedPool` of one frame, whose only
frame is pinned. -/
theorem exhausted_pool_refuses_witness :
    Reachable 4096 1 pinnedPool ∧ (∀ f, f < 1 → 0 < (pinnedPool.pages_ f).pin_count_) ∧
    ((∀ L, ptFind pinnedPool.page_table_ L = none →
        pinnedPool.FetchPage 4096 L = some (pinnedPool, none)) ∧
      ∃ s1 L, pinnedPool.NewPage 4096 = some (s1, L, none) ∧
        s1.disk_manager_.meta_data_.num_allocated_pages_ =
          pinnedPool.disk_manager_.meta_data_.num_allocated_pages_ ∧
        s1.IsPageFree 4096 L = true ∧
        s1.pages_ = pinnedPool.pages_ ∧ s1.page_table_ = pinnedPool.page_table_ ∧
        s1.free_list_ = pinnedPool.free_list_ ∧ s1.replacer_ = pinnedPool.replacer_ ∧
        s1.pool_size_ = pinnedPool.pool_size_) :=
  ⟨pinnedPool_reachable, pinnedPool_pinned,
    exhausted_pool_refuses 4096 1 (by decide) pinnedPool pinnedPool_reachable pinnedPool_pinned⟩

/-- Witness of C3: frame 0 of `pinnedPool`, pinned. -/
theorem pinned_frame_protected_witness :
    Reachable 4096 1 pinnedPool ∧ 0 < (pinnedPool.pages_ 0).pin_count_ ∧
    (0 ∉ pinnedPool.free_list_ ∧ 0 ∉ pinnedPool.replacer_.lru_list_ ∧
      0 ∉ pinnedPool.replacer_.lru_map_ ∧
      pinnedPool.TryToFindFreePage.2 ≠ some 0 ∧
      (∀ L s1 r, pinnedPool.FetchPage 4096 L = some (s1, r) →
        (s1.pages_ 0).page_id_ = (pinnedPool.pages_ 0).page_id_ ∧
        (s1.pages_ 0).data_ = (pinnedPool.pages_ 0).data_ ∧ 0 < (s1.pages_ 0).pin_count_) ∧
      (∀ s1 L r, pinnedPool.NewPage 4096 = some (s1, L, r) →
        (s1.pages_ 0).page_id_ = (pinnedPool.pages_ 0).page_id_ ∧
        (s1.pages_ 0).data_ = (pinnedPool.pages_ 0).data_ ∧ 0 < (s1.pages_ 0).pin_count_)) :=
  ⟨pinnedPool_reachable, by decide,
    pinned_frame_protected 4096 1 pinnedPool pinnedPool_reachable 0 (by decide)⟩

/-- Allocation on the file as a map of pages, which follows the code while the file is
shorter than `2^31` bytes.  For every state `d` of the disk manager, reachable from an empty
file or not:
`AllocatePage` returns a logical id `L` for which `IsPageFree(L)` was true before the call
and is false after it; after a following `DeAllocatePage(L)`, `IsPageFree(L)` is true
again; and neither `AllocatePage` nor any `DeAllocatePage(X)` changes `IsPageFree` for
another logical id. -/
theorem allocate_fresh_deallocate_free (PS : Nat) (hPS : 8 < PS) (d : DiskManager) :
    d.IsPageFree PS (d.AllocatePage PS).2 = true ∧
    (d.AllocatePage PS).1.IsPageFree PS (d.AllocatePage PS).2 = false ∧
    ((d.AllocatePage PS).1.DeAllocatePage PS (d.AllocatePage PS).2).IsPageFree PS
      (d.AllocatePage PS).2 = true ∧
    (∀ L, L ≠ (d.AllocatePage PS).2 →
      (d.AllocatePage PS).1.IsPageFree PS L = d.IsPageFree PS L) ∧
    (∀ X L, L ≠ X → (d.DeAllocatePage PS X).IsPageFree PS L = d.IsPageFree PS L) :=
  ⟨alloc_free_before PS hPS d, alloc_not_free_after PS hPS d,
    dealloc_makes_free PS hPS _ _ (alloc_nonneg_any PS d) (alloc_not_free_after PS hPS d),
    fun L hL => alloc_others PS hPS d L hL, fun X L hL => dealloc_others PS hPS d X L hL⟩

/-- An instance of `allocate_fresh_deallocate_free`: `PAGE_SIZE = 4096` and the disk manager
of an empty file. -/
theorem allocate_fresh_deallocate_free_witness :
    8 < 4096 ∧
    (DiskManager.empty.IsPageFree 4096 (DiskManager.empty.AllocatePage 4096).2 = true ∧
    (DiskManager.empty.AllocatePage 4096).1.IsPageFree 4096
      (DiskManager.empty.AllocatePage 4096).2 = false ∧
    ((DiskManager.empty.AllocatePage 4096).1.DeAllocatePage 4096
      (DiskManager.empty.AllocatePage 4096).2).IsPageFree 4096
      (DiskManager.empty.AllocatePage 4096).2 = true ∧
    (∀ L, L ≠ (DiskManager.empty.AllocatePage 4096).2 →
      (DiskManager.empty.AllocatePage 4096).1.IsPageFree 4096 L =
        DiskManager.empty.IsPageFree 4096 L) ∧
    (∀ X L, L ≠ X →
      (DiskManager.empty.DeAllocatePage 4096 X).IsPageFree 4096 L =
        DiskManager.empty.IsPageFree 4096 L)) :=
  ⟨by decide, allocate_fresh_deallocate_free 4096 (by decide) DiskManager.empty⟩

/-- The accounting of the meta page on the file as a map of pages, which follows the code
while the file is shorter than `2^31` bytes.  In every state of the disk manager reached
from an empty file by `AllocatePage` and `DeAllocatePage` calls with arbitrary arguments, `num_allocated_pages_` is the sum of
`extent_used_page_[e]` over `e < num_extents_`, and for each `e < num_extents_`,
`extent_used_page_[e]` is the number of set bits of the body of the bitmap page of extent
`e`.  A `DeAllocatePage` of a negative id or of an id that is free (in an extent beyond
`num_extents_`, or with its bit clear) changes nothing at all. -/
theorem meta_accounting_consistent (PS : Nat) (hPS : 8 < PS) (d : DiskManager)
    (hr : DiskReachable PS d) :
    d.meta_data_.num_allocated_pages_ =
      ∑ e in Finset.range d.meta_data_.num_extents_, d.meta_data_.extent_used_page_ e ∧
    (∀ e, e < d.meta_data_.num_extents_ →
      d.meta_data_.extent_used_page_ e = (d.bitmapOf PS e).popcount PS) ∧
    (∀ X, (X < 0 ∨ d.IsPageFree PS X = true) → d.DeAllocatePage PS X = d) := by
  have hc : d.Consistent PS := by
    induction hr with
    | empty => exact consistent_empty PS
    | step op _ ih =>
      cases op with
      | allocate => exact consistent_alloc PS hPS _ ih
      | deallocate X => exact consistent_dealloc PS hPS _ X ih
  exact ⟨hc.1, hc.2, fun X hX => dealloc_of_free PS hPS d X hX⟩

/-- An instance of `meta_accounting_consistent`: `PAGE_SIZE = 4096` and the state after one
`AllocatePage` on an empty file. -/
theorem meta_accounting_consistent_witness :
    8 < 4096 ∧ DiskReachable 4096 (DiskManager.empty.step 4096 DiskOp.allocate) ∧
    ((DiskManager.empty.step 4096 DiskOp.allocate).meta_data_.num_allocated_pages_ =
      ∑ e in Finset.range (DiskManager.empty.step 4096 DiskOp.allocate).meta_data_.num_extents_,
        (DiskManager.empty.step 4096 DiskOp.allocate).meta_data_.extent_used_page_ e ∧
    (∀ e, e < (DiskManager.empty.step 4096 DiskOp.allocate).meta_data_.num_extents_ →
      (DiskManager.empty.step 4096 DiskOp.allocate).meta_data_.extent_used_page_ e =
        ((DiskManager.empty.step 4096 DiskOp.allocate).bitmapOf 4096 e).popcount 4096) ∧
    (∀ X, (X < 0 ∨ (DiskManager.empty.step 4096 DiskOp.allocate).IsPageFree 4096 X = true) →
      (DiskManager.empty.step 4096 DiskOp.allocate).DeAllocatePage 4096 X =
        DiskManager.empty.step 4096 DiskOp.allocate)) :=
  ⟨by decide, DiskReachable.step DiskOp.allocate DiskReachable.empty,
    meta_accounting_consistent 4096 (by decide) _
      (DiskReachable.step DiskOp.allocate DiskReachable.empty)⟩

/-- C10.  Starting from an empty file, with `M = GetMaxSupportedSize` slots per bitmap and no
deallocation in between: for every `n ≤ M` the call after `n` allocations returns logical
id `n` (so the `n`-th call returns `n - 1` for `n` from 1 to `M + 1`); after `n` calls,
`1 ≤ n ≤ M`, the meta page holds `num_allocated_pages_ = n`, `num_extents_ = 1`,
`extent_used_page_[0] = n` (in particular `M` after `M` calls and `5, 1, 5` after five
calls), in memory and on file; and after `M + 1` calls it holds `num_extents_ = 2`,
`extent_used_page_[1] = 1`, `extent_used_page_[0] = M`. -/
theorem sequential_allocation (PS : Nat) (hPS : 8 < PS) :
    (∀ n, n ≤ GetMaxSupportedSize PS →
      ((DiskManager.allocateN PS n).AllocatePage PS).2 = (n : Int)) ∧
    (∀ n, 1 ≤ n → n ≤ GetMaxSupportedSize PS →
      (DiskManager.allocateN PS n).meta_data_.num_allocated_pages_ = n ∧
      (DiskManager.allocateN PS n).meta_data_.num_extents_ = 1 ∧
      (DiskManager.allocateN PS n).meta_data_.extent_used_page_ 0 = n ∧
      (DiskManager.allocateN PS n).file_meta = (DiskManager.allocateN PS n).meta_data_) ∧
    ((DiskManager.allocateN PS 5).meta_data_.num_allocated_pages_ = 5 ∧
      (DiskManager.allocateN PS 5).meta_data_.num_extents_ = 1 ∧
      (DiskManager.allocateN PS 5).meta_data_.extent_used_page_ 0 = 5) ∧
    ((DiskManager.allocateN PS (GetMaxSupportedSize PS + 1)).meta_data_.num_extents_ = 2 ∧
      (DiskManager.allocateN PS (GetMaxSupportedSize PS + 1)).meta_data_.extent_used_page_ 1 = 1 ∧
      (DiskManager.allocateN PS (GetMaxSupportedSize PS + 1)).meta_data_.extent_used_page_ 0 =
        GetMaxSupportedSize PS) := by
  have hM : 8 ≤ GetMaxSupportedSize PS := by
    unfold GetMaxSupportedSize MAX_CHARS
    omega
  have hfill := fun n h1 h2 => filled_allocateN PS hPS n h1 h2
  refine ⟨?_, ?_, ?_, ?_⟩
  · intro n hn
    by_cases h0 : n = 0
    · subst h0
      exact (filled_first PS hPS).1
    · by_cases hlt : n < GetMaxSupportedSize PS
      · exact (filled_step PS hPS _ n (hfill n (by omega) hn) hlt).1
      · have : n = GetMaxSupportedSize PS := by omega
        subst this
        exact (filled_full PS hPS _ (hfill _ (by omega) (le_refl _))).1
  · intro n h1 h2
    obtain ⟨f1, f2, f3, f4, _⟩ := hfill n h1 h2
    exact ⟨f3, f1, f2, f4⟩
  · obtain ⟨f1, f2, f3, _⟩ := hfill 5 (by omega) (by omega)
    exact ⟨f3, f1, f2⟩
  · obtain ⟨_, g2, g3, g4, _⟩ :=
      filled_full PS hPS _ (hfill (GetMaxSupportedSize PS) (by omega) (le_refl _))
    exact ⟨g2, g3, g4⟩

/-- Witness of C10: `PAGE_SIZE = 4096`, where `M = 32704`. -/
theorem sequential_allocation_witness :
    8 < 4096 ∧
    ((∀ n, n ≤ GetMaxSupportedSize 4096 →
      ((DiskManager.allocateN 4096 n).AllocatePage 4096).2 = (n : Int)) ∧
    (∀ n, 1 ≤ n → n ≤ GetMaxSupportedSize 4096 →
      (DiskManager.allocateN 4096 n).meta_data_.num_allocated_pages_ = n ∧
      (DiskManager.allocateN 4096 n).meta_data_.num_extents_ = 1 ∧
      (DiskManager.allocateN 4096 n).meta_data_.extent_used_page_ 0 = n ∧
      (DiskManager.allocateN 4096 n).file_meta = (DiskManager.allocateN 4096 n).meta_data_) ∧
    ((DiskManager.allocateN 4096 5).meta_data_.num_allocated_pages_ = 5 ∧
      (DiskManager.allocateN 4096 5).meta_data_.num_extents_ = 1 ∧
      (DiskManager.allocateN 4096 5).meta_data_.extent_used_page_ 0 = 5) ∧
    ((DiskManager.allocateN 4096 (GetMaxSupportedSize 4096 + 1)).meta_data_.num_extents_ = 2 ∧
      (DiskManager.allocateN 4096 (GetMaxSupportedSize 4096 + 1)).meta_data_.extent_used_page_ 1
        = 1 ∧
      (DiskManager.allocateN 4096 (GetMaxSupportedSize 4096 + 1)).meta_data_.extent_used_page_ 0 =
        GetMaxSupportedSize 4096)) :=
  ⟨by decide, sequential_allocation 4096 (by decide)⟩

/-- C7.  In every state reached from a fresh pool over any database file, `UnpinPage(L, d)`
returns false exactly when `L` is not in the page table or its frame has pin count 0, and
then the state is unchanged.  Otherwise it returns true; the frame `f` of `L` has its pin
count decremented by one and `is_dirty_` equal to the old flag or `d`, its page id and
bytes kept; if the new pin count is 0 the frame, which was absent from the replacer, is put
at the front of the replacer list and nothing is removed, otherwise the replacer is
unchanged; no other frame, no page-table entry, and neither the free list nor the disk
changes. -/
theorem unpin_page_effect (PS N : Nat) (s : BufferPoolManager) (hr : Reachable PS N s)
    (L : Int) (d : Bool) :
    ((s.UnpinPage L d).2 = false ↔
      (ptFind s.page_table_ L = none ∨
        ∃ f, ptFind s.page_table_ L = some f ∧ (s.pages_ f).pin_count_ = 0)) ∧
    ((s.UnpinPage L d).2 = false → (s.UnpinPage L d).1 = s) ∧
    (∀ f, ptFind s.page_table_ L = some f → (s.pages_ f).pin_count_ ≠ 0 →
      (s.UnpinPage L d).2 = true ∧
      ((s.UnpinPage L d).1.pages_ f).pin_count_ = (s.pages_ f).pin_count_ - 1 ∧
      ((s.UnpinPage L d).1.pages_ f).is_dirty_ = ((s.pages_ f).is_dirty_ || d) ∧
      ((s.UnpinPage L d).1.pages_ f).page_id_ = (s.pages_ f).page_id_ ∧
      ((s.UnpinPage L d).1.pages_ f).data_ = (s.pages_ f).data_ ∧
      (∀ g, g ≠ f → (s.UnpinPage L d).1.pages_ g = s.pages_ g) ∧
      (s.UnpinPage L d).1.page_table_ = s.page_table_ ∧
      (s.UnpinPage L d).1.free_list_ = s.free_list_ ∧
      (s.UnpinPage L d).1.disk_manager_ = s.disk_manager_ ∧
      f ∉ s.replacer_.lru_list_ ∧
      ((s.pages_ f).pin_count_ - 1 = 0 →
        (s.UnpinPage L d).1.replacer_.lru_list_ = f :: s.replacer_.lru_list_) ∧
      ((s.pages_ f).pin_count_ - 1 ≠ 0 → (s.UnpinPage L d).1.replacer_ = s.replacer_)) := by
  have hI := inv_reachable PS N s hr
  refine ⟨?_, ?_, ?_⟩
  · rcases unpin_cases s L d with ⟨h, hc⟩ | ⟨f, hf, hp, h⟩
    · rw [h]
      refine ⟨fun _ => ?_, fun _ => rfl⟩
      rcases hc with hc | ⟨f, hf, hp⟩
      · exact Or.inl hc
      · exact Or.inr ⟨f, hf, by have := hI.pin_nonneg f; omega⟩
    · rw [h]
      refine ⟨fun hc => (by cases hc), fun hc => ?_⟩
      rcases hc with hc | ⟨g, hg, hp0⟩
      · rw [hc] at hf; cases hf
      · rw [hg] at hf
        cases hf
        omega
  · intro hfalse
    rcases unpin_cases s L d with ⟨h, _⟩ | ⟨f, _, _, h⟩
    · rw [h]
    · rw [h] at hfalse; cases hfalse
  · intro f hf hp0
    have hp : 0 < (s.pages_ f).pin_count_ := by
      have := hI.pin_nonneg f
      omega
    rcases unpin_cases s L d with ⟨_, hc⟩ | ⟨f1, hf1, _, h⟩
    · rcases hc with hc | ⟨g, hg, hpg⟩
      · rw [hc] at hf; cases hf
      · rw [hg] at hf
        cases hf
        omega
    · rw [hf] at hf1
      cases hf1
      rw [h]
      obtain ⟨_, _, t3⟩ := hI.tbl L f hf
      have hfl : f ∉ s.replacer_.lru_list_ := fun hc => by
        have := (hI.repl f hc).1
        omega
      have hlen : s.replacer_.lru_list_.length < s.replacer_.max_size_ := by
        rw [hI.max]
        exact nodup_length_lt _ _ f hI.sync.1 (fun g hg => (hI.repl g hg).2) hfl t3
      obtain ⟨_, hlist, _⟩ := unpin_spec s.replacer_ f hI.sync hfl hlen
      refine ⟨rfl, ?_, ?_, ?_, ?_, ?_, rfl, rfl, rfl, hfl, ?_, ?_⟩
      · show (Function.update s.pages_ f _ f).pin_count_ = _
        rw [Function.update_same]
      · show (Function.update s.pages_ f _ f).is_dirty_ = _
        rw [Function.update_same]
        cases d <;> simp
      · show (Function.update s.pages_ f _ f).page_id_ = _
        rw [Function.update_same]
      · show (Function.update s.pages_ f _ f).data_ = _
        rw [Function.update_same]
      · intro g hg
        show Function.update s.pages_ f _ g = _
        rw [Function.update_noteq hg]
      · intro hz
        show (if (s.pages_ f).pin_count_ - 1 = 0 then s.replacer_.Unpin f
          else s.replacer_).lru_list_ = _
        rw [if_pos hz, hlist]
      · intro hz
        show (if (s.pages_ f).pin_count_ - 1 = 0 then s.replacer_.Unpin f
          else s.replacer_) = _
        rw [if_neg hz]

/-- Witness of C7: `UnpinPage(0, true)` on `pinnedPool`. -/
theorem unpin_page_effect_witness :
    Reachable 4096 1 pinnedPool ∧
    (((pinnedPool.UnpinPage 0 true).2 = false ↔
      (ptFind pinnedPool.page_table_ 0 = none ∨
        ∃ f, ptFind pinnedPool.page_table_ 0 = some f ∧ (pinnedPool.pages_ f).pin_count_ = 0)) ∧
    ((pinnedPool.UnpinPage 0 true).2 = false → (pinnedPool.UnpinPage 0 true).1 = pinnedPool) ∧
    (∀ f, ptFind pinnedPool.page_table_ 0 = some f → (pinnedPool.pages_ f).pin_count_ ≠ 0 →
      (pinnedPool.UnpinPage 0 true).2 = true ∧
      ((pinnedPool.UnpinPage 0 true).1.pages_ f).pin_count_ =
        (pinnedPool.pages_ f).pin_count_ - 1 ∧
      ((pinnedPool.UnpinPage 0 true).1.pages_ f).is_dirty_ =
        ((pinnedPool.pages_ f).is_dirty_ || true) ∧
      ((pinnedPool.UnpinPage 0 true).1.pages_ f).page_id_ = (pinnedPool.pages_ f).page_id_ ∧
      ((pinnedPool.UnpinPage 0 true).1.pages_ f).data_ = (pinnedPool.pages_ f).data_ ∧
      (∀ g, g ≠ f → (pinnedPool.UnpinPage 0 true).1.pages_ g = pinnedPool.pages_ g) ∧
      (pinnedPool.UnpinPage 0 true).1.page_table_ = pinnedPool.page_table_ ∧
      (pinnedPool.UnpinPage 0 true).1.free_list_ = pinnedPool.free_list_ ∧
      (pinnedPool.UnpinPage 0 true).1.disk_manager_ = pinnedPool.disk_manager_ ∧
      f ∉ pinnedPool.replacer_.lru_list_ ∧
      ((pinnedPool.pages_ f).pin_count_ - 1 = 0 →
        (pinnedPool.UnpinPage 0 true).1.replacer_.lru_list_ =
          f :: pinnedPool.replacer_.lru_list_) ∧
      ((pinnedPool.pages_ f).pin_count_ - 1 ≠ 0 →
        (pinnedPool.UnpinPage 0 true).1.replacer_ = pinnedPool.replacer_))) :=
  ⟨pinnedPool_reachable, unpin_page_effect 4096 1 pinnedPool pinnedPool_reachable 0 true⟩

/-- C5.  For a pool of `N` frames started fresh over any database file:
(1) in every reachable state whose free list is `f :: rest`, a `FetchPage` miss and a
`NewPage` use frame `f`, which holds no page, and leave every other frame and every other
page-table entry as they were;
(2) in every reachable state whose free list is empty, the frame used by a `FetchPage`
miss or a `NewPage` has pin count 0, and every other frame with pin count 0 had its pin
count brought down to 0 by a later call (`zeroedAt` records the call);
(3) after fetching and then unpinning the distinct pages `p0 :: tail`, `N` of them, in
that order on the fresh pool, `FetchPage` of a further page `q` takes frame 0, the frame
holding `p0`: `p0` leaves the page table and every page of `tail` stays resident in its
frame. -/
theorem replacement_frame_choice (PS N : Nat) :
    (∀ s f rest, Reachable PS N s → s.free_list_ = f :: rest →
      (s.pages_ f).page_id_ = INVALID_PAGE_ID ∧
      (∀ L s1 r, ptFind s.page_table_ L = none → s.FetchPage PS L = some (s1, r) →
        r = some f ∧ s1.free_list_ = rest ∧ (∀ g, g ≠ f → s1.pages_ g = s.pages_ g) ∧
        ∀ L1, L1 ≠ L → ptFind s1.page_table_ L1 = ptFind s.page_table_ L1) ∧
      (∀ s1 L r, s.NewPage PS = some (s1, L, r) →
        r = some f ∧ s1.free_list_ = rest ∧ (∀ g, g ≠ f → s1.pages_ g = s.pages_ g) ∧
        ∀ L1, L1 ≠ L → ptFind s1.page_table_ L1 = ptFind s.page_table_ L1)) ∧
    (∀ t, TracedReachable PS N t → t.pool.free_list_ = [] →
      (∀ L s1 f, ptFind t.pool.page_table_ L = none →
        t.pool.FetchPage PS L = some (s1, some f) →
        (t.pool.pages_ f).pin_count_ = 0 ∧
        ∀ g, g < N → g ≠ f → (t.pool.pages_ g).pin_count_ = 0 →
          t.zeroedAt f < t.zeroedAt g) ∧
      (∀ s1 L f, t.pool.NewPage PS = some (s1, L, some f) →
        (t.pool.pages_ f).pin_count_ = 0 ∧
        ∀ g, g < N → g ≠ f → (t.pool.pages_ g).pin_count_ = 0 →
          t.zeroedAt f < t.zeroedAt g)) ∧
    (∀ (d0 : DiskManager) (dirty : Int → Bool) (p0 : Int) (tail : List Int) (q : Int),
      (p0 :: tail).length = N → (p0 :: tail).Nodup → (∀ p, p ∈ p0 :: tail → 0 ≤ p) →
      q ∉ p0 :: tail → 0 ≤ q →
      ∃ s, BufferPoolManager.fetchUnpinAll PS dirty
          (BufferPoolManager.new N d0) (p0 :: tail) = some s ∧
        ∃ s2, s.FetchPage PS q = some (s2, some 0) ∧ s.free_list_ = [] ∧
          (s.pages_ 0).page_id_ = p0 ∧ ptFind s.page_table_ p0 = some 0 ∧
          ptFind s2.page_table_ p0 = none ∧ ptFind s2.page_table_ q = some 0 ∧
          ∀ p, p ∈ tail → ∃ g, g ≠ 0 ∧ ptFind s.page_table_ p = some g ∧
            ptFind s2.page_table_ p = some g ∧ (s2.pages_ g).page_id_ = p) := by
  refine ⟨?_, ?_, ?_⟩
  · intro s f rest hr hfl
    have hI := inv_reachable PS N s hr
    refine ⟨(hI.free f (by rw [hfl]; exact List.mem_cons_self _ _)).1, ?_, ?_⟩
    · intro L s1 r hm hF
      have hT := tryFind_cons s f rest hfl
      rcases fetch_cases PS s s1 L r hF with ⟨g, hg, _⟩ | ⟨_, hn, _⟩ | ⟨_, g, d2, hg, _, hr1, _, rfl⟩
      · rw [hm] at hg; cases hg
      · rw [hT] at hn; cases hn
      · have hgf : g = f := by
          rw [hT] at hg
          cases hg
          rfl
        subst hgf
        obtain ⟨_, b, c, e⟩ := install_from_free_list s _ g rest L
          (d2.ReadPhysicalPage (MapPageId PS L.toNat)) d2 hI hfl (Prod.ext rfl hg)
        exact ⟨hr1, b, c, e⟩
    · intro s1 L r hF
      have hI0 := inv_disk s (s.disk_manager_.AllocatePage PS).1 hI
      have hT := tryFind_cons ({ s with disk_manager_ := (s.disk_manager_.AllocatePage PS).1 } :
        BufferPoolManager) f rest hfl
      obtain ⟨_, hc⟩ := new_cases PS s s1 L r hF
      rcases hc with ⟨hn, _⟩ | ⟨g, d2, t, hg, hr1, _, rfl⟩
      · rw [hT] at hn; cases hn
      · have hgf : g = f := by
          rw [hT] at hg
          cases hg
          rfl
        subst hgf
        obtain ⟨_, b, c, e⟩ := install_from_free_list _ t g rest L zeroPage d2 hI0 hfl hg
        exact ⟨hr1, b, c, e⟩
  · intro t ht hfl
    constructor
    · intro L s1 f hm hF
      rcases fetch_cases PS t.pool s1 L (some f) hF with ⟨g, hg, _⟩ | ⟨_, _, hn, _⟩ |
        ⟨_, g, d2, hg, _, hr1, _, _⟩
      · rw [hm] at hg; cases hg
      · cases hn
      · cases hr1
        exact lru_of_traced PS N t ht f hfl hg
    · intro s1 L f hF
      obtain ⟨_, hc⟩ := new_cases PS t.pool s1 L (some f) hF
      rcases hc with ⟨_, hn, _⟩ | ⟨g, d2, t1, hg, hr1, _, _⟩
      · cases hn
      · cases hr1
        have h2 : ({ t.pool with disk_manager_ := (t.pool.disk_manager_.AllocatePage PS).1 } :
            BufferPoolManager).TryToFindFreePage.2 = some f := by rw [hg]
        rw [tryFind_disk] at h2
        exact lru_of_traced PS N t ht f hfl h2
  · intro d0 dirty p0 tail q hN hnd h0 hq hq0
    obtain ⟨s, hs, hS⟩ := scenario_all PS N dirty (p0 :: tail) [] _
      (scenario_new N d0) (by rw [List.length_nil, Nat.zero_add, hN])
      (by rw [List.nil_append]; exact hnd) h0
    rw [List.nil_append] at hS
    exact ⟨s, hs, scenario_evict PS N s p0 tail q hS hN hnd hq hq0⟩

/-- Witness of C5: two frames, the pages 0 and 1 fetched and unpinned, then page 2 fetched. -/
theorem replacement_frame_choice_witness :
    ∃ s, BufferPoolManager.fetchUnpinAll 4096 (fun _ => false)
        (BufferPoolManager.new 2 DiskManager.empty) [0, 1] = some s ∧
      ∃ s2, s.FetchPage 4096 2 = some (s2, some 0) ∧ s.free_list_ = [] ∧
        (s.pages_ 0).page_id_ = 0 ∧ ptFind s.page_table_ 0 = some 0 ∧
        ptFind s2.page_table_ 0 = none ∧ ptFind s2.page_table_ 2 = some 0 ∧
        ∀ p, p ∈ [(1 : Int)] → ∃ g, g ≠ 0 ∧ ptFind s.page_table_ p = some g ∧
          ptFind s2.page_table_ p = some g ∧ (s2.pages_ g).page_id_ = p :=
  (replacement_frame_choice 4096 2).2.2 DiskManager.empty (fun _ => false) 0 [1] 2 rfl (by decide)
    (by decide) (by decide) (by decide)

/-- C4, the claim as stated fails.  On a pool of two frames over an empty file with
`PAGE_SIZE = 4096`, `FetchPage(0)` puts page 0 in frame 0 and the following `NewPage`, to which
the allocator hands out id 0, puts page 0 in frame 1: two distinct frames hold page 0
(`twicePool`).  The same happens without any `FetchPage` after `NewPage`, a refused
`DeletePage(0)` of the pinned page, which frees its id all the same, and a second `NewPage`
(`reusedPool`). -/
theorem two_frames_same_page :
    (Reachable 4096 2 twicePool ∧ (0 : Nat) < 2 ∧ (1 : Nat) < 2 ∧ (0 : Nat) ≠ 1 ∧
      (twicePool.pages_ 0).page_id_ = (twicePool.pages_ 1).page_id_ ∧
      (twicePool.pages_ 0).page_id_ ≠ INVALID_PAGE_ID) ∧
    (Reachable 4096 2 reusedPool ∧
      (reusedPool.pages_ 0).page_id_ = (reusedPool.pages_ 1).page_id_ ∧
      (reusedPool.pages_ 0).page_id_ ≠ INVALID_PAGE_ID) :=
  ⟨⟨twicePool_reachable, by decide, by decide, by decide, by decide, by decide⟩,
    reusedPool_reachable, by decide, by decide⟩

/-- One frame per page over the file as a map of pages, where the allocator never hands out
an id that is in use.  In every state a fresh pool of `N` frames over an empty file reaches
by calls among which `FetchPage` is only called for allocated page ids and `DeletePage` is not
called for a page that is resident and pinned, no two distinct frames hold the same
page id other than `INVALID_PAGE_ID`; the frame that holds a page is the one the page table
gives for it. -/
theorem one_frame_per_page (PS N : Nat) (hPS : 8 < PS) (s : BufferPoolManager)
    (h : CarefulReachable PS N s) (f g : Nat) (hf : f < N) (hg : g < N)
    (hne : (s.pages_ f).page_id_ ≠ INVALID_PAGE_ID)
    (heq : (s.pages_ f).page_id_ = (s.pages_ g).page_id_) :
    f = g ∧ ptFind s.page_table_ (s.pages_ f).page_id_ = some f := by
  obtain ⟨hr, hR⟩ := careful_inv PS N hPS s h
  have hN : s.pool_size_ = N := reachable_pool_size PS N s hr
  have h1 := hR.res f _ (hN ▸ hf) rfl hne
  have h2 := hR.res g _ (hN ▸ hg) heq.symm hne
  rw [h1] at h2
  cases h2
  exact ⟨rfl, h1⟩

/-- An instance of `one_frame_per_page`: frame 0 of `pinnedPool`, which holds page 0. -/
theorem one_frame_per_page_witness :
    8 < 4096 ∧ CarefulReachable 4096 1 pinnedPool ∧ 0 < 1 ∧
    (pinnedPool.pages_ 0).page_id_ ≠ INVALID_PAGE_ID ∧
    (pinnedPool.pages_ 0).page_id_ = (pinnedPool.pages_ 0).page_id_ ∧
    (0 = 0 ∧ ptFind pinnedPool.page_table_ (pinnedPool.pages_ 0).page_id_ = some 0) :=
  ⟨by decide, pinnedPool_careful, by decide, by decide, rfl,
    one_frame_per_page 4096 1 (by decide) pinnedPool pinnedPool_careful 0 0 (by decide)
      (by decide) (by decide) rfl⟩

/-- C6, the claim as stated fails.  On `doublePool` (two frames, `PAGE_SIZE = 4096`) page 0
sits in frame 0 with bytes `0xAB` since `FetchPage(0)`, the client filled it and
`UnpinPage(0, true)` returned true; a later `NewPage` received id 0 again and put it in
frame 1, filled with `0xCD` and unpinned dirty.  `FetchPage(7)` takes frame 0, the frame
holding page 0, and writes its bytes `0xAB` to disk at page 0.  The following
`FetchPage(0)` misses, takes frame 1, writes the bytes `0xCD` of that frame over page 0 and
returns `0xCD`, not the bytes `0xAB` written by the eviction. -/
theorem second_copy_overwrites_evicted_bytes :
    Reachable 4096 2 doublePool ∧
    (((BufferPoolManager.new 2 DiskManager.empty).run 4096
        [Op.fetch 0, Op.write 0 (filledPage 0xAB)]).UnpinPage 0 true).2 = true ∧
    ptFind ((BufferPoolManager.new 2 DiskManager.empty).run 4096
        [Op.fetch 0, Op.write 0 (filledPage 0xAB)]).page_table_ 0 = some 0 ∧
    (doublePool.pages_ 0).page_id_ = 0 ∧
    (doublePool.pages_ 0).data_.page_allocated_ = (filledPage 0xAB).page_allocated_ ∧
    ((doublePool.FetchPage 4096 7).map fun r =>
      (r.2, (r.1.disk_manager_.ReadPage 4096 0).map fun x => x.page_allocated_)) =
      some (some 0, some (filledPage 0xAB).page_allocated_) ∧
    ((doublePool.FetchPage 4096 7).bind fun r =>
      (r.1.FetchPage 4096 0).map fun r2 =>
        (ptFind r.1.page_table_ 0, r2.2, (r2.1.pages_ 1).data_.page_allocated_)) =
      some (none, some 1, (filledPage 0xCD).page_allocated_) ∧
    (filledPage 0xCD).page_allocated_ ≠ (filledPage 0xAB).page_allocated_ :=
  ⟨doublePool_reachable, by decide, by decide, by decide, by decide, by decide, by decide,
    by decide⟩

/-- C6 as amended.  In every state reached from a fresh pool over any database file:
(1) a successful `UnpinPage(L, true)` leaves the frame of `L` dirty with its page id and
bytes;
(2) a dirty frame stays dirty with its page id until a call writes its bytes to disk at
that page id;
(3) when `FetchPage` or `NewPage` takes a dirty frame that holds `L` as replacement frame,
the disk holds the bytes of the frame at page `L` once the frame has been given its new
page;
(4) a `FetchPage(L)` that misses returns the bytes the disk holds at `L`, provided the frame
it takes is not a dirty frame that itself holds `L`. -/
theorem dirty_page_written_back (PS N : Nat) (hPS : 8 < PS) (s : BufferPoolManager)
    (hr : Reachable PS N s) :
    (∀ L f, ptFind s.page_table_ L = some f → (s.UnpinPage L true).2 = true →
      ((s.UnpinPage L true).1.pages_ f).is_dirty_ = true ∧
      ((s.UnpinPage L true).1.pages_ f).page_id_ = L ∧
      ((s.UnpinPage L true).1.pages_ f).data_ = (s.pages_ f).data_) ∧
    (∀ op s1 f, s.step PS op = some s1 → (s.pages_ f).is_dirty_ = true →
      ((s1.pages_ f).page_id_ = (s.pages_ f).page_id_ ∧ (s1.pages_ f).is_dirty_ = true) ∨
        s1.disk_manager_.ReadPage PS (s.pages_ f).page_id_ = some (s.pages_ f).data_) ∧
    (∀ q s1 f, ptFind s.page_table_ q = none → s.FetchPage PS q = some (s1, some f) →
      (s.pages_ f).is_dirty_ = true →
      s1.disk_manager_.ReadPage PS (s.pages_ f).page_id_ = some (s.pages_ f).data_ ∧
        (s1.pages_ f).page_id_ = q) ∧
    (∀ s1 L f, s.NewPage PS = some (s1, L, some f) → (s.pages_ f).is_dirty_ = true →
      s1.disk_manager_.ReadPage PS (s.pages_ f).page_id_ = some (s.pages_ f).data_ ∧
        (s1.pages_ f).page_id_ = L) ∧
    (∀ L X s1 g, ptFind s.page_table_ L = none → s.disk_manager_.ReadPage PS L = some X →
      s.FetchPage PS L = some (s1, some g) →
      ¬ ((s.pages_ g).is_dirty_ = true ∧ (s.pages_ g).page_id_ = L) →
      (s1.pages_ g).data_ = X ∧ (s1.pages_ g).page_id_ = L) := by
  have hI := inv_reachable PS N s hr
  refine ⟨?_, ?_, ?_, ?_, ?_⟩
  · intro L f hf hu
    rcases unpin_cases s L true with ⟨h, _⟩ | ⟨g, hg, _, h⟩
    · rw [h] at hu; cases hu
    · rw [hf] at hg
      cases hg
      rw [h]
      show (Function.update s.pages_ f _ f).is_dirty_ = true ∧
        (Function.update s.pages_ f _ f).page_id_ = L ∧
        (Function.update s.pages_ f _ f).data_ = _
      rw [Function.update_same]
      exact ⟨rfl, (hI.tbl L f hf).1, rfl⟩
  · intro op s1 f h hd
    exact dirty_persists PS s s1 op hI h f hd
  · intro q s1 f hm h hd
    exact evict_fetch_writes PS s s1 q f hI hm h hd
  · intro s1 L f h hd
    exact evict_new_writes PS s s1 L f hI h hd
  · intro L X s1 g hm hX h hg
    exact fetch_reads_disk PS hPS s s1 L g X hI hm hX h hg

/-- Witness of the amended C6: `doublePool`, whose frame 0 is dirty. -/
theorem dirty_page_written_back_witness :
    8 < 4096 ∧ Reachable 4096 2 doublePool ∧
    ((∀ L f, ptFind doublePool.page_table_ L = some f →
      (doublePool.UnpinPage L true).2 = true →
      ((doublePool.UnpinPage L true).1.pages_ f).is_dirty_ = true ∧
      ((doublePool.UnpinPage L true).1.pages_ f).page_id_ = L ∧
      ((doublePool.UnpinPage L true).1.pages_ f).data_ = (doublePool.pages_ f).data_) ∧
    (∀ op s1 f, doublePool.step 4096 op = some s1 → (doublePool.pages_ f).is_dirty_ = true →
      ((s1.pages_ f).page_id_ = (doublePool.pages_ f).page_id_ ∧
          (s1.pages_ f).is_dirty_ = true) ∨
        s1.disk_manager_.ReadPage 4096 (doublePool.pages_ f).page_id_ =
          some (doublePool.pages_ f).data_) ∧
    (∀ q s1 f, ptFind doublePool.page_table_ q = none →
      doublePool.FetchPage 4096 q = some (s1, some f) →
      (doublePool.pages_ f).is_dirty_ = true →
      s1.disk_manager_.ReadPage 4096 (doublePool.pages_ f).page_id_ =
          some (doublePool.pages_ f).data_ ∧
        (s1.pages_ f).page_id_ = q) ∧
    (∀ s1 L f, doublePool.NewPage 4096 = some (s1, L, some f) →
      (doublePool.pages_ f).is_dirty_ = true →
      s1.disk_manager_.ReadPage 4096 (doublePool.pages_ f).page_id_ =
          some (doublePool.pages_ f).data_ ∧
        (s1.pages_ f).page_id_ = L) ∧
    (∀ L X s1 g, ptFind doublePool.page_table_ L = none →
      doublePool.disk_manager_.ReadPage 4096 L = some X →
      doublePool.FetchPage 4096 L = some (s1, some g) →
      ¬ ((doublePool.pages_ g).is_dirty_ = true ∧ (doublePool.pages_ g).page_id_ = L) →
      (s1.pages_ g).data_ = X ∧ (s1.pages_ g).page_id_ = L)) :=
  ⟨by decide, doublePool_reachable,
    dirty_page_written_back 4096 2 (by decide) doublePool doublePool_reachable⟩

/-- The mapping of page ids as a function on unbounded numbers (`MapPageId`), which is the
result of the code while it is below `2^31`.  With `M = GetMaxSupportedSize` slots per bitmap
page, for every logical page id `L ≥ 0`: `MapPageId(L) = (L / M) * (M + 1) + (L mod M) + 2`; this physical id lies among
the data pages `1 + e * (M + 1) + 1, …, 1 + e * (M + 1) + M` of extent `e = L / M`; it is
not the meta page 0 and not the bitmap page `1 + e' * (M + 1)` of any extent `e'`.
Different logical ids are mapped to different physical ids, and `MapPageId(M) = M + 3`. -/
theorem map_page_id_injective (PS : Nat) (hPS : 8 < PS) :
    (∀ L : Nat,
      MapPageId PS L =
        (L / GetMaxSupportedSize PS) * (GetMaxSupportedSize PS + 1) +
          L % GetMaxSupportedSize PS + 2 ∧
      1 + (L / GetMaxSupportedSize PS) * (GetMaxSupportedSize PS + 1) + 1 ≤ MapPageId PS L ∧
      MapPageId PS L ≤
        1 + (L / GetMaxSupportedSize PS) * (GetMaxSupportedSize PS + 1) +
          GetMaxSupportedSize PS ∧
      MapPageId PS L ≠ 0 ∧
      ∀ e, MapPageId PS L ≠ 1 + e * (GetMaxSupportedSize PS + 1)) ∧
    (∀ L1 L2 : Nat, L1 ≠ L2 → MapPageId PS L1 ≠ MapPageId PS L2) ∧
    MapPageId PS (GetMaxSupportedSize PS) = GetMaxSupportedSize PS + 3 := by
  have hM := maxSize_pos PS hPS
  refine ⟨fun L => ⟨rfl, ?_, ?_, ?_, fun e => mapPageId_ne_bitmap PS hPS L e⟩,
    fun L1 L2 hne h => hne (mapPageId_inj PS hPS L1 L2 h), ?_⟩
  · show _ ≤ (L / GetMaxSupportedSize PS) * (GetMaxSupportedSize PS + 1) +
      L % GetMaxSupportedSize PS + 2
    omega
  · show (L / GetMaxSupportedSize PS) * (GetMaxSupportedSize PS + 1) +
      L % GetMaxSupportedSize PS + 2 ≤ _
    have := Nat.mod_lt L hM
    omega
  · show (L / GetMaxSupportedSize PS) * (GetMaxSupportedSize PS + 1) +
      L % GetMaxSupportedSize PS + 2 ≠ 0
    omega
  · show (GetMaxSupportedSize PS / GetMaxSupportedSize PS) * (GetMaxSupportedSize PS + 1) +
      GetMaxSupportedSize PS % GetMaxSupportedSize PS + 2 = _
    rw [Nat.div_self hM, Nat.mod_self]
    omega

/-- An instance of `map_page_id_injective`: `PAGE_SIZE = 4096`. -/
theorem map_page_id_injective_witness :
    8 < 4096 ∧
    ((∀ L : Nat,
      MapPageId 4096 L =
        (L / GetMaxSupportedSize 4096) * (GetMaxSupportedSize 4096 + 1) +
          L % GetMaxSupportedSize 4096 + 2 ∧
      1 + (L / GetMaxSupportedSize 4096) * (GetMaxSupportedSize 4096 + 1) + 1 ≤
        MapPageId 4096 L ∧
      MapPageId 4096 L ≤
        1 + (L / GetMaxSupportedSize 4096) * (GetMaxSupportedSize 4096 + 1) +
          GetMaxSupportedSize 4096 ∧
      MapPageId 4096 L ≠ 0 ∧
      ∀ e, MapPageId 4096 L ≠ 1 + e * (GetMaxSupportedSize 4096 + 1)) ∧
    (∀ L1 L2 : Nat, L1 ≠ L2 → MapPageId 4096 L1 ≠ MapPageId 4096 L2) ∧
    MapPageId 4096 (GetMaxSupportedSize 4096) = GetMaxSupportedSize 4096 + 3) :=
  ⟨by decide, map_page_id_injective 4096 (by decide)⟩

/-- C12 (the code departs from the claim).  With `PAGE_SIZE = 4096` and an empty file,
`WritePage(524269, X)` writes the buffer at byte offset `2^31 - 4096` and the file becomes
`2^31` bytes long; the `ReadPage(524269, Y)` that follows compares the offset with the file
size taken through `int`, which is negative, and fills `Y` with zeros, whatever `X` was.
A `WritePage(1048542, X)` writes at byte offset `2^32`, and the `ReadPage(1048542, Y)` that
follows computes the offset 0 in `int` and reads the first bytes of the file.  The same two
calls for logical page 524268, one page earlier, return the bytes of `X`. -/
theorem read_after_write_past_two_gib :
    (∃ f Y, ByteFile.empty.WritePage 4096 524269 (fun _ => 0xAB) = some f ∧
      f.size = 2 ^ 31 ∧ f.byte (2 ^ 31 - 4096) = 0xAB ∧
      f.ReadPage 4096 524269 = some Y ∧ ∀ i, Y i = 0) ∧
    (∃ f Y, ByteFile.empty.WritePage 4096 1048542 (fun _ => 0xAB) = some f ∧
      f.byte (2 ^ 32) = 0xAB ∧
      f.ReadPage 4096 1048542 = some Y ∧ ∀ i, i < 4096 → Y i = f.byte i ∧ Y i = 0) ∧
    (∃ f Y, ByteFile.empty.WritePage 4096 524268 (fun _ => 0xAB) = some f ∧
      f.ReadPage 4096 524268 = some Y ∧ ∀ i, i < 4096 → Y i = 0xAB) := by
  refine ⟨⟨_, _, rfl, by decide, by decide, rfl, fun i => ?_⟩,
    ⟨_, _, rfl, by decide, rfl, fun i hi => ?_⟩, ⟨_, _, rfl, rfl, fun i hi => ?_⟩⟩
  · have h : MapPageId 4096 (524269 : Int).toNat = 524287 := by decide
    rw [h]
    unfold ByteFile.ReadPhysicalPage
    have hc : toInt32 (((524287 : Nat) : Int) * ((4096 : Nat) : Int)) ≥
        (ByteFile.empty.WritePhysicalPage 4096 524287 (fun _ => 0xAB)).GetFileSize := by
      decide
    simp only [hc, if_true]
  · have h : MapPageId 4096 (1048542 : Int).toNat = 1048576 := by decide
    rw [h]
    have ho : toInt32 (((1048576 : Nat) : Int) * ((4096 : Nat) : Int)) = 0 := by decide
    have hc : ¬ ((0 : Int) ≥
        (ByteFile.empty.WritePhysicalPage 4096 1048576 (fun _ => 0xAB)).GetFileSize) := by
      decide
    have hs : (ByteFile.empty.WritePhysicalPage 4096 1048576 (fun _ => 0xAB)).size =
        4294971392 := by decide
    unfold ByteFile.ReadPhysicalPage
    simp only [ho, hc, if_false, hs, Int.toNat_zero, Nat.sub_zero, Nat.zero_add,
      lt_self_iff_false]
    have h1 : i < min 4096 4294971392 := by
      have : min 4096 4294971392 = 4096 := by decide
      omega
    rw [if_pos h1]
    refine ⟨rfl, ?_⟩
    unfold ByteFile.WritePhysicalPage ByteFile.empty
    dsimp only
    have h2 : ¬ (1048576 * 4096 ≤ i ∧ i < 1048576 * 4096 + 4096) := by omega
    rw [if_neg h2, if_neg (by omega)]
  · have h : MapPageId 4096 (524268 : Int).toNat = 524286 := by decide
    rw [h]
    exact byte_read_after_write 4096 ByteFile.empty 524286 (fun _ => 0xAB) (by decide)
      (by decide) i hi

/-- C13.  For every bitmap page whose `page_allocated_` is the number of set bits of its body,
with `next_free_page_` at most `M = GetMaxSupportedSize` or not: `AllocatePage` returns
false exactly when `page_allocated_ = M`, and then leaves the page as it is; otherwise it
returns true with a `page_offset` `i < M` whose bit was zero, namely the first zero bit at
or after `next_free_page_` when there is one below `M`, and else the first zero bit below
`next_free_page_`; afterwards bit `i` is set and every other bit is as before,
`page_allocated_` is one more and `next_free_page_ = i + 1`. -/
theorem bitmap_allocate_contract (PS : Nat) (b : BitmapPage)
    (hpop : b.page_allocated_ = b.popcount PS) :
    ((b.AllocatePage PS).2 = none ↔ b.page_allocated_ = GetMaxSupportedSize PS) ∧
    ((b.AllocatePage PS).2 = none → (b.AllocatePage PS).1 = b) ∧
    (b.page_allocated_ ≠ GetMaxSupportedSize PS → ∃ i, (b.AllocatePage PS).2 = some i) ∧
    ∀ i, (b.AllocatePage PS).2 = some i →
      i < GetMaxSupportedSize PS ∧ b.bit i = false ∧
      ((∃ k, b.next_free_page_ ≤ k ∧ k < GetMaxSupportedSize PS ∧ b.bit k = false) →
        b.next_free_page_ ≤ i ∧ ∀ k, b.next_free_page_ ≤ k → k < i → b.bit k = true) ∧
      ((¬ ∃ k, b.next_free_page_ ≤ k ∧ k < GetMaxSupportedSize PS ∧ b.bit k = false) →
        i < b.next_free_page_ ∧ ∀ k, k < i → b.bit k = true) ∧
      (∀ j, (b.AllocatePage PS).1.bit j = (decide (j = i) || b.bit j)) ∧
      (b.AllocatePage PS).1.page_allocated_ = b.page_allocated_ + 1 ∧
      (b.AllocatePage PS).1.next_free_page_ = i + 1 := by
  have hle := popcount_le PS b
  have hsome : b.page_allocated_ ≠ GetMaxSupportedSize PS →
      ∃ i, b.AllocatePage PS = (b.take i, some i) ∧ i < GetMaxSupportedSize PS ∧
        b.bit i = false ∧
        ((∃ k, b.next_free_page_ ≤ k ∧ k < GetMaxSupportedSize PS ∧ b.bit k = false) →
          b.next_free_page_ ≤ i ∧ ∀ k, b.next_free_page_ ≤ k → k < i → b.bit k = true) ∧
        ((¬ ∃ k, b.next_free_page_ ≤ k ∧ k < GetMaxSupportedSize PS ∧ b.bit k = false) →
          i < b.next_free_page_ ∧ ∀ k, k < i → b.bit k = true) := by
    intro hne
    exact bitmap_alloc_first PS b (by omega) (free_slot_exists PS b (by rw [← hpop]; exact hne))
  refine ⟨⟨fun h => ?_, fun h => ?_⟩, bitmap_alloc_none PS b, fun hne => ?_, fun i hi => ?_⟩
  · by_contra hne
    obtain ⟨i, ha, _⟩ := hsome hne
    rw [ha] at h
    cases h
  · rw [bitmap_alloc_full PS b (by omega)]
  · obtain ⟨i, ha, _⟩ := hsome hne
    exact ⟨i, by rw [ha]⟩
  · have hne : b.page_allocated_ ≠ GetMaxSupportedSize PS := by
      intro he
      rw [bitmap_alloc_full PS b (by omega)] at hi
      cases hi
    obtain ⟨i1, ha, h1, h2, h3, h4⟩ := hsome hne
    rw [ha] at hi ⊢
    have hii : i1 = i := by simpa using hi
    subst hii
    exact ⟨h1, h2, h3, h4, fun j => bit_take b i1 j, rfl, rfl⟩

theorem bitmap_allocate_contract_witness :
    zeroPage.page_allocated_ = zeroPage.popcount 4096 ∧
    (((zeroPage.AllocatePage 4096).2 = none ↔
      zeroPage.page_allocated_ = GetMaxSupportedSize 4096) ∧
    ((zeroPage.AllocatePage 4096).2 = none → (zeroPage.AllocatePage 4096).1 = zeroPage) ∧
    (zeroPage.page_allocated_ ≠ GetMaxSupportedSize 4096 →
      ∃ i, (zeroPage.AllocatePage 4096).2 = some i) ∧
    ∀ i, (zeroPage.AllocatePage 4096).2 = some i →
      i < GetMaxSupportedSize 4096 ∧ zeroPage.bit i = false ∧
      ((∃ k, zeroPage.next_free_page_ ≤ k ∧ k < GetMaxSupportedSize 4096 ∧
          zeroPage.bit k = false) →
        zeroPage.next_free_page_ ≤ i ∧
          ∀ k, zeroPage.next_free_page_ ≤ k → k < i → zeroPage.bit k = true) ∧
      ((¬ ∃ k, zeroPage.next_free_page_ ≤ k ∧ k < GetMaxSupportedSize 4096 ∧
          zeroPage.bit k = false) →
        i < zeroPage.next_free_page_ ∧ ∀ k, k < i → zeroPage.bit k = true) ∧
      (∀ j, (zeroPage.AllocatePage 4096).1.bit j = (decide (j = i) || zeroPage.bit j)) ∧
      (zeroPage.AllocatePage 4096).1.page_allocated_ = zeroPage.page_allocated_ + 1 ∧
      (zeroPage.AllocatePage 4096).1.next_free_page_ = i + 1) :=
  ⟨(popcount_zeroPage 4096).symm,
    bitmap_allocate_contract 4096 zeroPage (popcount_zeroPage 4096).symm⟩

/-- C14.  For a bitmap page that starts zero-initialised, after any sequence of `AllocatePage`
and `DeAllocatePage(offset)` calls with arbitrary offsets, the calls that return false
included: `page_allocated_` is the number of set bits of the body, and `IsPageFree(o)` is
true exactly for the `o < M` whose bit is zero. -/
theorem bitmap_count_is_popcount (PS : Nat) (b : BitmapPage) (h : BitmapReachable PS b) :
    b.page_allocated_ = b.popcount PS ∧
    ∀ o, b.IsPageFree PS o = true ↔ o < GetMaxSupportedSize PS ∧ b.bit o = false :=
  ⟨popcount_reachable PS b h, fun o => isPageFree_iff PS b o⟩

theorem bitmap_count_is_popcount_witness :
    BitmapReachable 4096 ((zeroPage.step 4096 BitmapOp.allocate).step 4096
      (BitmapOp.deallocate 7)) ∧
    (((zeroPage.step 4096 BitmapOp.allocate).step 4096
        (BitmapOp.deallocate 7)).page_allocated_ =
      ((zeroPage.step 4096 BitmapOp.allocate).step 4096 (BitmapOp.deallocate 7)).popcount 4096 ∧
    ∀ o, ((zeroPage.step 4096 BitmapOp.allocate).step 4096
        (BitmapOp.deallocate 7)).IsPageFree 4096 o = true ↔
      o < GetMaxSupportedSize 4096 ∧
        ((zeroPage.step 4096 BitmapOp.allocate).step 4096 (BitmapOp.deallocate 7)).bit o =
          false) :=
  ⟨BitmapReachable.step _ (BitmapReachable.step _ BitmapReachable.zero),
    bitmap_count_is_popcount 4096 _
      (BitmapReachable.step _ (BitmapReachable.step _ BitmapReachable.zero))⟩

/-- C15.  After any sequence of `Unpin`, `Pin` and `Victim` calls on a fresh replacer, each
`Unpin` of an absent frame finding the size below the capacity: a frame is present in the
list exactly when it is a key of the map; `Victim` returns false exactly when the replacer
is empty, and then changes nothing; otherwise it returns a frame `f` that is present and was
inserted (unpinned while absent) before every other frame present, and removes it, the
other frames staying in their order.  `Pin(f)` changes nothing when `f` is absent, and in
both cases leaves the list without `f` and with the other frames in their order. -/
theorem replacer_victim_and_pin (n : Nat) (t : TracedReplacer) (h : ReplacerReachable n t) :
    (∀ f, f ∈ t.replacer.lru_map_ ↔ f ∈ t.replacer.lru_list_) ∧
    (t.replacer.Victim.2 = none ↔ t.replacer.Size = 0) ∧
    (t.replacer.Victim.2 = none → t.replacer.Victim.1 = t.replacer) ∧
    (∀ f, t.replacer.Victim.2 = some f →
      f ∈ t.replacer.lru_list_ ∧
      (∀ g, g ∈ t.replacer.lru_list_ → g ≠ f → t.insertedAt f < t.insertedAt g) ∧
      t.replacer.Victim.1.lru_list_ = t.replacer.lru_list_.filter (fun g => g ≠ f) ∧
      f ∉ t.replacer.Victim.1.lru_list_ ∧
      t.replacer.Victim.1.Size + 1 = t.replacer.Size) ∧
    (∀ f, (f ∉ t.replacer.lru_list_ → t.replacer.Pin f = t.replacer) ∧
      (t.replacer.Pin f).lru_list_ = t.replacer.lru_list_.filter (fun g => g ≠ f) ∧
      f ∉ (t.replacer.Pin f).lru_list_) := by
  obtain ⟨hs, _, hp⟩ := ordered_reachable n t h
  refine ⟨hs.2, ?_, ?_, ?_, fun f => ⟨fun hf => ?_, ?_, ?_⟩⟩
  · rw [victim_snd, List.getLast?_eq_none_iff]
    exact List.length_eq_zero.symm
  · intro hv
    rw [victim_snd, List.getLast?_eq_none_iff] at hv
    rw [victim_none t.replacer hv]
  · intro f hv
    rw [victim_snd, List.getLast?_eq_some_iff] at hv
    obtain ⟨l, hl⟩ := hv
    obtain ⟨_, h2, _, _⟩ := victim_some t.replacer l f hs hl
    have hnd : (l ++ [f]).Nodup := hl ▸ hs.1
    have hfl : f ∉ l := fun hc =>
      (List.nodup_append.1 hnd).2.2 hc (List.mem_singleton_self f)
    refine ⟨by rw [hl]; simp, fun g hg hne => ?_, ?_, by rw [h2]; exact hfl, ?_⟩
    · rw [hl] at hg hp
      rcases List.mem_append.1 hg with hg | hg
      · exact (List.pairwise_append.1 hp).2.2 g hg f (List.mem_singleton_self f)
      · exact absurd (List.mem_singleton.1 hg) hne
    · rw [h2, hl, List.filter_append, filter_ne_of_not_mem l f hfl]
      simp
    · show t.replacer.Victim.1.lru_list_.length + 1 = t.replacer.lru_list_.length
      rw [h2, hl]
      simp
  · exact pin_absent t.replacer f (fun hc => hf ((hs.2 f).1 hc))
  · rw [(pin_spec t.replacer f hs).2.1]
    exact erase_eq_filter_ne _ f hs.1
  · rw [(pin_spec t.replacer f hs).2.1]
    exact fun hc => (List.Nodup.mem_erase_iff hs.1).1 hc |>.1 rfl

theorem replacer_victim_and_pin_witness :
    ReplacerReachable 2 tracedPair ∧
    ((∀ f, f ∈ tracedPair.replacer.lru_map_ ↔ f ∈ tracedPair.replacer.lru_list_) ∧
    (tracedPair.replacer.Victim.2 = none ↔ tracedPair.replacer.Size = 0) ∧
    (tracedPair.replacer.Victim.2 = none → tracedPair.replacer.Victim.1 = tracedPair.replacer) ∧
    (∀ f, tracedPair.replacer.Victim.2 = some f →
      f ∈ tracedPair.replacer.lru_list_ ∧
      (∀ g, g ∈ tracedPair.replacer.lru_list_ → g ≠ f →
        tracedPair.insertedAt f < tracedPair.insertedAt g) ∧
      tracedPair.replacer.Victim.1.lru_list_ =
        tracedPair.replacer.lru_list_.filter (fun g => g ≠ f) ∧
      f ∉ tracedPair.replacer.Victim.1.lru_list_ ∧
      tracedPair.replacer.Victim.1.Size + 1 = tracedPair.replacer.Size) ∧
    (∀ f, (f ∉ tracedPair.replacer.lru_list_ →
        tracedPair.replacer.Pin f = tracedPair.replacer) ∧
      (tracedPair.replacer.Pin f).lru_list_ =
        tracedPair.replacer.lru_list_.filter (fun g => g ≠ f) ∧
      f ∉ (tracedPair.replacer.Pin f).lru_list_)) :=
  ⟨tracedPair_reachable, replacer_victim_and_pin 2 tracedPair tracedPair_reachable⟩

/-- C16.  For every state of a replacer and every frame `f`: when `f` is present (a key of
`lru_map_`), `Unpin(f)` leaves the replacer as it is; when `f` is absent and the size is
below `max_size_`, `Unpin(f)` puts `f` at the front of the list (`Victim` takes the back),
removes no frame and makes the size one more. -/
theorem unpin_contract (r : LRUReplacer) (f : Nat) :
    (f ∈ r.lru_map_ → r.Unpin f = r) ∧
    (f ∉ r.lru_map_ → r.Size < r.max_size_ →
      (r.Unpin f).lru_list_ = f :: r.lru_list_ ∧ (r.Unpin f).lru_map_ = f :: r.lru_map_ ∧
      (r.Unpin f).max_size_ = r.max_size_ ∧ (r.Unpin f).Size = r.Size + 1 ∧
      ∀ g, g ∈ r.lru_list_ → g ∈ (r.Unpin f).lru_list_) := by
  refine ⟨unpin_present r f, fun hf hlen => ?_⟩
  rw [unpin_absent r f hf hlen]
  exact ⟨rfl, rfl, rfl, rfl, fun g hg => List.mem_cons_of_mem f hg⟩

theorem unpin_contract_witness :
    3 ∈ ((LRUReplacer.new 2).Unpin 3).lru_map_ ∧
    ((LRUReplacer.new 2).Unpin 3).Unpin 3 = (LRUReplacer.new 2).Unpin 3 ∧
    5 ∉ ((LRUReplacer.new 2).Unpin 3).lru_map_ ∧
    ((LRUReplacer.new 2).Unpin 3).Size < ((LRUReplacer.new 2).Unpin 3).max_size_ ∧
    ((((LRUReplacer.new 2).Unpin 3).Unpin 5).lru_list_ =
        5 :: ((LRUReplacer.new 2).Unpin 3).lru_list_ ∧
      (((LRUReplacer.new 2).Unpin 3).Unpin 5).lru_map_ =
        5 :: ((LRUReplacer.new 2).Unpin 3).lru_map_ ∧
      (((LRUReplacer.new 2).Unpin 3).Unpin 5).max_size_ =
        ((LRUReplacer.new 2).Unpin 3).max_size_ ∧
      (((LRUReplacer.new 2).Unpin 3).Unpin 5).Size = ((LRUReplacer.new 2).Unpin 3).Size + 1 ∧
      ∀ g, g ∈ ((LRUReplacer.new 2).Unpin 3).lru_list_ →
        g ∈ (((LRUReplacer.new 2).Unpin 3).Unpin 5).lru_list_) :=
  ⟨by decide, (unpin_contract ((LRUReplacer.new 2).Unpin 3) 3).1 (by decide), by decide,
    by decide,
    (unpin_contract ((LRUReplacer.new 2).Unpin 3) 5).2 (by decide) (by decide)⟩

/-- C17 (counterexample).  On a fresh pool of one frame over an empty file with
`PAGE_SIZE = 4096`: `NewPage` puts page 0 in frame 0, `UnpinPage(0, false)` returns true and
puts frame 0 in the replacer, `DeletePage(0)` returns true and appends frame 0 to the free
list without taking it out of the replacer.  Frame 0, with pin count 0, is then in both. -/
theorem frame_in_free_list_and_replacer :
    Reachable 4096 1 releasedPool ∧
    (((BufferPoolManager.new 1 DiskManager.empty).run 4096 [Op.newPage]).UnpinPage 0 false).2 =
      true ∧
    (((BufferPoolManager.new 1 DiskManager.empty).run 4096
      [Op.newPage, Op.unpin 0 false]).DeletePage 4096 0).map (fun r => r.2) = some true ∧
    (0 : Nat) < 1 ∧ (releasedPool.pages_ 0).pin_count_ = 0 ∧
    0 ∈ releasedPool.free_list_ ∧ 0 ∈ releasedPool.replacer_.lru_list_ ∧
    0 ∈ releasedPool.replacer_.lru_map_ :=
  ⟨releasedPool_reachable, by decide, by decide, by decide, by decide, by decide, by decide,
    by decide⟩

/-- C17 (amended).  In every state of a pool of `N` frames reached from a fresh pool by
`FetchPage`, `NewPage`, `UnpinPage`, `FlushPage` and `DeletePage` calls: a frame with
`pin_count_ > 0` is neither in the free list nor in the replacer, a frame with
`pin_count_ = 0` is in at least one of them, and a frame that holds a page is not in the free
list.  In the states reached without a `DeletePage` of a page that is resident with pin count
0, no frame is in both the free list and the replacer, so that a frame with `pin_count_ = 0`
is in exactly one of them. -/
theorem free_list_or_replacer (PS N : Nat) :
    (∀ s, Reachable PS N s → ∀ f, f < N →
      (0 < (s.pages_ f).pin_count_ → f ∉ s.free_list_ ∧ f ∉ s.replacer_.lru_list_) ∧
      ((s.pages_ f).pin_count_ = 0 → f ∈ s.free_list_ ∨ f ∈ s.replacer_.lru_list_) ∧
      ((s.pages_ f).page_id_ ≠ INVALID_PAGE_ID → f ∉ s.free_list_)) ∧
    (∀ s, KeepingReachable PS N s →
      (∀ f, ¬ (f ∈ s.free_list_ ∧ f ∈ s.replacer_.lru_list_)) ∧
      ∀ f, f < N → (s.pages_ f).pin_count_ = 0 →
        (f ∈ s.free_list_ ∧ f ∉ s.replacer_.lru_list_) ∨
          (f ∉ s.free_list_ ∧ f ∈ s.replacer_.lru_list_)) := by
  refine ⟨fun s hr f hf => ⟨fun hp => ⟨fun hc => ?_, fun hc => ?_⟩, fun hp => ?_, fun hv hc => ?_⟩,
    fun s hk => ⟨disjoint_keeping PS N s hk, fun f hf hp => ?_⟩⟩
  · have := ((inv_reachable PS N s hr).free f hc).2.1
    omega
  · have := ((inv_reachable PS N s hr).repl f hc).1
    omega
  · exact unpinned_reachable PS N s hr f (by rw [reachable_pool_size PS N s hr]; exact hf) hp
  · exact hv ((inv_reachable PS N s hr).free f hc).1
  · have hr := keeping_reachable PS N s hk
    have hd := disjoint_keeping PS N s hk f
    rcases unpinned_reachable PS N s hr f (by rw [reachable_pool_size PS N s hr]; exact hf) hp
      with h | h
    · exact Or.inl ⟨h, fun hc => hd ⟨h, hc⟩⟩
    · exact Or.inr ⟨fun hc => hd ⟨hc, h⟩, h⟩

theorem free_list_or_replacer_witness :
    Reachable 4096 1 pinnedPool ∧ KeepingReachable 4096 1 pinnedPool ∧ (0 : Nat) < 1 ∧
    0 < (pinnedPool.pages_ 0).pin_count_ ∧
    (0 ∉ pinnedPool.free_list_ ∧ 0 ∉ pinnedPool.replacer_.lru_list_) ∧
    ¬ (0 ∈ pinnedPool.free_list_ ∧ 0 ∈ pinnedPool.replacer_.lru_list_) :=
  ⟨pinnedPool_reachable, pinnedPool_keeping, by decide, by decide,
    ((free_list_or_replacer 4096 1).1 pinnedPool pinnedPool_reachable 0 (by decide)).1
      (by decide),
    ((free_list_or_replacer 4096 1).2 pinnedPool pinnedPool_keeping).1 0⟩

/-- C18.  In every state reached from a fresh pool by the calls of a client: the entries of
the page table have distinct keys, so that `(logical, frame)` is an entry exactly when
`page_table_.find(logical)` gives `frame`; for every entry `(logical, frame)`,
`pages_[frame].page_id_ = logical`; and every frame of the free list has
`page_id_ = INVALID_PAGE_ID`, `pin_count_ = 0` and `is_dirty_ = false`. -/
theorem page_table_and_free_list (PS N : Nat) (s : BufferPoolManager)
    (hr : Reachable PS N s) :
    (∀ L f, (L, f) ∈ s.page_table_ ↔ ptFind s.page_table_ L = some f) ∧
    (∀ L f, (L, f) ∈ s.page_table_ → (s.pages_ f).page_id_ = L) ∧
    (∀ f, f ∈ s.free_list_ →
      (s.pages_ f).page_id_ = INVALID_PAGE_ID ∧ (s.pages_ f).pin_count_ = 0 ∧
        (s.pages_ f).is_dirty_ = false) := by
  have hI := inv_reachable PS N s hr
  have hk := keys_reachable PS N s hr
  refine ⟨fun L f => ⟨ptFind_of_mem _ hk L f, mem_of_ptFind _ L f⟩, fun L f h => ?_,
    fun f hf => ?_⟩
  · exact (hI.tbl L f (ptFind_of_mem _ hk L f h)).1
  · obtain ⟨h1, h2, h3, _⟩ := hI.free f hf
    exact ⟨h1, h2, h3⟩

theorem page_table_and_free_list_witness :
    Reachable 4096 1 releasedPool ∧
    ((∀ L f, (L, f) ∈ releasedPool.page_table_ ↔ ptFind releasedPool.page_table_ L = some f) ∧
    (∀ L f, (L, f) ∈ releasedPool.page_table_ → (releasedPool.pages_ f).page_id_ = L) ∧
    (∀ f, f ∈ releasedPool.free_list_ →
      (releasedPool.pages_ f).page_id_ = INVALID_PAGE_ID ∧
        (releasedPool.pages_ f).pin_count_ = 0 ∧ (releasedPool.pages_ f).is_dirty_ = false)) :=
  ⟨releasedPool_reachable, page_table_and_free_list 4096 1 releasedPool releasedPool_reachable⟩

/-- C19 (counterexample).  On a fresh pool of one frame over an empty file with
`PAGE_SIZE = 4096`, after one `NewPage`: the page table has one entry, the free list is
empty, one frame is pinned and the replacer is empty, so that the sum is 2 and not `N = 1`. -/
theorem frame_sum_counts_resident_twice :
    Reachable 4096 1 pinnedPool ∧ pinnedPool.pool_size_ = 1 ∧
    pinnedPool.page_table_.length = 1 ∧ pinnedPool.free_list_.length = 0 ∧
    pinnedPool.pinnedCount = 1 ∧ pinnedPool.replacer_.Size = 0 ∧
    pinnedPool.page_table_.length + pinnedPool.free_list_.length + pinnedPool.pinnedCount +
      pinnedPool.replacer_.Size ≠ 1 :=
  ⟨pinnedPool_reachable, by decide, by decide, by decide, by decide, by decide, by decide⟩

/-- C19 (amended).  In every state of a pool of `N` frames reached from a fresh pool by the
calls of a client: the length of the free list, the number of frames with `pin_count_ > 0`
and the size of the replacer add up to `N` plus the number of frames that are in both the
free list and the replacer; and the page table and the free list together have at most `N`
entries.  In the states reached without a `DeletePage` of a page that is resident with pin
count 0, the first sum is `N`. -/
theorem frame_accounting (PS N : Nat) :
    (∀ s, Reachable PS N s →
      s.free_list_.length + s.pinnedCount + s.replacer_.Size = N + s.inBothCount ∧
      s.page_table_.length + s.free_list_.length ≤ N) ∧
    (∀ s, KeepingReachable PS N s →
      s.free_list_.length + s.pinnedCount + s.replacer_.Size = N) := by
  have hcount : ∀ s, Reachable PS N s →
      s.free_list_.length + s.pinnedCount + s.replacer_.Size = N + s.inBothCount := by
    intro s hr
    have hI := inv_reachable PS N s hr
    have hN := reachable_pool_size PS N s hr
    have hU := unpinned_reachable PS N s hr
    have h := count_frames N s.free_list_ s.replacer_.lru_list_
      (fun f => decide (0 < (s.pages_ f).pin_count_)) hI.free_nodup hI.sync.1
      (fun f hf => ⟨hN ▸ (hI.free f hf).2.2.2, by
        have := (hI.free f hf).2.1
        simp [this]⟩)
      (fun f hf => ⟨hN ▸ (hI.repl f hf).2, by
        have := (hI.repl f hf).1
        simp [this]⟩)
      (fun f hf hp => hU f (by rw [hN]; exact hf) (by
        have h0 := hI.pin_nonneg f
        have h1 : ¬ 0 < (s.pages_ f).pin_count_ := by simpa using hp
        omega))
    unfold BufferPoolManager.pinnedCount BufferPoolManager.inBothCount LRUReplacer.Size
    rw [hN]
    exact h
  refine ⟨fun s hr => ⟨hcount s hr, ?_⟩, fun s hk => ?_⟩
  · have hI := inv_reachable PS N s hr
    obtain ⟨h1, h2⟩ := table_frames_nodup s hI (keys_reachable PS N s hr)
    have := nodup_length_le _ s.pool_size_ h1 h2
    rw [List.length_append, List.length_map, reachable_pool_size PS N s hr] at this
    exact this
  · have h := hcount s (keeping_reachable PS N s hk)
    have hz : s.inBothCount = 0 := by
      unfold BufferPoolManager.inBothCount
      rw [List.length_eq_zero, List.filter_eq_nil_iff]
      intro f hf hc
      exact disjoint_keeping PS N s hk f ⟨hf, by simpa using hc⟩
    omega

theorem frame_accounting_witness :
    Reachable 4096 1 releasedPool ∧ KeepingReachable 4096 1 pinnedPool ∧
    (releasedPool.free_list_.length + releasedPool.pinnedCount + releasedPool.replacer_.Size =
        1 + releasedPool.inBothCount ∧
      releasedPool.page_table_.length + releasedPool.free_list_.length ≤ 1) ∧
    pinnedPool.free_list_.length + pinnedPool.pinnedCount + pinnedPool.replacer_.Size = 1 :=
  ⟨releasedPool_reachable, pinnedPool_keeping,
    (frame_accounting 4096 1).1 releasedPool releasedPool_reachable,
    (frame_accounting 4096 1).2 pinnedPool pinnedPool_keeping⟩

/-- C20.  In every state of a pool of `N` frames reached from a fresh pool by the calls of a
client: the replacer holds frame ids below `N` only, none twice, in its list and in its map
alike, so that its size is at most `N`, which is its `max_size_`; for every frame `f` of the
pool that is absent from the replacer the size is below `N`; and when `UnpinPage` brings a
pin count to 0 and calls `Unpin(f)`, the frame is absent, the test
`lru_list_.size() >= max_size_` fails, and the replacer afterwards is the one before with
`f` put in front: no victim is taken. -/
theorem replacer_within_capacity (PS N : Nat) (s : BufferPoolManager)
    (hr : Reachable PS N s) :
    (∀ f, f ∈ s.replacer_.lru_list_ → f < N) ∧ s.replacer_.lru_list_.Nodup ∧
    (∀ f, f ∈ s.replacer_.lru_map_ ↔ f ∈ s.replacer_.lru_list_) ∧
    s.replacer_.Size ≤ N ∧ s.replacer_.max_size_ = N ∧
    (∀ f, f < N → f ∉ s.replacer_.lru_map_ → s.replacer_.Size < N) ∧
    (∀ L d f, ptFind s.page_table_ L = some f → 0 < (s.pages_ f).pin_count_ →
      (s.pages_ f).pin_count_ - 1 = 0 →
      f < N ∧ f ∉ s.replacer_.lru_map_ ∧
      ¬ (s.replacer_.lru_list_.length ≥ s.replacer_.max_size_) ∧
      (s.UnpinPage L d).1.replacer_ =
        { s.replacer_ with lru_list_ := f :: s.replacer_.lru_list_
                           lru_map_ := f :: s.replacer_.lru_map_ }) := by
  have hI := inv_reachable PS N s hr
  have hN := reachable_pool_size PS N s hr
  have hb : ∀ f, f ∈ s.replacer_.lru_list_ → f < N := fun f hf => hN ▸ (hI.repl f hf).2
  have hlt : ∀ f, f < N → f ∉ s.replacer_.lru_map_ → s.replacer_.lru_list_.length < N :=
    fun f hf hm =>
      nodup_length_lt _ N f hI.sync.1 hb (fun hc => hm ((hI.sync.2 f).2 hc)) hf
  refine ⟨hb, hI.sync.1, hI.sync.2, nodup_length_le _ N hI.sync.1 hb, hI.max.trans hN, hlt,
    fun L d f hf hp hz => ?_⟩
  have hfN : f < N := hN ▸ (hI.tbl L f hf).2.2
  have hm : f ∉ s.replacer_.lru_map_ := by
    intro hc
    have := (hI.repl f ((hI.sync.2 f).1 hc)).1
    omega
  have hlen : s.replacer_.lru_list_.length < s.replacer_.max_size_ := by
    rw [hI.max.trans hN]
    exact hlt f hfN hm
  refine ⟨hfN, hm, by omega, ?_⟩
  rcases unpin_cases s L d with ⟨_, h | ⟨g, hg, hp0⟩⟩ | ⟨g, hg, _, h⟩
  · rw [hf] at h
    cases h
  · rw [hf] at hg
    cases hg
    omega
  · rw [hf] at hg
    cases hg
    rw [h]
    show (if (s.pages_ f).pin_count_ - 1 = 0 then s.replacer_.Unpin f else s.replacer_) = _
    rw [if_pos hz, unpin_absent s.replacer_ f hm hlen]

theorem replacer_within_capacity_witness :
    Reachable 4096 1 pinnedPool ∧
    ((∀ f, f ∈ pinnedPool.replacer_.lru_list_ → f < 1) ∧ pinnedPool.replacer_.lru_list_.Nodup ∧
    (∀ f, f ∈ pinnedPool.replacer_.lru_map_ ↔ f ∈ pinnedPool.replacer_.lru_list_) ∧
    pinnedPool.replacer_.Size ≤ 1 ∧ pinnedPool.replacer_.max_size_ = 1 ∧
    (∀ f, f < 1 → f ∉ pinnedPool.replacer_.lru_map_ → pinnedPool.replacer_.Size < 1) ∧
    (∀ L d f, ptFind pinnedPool.page_table_ L = some f → 0 < (pinnedPool.pages_ f).pin_count_ →
      (pinnedPool.pages_ f).pin_count_ - 1 = 0 →
      f < 1 ∧ f ∉ pinnedPool.replacer_.lru_map_ ∧
      ¬ (pinnedPool.replacer_.lru_list_.length ≥ pinnedPool.replacer_.max_size_) ∧
      (pinnedPool.UnpinPage L d).1.replacer_ =
        { pinnedPool.replacer_ with lru_list_ := f :: pinnedPool.replacer_.lru_list_
                                    lru_map_ := f :: pinnedPool.replacer_.lru_map_ })) :=
  ⟨pinnedPool_reachable, replacer_within_capacity 4096 1 pinnedPool pinnedPool_reachable⟩

/-- C21.  In every state of a bitmap page reached from a zero-initialised page by
`AllocatePage` and `DeAllocatePage` calls with arbitrary offsets: every slot below
`next_free_page_` has its bit set, and `next_free_page_ ≤ M`.  Hence an `AllocatePage` that
returns true returns the smallest slot of the page whose bit is zero, found by the first
loop, the one that starts at `next_free_page_`; and the second loop, which scans the slots
below `next_free_page_`, finds none. -/
theorem hint_before_first_free_slot (PS : Nat) (b : BitmapPage) (h : BitmapReachable PS b) :
    (∀ k, k < b.next_free_page_ → b.bit k = true) ∧
    b.next_free_page_ ≤ GetMaxSupportedSize PS ∧
    (∀ i, (b.AllocatePage PS).2 = some i →
      i < GetMaxSupportedSize PS ∧ b.bit i = false ∧ (∀ k, k < i → b.bit k = true) ∧
      b.scan PS b.next_free_page_ (GetMaxSupportedSize PS - b.next_free_page_) = some i) ∧
    b.scan PS 0 b.next_free_page_ = none := by
  have hI := hint_reachable PS b h
  refine ⟨hI.1, hI.2, fun i ha => ?_, second_scan_none PS b hI⟩
  obtain ⟨h1, h2, _, h4⟩ := alloc_smallest PS b hI i ha
  exact ⟨h1, h2, h4, (alloc_first_scan PS b hI i ha).1⟩

theorem hint_before_first_free_slot_witness :
    BitmapReachable 4096 holedPage ∧ holedPage.next_free_page_ = 1 ∧
    (holedPage.AllocatePage 4096).2 = some 1 ∧
    ((∀ k, k < holedPage.next_free_page_ → holedPage.bit k = true) ∧
    holedPage.next_free_page_ ≤ GetMaxSupportedSize 4096 ∧
    (∀ i, (holedPage.AllocatePage 4096).2 = some i →
      i < GetMaxSupportedSize 4096 ∧ holedPage.bit i = false ∧
      (∀ k, k < i → holedPage.bit k = true) ∧
      holedPage.scan 4096 holedPage.next_free_page_
        (GetMaxSupportedSize 4096 - holedPage.next_free_page_) = some i) ∧
    holedPage.scan 4096 0 holedPage.next_free_page_ = none) :=
  ⟨holedPage_reachable, by decide, by decide,
    hint_before_first_free_slot 4096 holedPage holedPage_reachable⟩

/-- C11 (counterexample).  With `PAGE_SIZE = 4096`, `M = 32704`, the logical id
`L = 2147483647` has `(L / M) * (M + 1) + L mod M + 2 = 2147549313`, which is not a 32-bit
`page_id_t`: `MapPageId(L)` returns `-2147417983`, a negative number outside the data pages
of extent `L / M = 65664`, which begin at physical page `2147541122`. -/
theorem map_page_id_leaves_int_range :
    GetMaxSupportedSize 4096 = 32704 ∧ 2147483647 / GetMaxSupportedSize 4096 = 65664 ∧
    (2147483647 / GetMaxSupportedSize 4096) * (GetMaxSupportedSize 4096 + 1) +
      2147483647 % GetMaxSupportedSize 4096 + 2 = 2147549313 ∧
    MapPageId32 4096 2147483647 = -2147417983 ∧
    MapPageId32 4096 2147483647 ≠
      (((2147483647 / GetMaxSupportedSize 4096) * (GetMaxSupportedSize 4096 + 1) +
        2147483647 % GetMaxSupportedSize 4096 + 2 : Nat) : Int) ∧
    ¬ (((1 + (2147483647 / GetMaxSupportedSize 4096) * (GetMaxSupportedSize 4096 + 1) + 1 : Nat)
        : Int) ≤ MapPageId32 4096 2147483647) := by
  decide

/-- C11 (amended).  With `M = GetMaxSupportedSize` slots per bitmap page, for every logical
page id `L ≥ 0` whose physical id `(L / M) * (M + 1) + (L mod M) + 2` is below `2^31`:
`MapPageId(L)` is that number, it lies among the data pages
`1 + e * (M + 1) + 1, …, 1 + e * (M + 1) + M` of extent `e = L / M`, and it is neither the
meta page 0 nor the bitmap page `1 + e' * (M + 1)` of any extent `e'`.  For every logical id
of the type, `0 ≤ L < 2^31`, `MapPageId(L)` is neither 0 nor a bitmap page, and different
such logical ids are mapped to different physical ids.  `MapPageId(M) = M + 3`. -/
theorem map_page_id_below_int_max (PS : Nat) (hPS : 8 < PS) :
    (∀ L : Nat,
      (L / GetMaxSupportedSize PS) * (GetMaxSupportedSize PS + 1) +
          L % GetMaxSupportedSize PS + 2 < 2 ^ 31 →
      MapPageId32 PS L =
        (((L / GetMaxSupportedSize PS) * (GetMaxSupportedSize PS + 1) +
          L % GetMaxSupportedSize PS + 2 : Nat) : Int) ∧
      ((1 + (L / GetMaxSupportedSize PS) * (GetMaxSupportedSize PS + 1) + 1 : Nat) : Int) ≤
        MapPageId32 PS L ∧
      MapPageId32 PS L ≤
        ((1 + (L / GetMaxSupportedSize PS) * (GetMaxSupportedSize PS + 1) +
          GetMaxSupportedSize PS : Nat) : Int)) ∧
    (∀ L : Nat, L < 2 ^ 31 →
      MapPageId32 PS L ≠ 0 ∧
      ∀ e : Nat, MapPageId32 PS L ≠ ((1 + e * (GetMaxSupportedSize PS + 1) : Nat) : Int)) ∧
    (∀ L1 L2 : Nat, L1 < 2 ^ 31 → L2 < 2 ^ 31 → L1 ≠ L2 →
      MapPageId32 PS L1 ≠ MapPageId32 PS L2) ∧
    (GetMaxSupportedSize PS + 3 < 2 ^ 31 →
      MapPageId32 PS (GetMaxSupportedSize PS) = ((GetMaxSupportedSize PS + 3 : Nat) : Int)) := by
  have hM := maxSize_pos PS hPS
  refine ⟨fun L hL => ?_, fun L hL => ?_, fun L1 L2 h1 h2 hne h => ?_, fun hlt => ?_⟩
  · have hv : MapPageId PS L < 2 ^ 31 := hL
    have he : MapPageId32 PS L = ((MapPageId PS L : Nat) : Int) := by
      rw [mapPageId32_eq]
      exact toInt32_small _ (Int.ofNat_nonneg _) (by exact_mod_cast hv)
    have hform : MapPageId PS L = (L / GetMaxSupportedSize PS) * (GetMaxSupportedSize PS + 1) +
        L % GetMaxSupportedSize PS + 2 := rfl
    have hmod := Nat.mod_lt L hM
    refine ⟨by rw [he, hform], ?_, ?_⟩
    · rw [he, hform]
      exact_mod_cast (by omega : 1 + (L / GetMaxSupportedSize PS) * (GetMaxSupportedSize PS + 1)
        + 1 ≤ (L / GetMaxSupportedSize PS) * (GetMaxSupportedSize PS + 1) +
          L % GetMaxSupportedSize PS + 2)
    · rw [he, hform]
      exact_mod_cast (by omega : (L / GetMaxSupportedSize PS) * (GetMaxSupportedSize PS + 1) +
        L % GetMaxSupportedSize PS + 2 ≤
          1 + (L / GetMaxSupportedSize PS) * (GetMaxSupportedSize PS + 1) +
            GetMaxSupportedSize PS)
  · have hv := mapPageId_lt PS hPS L hL
    have h2 : 2 ≤ MapPageId PS L := by rw [mapPageId_sum]; exact Nat.le_add_left 2 _
    rw [mapPageId32_eq]
    by_cases hs : MapPageId PS L < 2 ^ 31
    · rw [toInt32_small _ (Int.ofNat_nonneg _) (by exact_mod_cast hs)]
      refine ⟨by omega, fun e he => ?_⟩
      have he2 : MapPageId PS L = 1 + e * (GetMaxSupportedSize PS + 1) := by exact_mod_cast he
      exact mapPageId_ne_bitmap PS hPS L e he2
    · have hn := toInt32_neg (MapPageId PS L) (by omega) hv
      refine ⟨by omega, fun e he => ?_⟩
      rw [he] at hn
      have : (0 : Int) ≤ ((1 + e * (GetMaxSupportedSize PS + 1) : Nat) : Int) :=
        Int.ofNat_nonneg _
      omega
  · rw [mapPageId32_eq, mapPageId32_eq] at h
    exact hne (mapPageId_inj PS hPS L1 L2
      (toInt32_inj _ _ (mapPageId_lt PS hPS L1 h1) (mapPageId_lt PS hPS L2 h2) h))
  · have hv : MapPageId PS (GetMaxSupportedSize PS) = GetMaxSupportedSize PS + 3 := by
      show (GetMaxSupportedSize PS / GetMaxSupportedSize PS) * (GetMaxSupportedSize PS + 1) +
        GetMaxSupportedSize PS % GetMaxSupportedSize PS + 2 = _
      rw [Nat.div_self hM, Nat.mod_self]
      omega
    rw [mapPageId32_eq, hv]
    exact toInt32_small _ (Int.ofNat_nonneg _) (by exact_mod_cast hlt)

/-- Witness of the amended C11: `PAGE_SIZE = 4096`, where `M + 3 = 32707` is below `2^31`. -/
theorem map_page_id_below_int_max_witness :
    8 < 4096 ∧
    ((∀ L : Nat,
      (L / GetMaxSupportedSize 4096) * (GetMaxSupportedSize 4096 + 1) +
          L % GetMaxSupportedSize 4096 + 2 < 2 ^ 31 →
      MapPageId32 4096 L =
        (((L / GetMaxSupportedSize 4096) * (GetMaxSupportedSize 4096 + 1) +
          L % GetMaxSupportedSize 4096 + 2 : Nat) : Int) ∧
      ((1 + (L / GetMaxSupportedSize 4096) * (GetMaxSupportedSize 4096 + 1) + 1 : Nat) : Int) ≤
        MapPageId32 4096 L ∧
      MapPageId32 4096 L ≤
        ((1 + (L / GetMaxSupportedSize 4096) * (GetMaxSupportedSize 4096 + 1) +
          GetMaxSupportedSize 4096 : Nat) : Int)) ∧
    (∀ L : Nat, L < 2 ^ 31 →
      MapPageId32 4096 L ≠ 0 ∧
      ∀ e : Nat, MapPageId32 4096 L ≠ ((1 + e * (GetMaxSupportedSize 4096 + 1) : Nat) : Int)) ∧
    (∀ L1 L2 : Nat, L1 < 2 ^ 31 → L2 < 2 ^ 31 → L1 ≠ L2 →
      MapPageId32 4096 L1 ≠ MapPageId32 4096 L2) ∧
    (GetMaxSupportedSize 4096 + 3 < 2 ^ 31 →
      MapPageId32 4096 (GetMaxSupportedSize 4096) =
        ((GetMaxSupportedSize 4096 + 3 : Nat) : Int))) ∧
    GetMaxSupportedSize 4096 + 3 < 2 ^ 31 ∧
    MapPageId32 4096 (GetMaxSupportedSize 4096) = ((GetMaxSupportedSize 4096 + 3 : Nat) : Int) :=
  ⟨by decide, map_page_id_below_int_max 4096 (by decide), by decide,
    (map_page_id_below_int_max 4096 (by decide)).2.2.2 (by decide)⟩

/-- C4 (amended).  In every state of a pool of `N` frames reached from a fresh pool by
`FetchPage`, `NewPage`, `UnpinPage`, `FlushPage` and `DeletePage` calls (and writes of
clients into frames they have pinned) in which no `NewPage` returns a page id that is held
by a frame at that moment, whatever the disk manager does besides (its state may become any
state between two calls, and every id `≥ 0` is then a possible answer of `AllocatePage`,
lemma `any_id_allocated`): two frames that hold the same page id other than
`INVALID_PAGE_ID` are the same frame, and it is the frame the page table gives for that
id. -/
theorem one_frame_per_fresh_id (PS N : Nat) (s : BufferPoolManager)
    (h : FreshReachable PS N s) (f g : Nat) (hf : f < N) (hg : g < N)
    (hne : (s.pages_ f).page_id_ ≠ INVALID_PAGE_ID)
    (heq : (s.pages_ f).page_id_ = (s.pages_ g).page_id_) :
    f = g ∧ ptFind s.page_table_ (s.pages_ f).page_id_ = some f := by
  obtain ⟨_, hR, hN⟩ := fresh_inv PS N s h
  have h1 := hR f _ (by rw [hN]; exact hf) rfl hne
  have h2 := hR g _ (by rw [hN]; exact hg) heq.symm hne
  rw [h1] at h2
  exact ⟨by simpa using h2, h1⟩

/-- Witness of the amended C4: frame 0 of `pinnedPool`, which holds page 0. -/
theorem one_frame_per_fresh_id_witness :
    FreshReachable 4096 1 pinnedPool ∧ 0 < 1 ∧
    (pinnedPool.pages_ 0).page_id_ ≠ INVALID_PAGE_ID ∧
    (pinnedPool.pages_ 0).page_id_ = (pinnedPool.pages_ 0).page_id_ ∧
    (0 = 0 ∧ ptFind pinnedPool.page_table_ (pinnedPool.pages_ 0).page_id_ = some 0) :=
  ⟨pinnedPool_fresh, by decide, by decide, rfl,
    one_frame_per_fresh_id 4096 1 pinnedPool pinnedPool_fresh 0 0 (by decide) (by decide)
      (by decide) rfl⟩

/-- C2 (the code departs from the claim).  With `PAGE_SIZE = 4096`, on a pool of one frame
over an empty file, `FetchPage(524269)` pins the page in frame 0 and `FlushPage(524269)`
writes it at byte offset `2^31 - 4096`: the file is `2^31` bytes long, all frames are
pinned, `num_allocated_pages_` is 0.  `NewPage` then allocates logical page 0, finds no
frame and returns null, but its `DeallocatePage(0)` reads the bitmap page as zeros, the `int`
file size being negative, and takes nothing back: `num_allocated_pages_` is 1 after the
call, and the bitmap page on the file still has the bit of page 0 set. -/
theorem rollback_lost_past_two_gib :
    flushedFarPool.map (fun s =>
      (s.pool_size_, (s.pages_ 0).page_id_, (s.pages_ 0).pin_count_,
        s.disk_manager_.meta_data_.num_allocated_pages_)) = some (1, 524269, 1, 0) ∧
    flushedFarPool.map (fun s =>
      (s.disk_manager_.file.size, s.disk_manager_.file.GetFileSize, s.disk_manager_.failed)) =
      some (2 ^ 31, -(2 ^ 31), false) ∧
    (flushedFarPool.bind fun s => (s.NewPage 4096).map fun r =>
      (r.2.1, r.2.2, r.1.disk_manager_.meta_data_.num_allocated_pages_)) =
      some (0, none, 1) ∧
    (flushedFarPool.bind fun s => (s.NewPage 4096).map fun r =>
      (BitmapPage.ofBytes (fun i => r.1.disk_manager_.file.byte (4096 + i))).bit 0) =
      some true := by
  decide

/-- C8 (the code departs from the claim).  With `PAGE_SIZE = 4096`, the first 555968
`AllocatePage` calls on an empty file fill the extents 0 to 16, and the file is 2143363072
bytes long.  The next call returns the logical id 555968 and writes the bitmap page of the
new extent 17 at byte offset 2277318656, past `2^31`: the stream is still good, the file is
2277322752 bytes long, and its size taken through `int` is -2017644544.  The
`IsPageFree(555968)` that follows reads that bitmap page at the `int` offset -2017648640,
below the `int` file size: the `seekp` fails, the buffer stays zero, and the page that the
call before allocated is reported free. -/
theorem allocated_page_reported_free :
    ((ByteDiskManager.allocateN 4096 555968).AllocatePage 4096).2 = 555968 ∧
    toInt32 (555986 * 4096) = -2017648640 ∧
    ((ByteDiskManager.allocateN 4096 555968).AllocatePage 4096).1.file.size = 2277322752 ∧
    ((ByteDiskManager.allocateN 4096 555968).AllocatePage 4096).1.failed = false ∧
    ((ByteDiskManager.allocateN 4096 555968).AllocatePage 4096).1.meta_data_.num_extents_
      = 18 ∧
    ((ByteDiskManager.allocateN 4096 555968).AllocatePage 4096).1.file.GetFileSize
      = -2017644544 ∧
    ((((ByteDiskManager.allocateN 4096 555968).AllocatePage 4096).1.IsPageFree 4096
      555968).2 = true) :=
  ⟨(seqAlloc_step _ 555968 (seqAlloc_allocateN 555968 (by norm_num)) (le_refl _)).1,
    by decide,
    far_page_reads_zero _
      (seqAlloc_step _ 555968 (seqAlloc_allocateN 555968 (by norm_num)) (le_refl _)).2⟩

/-- C9 (the code departs from the claim).  With `PAGE_SIZE = 4096`, the 555969th
`AllocatePage` call on an empty file returns the logical id 555968 and puts the bitmap page
of extent 17 past `2^31` bytes.  The 555970th call reads that bitmap page as zeros, the
`seekp` at a negative `int` offset having failed, takes slot 0 again and returns the logical
id 555968 a second time; it sets `extent_used_page_[17]` to 2, and its two writes are
dropped by the failed stream.  Extent 17 then has the count 2 in the meta page and one set
bit in its bitmap page on the file. -/
theorem extent_count_exceeds_bitmap :
    ((ByteDiskManager.allocateN 4096 555968).AllocatePage 4096).2 = 555968 ∧
    ((ByteDiskManager.allocateN 4096 555969).AllocatePage 4096).2 = 555968 ∧
    ((ByteDiskManager.allocateN 4096 555969).AllocatePage 4096).1.failed = true ∧
    ((ByteDiskManager.allocateN 4096 555969).AllocatePage 4096).1.meta_data_.num_extents_
      = 18 ∧
    ((ByteDiskManager.allocateN 4096 555969).AllocatePage 4096).1.meta_data_.extent_used_page_
      17 = 2 ∧
    ((ByteDiskManager.allocateN 4096 555969).AllocatePage
      4096).1.meta_data_.num_allocated_pages_ = 555970 ∧
    ((((ByteDiskManager.allocateN 4096 555969).AllocatePage 4096).1.bitmapOnFile 4096
      17).popcount 4096 = 1) :=
  ⟨(seqAlloc_step _ 555968 (seqAlloc_allocateN 555968 (by norm_num)) (le_refl _)).1,
    far_alloc_repeats _ (seqAlloc_allocateN 555969 (le_refl _))⟩

end MiniSQL
